import Mathlib

/-! WiscKey value log: record writer, record reader, vlog manager and garbage collector.

A shallow embedding of `db/vlog_writer.cc`, `db/vlog_reader.cc`, `db/log_format.h`,
`db/vlog_manager.cc`, `db/garbage_collector.cc` and of the in-memory file doubles of
`db/vlog_test.cc` (`StringDest`, `StringSource`, `ReportCollector`).

Conventions of the embedding.

* A `char` is a `Byte` (`Fin 256`); a `Slice` or `std::string` is the list of its bytes.
  `backing_store_` is not a separate field: the only view the reader has of it is
  `buffer_`, whose bytes are kept as a list.
* Machine integers are natural numbers; a narrowing cast is written `% 2 ^ w`
  (`toByte` for `static_cast<char>`).
* An object is a structure; a method takes the object and returns the values it
  produces together with the updated object.
* `StringSource::Read` starts with a test assertion; a failed assertion ends the
  run, which is the result `none`.
* An `assert` of the manager that fails, or a use of an end iterator, is the result
  `none`; a run of the collector records the reason for which it ended early.
* The collector is written for two builds and has calls inside `assert`; its model
  takes the build as an argument, and `assert(e)` with `NDEBUG` does not evaluate `e`.
* The database, the write batch and the environment are not among the sources: the
  collector is given over a structure of the operations it calls on them.
-/

namespace leveldb

/-- One `char` of a slice, string or file. -/
abbrev Byte := Fin 256

/-- The cast `static_cast<char>(n)`: the low eight bits of `n`. -/
def toByte (n : Nat) : Byte := ⟨n % 256, Nat.mod_lt n (by decide)⟩

/-! ## `db/log_format.h` -/

/-- Size of the reader's block buffer: `static const int kBlockSize = 32768`. -/
def kBlockSize : Nat := 32768

/-- Header of an ordinary log record: `kHeaderSize = 4 + 2 + 1`. -/
def kHeaderSize : Nat := 4 + 2 + 1

/-- Header of a vlog record, checksum and three length bytes: `kVHeaderSize = 4 + 3`. -/
def kVHeaderSize : Nat := 4 + 3

/-! ## Collaborators that are not part of the value log sources -/

/-- Modelled from the spec: `leveldb::Status` (`include/leveldb/status.h` is not among
the sources). A status is ok or carries an error kind and a message; the kinds are
the ones the spec distinguishes (not found, corruption, I/O error). -/
inductive Status where
  | OK
  | NotFound (msg : String)
  | Corruption (msg : String)
  | IOError (msg : String)
deriving DecidableEq

/-- Modelled from the spec: `Status::ok()`, true exactly for the ok status. -/
def Status.ok : Status → Bool
  | Status.OK => true
  | _ => false

/-- Modelled from the spec: `Status::ToString()`, the kind followed by the message. -/
def Status.ToString : Status → String
  | Status.OK => "OK"
  | Status.NotFound m => "NotFound: " ++ m
  | Status.Corruption m => "Corruption: " ++ m
  | Status.IOError m => "IO error: " ++ m

/-- Modelled from the spec: `EncodeFixed32` of `util/coding.h` (not among the sources),
the four bytes of a 32-bit value, least significant first. -/
def EncodeFixed32 (value : Nat) : List Byte :=
  [toByte value, toByte (value >>> 8), toByte (value >>> 16), toByte (value >>> 24)]

/-- Modelled from the spec: `DecodeFixed32` of `util/coding.h` (not among the sources),
the 32-bit value whose little-endian bytes are the first four bytes at `ptr`. -/
def DecodeFixed32 (ptr : List Byte) : Nat :=
  (ptr.getD 0 0).val ||| ((ptr.getD 1 0).val <<< 8) ||| ((ptr.getD 2 0).val <<< 16)
    ||| ((ptr.getD 3 0).val <<< 24)

namespace crc32c

/-- Modelled from the spec: the constant added by the store's CRC mask
(`util/crc32c.h` is not among the sources). -/
def kMaskDelta : Nat := 0xa282ead8

/-- Modelled from the spec: one bit of the reflected CRC32C division (Castagnoli
polynomial `0x82F63B78`). -/
def bitStep (c : Nat) : Nat :=
  if c % 2 = 1 then (c >>> 1) ^^^ 0x82F63B78 else c >>> 1

/-- Modelled from the spec: the CRC32C register after one more input byte. -/
def byteStep (l : Nat) (b : Byte) : Nat :=
  bitStep (bitStep (bitStep (bitStep (bitStep (bitStep (bitStep (bitStep
    ((l ^^^ b.val) &&& 0xff)))))))) ^^^ (l >>> 8)

/-- Modelled from the spec: `crc32c::Extend(init_crc, data, n)`, the CRC32C of the
concatenation of a string whose CRC32C is `init_crc` with `data`
(`util/crc32c.cc` is not among the sources). The result is a `uint32_t`. -/
def Extend (init_crc : Nat) (data : List Byte) : Nat :=
  ((data.foldl byteStep ((init_crc % 2 ^ 32) ^^^ 0xffffffff)) ^^^ 0xffffffff) % 2 ^ 32

/-- Modelled from the spec: `crc32c::Value(data, n)`, the CRC32C of `data`. -/
def Value (data : List Byte) : Nat := Extend 0 data

/-- Modelled from the spec: `crc32c::Mask`, "rotate by 15 bits and add a constant",
on 32 bits. -/
def Mask (crc : Nat) : Nat :=
  (((crc >>> 15) ||| (crc <<< 17)) % 2 ^ 32 + kMaskDelta) % 2 ^ 32

/-- Modelled from the spec: `crc32c::Unmask`, the inverse of `Mask` on 32 bits:
subtract the constant and rotate back. -/
def Unmask (masked_crc : Nat) : Nat :=
  let rot := (masked_crc % 2 ^ 32 + 2 ^ 32 - kMaskDelta) % 2 ^ 32
  ((rot >>> 17) ||| (rot <<< 15)) % 2 ^ 32

end crc32c

/-! ## `db/vlog_test.cc`: the in-memory files and the reporter -/

/-- `VlogTest::StringDest`, a `WritableFile` that keeps what was appended. -/
structure StringDest where
  contents_ : List Byte
deriving DecidableEq

/-- `StringDest::Append`: append the slice, return ok. -/
def StringDest.Append (d : StringDest) (slice : List Byte) : Status × StringDest :=
  (Status.OK, { d with contents_ := d.contents_ ++ slice })

/-- `StringDest::Flush`: return ok. -/
def StringDest.Flush (d : StringDest) : Status × StringDest :=
  (Status.OK, d)

/-- `VlogTest::StringSource`, a `SequentialFile` over a string: `contents_` is the
part of the file not read yet, `data` the whole file. -/
structure StringSource where
  contents_ : List Byte
  data : List Byte
  force_error_ : Bool
  returned_partial_ : Bool
deriving DecidableEq

/-- `StringSource::Read(n, result, scratch)`. The arguments are the file, `n` and the
slice `*result` as it is before the call; the values are the status, `*result` after
the call (the bytes copied to `scratch`) and the file. `none` is the failure of
`ASSERT_TRUE(!returned_partial_)`. -/
def StringSource.Read (f : StringSource) (n : Nat) (result : List Byte) :
    Option (Status × List Byte × StringSource) :=
  if f.returned_partial_ then none
  else if f.force_error_ then
    some (Status.Corruption "read error", result,
      { f with force_error_ := false, returned_partial_ := true })
  else if f.contents_.length < n then
    some (Status.OK, f.contents_.take f.contents_.length,
      { f with contents_ := f.contents_.drop f.contents_.length, returned_partial_ := true })
  else
    some (Status.OK, f.contents_.take n, { f with contents_ := f.contents_.drop n })

/-- `StringSource::SkipFromHead(n)`: position the file `n` bytes after its start. -/
def StringSource.SkipFromHead (f : StringSource) (n : Nat) : Status × StringSource :=
  if n > f.data.length then
    (Status.NotFound "in-memory file SkipFromHead past end", { f with contents_ := [] })
  else
    (Status.OK, { f with contents_ := f.data.drop n })

/-- A `VReader::Reporter` is known by the calls `Corruption(bytes, status)` it has
received, oldest first. -/
abbrev Reporter := List (Nat × Status)

/-- `ReportCollector::dropped_bytes_`: the sum of the `bytes` of the calls received. -/
def ReportCollector.dropped_bytes_ (calls : Reporter) : Nat :=
  (calls.map Prod.fst).sum

/-- `ReportCollector::message_`: the texts of the statuses received, concatenated. -/
def ReportCollector.message_ (calls : Reporter) : String :=
  String.join (calls.map fun c => c.2.ToString)

/-! ## `db/vlog_writer.cc` -/

/-- `class VWriter`: the writer owns the destination file. -/
structure VWriter where
  dest_ : StringDest
deriving DecidableEq

/-- `VWriter::AddRecord(slice)`: a seven byte header (masked CRC32C of the payload,
three length bytes) is appended, then the payload, then the file is flushed. -/
def VWriter.AddRecord (w : VWriter) (slice : List Byte) : Status × VWriter :=
  let left := slice.length
  let buf4 := toByte (left &&& 0xff)
  let buf5 := toByte (left >>> 8)
  let buf6 := toByte (left >>> 16)
  let crc := crc32c.Mask (crc32c.Extend 0 slice)
  let buf := EncodeFixed32 crc ++ [buf4, buf5, buf6]
  let s1 := w.dest_.Append buf
  if s1.1.ok then
    let s2 := s1.2.Append slice
    if s2.1.ok then
      let s3 := s2.2.Flush
      (s3.1, { w with dest_ := s3.2 })
    else (s2.1, { w with dest_ := s2.2 })
  else (s1.1, { w with dest_ := s1.2 })

/-! ## `db/vlog_reader.cc` -/

/-- `class VReader`. `reporter_` is `none` for a `NULL` reporter. -/
structure VReader where
  file_ : StringSource
  reporter_ : Option Reporter
  checksum_ : Bool
  buffer_ : List Byte
  eof_ : Bool
  cleanPos_ : Nat
deriving DecidableEq

/-- The length field of the record header at `header` (lines 105 to 108 of
`VReader::ReadRecord`): the bytes `a`, `b`, `c` at offsets 4, 5, 6 and
`length = a | (b << 8) | (c << 16)`. -/
def headerLength (header : List Byte) : Nat :=
  let a := (header.getD 4 0).val &&& 0xff
  let b := (header.getD 5 0).val &&& 0xff
  let c := (header.getD 6 0).val &&& 0xff
  a ||| (b <<< 8) ||| (c <<< 16)

/-- `VReader::ReportDrop(bytes, reason)`: forwarded to the reporter unless it is `NULL`. -/
def VReader.ReportDrop (r : VReader) (bytes : Nat) (reason : Status) : VReader :=
  match r.reporter_ with
  | none => r
  | some calls => { r with reporter_ := some (calls ++ [(bytes, reason)]) }

/-- `VReader::ReportCorruption(bytes, reason)`. -/
def VReader.ReportCorruption (r : VReader) (bytes : Nat) (reason : String) : VReader :=
  r.ReportDrop bytes (Status.Corruption reason)

/-- `VReader::SkipToPos(pos)`: for `pos > 0` the file is positioned `pos` bytes after
its start; a failure is reported with `pos` dropped bytes. -/
def VReader.SkipToPos (r : VReader) (pos : Nat) : Bool × VReader :=
  if pos > 0 then
    let s := r.file_.SkipFromHead pos
    if !s.1.ok then
      (false, ({ r with file_ := s.2 }).ReportDrop pos s.1)
    else (true, { r with file_ := s.2 })
  else (true, r)

/-- The constructor `VReader(file, reporter, checksum, initial_offset)`; the
constructor without a reporter is the case `reporter = none`. -/
def VReader.new (file : StringSource) (reporter : Option Reporter) (checksum : Bool)
    (initial_offset : Nat) : VReader :=
  let r : VReader :=
    { file_ := file, reporter_ := reporter, checksum_ := checksum, buffer_ := [],
      eof_ := false, cleanPos_ := 0 }
  if initial_offset > 0 then (r.SkipToPos initial_offset).2 else r

/-- `VReader::IsEnd()`. -/
def VReader.IsEnd (r : VReader) : Bool := r.eof_ == true

/-- `VReader::SetCleanPos(pos)`. -/
def VReader.SetCleanPos (r : VReader) (pos : Nat) : VReader := { r with cleanPos_ := pos }

/-- `VReader::GetCleanPos()`. -/
def VReader.GetCleanPos (r : VReader) : Nat := r.cleanPos_

/-- First part of `VReader::ReadRecord` (lines 71 to 102): with fewer than seven
buffered bytes the buffer is refilled, unless the end of the file was seen. The
boolean is false when `ReadRecord` returns false here. -/
def VReader.refill (r : VReader) : Option (Bool × VReader) :=
  if r.buffer_.length < kVHeaderSize then
    if !r.eof_ then
      let left_head_size := r.buffer_.length
      -- the rest of the buffer is copied to the head of backing_store_, the buffer
      -- is cleared, the file is read behind the copy, and go_back(left_head_size)
      -- makes the buffer start at the copy
      let head := r.buffer_
      match r.file_.Read (kBlockSize - left_head_size) [] with
      | none => none
      | some (status, got, file1) =>
        let buf := if left_head_size > 0 then head ++ got else got
        let r1 : VReader := { r with file_ := file1, buffer_ := buf }
        if !status.ok then
          some (false, { ({ r1 with buffer_ := [] }).ReportDrop kBlockSize status with
            eof_ := true })
        else if buf.length < kBlockSize then
          if buf.length < kVHeaderSize then some (false, { r1 with eof_ := true })
          else some (true, { r1 with eof_ := true })
        else some (true, r1)
    else some (false, { r with buffer_ := [] })
  else some (true, r)

/-- Second part of `VReader::ReadRecord` (lines 104 to 188): the header at the head
of the buffer is parsed and the payload is taken from the buffer or, when it does
not fit, assembled in `scratch` from the buffer and the file. The values are the
result of `ReadRecord`, `*record`, `*scratch` and the reader. -/
def VReader.parse (r : VReader) : Option (Bool × List Byte × List Byte × VReader) :=
  let header := r.buffer_
  let length := headerLength header
  let expected_crc := crc32c.Unmask (DecodeFixed32 header)
  if length + kVHeaderSize ≤ r.buffer_.length then
    let payload := (header.drop kVHeaderSize).take length
    if r.checksum_ && crc32c.Value payload != expected_crc then
      some (false, [], [], r.ReportCorruption (kVHeaderSize + length) "checksum mismatch")
    else
      some (true, payload, [], { r with buffer_ := r.buffer_.drop (kVHeaderSize + length) })
  else if r.eof_ == true then
    some (false, [], [], r)
  else
    let buffer1 := r.buffer_.drop kVHeaderSize
    let buffer_size := buffer1.length
    let scratch := buffer1
    let left_length := length - buffer_size
    if left_length > kBlockSize / 2 then
      -- scratch->resize(length), then the file is read into the new part
      match r.file_.Read left_length [] with
      | none => none
      | some (status, buffer, file1) =>
        let scratch1 := scratch ++ buffer ++ List.replicate (left_length - buffer.length) 0
        let r1 : VReader := { r with buffer_ := [], file_ := file1 }
        if !status.ok then
          some (false, [], scratch1, r1.ReportDrop left_length status)
        else if buffer.length < left_length then
          some (false, [], [], { r1 with eof_ := true })
        else if r.checksum_ && crc32c.Value (scratch1.take length) != expected_crc then
          some (false, [], scratch1,
            r1.ReportCorruption (kVHeaderSize + length) "checksum mismatch")
        else some (true, scratch1, scratch1, r1)
    else
      match r.file_.Read kBlockSize [] with
      | none => none
      | some (status, buffer, file1) =>
        let r1 : VReader := { r with buffer_ := buffer, file_ := file1 }
        if !status.ok then
          some (false, [], scratch, r1.ReportDrop kBlockSize status)
        else if buffer.length < kBlockSize && buffer.length < left_length then
          some (false, [], [], { r1 with eof_ := true })
        else
          let r2 : VReader :=
            { r1 with eof_ := if buffer.length < kBlockSize then true else r1.eof_ }
          let scratch1 := scratch ++ buffer.take left_length
          let r3 : VReader := { r2 with buffer_ := buffer.drop left_length }
          if r.checksum_ && crc32c.Value (scratch1.take length) != expected_crc then
            some (false, [], scratch1,
              r3.ReportCorruption (kVHeaderSize + length) "checksum mismatch")
          else some (true, scratch1, scratch1, r3)

/-- `VReader::ReadRecord(record, scratch)`: the values are the returned boolean,
`*record`, `*scratch` and the reader. Both out-parameters are cleared first. -/
def VReader.ReadRecord (r : VReader) : Option (Bool × List Byte × List Byte × VReader) :=
  match r.refill with
  | none => none
  | some (false, r1) => some (false, [], [], r1)
  | some (true, r1) => r1.parse

/-- `VReader::Read(val, size, pos)`: the values are the returned boolean, the bytes
copied to `val` and the reader. -/
def VReader.Read (r : VReader) (size pos : Nat) : Option (Bool × List Byte × VReader) :=
  let sk := r.SkipToPos pos
  if !sk.1 then some (false, [], sk.2)
  else
    match sk.2.file_.Read size [] with
    | none => none
    | some (status, buffer, file1) =>
      let r1 : VReader := { sk.2 with file_ := file1 }
      if !status.ok || buffer.length != size then
        some (false, buffer, r1.ReportDrop size status)
      else some (true, buffer, r1)

/-! ## Scenarios and the reader invariant used by the statements -/

/-- The number whose little-endian digits in base 256 are `bs`. -/
def littleEndian : List Byte → Nat
  | [] => 0
  | b :: bs => b.val + 256 * littleEndian bs

/-- Successive calls `AddRecord p` for the payloads of `ps`, in order; the boolean
tells whether every call returned ok. -/
def VWriter.AddRecords (w : VWriter) : List (List Byte) → Bool × VWriter
  | [] => (true, w)
  | p :: ps =>
    let s := w.AddRecord p
    let t := VWriter.AddRecords s.2 ps
    (s.1.ok && t.1, t.2)

/-- A source opened on the file `data`, as `VlogTest` sets it up before the first read. -/
def StringSource.open_ (data : List Byte) : StringSource :=
  { contents_ := data, data := data, force_error_ := false, returned_partial_ := false }

/-- The results (returned boolean and `*record`) of `n` successive calls of
`ReadRecord`, and the reader after them. -/
def VReader.ReadRecords : Nat → VReader → Option (List (Bool × List Byte) × VReader)
  | 0, r => some ([], r)
  | n + 1, r =>
    match r.ReadRecord with
    | none => none
    | some (ok, record, _, r1) =>
      match VReader.ReadRecords n r1 with
      | none => none
      | some (l, r2) => some ((ok, record) :: l, r2)

/-- The sequential state of a reader is consistent and `s` is the part of the file
it has not returned yet: the buffered bytes followed by the unread bytes of the
file are `s`, the file has no pending forced error, the end-of-file flag is only set
when the file is exhausted, and a short read of the file has set the flag. -/
def VReader.AtStream (r : VReader) (s : List Byte) : Prop :=
  r.buffer_ ++ r.file_.contents_ = s ∧ r.file_.force_error_ = false ∧
    (r.eof_ = true → r.file_.contents_ = []) ∧ (r.file_.returned_partial_ = true → r.eof_ = true)

instance (r : VReader) (s : List Byte) : Decidable (r.AtStream s) := by
  unfold VReader.AtStream; infer_instance

/-- The bytes `AddRecord p` appends to an empty file: the frame of the payload `p`. -/
def VWriter.frame (p : List Byte) : List Byte :=
  ((VWriter.mk ⟨[]⟩).AddRecord p).2.dest_.contents_

/-! ## `db/vlog_manager.h`, `db/vlog_manager.cc` -/

/-- Modelled from the spec: `DecodeFixed64` of `util/coding.h` (not among the sources),
the 64-bit value whose little-endian bytes are the first eight bytes at `ptr`. -/
def DecodeFixed64 (ptr : List Byte) : Nat :=
  (ptr.getD 0 0).val ||| ((ptr.getD 1 0).val <<< 8) ||| ((ptr.getD 2 0).val <<< 16)
    ||| ((ptr.getD 3 0).val <<< 24) ||| ((ptr.getD 4 0).val <<< 32)
    ||| ((ptr.getD 5 0).val <<< 40) ||| ((ptr.getD 6 0).val <<< 48)
    ||| ((ptr.getD 7 0).val <<< 56)

/-- Modelled from the spec: `EncodeFixed64` of `util/coding.h` (not among the sources),
the eight bytes of a 64-bit value, least significant first. -/
def EncodeFixed64 (value : Nat) : List Byte :=
  [toByte value, toByte (value >>> 8), toByte (value >>> 16), toByte (value >>> 24),
   toByte (value >>> 32), toByte (value >>> 40), toByte (value >>> 48), toByte (value >>> 56)]

/-- `VlogManager::VlogInfo`: the reader of a vlog (`none` for a `NULL` pointer) and its
counter of stale records, a `uint32_t`. -/
structure VlogInfo where
  vlog_ : Option VReader
  count_ : Nat
deriving DecidableEq

/-- `class VlogManager`. The `unordered_map` `manager_` is the list of its entries and
the `unordered_set` `cleaning_vlog_set_` the list of its elements; the order of a list
stands for the unspecified iteration order of the container. -/
structure VlogManager where
  manager_ : List (Nat × VlogInfo)
  cleaning_vlog_set_ : List Nat
  clean_threshold_ : Nat
  now_vlog_ : Nat
  cleaning_vlog_ : Nat
deriving DecidableEq

/-- The constructor `VlogManager(clean_threshold)`. -/
def VlogManager.new (clean_threshold : Nat) : VlogManager :=
  { manager_ := [], cleaning_vlog_set_ := [], clean_threshold_ := clean_threshold,
    now_vlog_ := 0, cleaning_vlog_ := 0 }

/-- `manager_.find(vlog_numb)`: the entry of a vlog, `none` for `manager_.end()`. -/
def VlogManager.find (m : VlogManager) (vlog_numb : Nat) : Option VlogInfo :=
  m.manager_.lookup vlog_numb

/-- `manager_.erase(iter)` for the entry of `vlog_numb`. -/
def VlogManager.eraseEntry (entries : List (Nat × VlogInfo)) (vlog_numb : Nat) :
    List (Nat × VlogInfo) :=
  entries.filter fun e => e.1 != vlog_numb

/-- An assignment through the iterator of `vlog_numb` (or through
`manager_[vlog_numb]` for a key that is present): the entry is replaced by `f` of it. -/
def VlogManager.updateEntry (entries : List (Nat × VlogInfo)) (vlog_numb : Nat)
    (f : VlogInfo → VlogInfo) : List (Nat × VlogInfo) :=
  entries.map fun e => if e.1 == vlog_numb then (e.1, f e.2) else e

/-- `cleaning_vlog_set_.insert(vlog_numb)`. -/
def VlogManager.setInsert (s : List Nat) (vlog_numb : Nat) : List Nat :=
  if vlog_numb ∈ s then s else s ++ [vlog_numb]

/-- `cleaning_vlog_set_.erase(vlog_numb)`. -/
def VlogManager.setErase (s : List Nat) (vlog_numb : Nat) : List Nat :=
  s.filter fun x => x != vlog_numb

/-- `VlogManager::AddVlog(vlog_numb, vlog)`. `none` is the failure of `assert(b)`:
the number is registered already. -/
def VlogManager.AddVlog (m : VlogManager) (vlog_numb : Nat) (vlog : Option VReader) :
    Option VlogManager :=
  let v : VlogInfo := { vlog_ := vlog, count_ := 0 }
  match m.find vlog_numb with
  | some _ => none
  | none => some { m with manager_ := m.manager_ ++ [(vlog_numb, v)], now_vlog_ := vlog_numb }

/-- `VlogManager::SetNowVlog(vlog_numb)`. -/
def VlogManager.SetNowVlog (m : VlogManager) (vlog_numb : Nat) : VlogManager :=
  { m with now_vlog_ := vlog_numb }

/-- `VlogManager::RemoveCleaningVlog()`. `none` is the failure of
`assert(cleaning_vlog_>0)` or the use of the end iterator when the cleaning vlog is
not registered. -/
def VlogManager.RemoveCleaningVlog (m : VlogManager) : Option VlogManager :=
  if m.cleaning_vlog_ > 0 then
    match m.find m.cleaning_vlog_ with
    | none => none
    | some _ =>
      some { m with manager_ := VlogManager.eraseEntry m.manager_ m.cleaning_vlog_,
                    cleaning_vlog_set_ := VlogManager.setErase m.cleaning_vlog_set_ m.cleaning_vlog_,
                    cleaning_vlog_ := 0 }
  else none

/-- `VlogManager::RemoveCleaningVlog(vlog_numb)`. `none` is the use of the end iterator
when `vlog_numb` is not registered. -/
def VlogManager.RemoveCleaningVlogOf (m : VlogManager) (vlog_numb : Nat) : Option VlogManager :=
  match m.find vlog_numb with
  | none => none
  | some _ =>
    some { m with manager_ := VlogManager.eraseEntry m.manager_ vlog_numb,
                  cleaning_vlog_set_ := VlogManager.setErase m.cleaning_vlog_set_ vlog_numb }

/-- `VlogManager::AddDropCount(vlog_numb)`. `count_++` is an increment of a
`uint32_t`. -/
def VlogManager.AddDropCount (m : VlogManager) (vlog_numb : Nat) : VlogManager :=
  match m.find vlog_numb with
  | some info =>
    let count := (info.count_ + 1) % 2 ^ 32
    let m1 : VlogManager :=
      { m with manager_ := VlogManager.updateEntry m.manager_ vlog_numb
                 fun i => { i with count_ := (i.count_ + 1) % 2 ^ 32 } }
    if count ≥ m.clean_threshold_ && vlog_numb != m.now_vlog_ then
      { m1 with cleaning_vlog_set_ := VlogManager.setInsert m.cleaning_vlog_set_ vlog_numb }
    else m1
  | none => m

/-- `VlogManager::GetVlog(vlog_numb)`: the reader, `none` for `NULL`. The function
does not change the manager. -/
def VlogManager.GetVlog (m : VlogManager) (vlog_numb : Nat) : Option VReader :=
  match m.find vlog_numb with
  | none => none
  | some info => info.vlog_

/-- `VlogManager::HasVlogToClean()`. -/
def VlogManager.HasVlogToClean (m : VlogManager) : Bool :=
  !m.cleaning_vlog_set_.isEmpty

/-- `VlogManager::GetVlogToClean()`: the returned number and the manager. `none` is the
failure of `assert(iter != cleaning_vlog_set_.end())`. -/
def VlogManager.GetVlogToClean (m : VlogManager) : Option (Nat × VlogManager) :=
  if m.cleaning_vlog_ == 0 then
    match m.cleaning_vlog_set_ with
    | [] => none
    | x :: _ => some (x, { m with cleaning_vlog_ := x })
  else some (m.cleaning_vlog_, m)

/-- The loop of `VlogManager::Deserialize` on the rest `input` of the string. `none`
is a rest of one to seven bytes, where `DecodeFixed64` and `remove_prefix(8)` run
past the end of the string. -/
def VlogManager.deserializeLoop : Nat → List Byte → VlogManager → Option VlogManager
  | 0, _, _ => none
  | fuel + 1, input, m =>
    if input.isEmpty then some m
    else if input.length < 8 then none
    else
      let code := DecodeFixed64 input
      let file_numb := code &&& 0xffff
      let count := code >>> 16
      let m1 : VlogManager :=
        match m.find file_numb with
        | some _ =>
          let m2 : VlogManager :=
            { m with manager_ := VlogManager.updateEntry m.manager_ file_numb
                       fun i => { i with count_ := count % 2 ^ 32 } }
          if count ≥ m.clean_threshold_ && file_numb != m.now_vlog_ then
            { m2 with cleaning_vlog_set_ := VlogManager.setInsert m.cleaning_vlog_set_ file_numb }
          else m2
        | none => m
      VlogManager.deserializeLoop fuel (input.drop 8) m1

/-- `VlogManager::Deserialize(val)`: the manager after the call, which returns true.
Every round of the loop removes eight bytes, so `val.length / 8 + 1` rounds are
enough. -/
def VlogManager.Deserialize (m : VlogManager) (val : List Byte) : Option VlogManager :=
  VlogManager.deserializeLoop (val.length / 8 + 1) val m

/-- `VlogManager::Recover(vlog_numb, tail)`. `none` is the failure of
`assert(iter->second.count_ >= clean_threshold_)` or a `NULL` reader. -/
def VlogManager.Recover (m : VlogManager) (vlog_numb tail : Nat) : Option VlogManager :=
  match m.find vlog_numb with
  | some info =>
    if info.count_ ≥ m.clean_threshold_ then
      match info.vlog_ with
      | none => none
      | some _ =>
        some { m with manager_ := VlogManager.updateEntry m.manager_ vlog_numb
                        fun i => { i with vlog_ := i.vlog_.map fun r => r.SetCleanPos tail },
                      cleaning_vlog_ := vlog_numb }
    else none
  | none => some m

/-- A call of one of the member functions of the manager that change or consult its
cleaning state. -/
inductive VlogManager.Call where
  | AddVlog (vlog_numb : Nat) (vlog : Option VReader)
  | SetNowVlog (vlog_numb : Nat)
  | AddDropCount (vlog_numb : Nat)
  | Deserialize (val : List Byte)
  | Recover (vlog_numb tail : Nat)
  | GetVlogToClean
  | RemoveCleaningVlog
  | RemoveCleaningVlogOf (vlog_numb : Nat)
deriving DecidableEq

/-- The manager after a call; `none` when the call fails an assertion. -/
def VlogManager.call (m : VlogManager) : VlogManager.Call → Option VlogManager
  | .AddVlog n r => m.AddVlog n r
  | .SetNowVlog n => some (m.SetNowVlog n)
  | .AddDropCount n => some (m.AddDropCount n)
  | .Deserialize val => m.Deserialize val
  | .Recover n tail => m.Recover n tail
  | .GetVlogToClean => m.GetVlogToClean.map Prod.snd
  | .RemoveCleaningVlog => m.RemoveCleaningVlog
  | .RemoveCleaningVlogOf n => m.RemoveCleaningVlogOf n

/-- The manager after a sequence of calls, none of which fails an assertion. -/
def VlogManager.calls (m : VlogManager) : List VlogManager.Call → Option VlogManager
  | [] => some m
  | c :: cs =>
    match m.call c with
    | none => none
    | some m1 => VlogManager.calls m1 cs

/-- The calls that keep the active vlog out of the cleaning state: `SetNowVlog` is
not called for a candidate or for the cleaning vlog, `Recover` not for the active
vlog, and `AddVlog` not for the cleaning vlog. -/
def VlogManager.keepsNowApart (m : VlogManager) : VlogManager.Call → Bool
  | .AddVlog n _ => m.cleaning_vlog_ == 0 || n != m.cleaning_vlog_
  | .SetNowVlog n => !(m.cleaning_vlog_set_.contains n) &&
      (m.cleaning_vlog_ == 0 || n != m.cleaning_vlog_)
  | .Recover n _ => n != m.now_vlog_
  | _ => true

/-- Every call of the sequence, made in the state it is made in, satisfies
`keepsNowApart`. -/
def VlogManager.allKeepNowApart (m : VlogManager) : List VlogManager.Call → Bool
  | [] => true
  | c :: cs =>
    m.keepsNowApart c &&
      match m.call c with
      | none => true
      | some m1 => VlogManager.allKeepNowApart m1 cs

/-- The cleaning state of the manager keeps the active vlog apart: every candidate
is registered, the active vlog is not a candidate, and the cleaning vlog, if there
is one, is not the active vlog. -/
def VlogManager.NowApart (m : VlogManager) : Prop :=
  (∀ x ∈ m.cleaning_vlog_set_, m.find x ≠ none) ∧ m.now_vlog_ ∉ m.cleaning_vlog_set_ ∧
    (m.cleaning_vlog_ = 0 ∨ m.cleaning_vlog_ ≠ m.now_vlog_)

/-! ## `db/garbage_collector.h`, `db/garbage_collector.cc`

The source is written for two builds. With `NDEBUG` defined `assert(e)` expands to
nothing, so `e` is not evaluated and the calls written inside an `assert` (lines 36,
126 and 131) are not made, and the blocks under `#ifndef NDEBUG` (lines 38 to 40 and
101 to 108) are not compiled. Without `NDEBUG` the expression is evaluated and a
failed `assert` ends the run. The functions of the collector take the build as
their first argument: `ndebug` is true for the build with `NDEBUG`. The messages
written to `std::cout` are left out. File offsets are `uint64_t` in the source; no
file has `2 ^ 64` bytes, so they are natural numbers. -/

/-- Modelled from the spec: the batch accumulator `WriteBatch` (`db/write_batch.cc` is
not among the sources), known by the pairs put into it since it was last cleared,
oldest first. -/
abbrev WriteBatch := List (List Byte × List Byte)

/-- Modelled from the spec: `WriteBatch::Put(key, value)` appends the pair. -/
def WriteBatch.Put (b : WriteBatch) (key value : List Byte) : WriteBatch :=
  b ++ [(key, value)]

/-- Modelled from the spec: `WriteBatch::Clear()` empties the batch. -/
def WriteBatch.Clear (_b : WriteBatch) : WriteBatch := []

/-- Modelled from the spec: `WriteBatchInternal::Count(batch)`, the number of entries. -/
def WriteBatchInternal.Count (b : WriteBatch) : Nat := b.length

/-- Modelled from the spec: what the collector calls on the database and its
environment (`db/db_impl.h`, `db/write_batch_internal.h` and the `Env` are not among
the sources), over the state `σ` of the database and its files. Every call that can
change that state returns the state in which the run continues. `IsShutDown` is a
poll of a flag that other threads set. `GetPtr` returns the status and the token
stored for the key. `ParseRecord(batch, pos, key, value, isDel)` returns the status,
the position after the entry at `pos`, the key, the value and `isDel`.
`DeleteFile` takes the number of the vlog whose file name is built;
`DeallocateDiskSpace` acts on the file of the reader. -/
structure DBImpl (σ : Type) where
  IsShutDown : σ → Bool × σ
  GetPtr : σ → List Byte → Status × List Byte
  Write : σ → WriteBatch → Status × σ
  Put : σ → List Byte → List Byte → Status × σ
  DeleteFile : σ → Nat → Status × σ
  DeallocateDiskSpace : σ → Nat → Nat → Status × σ
  ParseRecord : List Byte → Nat → Status × Nat × List Byte × List Byte × Bool
  ByteSize : WriteBatch → Nat
  clean_write_buffer_size : Nat

/-- The reasons for which a run of `BeginGarbageCollect` does not reach its last line. -/
inductive GarbageCollector.Stop where
  /-- The `assert` at this line of `garbage_collector.cc` fails (build without `NDEBUG`). -/
  | assertion (line : Nat)
  /-- The test assertion `ASSERT_TRUE(!returned_partial_)` of the in-memory file fails. -/
  | source
  /-- A call of `DecodeFixed64` reads past the end of a token shorter than eight bytes. -/
  | undefined
  /-- The loop `while(pos < size)` has run `size` times without reaching `size`. -/
  | loops
  /-- The bound on the passes of the loop `while(!db_->IsShutDown())` is used up. -/
  | fuel
deriving DecidableEq

/-- The calls of a run that act on the database or on the files. -/
inductive GarbageCollector.Effect where
  | Write (batch : WriteBatch)
  | DeleteFile (vlog_number : Nat)
  | DeallocateDiskSpace (offset len : Nat)
  | Put (key value : List Byte)
deriving DecidableEq

/-- `class GarbageCollector`; `db_` is the state of the database the collector points to. -/
structure GarbageCollector (σ : Type) where
  vlog_number_ : Nat
  garbage_pos_ : Nat
  vlog_reader_ : VReader
  db_ : σ

/-- `GarbageCollector::SetVlog(vlog_number, garbage_beg_pos)` on the database `db`,
where `vlr_file` is the file `NewSequentialFile` opens for the vlog. -/
def GarbageCollector.SetVlog {σ : Type} (db : σ) (vlr_file : StringSource)
    (vlog_number garbage_beg_pos : Nat) : GarbageCollector σ :=
  { vlog_reader_ := VReader.new vlr_file none true 0,
    vlog_number_ := vlog_number,
    garbage_pos_ := garbage_beg_pos,
    db_ := db }

/-- The collector and the local variables of `BeginGarbageCollect` during a run, the
calls made so far, oldest first, and the reason for which the run has ended early. -/
structure GarbageCollector.Run (σ : Type) where
  gc : GarbageCollector σ
  clean_valid_batch : WriteBatch
  isEndOfFile : Bool
  effects : List GarbageCollector.Effect
  stop : Option GarbageCollector.Stop

/-- One pass of the loop `while(pos < size)` (lines 62 to 88) at the position `pos` of
`batch`. The values are the reason for which the run ends here, if it does, `pos`,
`garbage_pos_` and `clean_valid_batch` after the pass. With `NDEBUG` the status of
`ParseRecord` is not looked at (line 64) and the pass goes on with what `ParseRecord`
left in `pos`, `key`, `value` and `isDel`, which for a failed call is what the
parameter `D.ParseRecord` gives (`db/write_batch.cc` is not among the sources). -/
def GarbageCollector.scanTriple {σ : Type} (ndebug : Bool) (D : DBImpl σ) (vlog_number_ : Nat)
    (db : σ) (batch : List Byte) (old_garbage_pos pos garbage_pos_ : Nat)
    (clean_valid_batch : WriteBatch) :
    Option GarbageCollector.Stop × Nat × Nat × WriteBatch :=
  let parsed := D.ParseRecord batch pos
  let s := parsed.1
  let pos1 := parsed.2.1
  let key := parsed.2.2.1
  let value := parsed.2.2.2.1
  let isDel := parsed.2.2.2.2
  if !ndebug && !s.ok then (some (.assertion 64), pos1, garbage_pos_, clean_valid_batch)
  else
    let garbage_pos1 := old_garbage_pos + pos1
    if isDel then (none, pos1, garbage_pos1, clean_valid_batch)
    else
      let got := D.GetPtr db key
      if got.1.ok then
        let val := got.2
        if val.length < 8 then (some .undefined, pos1, garbage_pos1, clean_valid_batch)
        else
          let code := DecodeFixed64 val
          let size := code &&& 0xffffff
          let code1 := code >>> 24
          let file_numb := code1 &&& 0xff
          let item_pos := code1 >>> 8
          if item_pos + size == garbage_pos1 && file_numb == vlog_number_ then
            (none, pos1, garbage_pos1, WriteBatch.Put clean_valid_batch key value)
          else (none, pos1, garbage_pos1, clean_valid_batch)
      else (none, pos1, garbage_pos1, clean_valid_batch)

/-- The loop `while(pos < size)` (lines 60 to 89), bounded by the number of passes
given first; `size` passes are allowed, after which a position below `size` has
been seen twice. -/
def GarbageCollector.scanBatch {σ : Type} (ndebug : Bool) (D : DBImpl σ) (vlog_number_ : Nat)
    (db : σ) (batch : List Byte) (size old_garbage_pos : Nat) :
    Nat → Nat → Nat → WriteBatch → Option GarbageCollector.Stop × Nat × Nat × WriteBatch
  | 0, pos, garbage_pos_, clean_valid_batch =>
    if pos < size then (some .loops, pos, garbage_pos_, clean_valid_batch)
    else (none, pos, garbage_pos_, clean_valid_batch)
  | fuel + 1, pos, garbage_pos_, clean_valid_batch =>
    if pos < size then
      let t := GarbageCollector.scanTriple ndebug D vlog_number_ db batch old_garbage_pos pos
        garbage_pos_ clean_valid_batch
      match t.1 with
      | some e => (some e, t.2)
      | none =>
        GarbageCollector.scanBatch ndebug D vlog_number_ db batch size old_garbage_pos fuel
          t.2.1 t.2.2.1 t.2.2.2
    else (none, pos, garbage_pos_, clean_valid_batch)

/-- One pass of the loop `while(!db_->IsShutDown())` (lines 46 to 98), the test of
the loop included: the boolean tells whether the loop goes on after the pass. With
`NDEBUG` the tests of lines 90 and 94 are not made: the pass goes on whatever `pos`
is, and the accumulator is cleared whatever `Write` returned. -/
def GarbageCollector.scanRecord {σ : Type} (ndebug : Bool) (D : DBImpl σ)
    (s : GarbageCollector.Run σ) : Bool × GarbageCollector.Run σ :=
  let polled := D.IsShutDown s.gc.db_
  let s0 : GarbageCollector.Run σ := { s with gc := { s.gc with db_ := polled.2 } }
  if polled.1 then (false, s0)
  else
    match s0.gc.vlog_reader_.ReadRecord with
    | none => (false, { s0 with stop := some .source })
    | some (false, _, _, r1) =>
      (false, { s0 with gc := { s0.gc with vlog_reader_ := r1 }, isEndOfFile := true })
    | some (true, record, _, r1) =>
      let garbage_pos1 := s0.gc.garbage_pos_ + kVHeaderSize
      let size := record.length
      let old_garbage_pos := garbage_pos1
      let inner := GarbageCollector.scanBatch ndebug D s0.gc.vlog_number_ s0.gc.db_ record
        size old_garbage_pos size 0 garbage_pos1 s0.clean_valid_batch
      let s1 : GarbageCollector.Run σ :=
        { s0 with gc := { s0.gc with vlog_reader_ := r1, garbage_pos_ := inner.2.2.1 },
                  clean_valid_batch := inner.2.2.2 }
      match inner.1 with
      | some e => (false, { s1 with stop := some e })
      | none =>
        if !ndebug && inner.2.1 != size then
          (false, { s1 with stop := some (.assertion 90) })
        else if D.ByteSize s1.clean_valid_batch > D.clean_write_buffer_size then
          let w := D.Write s1.gc.db_ s1.clean_valid_batch
          let s2 : GarbageCollector.Run σ :=
            { s1 with gc := { s1.gc with db_ := w.2 },
                      effects := s1.effects ++ [.Write s1.clean_valid_batch] }
          if !ndebug && !w.1.ok then (false, { s2 with stop := some (.assertion 94) })
          else (true, { s2 with clean_valid_batch := WriteBatch.Clear s2.clean_valid_batch })
        else (true, s1)

/-- The loop `while(!db_->IsShutDown())` (lines 46 to 99), bounded by the number of
passes given first. -/
def GarbageCollector.scan {σ : Type} (ndebug : Bool) (D : DBImpl σ) :
    Nat → GarbageCollector.Run σ → GarbageCollector.Run σ
  | 0, s => { s with stop := some .fuel }
  | fuel + 1, s =>
    let t := GarbageCollector.scanRecord ndebug D s
    if t.1 then GarbageCollector.scan ndebug D fuel t.2 else t.2

/-- The key `"tail"`. -/
def GarbageCollector.tail : List Byte := [116, 97, 105, 108]

/-- The end of `BeginGarbageCollect` (lines 101 to 135) after the loop has ended:
`garbage_pos` is the position at which the run started. With `NDEBUG` the poll of
line 104 is not compiled, the accumulator is cleared whatever `Write` returned
(line 112), and neither `DeallocateDiskSpace` (line 126) nor the `Put` of the key
`tail` (line 131) is called: both calls are written inside `assert`. -/
def GarbageCollector.reclaim {σ : Type} (ndebug : Bool) (D : DBImpl σ) (garbage_pos : Nat)
    (s : GarbageCollector.Run σ) : GarbageCollector.Run σ :=
  -- lines 104 to 107: the answer of this poll is only printed
  let s0 : GarbageCollector.Run σ :=
    if ndebug then s else { s with gc := { s.gc with db_ := (D.IsShutDown s.gc.db_).2 } }
  let s1 : GarbageCollector.Run σ :=
    if WriteBatchInternal.Count s0.clean_valid_batch > 0 then
      let w := D.Write s0.gc.db_ s0.clean_valid_batch
      let s01 : GarbageCollector.Run σ :=
        { s0 with gc := { s0.gc with db_ := w.2 },
                  effects := s0.effects ++ [.Write s0.clean_valid_batch] }
      if !ndebug && !w.1.ok then { s01 with stop := some (.assertion 112) }
      else { s01 with clean_valid_batch := WriteBatch.Clear s01.clean_valid_batch }
    else s0
  if s1.stop.isSome then s1
  else if s1.gc.garbage_pos_ - garbage_pos > 0 then
    if s1.isEndOfFile then
      let d := D.DeleteFile s1.gc.db_ s1.gc.vlog_number_
      { s1 with gc := { s1.gc with db_ := d.2 },
                effects := s1.effects ++ [.DeleteFile s1.gc.vlog_number_] }
    else if ndebug then s1
    else
      let d := D.DeallocateDiskSpace s1.gc.db_ garbage_pos (s1.gc.garbage_pos_ - garbage_pos)
      let s2 : GarbageCollector.Run σ :=
        { s1 with gc := { s1.gc with db_ := d.2 },
                  effects := s1.effects ++
                    [.DeallocateDiskSpace garbage_pos (s1.gc.garbage_pos_ - garbage_pos)] }
      if !d.1.ok then { s2 with stop := some (.assertion 126) }
      else
        let v := EncodeFixed64 (((s2.gc.garbage_pos_ <<< 24) % 2 ^ 64) ||| s2.gc.vlog_number_)
        let p := D.Put s2.gc.db_ GarbageCollector.tail v
        let s3 : GarbageCollector.Run σ :=
          { s2 with gc := { s2.gc with db_ := p.2 },
                    effects := s2.effects ++ [.Put GarbageCollector.tail v] }
        if !p.1.ok then { s3 with stop := some (.assertion 131) } else s3
  else s1

/-- `GarbageCollector::BeginGarbageCollect()`. The call of `SkipToPos` is written
inside the `assert` of line 36: with `NDEBUG` it is not made and the reader stays
where `SetVlog` opened it. The loop over the records is bounded by the number of
headers that fit in the bytes the reader has not returned yet, plus one pass for the
end of the file. -/
def GarbageCollector.BeginGarbageCollect {σ : Type} (ndebug : Bool) (D : DBImpl σ)
    (g : GarbageCollector σ) : GarbageCollector.Run σ :=
  let garbage_pos := g.garbage_pos_
  let sk := if g.garbage_pos_ > 0 then
      if ndebug then (true, g.vlog_reader_) else g.vlog_reader_.SkipToPos g.garbage_pos_
    else (true, g.vlog_reader_)
  let s : GarbageCollector.Run σ :=
    { gc := { g with vlog_reader_ := sk.2 }, clean_valid_batch := [], isEndOfFile := false,
      effects := [], stop := none }
  if !sk.1 then { s with stop := some (.assertion 36) }
  else
    let fuel := (sk.2.buffer_.length + sk.2.file_.contents_.length) / kVHeaderSize + 1
    let s1 := GarbageCollector.scan ndebug D fuel s
    if s1.stop.isSome then s1 else GarbageCollector.reclaim ndebug D garbage_pos s1

/-! ## A database for the scenarios of the collector -/

/-- A small database: `index` holds the token of each key, the first entry of a key
being the current one, and `alive` is the number of polls of `IsShutDown` that still
answer false. -/
structure MemDB where
  index : List (List Byte × List Byte)
  alive : Nat
deriving DecidableEq

/-- Entries of a batch in the scenarios: a tag byte (0 for a deletion), the length of
the key in one byte, the key and, for a put, the length of the value in one byte and
the value. -/
def MemDB.ParseRecord (batch : List Byte) (pos : Nat) :
    Status × Nat × List Byte × List Byte × Bool :=
  match batch.drop pos with
  | tag :: klen :: rest =>
    if tag.val = 0 then (Status.OK, pos + 2 + klen.val, rest.take klen.val, [], true)
    else
      match rest.drop klen.val with
      | vlen :: rest1 =>
        (Status.OK, pos + 3 + klen.val + vlen.val, rest.take klen.val, rest1.take vlen.val,
          false)
      | [] => (Status.Corruption "bad entry", pos, [], [], false)
  | _ => (Status.Corruption "bad entry", pos, [], [], false)

/-- The database of the scenarios as the collector sees it: writes succeed and store
for every key of the batch a token of the vlog `now`, the files are not modelled,
and a batch is flushed when it holds more than `limit` bytes. -/
def MemDB.impl (now limit : Nat) : DBImpl MemDB :=
  { IsShutDown := fun db => (db.alive == 0, { db with alive := db.alive - 1 }),
    GetPtr := fun db key =>
      match db.index.lookup key with
      | some token => (Status.OK, token)
      | none => (Status.NotFound "", []),
    Write := fun db b =>
      (Status.OK, { db with index := b.map (fun kv => (kv.1, EncodeFixed64 (now <<< 24)))
        ++ db.index }),
    Put := fun db key value => (Status.OK, { db with index := (key, value) :: db.index }),
    DeleteFile := fun db _ => (Status.OK, db),
    DeallocateDiskSpace := fun db _ _ => (Status.OK, db),
    ParseRecord := MemDB.ParseRecord,
    ByteSize := fun b => 12 + (b.map fun kv => kv.1.length + kv.2.length + 3).sum,
    clean_write_buffer_size := limit }

/-- The token of a payload of `size` bytes at the offset `offset` of the vlog `n`. -/
def MemDB.token (offset n size : Nat) : List Byte :=
  EncodeFixed64 ((offset <<< 32) ||| (n <<< 24) ||| size)

/-! ## The collector in the words of its specification -/

/-- The liveness test on a token: its first eight bytes, read as a little-endian
number packed as `(payload_offset << 32) | (vlog_number << 24) | payload_size`, name
the vlog `v` and a payload that ends at the file offset `e`. -/
def GarbageCollector.pointsTo (v e : Nat) (token : List Byte) : Bool :=
  let code := littleEndian (token.take 8)
  code / 2 ^ 24 % 2 ^ 8 == v && code / 2 ^ 32 + code % 2 ^ 24 == e

/-- The entries of a batch from the position `pos` on, as `ParseRecord` delimits
them: the position after the entry, the key, the value and `isDel`. At most `n`
entries are listed. -/
def GarbageCollector.triples {σ : Type} (D : DBImpl σ) (batch : List Byte) :
    Nat → Nat → List (Nat × List Byte × List Byte × Bool)
  | 0, _ => []
  | n + 1, pos =>
    if pos < batch.length then
      (D.ParseRecord batch pos).2 ::
        GarbageCollector.triples D batch n (D.ParseRecord batch pos).2.1
    else []

/-- An entry that ends at the position `t.1` of a batch whose first byte is at the
file offset `payload_start` is live in the database `db`: it is a put, the index has
a token for its key, and the token names the vlog `v` and the end of the entry. -/
def GarbageCollector.isLive {σ : Type} (D : DBImpl σ) (v : Nat) (db : σ) (payload_start : Nat)
    (t : Nat × List Byte × List Byte × Bool) : Bool :=
  !t.2.2.2 && (D.GetPtr db t.2.1).1.ok &&
    GarbageCollector.pointsTo v (payload_start + t.1) (D.GetPtr db t.2.1).2

/-- The pairs of the live entries of the records `records`, in the order of the file,
when the frame of the first record starts at the file offset `start`. -/
def GarbageCollector.liveTriples {σ : Type} (D : DBImpl σ) (v : Nat) (db : σ) :
    Nat → List (List Byte) → WriteBatch
  | _, [] => []
  | start, record :: records =>
    ((GarbageCollector.triples D record record.length 0).filter
        (GarbageCollector.isLive D v db (start + kVHeaderSize))).map (fun t => (t.2.1, t.2.2.1))
      ++ GarbageCollector.liveTriples D v db (start + kVHeaderSize + record.length) records

/-- The pairs passed to `Write` by the calls of a run, in the order of the calls. -/
def GarbageCollector.written : List GarbageCollector.Effect → WriteBatch
  | [] => []
  | .Write batch :: effects => batch ++ GarbageCollector.written effects
  | _ :: effects => GarbageCollector.written effects

/-- The vlog of the scenarios: three records, each a batch with one put. -/
def MemDB.records : List (List Byte) :=
  [[1, 1, 97, 1, 120], [1, 1, 98, 1, 121], [1, 1, 97, 1, 122]]

/-- The file of the vlog of the scenarios, as the writer produces it. -/
def MemDB.vlog : List Byte :=
  ((VWriter.mk ⟨[]⟩).AddRecords MemDB.records).2.dest_.contents_

/-- The database of the scenarios: the key `a` has its value in the third record of
vlog 1 and the key `b` in the second; `alive` polls of `IsShutDown` answer false. -/
def MemDB.db (alive : Nat) : MemDB :=
  { index := [([97], MemDB.token 35 1 1), ([98], MemDB.token 23 1 1)], alive := alive }

/-- The state of a run over the vlog `v` after `k` records have been scanned, when the
file holds the frames of the records `ps` from the offset `start` on and `db0` was
the database at the start of the run. The state is given by the database, the
position, the calls made and the accumulator: the position is the end of the frames
scanned, the pairs written followed by the pairs of the accumulator are the live
entries of the records scanned, the index gives the tokens of `db0` for the keys not
written yet and no token of `v` for the keys written, the tokens of `db0` for the
keys of live entries point below the position, and no key has two live entries. -/
def GarbageCollector.Scanned {σ : Type} (D : DBImpl σ) (v start : Nat) (db0 : σ)
    (ps : List (List Byte)) (k : Nat) (db : σ) (garbage_pos_ : Nat)
    (effects : List GarbageCollector.Effect) (clean_valid_batch : WriteBatch) : Prop :=
  k ≤ ps.length ∧
  garbage_pos_ = start + ((ps.take k).map VWriter.frame).flatten.length ∧
  GarbageCollector.written effects ++ clean_valid_batch
    = GarbageCollector.liveTriples D v db0 start (ps.take k) ∧
  (∀ key, key ∉ (GarbageCollector.written effects).map Prod.fst →
    D.GetPtr db key = D.GetPtr db0 key) ∧
  (∀ key ∈ (GarbageCollector.written effects).map Prod.fst, ∀ e,
    (D.GetPtr db key).1.ok = true →
    GarbageCollector.pointsTo v e (D.GetPtr db key).2 = false) ∧
  (∀ key ∈ (GarbageCollector.liveTriples D v db0 start (ps.take k)).map Prod.fst, ∀ e,
    (D.GetPtr db0 key).1.ok = true →
    GarbageCollector.pointsTo v e (D.GetPtr db0 key).2 = true → e ≤ garbage_pos_) ∧
  ((GarbageCollector.liveTriples D v db0 start (ps.take k)).map Prod.fst).Nodup

/-! ## `db/vlog_manager.h`, `db/vlog_manager.cc`: the counters and their serialized form -/

/-- The loop of `VlogManager::GetVlogsToClean` over the entries not visited yet; `res`
is the `std::set` built so far, known by the list of its members. -/
def VlogManager.getVlogsToCleanLoop (now_vlog_ clean_threshold : Nat) :
    List (Nat × VlogInfo) → List Nat → List Nat
  | [], res => res
  | e :: es, res =>
    VlogManager.getVlogsToCleanLoop now_vlog_ clean_threshold es
      (if e.2.count_ ≥ clean_threshold && e.1 != now_vlog_ then VlogManager.setInsert res e.1
       else res)

/-- `VlogManager::GetVlogsToClean(clean_threshold)`. -/
def VlogManager.GetVlogsToClean (m : VlogManager) (clean_threshold : Nat) : List Nat :=
  VlogManager.getVlogsToCleanLoop m.now_vlog_ clean_threshold m.manager_ []

/-- `VlogManager::GetDropCount(vlog_numb)`, which is `manager_[vlog_numb].count_`: for a
key that is not present `operator[]` inserts a value-initialized entry, a `NULL`
reader with the counter 0. The values are the returned counter and the manager. -/
def VlogManager.GetDropCount (m : VlogManager) (vlog_numb : Nat) : Nat × VlogManager :=
  match m.find vlog_numb with
  | some info => (info.count_, m)
  | none =>
    (0, { m with manager_ := m.manager_ ++ [(vlog_numb, { vlog_ := none, count_ := 0 })] })

/-- `VlogManager::Serialize(val)`: the returned boolean and `val` after the call. The
counter is a `uint32_t`, so `count_ << 16` is a shift of 32-bit unsigned arithmetic;
its result is widened to 64 bits for the `|` with the number of the vlog. -/
def VlogManager.Serialize (m : VlogManager) : Bool × List Byte :=
  let size := m.manager_.length
  if size == 0 then (false, [])
  else
    (true, (m.manager_.map fun e =>
      EncodeFixed64 (((e.2.count_ <<< 16) % 2 ^ 32) ||| e.1)).flatten)

/-- The calls that fill the registry and the counters: `AddVlog`, `AddDropCount`, and
`SetNowVlog` for a number that is not a candidate. -/
def VlogManager.countsCall (m : VlogManager) : VlogManager.Call → Bool
  | .AddVlog _ _ => true
  | .SetNowVlog n => !(m.cleaning_vlog_set_.contains n)
  | .AddDropCount _ => true
  | _ => false

/-- Every call of the sequence, made in the state it is made in, satisfies
`countsCall`. -/
def VlogManager.allCountsCalls (m : VlogManager) : List VlogManager.Call → Bool
  | [] => true
  | c :: cs =>
    m.countsCall c &&
      match m.call c with
      | none => true
      | some m1 => VlogManager.allCountsCalls m1 cs

/-- The calls that count no drop for the active vlog: `AddDropCount` is not called for
`now_vlog_`. -/
def VlogManager.countsOld (m : VlogManager) : VlogManager.Call → Bool
  | .AddDropCount n => n != m.now_vlog_
  | _ => true

/-- Every call of the sequence, made in the state it is made in, satisfies
`countsOld`. -/
def VlogManager.allCountOld (m : VlogManager) : List VlogManager.Call → Bool
  | [] => true
  | c :: cs =>
    m.countsOld c &&
      match m.call c with
      | none => true
      | some m1 => VlogManager.allCountOld m1 cs

/-- The registry has one entry for a number, no counter exceeds `k`, every candidate is
registered with a counter that has reached the threshold, and the active vlog is not a
candidate. -/
def VlogManager.Counted (m : VlogManager) (k : Nat) : Prop :=
  (m.manager_.map Prod.fst).Nodup ∧
  (∀ x info, m.find x = some info → info.count_ ≤ k) ∧
  (∀ x, x ∈ m.cleaning_vlog_set_ →
    ∃ info, m.find x = some info ∧ m.clean_threshold_ ≤ info.count_) ∧
  m.now_vlog_ ∉ m.cleaning_vlog_set_

/-- Every registered vlog whose counter has reached the threshold is a candidate. -/
def VlogManager.AllListed (m : VlogManager) : Prop :=
  ∀ x info, m.find x = some info → m.clean_threshold_ ≤ info.count_ →
    x ∈ m.cleaning_vlog_set_

/-- The calls that may come between two calls of `GetVlogToClean` while a vlog is
cleaned: `AddVlog`, `SetNowVlog`, `AddDropCount` and `GetVlogToClean` itself. -/
def VlogManager.Call.whileCleaning : VlogManager.Call → Bool
  | .AddVlog _ _ => true
  | .SetNowVlog _ => true
  | .AddDropCount _ => true
  | .GetVlogToClean => true
  | _ => false

/-! ## `db/garbage_collector.cc`: the fields of a token and the passes of the loop -/

/-- Lines 72 to 76 of `BeginGarbageCollect`: `size`, `file_numb` and `item_pos` of the
token `code`. -/
def GarbageCollector.fields (code : Nat) : Nat × Nat × Nat :=
  let size := code &&& 0xffffff
  let code1 := code >>> 24
  let file_numb := code1 &&& 0xff
  let item_pos := code1 >>> 8
  (size, file_numb, item_pos)

/-- The run after `k` passes of the loop `while(!db_->IsShutDown())`, each of which
has processed a record and gone on; `none` when the loop ends before. -/
def GarbageCollector.passes {σ : Type} (ndebug : Bool) (D : DBImpl σ) :
    Nat → GarbageCollector.Run σ → Option (GarbageCollector.Run σ)
  | 0, s => some s
  | k + 1, s =>
    let t := GarbageCollector.scanRecord ndebug D s
    if t.1 then GarbageCollector.passes ndebug D k t.2 else none

/-- The run when the loop of `BeginGarbageCollect` is entered (lines 31 to 45), and
whether the `assert` of line 36 held; with `NDEBUG` the skip to the start position is
not made. -/
def GarbageCollector.enter {σ : Type} (ndebug : Bool) (g : GarbageCollector σ) :
    Bool × GarbageCollector.Run σ :=
  let sk := if g.garbage_pos_ > 0 then
      if ndebug then (true, g.vlog_reader_) else g.vlog_reader_.SkipToPos g.garbage_pos_
    else (true, g.vlog_reader_)
  (sk.1, { gc := { g with vlog_reader_ := sk.2 }, clean_valid_batch := [],
           isEndOfFile := false, effects := [], stop := none })

/-! ## Arithmetic of the header fields and of the checksum mask -/

theorem or_shiftLeft_eq_add (a b k : Nat) (h : a < 2 ^ k) : a ||| (b <<< k) = a + b * 2 ^ k := by
  rw [Nat.or_comm, Nat.shiftLeft_eq, Nat.mul_comm b, ← Nat.mul_add_lt_is_or h]
  omega

theorem toByte_val (n : Nat) : (toByte n).val = n % 256 := rfl

theorem and_ff (n : Nat) : n &&& 0xff = n % 256 := by
  have := Nat.and_pow_two_sub_one_eq_mod n 8
  simpa using this

theorem rot_right_15 (q s : Nat) (hq : q < 2 ^ 17) (hs : s < 2 ^ 15) :
    (((q * 2 ^ 15 + s) >>> 15) ||| ((q * 2 ^ 15 + s) <<< 17)) % 2 ^ 32 = q + s * 2 ^ 17 := by
  have h1 : (q * 2 ^ 15 + s) / 2 ^ 15 = q := by omega
  rw [Nat.shiftRight_eq_div_pow, h1, or_shiftLeft_eq_add _ _ 17 hq]
  have h2 : q + (q * 2 ^ 15 + s) * 2 ^ 17 = (q + s * 2 ^ 17) + q * 2 ^ 32 := by omega
  rw [h2, Nat.add_mul_mod_self_right, Nat.mod_eq_of_lt (by omega)]

theorem rot_left_15 (q s : Nat) (hq : q < 2 ^ 17) (hs : s < 2 ^ 15) :
    (((q + s * 2 ^ 17) >>> 17) ||| ((q + s * 2 ^ 17) <<< 15)) % 2 ^ 32 = q * 2 ^ 15 + s := by
  have h1 : (q + s * 2 ^ 17) / 2 ^ 17 = s := by omega
  rw [Nat.shiftRight_eq_div_pow, h1, or_shiftLeft_eq_add _ _ 15 hs]
  have h2 : s + (q + s * 2 ^ 17) * 2 ^ 15 = (q * 2 ^ 15 + s) + s * 2 ^ 32 := by omega
  rw [h2, Nat.add_mul_mod_self_right, Nat.mod_eq_of_lt (by omega)]

theorem crc32c.Unmask_Mask (c : Nat) (h : c < 2 ^ 32) : crc32c.Unmask (crc32c.Mask c) = c := by
  obtain ⟨q, s, hq, hs, rfl⟩ : ∃ q s, q < 2 ^ 17 ∧ s < 2 ^ 15 ∧ c = q * 2 ^ 15 + s :=
    ⟨c / 2 ^ 15, c % 2 ^ 15, by omega, by omega, by omega⟩
  unfold crc32c.Unmask crc32c.Mask crc32c.kMaskDelta
  rw [rot_right_15 q s hq hs]
  have hrot : ((q + s * 2 ^ 17 + 2726488792) % 2 ^ 32 % 2 ^ 32 + 2 ^ 32
      - 2726488792) % 2 ^ 32 = q + s * 2 ^ 17 := by omega
  simp only [hrot]
  exact rot_left_15 q s hq hs

theorem crc32c.Extend_lt (c : Nat) (d : List Byte) : crc32c.Extend c d < 2 ^ 32 := by
  unfold crc32c.Extend
  exact Nat.mod_lt _ (by decide)

theorem crc32c.Mask_lt (c : Nat) : crc32c.Mask c < 2 ^ 32 := by
  unfold crc32c.Mask
  exact Nat.mod_lt _ (by decide)

theorem DecodeFixed32_EncodeFixed32 (v : Nat) (rest : List Byte) :
    DecodeFixed32 (EncodeFixed32 v ++ rest) = v % 2 ^ 32 := by
  simp only [DecodeFixed32, EncodeFixed32, List.cons_append, List.getD_cons_zero,
    List.getD_cons_succ, toByte_val, Nat.shiftRight_eq_div_pow]
  rw [or_shiftLeft_eq_add _ _ 8 (by omega), or_shiftLeft_eq_add _ _ 16 (by omega),
    or_shiftLeft_eq_add _ _ 24 (by omega)]
  omega

theorem littleEndian_EncodeFixed32 (v : Nat) (h : v < 2 ^ 32) :
    littleEndian (EncodeFixed32 v) = v := by
  simp only [littleEndian, EncodeFixed32, toByte_val, Nat.shiftRight_eq_div_pow]
  omega

/-- The header `AddRecord` writes for the payload `p`. -/
theorem headerLength_written (c : List Byte) (hc : c.length = 4) (L : Nat) (h : L < 2 ^ 24)
    (rest : List Byte) :
    headerLength (c ++ [toByte (L &&& 0xff), toByte (L >>> 8), toByte (L >>> 16)] ++ rest)
      = L := by
  match c, hc with
  | [c0, c1, c2, c3], _ =>
    simp only [headerLength, List.cons_append, List.nil_append, List.getD_cons_zero,
      List.getD_cons_succ, toByte_val, and_ff, Nat.shiftRight_eq_div_pow]
    rw [or_shiftLeft_eq_add _ _ 8 (by omega), or_shiftLeft_eq_add _ _ 16 (by omega)]
    omega

theorem headerLength_lt (h : List Byte) : headerLength h < 2 ^ 24 := by
  unfold headerLength
  simp only [and_ff]
  rw [or_shiftLeft_eq_add _ _ 8 (by omega), or_shiftLeft_eq_add _ _ 16 (by omega)]
  omega

theorem StringSource.Read_ok (f : StringSource) (n : Nat) (res : List Byte)
    (h1 : f.returned_partial_ = false) (h2 : f.force_error_ = false) :
    f.Read n res = some (Status.OK, f.contents_.take n,
      { f with contents_ := f.contents_.drop n,
               returned_partial_ := decide (f.contents_.length < n) }) := by
  unfold StringSource.Read
  simp only [h1, h2, Bool.false_eq_true, if_false]
  split
  · next h =>
    simp [List.take_of_length_le (Nat.le_of_lt h), List.drop_eq_nil_of_le (Nat.le_of_lt h), h]
  · next h =>
    simp [h, h1]

theorem VReader.refill_spec (r : VReader) (s : List Byte) (h : r.AtStream s) :
    ∃ b r1, r.refill = some (b, r1) ∧ r1.reporter_ = r.reporter_ ∧
      r1.checksum_ = r.checksum_ ∧ r1.cleanPos_ = r.cleanPos_ ∧
      r1.file_.data = r.file_.data ∧
      (b = true → r1.AtStream s ∧ kVHeaderSize ≤ r1.buffer_.length) ∧
      (b = false → s.length < kVHeaderSize ∧ r1.eof_ = true ∧ r1.AtStream r1.buffer_ ∧
        r1.buffer_.length < kVHeaderSize) := by
  obtain ⟨hs, hfe, heof, hrp⟩ := h
  unfold VReader.refill
  by_cases hlen : r.buffer_.length < kVHeaderSize
  · rw [if_pos hlen]
    cases he : r.eof_ with
    | true =>
      have hc := heof he
      refine ⟨false, { r with buffer_ := [] }, by simp [he], rfl, rfl, rfl, rfl, by simp, ?_⟩
      intro _
      refine ⟨?_, he, ?_, ?_⟩
      · rw [← hs, hc]; simpa using hlen
      · exact ⟨by simp [hc], hfe, fun _ => hc, fun _ => he⟩
      · simp [kVHeaderSize]
    | false =>
      have hp : r.file_.returned_partial_ = false := by
        cases hq : r.file_.returned_partial_ with
        | false => rfl
        | true => rw [hrp hq] at he; exact absurd he (by decide)
      have hbuf : (if r.buffer_.length > 0 then
          r.buffer_ ++ r.file_.contents_.take (kBlockSize - r.buffer_.length)
          else r.file_.contents_.take (kBlockSize - r.buffer_.length))
          = r.buffer_ ++ r.file_.contents_.take (kBlockSize - r.buffer_.length) := by
        split
        · rfl
        · next hz =>
          have : r.buffer_ = [] := List.length_eq_zero.mp (by omega)
          simp [this]
      simp only [Bool.not_false, if_true, StringSource.Read_ok _ _ _ hp hfe, hbuf, Status.ok,
        Bool.not_true, Bool.false_eq_true, if_false]
      simp only [kVHeaderSize, kBlockSize] at hlen ⊢
      by_cases hshort : r.file_.contents_.length < 32768 - r.buffer_.length
      · have ht : r.file_.contents_.take (32768 - r.buffer_.length) = r.file_.contents_ :=
          List.take_of_length_le (Nat.le_of_lt hshort)
        have hd : r.file_.contents_.drop (32768 - r.buffer_.length) = [] :=
          List.drop_eq_nil_of_le (Nat.le_of_lt hshort)
        have hl : (r.buffer_ ++ r.file_.contents_).length < 32768 := by
          rw [List.length_append]; omega
        rw [ht, hd, if_pos hl]
        by_cases h7 : (r.buffer_ ++ r.file_.contents_).length < 4 + 3
        · rw [if_pos h7]
          refine ⟨false, _, rfl, rfl, rfl, rfl, rfl, by simp, ?_⟩
          intro _
          refine ⟨by rw [← hs]; exact h7, rfl, ?_, h7⟩
          exact ⟨by simp, hfe, fun _ => rfl, fun _ => rfl⟩
        · rw [if_neg h7]
          refine ⟨true, _, rfl, rfl, rfl, rfl, rfl, ?_, by simp⟩
          intro _
          refine ⟨⟨by simpa using hs, hfe, fun _ => rfl, fun _ => rfl⟩, ?_⟩
          simpa using h7
      · have hl : ¬ (r.buffer_ ++ r.file_.contents_.take (32768 - r.buffer_.length)).length
            < 32768 := by
          rw [List.length_append, List.length_take]; omega
        rw [if_neg hl]
        refine ⟨true, _, rfl, rfl, rfl, rfl, rfl, ?_, by simp⟩
        intro _
        refine ⟨⟨?_, hfe, ?_, ?_⟩, ?_⟩
        · simpa [List.append_assoc] using hs
        · intro h1; simp [he] at h1
        · intro h1; simp [hshort] at h1
        · show 4 + 3 ≤ (r.buffer_ ++ r.file_.contents_.take (32768 - r.buffer_.length)).length
          omega
  · rw [if_neg hlen]
    exact ⟨true, r, rfl, rfl, rfl, rfl, rfl, fun _ => ⟨⟨hs, hfe, heof, hrp⟩, by omega⟩, by simp⟩

theorem stream_split_lt {b R p s' : List Byte} (h : b ++ R = p ++ s')
    (hl : b.length < p.length) : p = b ++ R.take (p.length - b.length) ∧
      R.drop (p.length - b.length) = s' ∧ p.length - b.length ≤ R.length := by
  have h1 : p = (b ++ R).take p.length := by rw [h, List.take_left]
  have h2 : s' = (b ++ R).drop p.length := by rw [h, List.drop_left]
  have h3 : (b ++ R).length = (p ++ s').length := by rw [h]
  simp only [List.length_append] at h3
  refine ⟨?_, ?_, by omega⟩
  · rw [List.take_append_eq_append_take, List.take_of_length_le (Nat.le_of_lt hl)] at h1
    exact h1
  · rw [List.drop_append_eq_append_drop, List.drop_eq_nil_of_le (Nat.le_of_lt hl)] at h2
    simpa using h2.symm

theorem stream_split_le {b R p s' : List Byte} (h : b ++ R = p ++ s')
    (hl : p.length ≤ b.length) : b.take p.length = p ∧ b.drop p.length ++ R = s' := by
  have h1 : p = (b ++ R).take p.length := by rw [h, List.take_left]
  have h2 : s' = (b ++ R).drop p.length := by rw [h, List.drop_left]
  rw [List.take_append_of_le_length hl] at h1
  rw [List.drop_append_of_le_length hl] at h2
  exact ⟨h1.symm, h2.symm⟩

theorem headerLength_append (hdr b : List Byte) (h : hdr.length = 7) :
    headerLength (hdr ++ b) = headerLength hdr := by
  unfold headerLength
  rw [List.getD_append _ _ _ _ (by omega), List.getD_append _ _ _ _ (by omega),
    List.getD_append _ _ _ _ (by omega)]

theorem DecodeFixed32_append (hdr b : List Byte) (h : hdr.length = 7) :
    DecodeFixed32 (hdr ++ b) = DecodeFixed32 hdr := by
  unfold DecodeFixed32
  rw [List.getD_append _ _ _ _ (by omega), List.getD_append _ _ _ _ (by omega),
    List.getD_append _ _ _ _ (by omega), List.getD_append _ _ _ _ (by omega)]

theorem VReader.ReportDrop_fields (r : VReader) (n : Nat) (st : Status) :
    (r.ReportDrop n st).file_ = r.file_ ∧ (r.ReportDrop n st).checksum_ = r.checksum_ ∧
    (r.ReportDrop n st).buffer_ = r.buffer_ ∧ (r.ReportDrop n st).eof_ = r.eof_ ∧
    (r.ReportDrop n st).cleanPos_ = r.cleanPos_ := by
  unfold VReader.ReportDrop
  cases r.reporter_ <;> simp

theorem VReader.ReportCorruption_fields (r : VReader) (n : Nat) (m : String) :
    (r.ReportCorruption n m).file_ = r.file_ ∧
    (r.ReportCorruption n m).checksum_ = r.checksum_ ∧
    (r.ReportCorruption n m).buffer_ = r.buffer_ ∧ (r.ReportCorruption n m).eof_ = r.eof_ ∧
    (r.ReportCorruption n m).cleanPos_ = r.cleanPos_ :=
  r.ReportDrop_fields n (Status.Corruption m)

theorem VReader.ReportDrop_reporter_ (r : VReader) (n : Nat) (st : Status) :
    (r.ReportDrop n st).reporter_ = r.reporter_.map (fun calls => calls ++ [(n, st)]) := by
  unfold VReader.ReportDrop
  cases h : r.reporter_ <;> simp [h]

theorem VReader.ReportCorruption_reporter_ (r : VReader) (n : Nat) (m : String) :
    (r.ReportCorruption n m).reporter_
      = r.reporter_.map (fun calls => calls ++ [(n, Status.Corruption m)]) :=
  r.ReportDrop_reporter_ n (Status.Corruption m)

/-- `parse` on a reader whose stream starts with a complete frame `hdr ++ p`. -/
theorem VReader.parse_complete (r : VReader) (hdr p s' : List Byte)
    (h : r.AtStream (hdr ++ p ++ s')) (h7 : kVHeaderSize ≤ r.buffer_.length)
    (hh : hdr.length = 7) (hL : headerLength hdr = p.length) :
    ∃ sc r', r.parse = some
        (!(r.checksum_ && crc32c.Value p != crc32c.Unmask (DecodeFixed32 hdr)),
         (if (r.checksum_ && crc32c.Value p != crc32c.Unmask (DecodeFixed32 hdr)) = true
            then [] else p), sc, r') ∧
      r'.checksum_ = r.checksum_ ∧ r'.cleanPos_ = r.cleanPos_ ∧
      r'.file_.data = r.file_.data ∧
      ((r.checksum_ && crc32c.Value p != crc32c.Unmask (DecodeFixed32 hdr)) = true →
        r'.reporter_ = r.reporter_.map (fun calls => calls ++
          [(kVHeaderSize + p.length, Status.Corruption "checksum mismatch")])) ∧
      ((r.checksum_ && crc32c.Value p != crc32c.Unmask (DecodeFixed32 hdr)) = false →
        r'.reporter_ = r.reporter_ ∧ r'.AtStream s') := by
  obtain ⟨⟨R, data, fe, rp⟩, rep, ck, buf, eof, cp⟩ := r
  obtain ⟨hs, hfe, heof, hrp⟩ := h
  simp only [kVHeaderSize] at h7 hs hfe heof hrp ⊢
  -- the buffer starts with the header
  have hbuf : buf = hdr ++ buf.drop 7 := by
    have h1 : (buf ++ R).take 7 = hdr := by
      rw [hs, List.append_assoc, ← hh, List.take_left]
    rw [List.take_append_of_le_length h7] at h1
    conv_lhs => rw [← List.take_append_drop 7 buf, h1]
  generalize hb : buf.drop 7 = b at hbuf
  subst hbuf
  have hs' : b ++ R = p ++ s' := by
    simpa [List.append_assoc] using hs
  generalize hbad : (ck && crc32c.Value p != crc32c.Unmask (DecodeFixed32 hdr)) = bad
  unfold VReader.parse
  simp only [headerLength_append hdr b hh, DecodeFixed32_append hdr b hh, hL, kVHeaderSize,
    kBlockSize, List.length_append, hh]
  by_cases hfit : p.length ≤ b.length
  · -- the record is in the buffer
    obtain ⟨ht, hd⟩ := stream_split_le hs' hfit
    have e1 : p.length + (4 + 3) ≤ 7 + b.length := by omega
    have e2 : List.drop (4 + 3) (hdr ++ b) = b := by
      rw [show 4 + 3 = hdr.length from hh.symm, List.drop_left]
    have e3 : List.drop (4 + 3 + p.length) (hdr ++ b) = b.drop p.length := by
      rw [← List.drop_drop, e2]
    rw [if_pos e1, e2, e3, ht, hbad]
    cases bad with
    | true =>
      refine ⟨_, _, rfl, ?_, ?_, ?_, ?_, by simp⟩
      · exact (VReader.ReportCorruption_fields _ _ _).2.1
      · exact (VReader.ReportCorruption_fields _ _ _).2.2.2.2
      · rw [(VReader.ReportCorruption_fields _ _ _).1]
      · intro _; rw [VReader.ReportCorruption_reporter_]
    | false =>
      refine ⟨_, _, rfl, rfl, rfl, rfl, by simp, fun _ => ⟨rfl, hd, hfe, heof, hrp⟩⟩
  · -- the record continues in the file
    have hfit' : b.length < p.length := by omega
    obtain ⟨hp, hd, hle⟩ := stream_split_lt hs' hfit'
    have e1 : ¬ p.length + (4 + 3) ≤ 7 + b.length := by omega
    have e2 : List.drop (4 + 3) (hdr ++ b) = b := by
      rw [show 4 + 3 = hdr.length from hh.symm, List.drop_left]
    have he : eof = false := by
      cases eof with
      | false => rfl
      | true =>
        have := heof rfl
        subst this
        simp at hle; omega
    have hrp' : rp = false := by
      cases rp with
      | false => rfl
      | true => rw [hrp rfl] at he; exact absurd he (by decide)
    subst he hrp'
    subst hfe
    rw [if_neg e1, e2]
    simp only [Bool.false_eq_true, if_false, beq_iff_eq]
    generalize hn : p.length - b.length = n at hp hd hle
    by_cases hbig : n > 32768 / 2
    · rw [if_pos hbig, StringSource.Read_ok _ _ _ rfl rfl]
      have hlt : (List.take n R).length = n := by rw [List.length_take]; omega
      have hsc : b ++ List.take n R ++ List.replicate (n - n) 0 = p := by
        rw [Nat.sub_self]; simp [← hp]
      simp only [Status.ok, Bool.not_true, Bool.false_eq_true, if_false, hlt, Nat.lt_irrefl,
        hsc, List.take_length, hbad]
      cases bad with
      | true =>
        refine ⟨_, _, rfl, ?_, ?_, ?_, ?_, by simp⟩
        · exact (VReader.ReportCorruption_fields _ _ _).2.1
        · exact (VReader.ReportCorruption_fields _ _ _).2.2.2.2
        · rw [(VReader.ReportCorruption_fields _ _ _).1]
        · intro _; rw [VReader.ReportCorruption_reporter_]
      | false =>
        refine ⟨_, _, rfl, rfl, rfl, rfl, by simp, fun _ => ⟨rfl, ?_, rfl, ?_, ?_⟩⟩
        · simpa using hd
        · intro h1; simp at h1
        · intro h1; simp at h1; omega
    · rw [if_neg hbig, StringSource.Read_ok _ _ _ rfl rfl]
      have hn' : n ≤ 32768 := by omega
      have hlt : n ≤ (List.take 32768 R).length := by rw [List.length_take]; omega
      have hnot : ¬ ((List.take 32768 R).length < 32768 ∧ (List.take 32768 R).length < n) := by
        omega
      have htt : List.take n (List.take 32768 R) = List.take n R := by
        rw [List.take_take, Nat.min_eq_left hn']
      have hsc : b ++ List.take n (List.take 32768 R) = p := by rw [htt, ← hp]
      simp only [Status.ok, Bool.not_true, Bool.false_eq_true, if_false, Bool.and_eq_true,
        decide_eq_true_eq, hnot, hsc, List.take_length, hbad]
      have hrest : List.drop n (List.take 32768 R) ++ List.drop 32768 R = s' := by
        rw [← List.drop_append_of_le_length hlt, List.take_append_drop, hd]
      cases bad with
      | true =>
        refine ⟨_, _, rfl, ?_, ?_, ?_, ?_, by simp⟩
        · exact (VReader.ReportCorruption_fields _ _ _).2.1
        · exact (VReader.ReportCorruption_fields _ _ _).2.2.2.2
        · rw [(VReader.ReportCorruption_fields _ _ _).1]
        · intro _; rw [VReader.ReportCorruption_reporter_]
      | false =>
        refine ⟨_, _, rfl, rfl, rfl, rfl, by simp, fun _ => ⟨rfl, hrest, rfl, ?_, ?_⟩⟩
        · intro h1
          simp only [List.length_take] at h1
          apply List.drop_eq_nil_of_le
          by_contra hc
          simp at h1
          omega
        · intro h1
          simp only [List.length_take, decide_eq_true_eq] at h1 ⊢
          simp
          omega

theorem Status.ok_OK : Status.OK.ok = true := rfl

theorem VWriter.frame_eq (p : List Byte) :
    VWriter.frame p = EncodeFixed32 (crc32c.Mask (crc32c.Extend 0 p)) ++
      [toByte (p.length &&& 0xff), toByte (p.length >>> 8), toByte (p.length >>> 16)] ++ p := by
  unfold VWriter.frame VWriter.AddRecord StringDest.Append StringDest.Flush
  simp only [Status.ok_OK, if_true]
  rw [List.nil_append]

theorem VWriter.AddRecord_eq (w : VWriter) (p : List Byte) :
    w.AddRecord p = (Status.OK, ⟨⟨w.dest_.contents_ ++ VWriter.frame p⟩⟩) := by
  rw [VWriter.frame_eq]
  unfold VWriter.AddRecord StringDest.Append StringDest.Flush
  simp only [Status.ok_OK, if_true]
  rw [List.append_assoc]

theorem VWriter.AddRecord_empty (p : List Byte) :
    ((VWriter.mk ⟨[]⟩).AddRecord p).2.dest_.contents_ = VWriter.frame p := by
  unfold VWriter.frame
  rfl

theorem VWriter.frame_length (p : List Byte) : (VWriter.frame p).length = 7 + p.length := by
  rw [VWriter.frame_eq]
  simp only [EncodeFixed32, List.length_append, List.length_cons, List.length_nil]

theorem VWriter.AddRecords_eq (w : VWriter) (ps : List (List Byte)) :
    w.AddRecords ps = (true, ⟨⟨w.dest_.contents_ ++ (ps.map VWriter.frame).flatten⟩⟩) := by
  induction ps generalizing w with
  | nil => simp only [VWriter.AddRecords, List.map_nil, List.flatten_nil, List.append_nil]
  | cons p ps ih =>
    simp only [VWriter.AddRecords, VWriter.AddRecord_eq, ih, Status.ok_OK, Bool.and_self,
      List.map_cons, List.flatten_cons, List.append_assoc]

/-- A frame is a seven byte header followed by the payload; for a payload shorter
than `2 ^ 24` the header carries the length and the masked checksum of the payload. -/
theorem VWriter.frame_header (p : List Byte) (hp : p.length < 2 ^ 24) :
    ∃ hdr, VWriter.frame p = hdr ++ p ∧ hdr.length = 7 ∧ headerLength hdr = p.length ∧
      crc32c.Unmask (DecodeFixed32 hdr) = crc32c.Value p := by
  refine ⟨EncodeFixed32 (crc32c.Mask (crc32c.Extend 0 p)) ++
      [toByte (p.length &&& 0xff), toByte (p.length >>> 8), toByte (p.length >>> 16)],
    VWriter.frame_eq p, rfl, ?_, ?_⟩
  · have := headerLength_written (EncodeFixed32 (crc32c.Mask (crc32c.Extend 0 p)))
      rfl p.length hp []
    rw [List.append_nil] at this
    exact this
  · rw [DecodeFixed32_EncodeFixed32, Nat.mod_eq_of_lt (crc32c.Mask_lt _),
      crc32c.Unmask_Mask _ (crc32c.Extend_lt _ _)]
    rfl

/-- `ReadRecord` on a reader whose stream starts with a complete frame `hdr ++ p`. -/
theorem VReader.ReadRecord_complete (r : VReader) (hdr p s' : List Byte)
    (h : r.AtStream (hdr ++ p ++ s')) (hh : hdr.length = 7)
    (hL : headerLength hdr = p.length) :
    ∃ sc r', r.ReadRecord = some
        (!(r.checksum_ && crc32c.Value p != crc32c.Unmask (DecodeFixed32 hdr)),
         (if (r.checksum_ && crc32c.Value p != crc32c.Unmask (DecodeFixed32 hdr)) = true
            then [] else p), sc, r') ∧
      r'.checksum_ = r.checksum_ ∧ r'.cleanPos_ = r.cleanPos_ ∧
      r'.file_.data = r.file_.data ∧
      ((r.checksum_ && crc32c.Value p != crc32c.Unmask (DecodeFixed32 hdr)) = true →
        r'.reporter_ = r.reporter_.map (fun calls => calls ++
          [(kVHeaderSize + p.length, Status.Corruption "checksum mismatch")])) ∧
      ((r.checksum_ && crc32c.Value p != crc32c.Unmask (DecodeFixed32 hdr)) = false →
        r'.reporter_ = r.reporter_ ∧ r'.AtStream s') := by
  obtain ⟨b, r1, hr, hrep, hck, hcp, hdat, ht, hf⟩ := r.refill_spec _ h
  cases b with
  | false =>
    have := (hf rfl).1
    simp [kVHeaderSize, hh] at this
  | true =>
    obtain ⟨h1, h7⟩ := ht rfl
    obtain ⟨sc, r', hp, h2, h3, h4, h5, h6⟩ := r1.parse_complete hdr p s' h1 h7 hh hL
    refine ⟨sc, r', ?_, h2.trans hck, h3.trans hcp, h4.trans hdat, ?_, ?_⟩
    · unfold VReader.ReadRecord
      rw [hr]
      simp only [hp, hck]
    · rw [← hck, ← hrep]; exact h5
    · rw [← hck, ← hrep]; exact h6

/-- `ReadRecord` on a reader whose stream is shorter than a header: no record, no
report, and the reader is at the end of the file. -/
theorem VReader.ReadRecord_short (r : VReader) (s : List Byte) (h : r.AtStream s)
    (hs : s.length < kVHeaderSize) :
    ∃ r', r.ReadRecord = some (false, [], [], r') ∧ r'.reporter_ = r.reporter_ ∧
      r'.checksum_ = r.checksum_ ∧ r'.eof_ = true ∧ r'.AtStream r'.buffer_ ∧
      r'.buffer_.length < kVHeaderSize := by
  obtain ⟨b, r1, hr, hrep, hck, hcp, hdat, ht, hf⟩ := r.refill_spec _ h
  cases b with
  | true =>
    obtain ⟨⟨h1, _⟩, h7⟩ := ht rfl
    have : r1.buffer_.length ≤ s.length := by rw [← h1]; simp
    omega
  | false =>
    obtain ⟨_, h2, h3, h4⟩ := hf rfl
    refine ⟨r1, ?_, hrep, hck, h2, h3, h4⟩
    unfold VReader.ReadRecord
    rw [hr]

/-- `parse` on a reader whose stream is a header followed by fewer payload bytes
than the header announces: no record and no report. -/
theorem VReader.parse_truncated (r : VReader) (hdr q : List Byte)
    (h : r.AtStream (hdr ++ q)) (h7 : kVHeaderSize ≤ r.buffer_.length)
    (hh : hdr.length = 7) (hq : q.length < headerLength hdr) :
    ∃ r', r.parse = some (false, [], [], r') ∧ r'.reporter_ = r.reporter_ := by
  obtain ⟨⟨R, data, fe, rp⟩, rep, ck, buf, eof, cp⟩ := r
  obtain ⟨hs, hfe, heof, hrp⟩ := h
  simp only [kVHeaderSize] at h7 hs hfe heof hrp ⊢
  have hbuf : buf = hdr ++ buf.drop 7 := by
    have h1 : (buf ++ R).take 7 = hdr := by
      rw [hs, ← hh, List.take_left]
    rw [List.take_append_of_le_length h7] at h1
    conv_lhs => rw [← List.take_append_drop 7 buf, h1]
  generalize hb : buf.drop 7 = b at hbuf
  subst hbuf
  have hs' : b ++ R = q := by
    simpa [List.append_assoc] using hs
  have hlen : b.length + R.length = q.length := by rw [← hs', List.length_append]
  generalize hL : headerLength hdr = L at hq
  unfold VReader.parse
  simp only [headerLength_append hdr b hh, DecodeFixed32_append hdr b hh, hL, kVHeaderSize,
    kBlockSize, List.length_append, hh]
  have e1 : ¬ L + (4 + 3) ≤ 7 + b.length := by omega
  have e2 : List.drop (4 + 3) (hdr ++ b) = b := by
    rw [show 4 + 3 = hdr.length from hh.symm, List.drop_left]
  rw [if_neg e1, e2]
  cases eof with
  | true => exact ⟨_, rfl, rfl⟩
  | false =>
    have hrp' : rp = false := by
      cases rp with
      | false => rfl
      | true => exact absurd (hrp rfl) (by decide)
    subst hrp'
    subst hfe
    simp only [Bool.false_eq_true, if_false, beq_iff_eq]
    by_cases hbig : L - b.length > 32768 / 2
    · rw [if_pos hbig, StringSource.Read_ok _ _ _ rfl rfl]
      have hlt : (List.take (L - b.length) R).length < L - b.length := by
        rw [List.length_take]; omega
      simp only [Status.ok, Bool.not_true, Bool.false_eq_true, if_false, hlt, if_true]
      exact ⟨_, rfl, rfl⟩
    · rw [if_neg hbig, StringSource.Read_ok _ _ _ rfl rfl]
      have hlt : (List.take 32768 R).length < 32768 ∧
          (List.take 32768 R).length < L - b.length := by
        rw [List.length_take]; omega
      simp only [Status.ok, Bool.not_true, Bool.false_eq_true, if_false, Bool.and_eq_true,
        decide_eq_true_eq, hlt, and_self, if_true]
      exact ⟨_, rfl, rfl⟩

/-- `ReadRecord` on a reader whose stream is a header followed by fewer payload
bytes than the header announces. -/
theorem VReader.ReadRecord_truncated (r : VReader) (hdr q : List Byte)
    (h : r.AtStream (hdr ++ q)) (hh : hdr.length = 7) (hq : q.length < headerLength hdr) :
    ∃ r', r.ReadRecord = some (false, [], [], r') ∧ r'.reporter_ = r.reporter_ := by
  obtain ⟨b, r1, hr, hrep, hck, hcp, hdat, ht, hf⟩ := r.refill_spec _ h
  cases b with
  | false =>
    have := (hf rfl).1
    simp [kVHeaderSize, hh] at this
  | true =>
    obtain ⟨h1, h7⟩ := ht rfl
    obtain ⟨r', hp, h2⟩ := r1.parse_truncated hdr q h1 h7 hh hq
    refine ⟨r', ?_, h2.trans hrep⟩
    unfold VReader.ReadRecord
    rw [hr]
    simp only [hp]

/-- A reader constructed at offset 0 on a freshly opened source is at the start of
the file. -/
theorem VReader.new_AtStream (data : List Byte) (rep : Option Reporter) (ck : Bool) :
    (VReader.new (StringSource.open_ data) rep ck 0).AtStream data := by
  unfold VReader.new VReader.AtStream StringSource.open_
  simp

theorem VReader.new_reporter_ (data : List Byte) (rep : Option Reporter) (ck : Bool) :
    (VReader.new (StringSource.open_ data) rep ck 0).reporter_ = rep := by
  unfold VReader.new
  simp

theorem VReader.new_checksum_ (data : List Byte) (rep : Option Reporter) (ck : Bool) :
    (VReader.new (StringSource.open_ data) rep ck 0).checksum_ = ck := by
  unfold VReader.new
  simp

/-- Reading back a stream of frames: every payload in order, then no record. -/
theorem VReader.ReadRecords_frames (ps : List (List Byte))
    (h : ∀ p ∈ ps, p.length < 2 ^ 24) (r : VReader)
    (hr : r.AtStream (ps.map VWriter.frame).flatten) :
    ∃ r', r.ReadRecords (ps.length + 1)
        = some (ps.map (fun p => (true, p)) ++ [(false, [])], r') ∧
      r'.reporter_ = r.reporter_ := by
  induction ps generalizing r with
  | nil =>
    obtain ⟨r', h1, h2, _⟩ := r.ReadRecord_short [] hr (by simp [kVHeaderSize])
    refine ⟨r', ?_, h2⟩
    simp only [List.length_nil, Nat.zero_add, VReader.ReadRecords, h1, List.map_nil,
      List.nil_append]
  | cons p ps ih =>
    have hp : p.length < 2 ^ 24 := h p (List.mem_cons_self _ _)
    obtain ⟨hdr, hf, hh, hL, hcrc⟩ := VWriter.frame_header p hp
    have hr' : r.AtStream (hdr ++ p ++ (ps.map VWriter.frame).flatten) := by
      rw [← hf]; simpa using hr
    obtain ⟨sc, r1, h1, _, _, _, _, h6⟩ := r.ReadRecord_complete hdr p _ hr' hh hL
    have hbad : (r.checksum_ && crc32c.Value p != crc32c.Unmask (DecodeFixed32 hdr)) = false := by
      rw [hcrc]; simp
    rw [hbad] at h1
    obtain ⟨hrep, hat⟩ := h6 hbad
    obtain ⟨r', h2, h3⟩ := ih (fun q hq => h q (List.mem_cons_of_mem _ hq)) r1 hat
    refine ⟨r', ?_, h3.trans hrep⟩
    rw [List.length_cons, VReader.ReadRecords, h1]
    simp only [Bool.not_false, Bool.false_eq_true, if_false, h2, List.map_cons,
      List.cons_append]

/-- C1. Sequential round trip: when the payloads `ps`, each shorter than `2 ^ 24`
bytes, are written in order by `AddRecord` to an empty file, every append succeeds,
and on a fresh checksum-verifying reader opened on the file at offset 0 the first
`ps.length` calls of `ReadRecord` return exactly the payloads in order, the next
call returns no record, and the reporter has received no call. -/
theorem C1_sequential_round_trip (ps : List (List Byte))
    (h : ∀ p ∈ ps, p.length < 2 ^ 24) :
    ((VWriter.mk ⟨[]⟩).AddRecords ps).1 = true ∧
    ∃ r', (VReader.new (StringSource.open_
          ((VWriter.mk ⟨[]⟩).AddRecords ps).2.dest_.contents_) (some []) true 0).ReadRecords
        (ps.length + 1) = some (ps.map (fun p => (true, p)) ++ [(false, [])], r') ∧
      r'.reporter_ = some [] := by
  rw [VWriter.AddRecords_eq]
  refine ⟨rfl, ?_⟩
  obtain ⟨r', h1, h2⟩ := VReader.ReadRecords_frames ps h _
    (VReader.new_AtStream ([] ++ (ps.map VWriter.frame).flatten) (some []) true)
  exact ⟨r', h1, h2.trans (VReader.new_reporter_ _ _ _)⟩

theorem C1_sequential_round_trip_witness :
    (∀ p ∈ [[102, 111, 111], [], [120, 120, 120, 120]], (p : List Byte).length < 2 ^ 24) ∧
    (((VWriter.mk ⟨[]⟩).AddRecords [[102, 111, 111], [], [120, 120, 120, 120]]).1 = true ∧
    ∃ r', (VReader.new (StringSource.open_
          ((VWriter.mk ⟨[]⟩).AddRecords
            [[102, 111, 111], [], [120, 120, 120, 120]]).2.dest_.contents_)
          (some []) true 0).ReadRecords
        ([[102, 111, 111], [], [120, 120, 120, 120]].length + 1)
        = some ([[102, 111, 111], [], [120, 120, 120, 120]].map (fun p => (true, p))
            ++ [(false, [])], r') ∧
      r'.reporter_ = some []) :=
  ⟨by decide, C1_sequential_round_trip _ (by decide)⟩

/-- C2. Frame layout and size: for a payload `p` shorter than `2 ^ 24` bytes there
are four bytes `crc`, the little-endian masked CRC32C of `p`, and three bytes `len`,
the little-endian encoding of the length of `p`, such that on every writer, whatever
its file holds, `AddRecord p` returns ok and appends exactly `crc ++ len ++ p`,
that is `7 + p.length` bytes. -/
theorem C2_frame_layout (p : List Byte) (hp : p.length < 2 ^ 24) :
    ∃ crc len : List Byte, crc.length = 4 ∧ littleEndian crc = crc32c.Mask (crc32c.Value p) ∧
      len.length = 3 ∧ littleEndian len = p.length ∧
      ∀ w : VWriter, w.AddRecord p = (Status.OK, ⟨⟨w.dest_.contents_ ++ (crc ++ len ++ p)⟩⟩) ∧
        (w.AddRecord p).2.dest_.contents_.length = w.dest_.contents_.length + (7 + p.length) := by
  refine ⟨EncodeFixed32 (crc32c.Mask (crc32c.Extend 0 p)),
    [toByte (p.length &&& 0xff), toByte (p.length >>> 8), toByte (p.length >>> 16)],
    rfl, littleEndian_EncodeFixed32 _ (crc32c.Mask_lt _), rfl, ?_, ?_⟩
  · simp only [littleEndian, toByte_val, and_ff, Nat.shiftRight_eq_div_pow]
    omega
  · intro w
    rw [VWriter.AddRecord_eq, VWriter.frame_eq]
    refine ⟨rfl, ?_⟩
    simp only [EncodeFixed32, List.length_append, List.length_cons, List.length_nil]

theorem C2_frame_layout_witness :
    ([102, 111, 111] : List Byte).length < 2 ^ 24 ∧
    ∃ crc len : List Byte, crc.length = 4 ∧
      littleEndian crc = crc32c.Mask (crc32c.Value [102, 111, 111]) ∧
      len.length = 3 ∧ littleEndian len = ([102, 111, 111] : List Byte).length ∧
      ∀ w : VWriter, w.AddRecord [102, 111, 111]
          = (Status.OK, ⟨⟨w.dest_.contents_ ++ (crc ++ len ++ [102, 111, 111])⟩⟩) ∧
        (w.AddRecord [102, 111, 111]).2.dest_.contents_.length
          = w.dest_.contents_.length + (7 + ([102, 111, 111] : List Byte).length) :=
  ⟨by decide, C2_frame_layout _ (by decide)⟩

/-- C3, as the code behaves: `AddRecord` has no size check. For a payload `p` of
`2 ^ 24` bytes or more it returns ok and appends `7 + p.length` bytes: the four
bytes of the masked CRC32C of `p`, three length bytes that encode
`p.length % 2 ^ 24` (which is not the length of `p`), then `p`. -/
theorem C3_oversized_not_rejected (w : VWriter) (p : List Byte) (hp : 2 ^ 24 ≤ p.length) :
    ∃ crc len : List Byte, crc.length = 4 ∧ littleEndian crc = crc32c.Mask (crc32c.Value p) ∧
      len.length = 3 ∧ littleEndian len = p.length % 2 ^ 24 ∧ littleEndian len ≠ p.length ∧
      w.AddRecord p = (Status.OK, ⟨⟨w.dest_.contents_ ++ (crc ++ len ++ p)⟩⟩) ∧
      (w.AddRecord p).2.dest_.contents_.length = w.dest_.contents_.length + (7 + p.length) := by
  refine ⟨EncodeFixed32 (crc32c.Mask (crc32c.Extend 0 p)),
    [toByte (p.length &&& 0xff), toByte (p.length >>> 8), toByte (p.length >>> 16)],
    rfl, littleEndian_EncodeFixed32 _ (crc32c.Mask_lt _), rfl, ?_, ?_, ?_⟩
  · simp only [littleEndian, toByte_val, and_ff, Nat.shiftRight_eq_div_pow]
    omega
  · simp only [littleEndian, toByte_val, and_ff, Nat.shiftRight_eq_div_pow]
    omega
  · rw [VWriter.AddRecord_eq, VWriter.frame_eq]
    refine ⟨rfl, ?_⟩
    simp only [EncodeFixed32, List.length_append, List.length_cons, List.length_nil]

theorem C3_oversized_not_rejected_witness :
    2 ^ 24 ≤ (List.replicate 16777216 (0 : Byte)).length ∧
    ∃ crc len : List Byte, crc.length = 4 ∧
      littleEndian crc = crc32c.Mask (crc32c.Value (List.replicate 16777216 (0 : Byte))) ∧
      len.length = 3 ∧
      littleEndian len = (List.replicate 16777216 (0 : Byte)).length % 2 ^ 24 ∧
      littleEndian len ≠ (List.replicate 16777216 (0 : Byte)).length ∧
      (VWriter.mk ⟨[]⟩).AddRecord (List.replicate 16777216 (0 : Byte))
        = (Status.OK, ⟨⟨(VWriter.mk ⟨[]⟩).dest_.contents_ ++
            (crc ++ len ++ List.replicate 16777216 (0 : Byte))⟩⟩) ∧
      ((VWriter.mk ⟨[]⟩).AddRecord (List.replicate 16777216 (0 : Byte))).2.dest_.contents_.length
        = (VWriter.mk ⟨[]⟩).dest_.contents_.length
          + (7 + (List.replicate 16777216 (0 : Byte)).length) :=
  ⟨Nat.le_of_eq (List.length_replicate _ _).symm,
   C3_oversized_not_rejected _ _ (Nat.le_of_eq (List.length_replicate _ _).symm)⟩

/-- C3 fails as stated: a payload of exactly `2 ^ 24` bytes is accepted by
`AddRecord`, which returns ok and leaves a file of `7 + 2 ^ 24` bytes. -/
theorem C3_counterexample :
    2 ^ 24 ≤ (List.replicate 16777216 (0 : Byte)).length ∧
    ((VWriter.mk ⟨[]⟩).AddRecord (List.replicate 16777216 (0 : Byte))).1.ok = true ∧
    ((VWriter.mk ⟨[]⟩).AddRecord (List.replicate 16777216 (0 : Byte))).2.dest_.contents_.length
      = 16777223 := by
  refine ⟨Nat.le_of_eq (List.length_replicate _ _).symm, ?_, ?_⟩
  · rw [VWriter.AddRecord_eq]; rfl
  · rw [VWriter.AddRecord_empty, VWriter.frame_length, List.length_replicate]

/-- C4. Truncation tolerance: when the file is the single frame written by
`AddRecord p`, `p` shorter than `2 ^ 24` bytes, without its last `k` bytes,
`1 ≤ k ≤ p.length + 6`, the first `ReadRecord` of a fresh checksum-verifying reader
returns no record (empty `*record` and `*scratch`) and the reporter has received
no call. -/
theorem C4_truncation_tolerance (p : List Byte) (hp : p.length < 2 ^ 24) (k : Nat)
    (hk1 : 1 ≤ k) (hk2 : k ≤ p.length + 6) :
    ∃ r', (VReader.new (StringSource.open_
          (((VWriter.mk ⟨[]⟩).AddRecord p).2.dest_.contents_.take
            (((VWriter.mk ⟨[]⟩).AddRecord p).2.dest_.contents_.length - k)))
          (some []) true 0).ReadRecord = some (false, [], [], r') ∧
      r'.reporter_ = some [] := by
  rw [VWriter.AddRecord_empty, VWriter.frame_length]
  obtain ⟨hdr, hf, hh, hL, _⟩ := VWriter.frame_header p hp
  rw [hf]
  have hat := VReader.new_AtStream ((hdr ++ p).take (7 + p.length - k)) (some []) true
  have hrep := VReader.new_reporter_ ((hdr ++ p).take (7 + p.length - k)) (some []) true
  by_cases hshort : 7 + p.length - k < 7
  · obtain ⟨r', h1, h2, _⟩ := VReader.ReadRecord_short _ _ hat
      (by rw [List.length_take]; simp only [kVHeaderSize]; omega)
    exact ⟨r', h1, h2.trans hrep⟩
  · have hsplit : (hdr ++ p).take (7 + p.length - k) = hdr ++ p.take (p.length - k) := by
      rw [List.take_append_eq_append_take, hh,
        List.take_of_length_le (by omega : hdr.length ≤ 7 + p.length - k)]
      congr 2
      omega
    rw [hsplit] at hat hrep ⊢
    obtain ⟨r', h1, h2⟩ := VReader.ReadRecord_truncated _ hdr _ hat hh
      (by rw [hL, List.length_take]; omega)
    exact ⟨r', h1, h2.trans hrep⟩

theorem C4_truncation_tolerance_witness :
    ([102, 111, 111] : List Byte).length < 2 ^ 24 ∧ 1 ≤ 4 ∧
    4 ≤ ([102, 111, 111] : List Byte).length + 6 ∧
    ∃ r', (VReader.new (StringSource.open_
          (((VWriter.mk ⟨[]⟩).AddRecord [102, 111, 111]).2.dest_.contents_.take
            (((VWriter.mk ⟨[]⟩).AddRecord [102, 111, 111]).2.dest_.contents_.length - 4)))
          (some []) true 0).ReadRecord = some (false, [], [], r') ∧
      r'.reporter_ = some [] :=
  ⟨by decide, by decide, by decide,
   C4_truncation_tolerance _ (by decide) 4 (by decide) (by decide)⟩

/-- C5. Checksum detection: when the bytes a checksum-verifying reader has not
returned yet start with a complete frame (a seven byte header `hdr` whose length
field is `L = payload.length`, followed by `payload`) and the stored CRC, once
unmasked, differs from the CRC32C of `payload`, `ReadRecord` returns no record and
the reporter receives exactly one call, `Corruption("checksum mismatch")` with
`7 + L` bytes. The buffered part of the reader is arbitrary, so the frame may lie
in the block buffer or straddle it. -/
theorem C5_checksum_detection (r : VReader) (hdr payload rest : List Byte)
    (h : r.AtStream (hdr ++ payload ++ rest)) (hck : r.checksum_ = true)
    (hh : hdr.length = 7) (hL : headerLength hdr = payload.length)
    (hcrc : crc32c.Unmask (DecodeFixed32 hdr) ≠ crc32c.Value payload) :
    ∃ sc r', r.ReadRecord = some (false, [], sc, r') ∧
      r'.reporter_ = r.reporter_.map (fun calls => calls ++
        [(7 + payload.length, Status.Corruption "checksum mismatch")]) := by
  obtain ⟨sc, r', h1, _, _, _, h5, _⟩ := r.ReadRecord_complete hdr payload rest h hh hL
  have hbad : (r.checksum_ && crc32c.Value payload != crc32c.Unmask (DecodeFixed32 hdr))
      = true := by
    rw [hck]
    simp only [Bool.true_and, bne_iff_ne, ne_eq]
    exact fun e => hcrc e.symm
  rw [hbad] at h1
  exact ⟨sc, r', by simpa using h1, h5 hbad⟩

theorem C5_checksum_detection_witness :
    (VReader.new (StringSource.open_ [0, 0, 0, 0, 3, 0, 0, 102, 111, 111, 9]) (some [])
        true 0).AtStream ([0, 0, 0, 0, 3, 0, 0] ++ [102, 111, 111] ++ [9]) ∧
    (VReader.new (StringSource.open_ [0, 0, 0, 0, 3, 0, 0, 102, 111, 111, 9]) (some [])
        true 0).checksum_ = true ∧
    ([0, 0, 0, 0, 3, 0, 0] : List Byte).length = 7 ∧
    headerLength [0, 0, 0, 0, 3, 0, 0] = ([102, 111, 111] : List Byte).length ∧
    crc32c.Unmask (DecodeFixed32 [0, 0, 0, 0, 3, 0, 0]) ≠ crc32c.Value [102, 111, 111] ∧
    ∃ sc r', (VReader.new (StringSource.open_ [0, 0, 0, 0, 3, 0, 0, 102, 111, 111, 9])
        (some []) true 0).ReadRecord = some (false, [], sc, r') ∧
      r'.reporter_ = (VReader.new (StringSource.open_
          [0, 0, 0, 0, 3, 0, 0, 102, 111, 111, 9]) (some []) true 0).reporter_.map
        (fun calls => calls ++
          [(7 + ([102, 111, 111] : List Byte).length,
            Status.Corruption "checksum mismatch")]) :=
  ⟨by decide, by decide, by decide, by decide, by decide,
   C5_checksum_detection _ [0, 0, 0, 0, 3, 0, 0] [102, 111, 111] [9]
     (by decide) (by decide) (by decide) (by decide) (by decide)⟩

theorem StringSource.Read_mk (c d : List Byte) (n : Nat) (res : List Byte) :
    (StringSource.mk c d false false).Read n res
      = some (Status.OK, c.take n, ⟨c.drop n, d, false, decide (c.length < n)⟩) :=
  StringSource.Read_ok _ _ _ rfl rfl

/-- The path of `ReadRecord` through lines 158 to 172: the buffer is empty, the
file holds a header, the 32761 payload bytes that fill the block buffer, and a tail
`T` shorter than the rest of the payload, which is at most half a block. No record
is returned, the end-of-file flag is set, and the bytes of `T` stay in the buffer. -/
theorem VReader.ReadRecord_leaves_tail (r : VReader) (hdr P T : List Byte)
    (hb : r.buffer_ = []) (he : r.eof_ = false) (hrp : r.file_.returned_partial_ = false)
    (hfe : r.file_.force_error_ = false) (hc : r.file_.contents_ = hdr ++ P ++ T)
    (hh : hdr.length = 7) (hP : P.length = 32761)
    (hT : T.length < headerLength hdr - 32761) (hL : headerLength hdr - 32761 ≤ 16384) :
    ∃ r1, r.ReadRecord = some (false, [], [], r1) ∧ r1.buffer_ = T ∧ r1.eof_ = true ∧
      r1.checksum_ = r.checksum_ ∧ r1.reporter_ = r.reporter_ := by
  obtain ⟨⟨R, data, fe, rp⟩, rep, ck, buf, eof, cp⟩ := r
  simp only at hb he hrp hfe hc
  subst hb he hrp hfe hc
  have ht : List.take 32768 (hdr ++ P ++ T) = hdr ++ P :=
    List.take_left' (by rw [List.length_append, hh, hP])
  have hd : List.drop 32768 (hdr ++ P ++ T) = T := by
    rw [List.drop_left' (by rw [List.length_append, hh, hP])]
  have hl : (hdr ++ P).length = 32768 := by rw [List.length_append, hh, hP]
  have hrefill : VReader.refill ⟨⟨hdr ++ P ++ T, data, false, false⟩, rep, ck, [], false, cp⟩
      = some (true, ⟨⟨T, data, false, false⟩, rep, ck, hdr ++ P, false, cp⟩) := by
    unfold VReader.refill
    simp only [List.length_nil, kVHeaderSize, kBlockSize, Nat.lt_irrefl, if_false,
      Bool.not_false, if_true, Nat.sub_zero, StringSource.Read_mk, ht, hd,
      Status.ok, Bool.not_true, Bool.false_eq_true, hl, show (0 : Nat) < 4 + 3 by decide,
      show ¬ ((hdr ++ P ++ T).length < 32768) by
        rw [List.length_append, hl]; omega, decide_False]
  have hparse : VReader.parse ⟨⟨T, data, false, false⟩, rep, ck, hdr ++ P, false, cp⟩
      = some (false, [], [], ⟨⟨[], data, false, decide (T.length < 32768)⟩, rep, ck, T,
          true, cp⟩) := by
    unfold VReader.parse
    have e1 : ¬ headerLength hdr + 7 ≤ 32768 := by omega
    have e2 : List.drop 7 (hdr ++ P) = P := by rw [← hh, List.drop_left]
    have e3 : ¬ headerLength hdr - 32761 > 16384 := by omega
    have e4 : T.length < 32768 ∧ T.length < headerLength hdr - 32761 := by omega
    simp only [headerLength_append hdr P hh, kVHeaderSize, kBlockSize, hl, e1, if_false, e2, hP,
      Nat.reduceDiv, e3, StringSource.Read_mk, Status.ok, Bool.not_true,
      Bool.false_eq_true, List.take_of_length_le (Nat.le_of_lt e4.1),
      List.drop_eq_nil_of_le (Nat.le_of_lt e4.1), Bool.and_eq_true, decide_eq_true_eq, e4,
      and_self, if_true, beq_iff_eq]
  refine ⟨⟨⟨[], data, false, decide (T.length < 32768)⟩, rep, ck, T, true, cp⟩, ?_,
    rfl, rfl, rfl, rfl⟩
  unfold VReader.ReadRecord
  rw [hrefill]
  exact hparse

/-- `ReadRecord` on a reader whose buffer holds exactly seven zero bytes: they are
parsed as the header of an empty record with stored checksum 0. -/
theorem VReader.ReadRecord_zero_header (r : VReader) (hb : r.buffer_ = [0, 0, 0, 0, 0, 0, 0]) :
    (r.checksum_ = true → ∃ r2, r.ReadRecord = some (false, [], [], r2) ∧
      r2.reporter_ = r.reporter_.map
        (fun calls => calls ++ [(7, Status.Corruption "checksum mismatch")])) ∧
    (r.checksum_ = false → ∃ r2, r.ReadRecord = some (true, [], [], r2)) := by
  obtain ⟨f, rep, ck, buf, eof, cp⟩ := r
  simp only at hb
  subst hb
  have hrefill : VReader.refill ⟨f, rep, ck, [0, 0, 0, 0, 0, 0, 0], eof, cp⟩
      = some (true, ⟨f, rep, ck, [0, 0, 0, 0, 0, 0, 0], eof, cp⟩) := by
    unfold VReader.refill
    simp [kVHeaderSize]
  have hlen : headerLength [0, 0, 0, 0, 0, 0, 0] = 0 := by decide
  have hcrc : (crc32c.Value [] != crc32c.Unmask (DecodeFixed32 [0, 0, 0, 0, 0, 0, 0])) = true := by
    decide
  constructor
  · intro hck
    simp only at hck
    subst hck
    have hrr : VReader.ReadRecord ⟨f, rep, true, [0, 0, 0, 0, 0, 0, 0], eof, cp⟩
        = some (false, [], [], VReader.ReportCorruption
            ⟨f, rep, true, [0, 0, 0, 0, 0, 0, 0], eof, cp⟩ 7 "checksum mismatch") := by
      unfold VReader.ReadRecord
      rw [hrefill]
      unfold VReader.parse
      simp only [hlen, kVHeaderSize, List.length_cons, List.length_nil, List.take_zero, hcrc,
        Bool.and_self, if_true, Nat.zero_add, Nat.add_zero, Nat.le_refl]
    exact ⟨_, hrr, VReader.ReportCorruption_reporter_ _ _ _⟩
  · intro hck
    simp only at hck
    subst hck
    have hrr : VReader.ReadRecord ⟨f, rep, false, [0, 0, 0, 0, 0, 0, 0], eof, cp⟩
        = some (true, [], [], ⟨f, rep, false, [], eof, cp⟩) := by
      unfold VReader.ReadRecord
      rw [hrefill]
      unfold VReader.parse
      simp only [hlen, kVHeaderSize, List.length_cons, List.length_nil, List.take_zero,
        Bool.false_and, Bool.false_eq_true, if_false, Nat.zero_add, Nat.add_zero, Nat.le_refl,
        if_true, List.drop_succ_cons, List.drop_zero]
    exact ⟨_, hrr⟩

/-- C6, evaluated on a failing input. The file is the frame of a payload of 32861
zero bytes without its last 93 bytes (32775 bytes). On a fresh reader the first
`ReadRecord` returns no record because the end of the file was reached, and sets
the end-of-file flag. With checksum verification the second call reports
`Corruption("checksum mismatch")` with 7 dropped bytes; without it the second call
returns true, a record that was never written. -/
theorem C6_eof_not_idempotent :
    (∃ r1 r2, (VReader.new (StringSource.open_
          ((VWriter.frame (List.replicate 32861 0)).take 32775)) (some []) true 0).ReadRecord
        = some (false, [], [], r1) ∧ r1.eof_ = true ∧
      r1.ReadRecord = some (false, [], [], r2) ∧
      r2.reporter_ = some [(7, Status.Corruption "checksum mismatch")]) ∧
    (∃ r1 r2, (VReader.new (StringSource.open_
          ((VWriter.frame (List.replicate 32861 0)).take 32775)) (some []) false 0).ReadRecord
        = some (false, [], [], r1) ∧ r1.eof_ = true ∧
      r1.ReadRecord = some (true, [], [], r2)) := by
  obtain ⟨hdr, hf, hh, hL, _⟩ := VWriter.frame_header (List.replicate 32861 0)
    (by rw [List.length_replicate]; decide)
  rw [List.length_replicate] at hL
  have hfile : (VWriter.frame (List.replicate 32861 0)).take 32775
      = hdr ++ List.replicate 32761 0 ++ [0, 0, 0, 0, 0, 0, 0] := by
    have h7 : List.replicate 7 (0 : Byte) = [0, 0, 0, 0, 0, 0, 0] := rfl
    have hm : (32775 - 7) ⊓ 32861 = 32761 + 7 := by decide
    rw [hf, List.take_append_eq_append_take, hh,
      List.take_of_length_le (by rw [hh]; decide), List.take_replicate, List.append_assoc,
      hm, List.replicate_add, h7]
  rw [hfile]
  have step1 : ∀ ck : Bool, ∃ r1, (VReader.new (StringSource.open_
      (hdr ++ List.replicate 32761 0 ++ [0, 0, 0, 0, 0, 0, 0])) (some []) ck 0).ReadRecord
      = some (false, [], [], r1) ∧ r1.buffer_ = [0, 0, 0, 0, 0, 0, 0] ∧ r1.eof_ = true ∧
      r1.checksum_ = ck ∧ r1.reporter_ = some [] := by
    intro ck
    exact VReader.ReadRecord_leaves_tail _ hdr (List.replicate 32761 0) [0, 0, 0, 0, 0, 0, 0]
      rfl rfl rfl rfl rfl hh (List.length_replicate _ _) (by rw [hL]; decide)
      (by rw [hL]; decide)
  constructor
  · obtain ⟨r1, h1, hb, he, hck, hrep⟩ := step1 true
    obtain ⟨r2, h2, h3⟩ := (r1.ReadRecord_zero_header hb).1 hck
    refine ⟨r1, r2, h1, he, h2, ?_⟩
    rw [h3, hrep]
    rfl
  · obtain ⟨r1, h1, hb, he, hck, _⟩ := step1 false
    obtain ⟨r2, h2⟩ := (r1.ReadRecord_zero_header hb).2 hck
    exact ⟨r1, r2, h1, he, h2⟩

theorem VReader.SkipToPos_inside (r : VReader) (pos : Nat) (h0 : 0 < pos)
    (h1 : pos ≤ r.file_.data.length) :
    r.SkipToPos pos
      = (true, { r with file_ := { r.file_ with contents_ := r.file_.data.drop pos } }) := by
  unfold VReader.SkipToPos StringSource.SkipFromHead
  simp only [if_pos h0, if_neg (Nat.not_lt.mpr h1), Status.ok, Bool.not_true, Bool.false_eq_true,
    if_false]

theorem VReader.SkipToPos_past (r : VReader) (pos : Nat) (h1 : r.file_.data.length < pos) :
    (r.SkipToPos pos).1 = false := by
  unfold VReader.SkipToPos StringSource.SkipFromHead
  simp only [if_pos (show pos > 0 by omega), if_pos (show pos > r.file_.data.length from h1),
    Status.ok, Bool.not_false, if_true]

/-- `Read` at an offset `pos > 0` inside the file, with `size` bytes available. -/
theorem VReader.Read_inside (r : VReader) (size pos : Nat) (h0 : 0 < pos)
    (h1 : pos + size ≤ r.file_.data.length) (hfe : r.file_.force_error_ = false)
    (hrp : r.file_.returned_partial_ = false) :
    ∃ r', r.Read size pos = some (true, (r.file_.data.drop pos).take size, r') ∧
      r'.file_.data = r.file_.data ∧ r'.file_.force_error_ = false ∧
      r'.file_.returned_partial_ = false ∧ r'.buffer_ = r.buffer_ ∧ r'.eof_ = r.eof_ ∧
      r'.reporter_ = r.reporter_ ∧ r'.file_.contents_ = r.file_.data.drop (pos + size) := by
  simp only [VReader.Read]
  rw [VReader.SkipToPos_inside r pos h0 (by omega)]
  simp only [Bool.not_true, Bool.false_eq_true, if_false]
  rw [StringSource.Read_ok _ _ _ (by exact hrp) (by exact hfe)]
  have hl : ((r.file_.data.drop pos).take size).length = size := by
    rw [List.length_take, List.length_drop]; omega
  have hd : ¬ (r.file_.data.drop pos).length < size := by
    rw [List.length_drop]; omega
  simp only [Status.ok, Bool.not_true, hl, bne_self_eq_false, Bool.or_self, Bool.false_eq_true,
    if_false, hd, decide_False, List.drop_drop]
  exact ⟨_, rfl, rfl, hfe, rfl, rfl, rfl, rfl, by rw [Nat.add_comm]⟩

/-- C7. Random reads at payload offsets: when the payloads `ps`, each shorter than
`2 ^ 24` bytes, were appended in order by `AddRecord` to an empty file, then for
every index `i` and every reader on that file (whatever its buffer, flags and file
position; the file has not run past its end and has no forced error), `Read` with
the size of `ps[i]` at the offset "file size before the `i`-th append, plus 7"
returns true and delivers exactly `ps[i]`. The reader reached is again such a
reader, so the statement applies after any sequence of such reads. -/
theorem C7_random_read (ps : List (List Byte)) (h : ∀ p ∈ ps, p.length < 2 ^ 24) (i : Nat)
    (hi : i < ps.length) (r : VReader)
    (hdata : r.file_.data = ((VWriter.mk ⟨[]⟩).AddRecords ps).2.dest_.contents_)
    (hfe : r.file_.force_error_ = false) (hrp : r.file_.returned_partial_ = false) :
    ∃ r', r.Read (ps[i]).length
        (((VWriter.mk ⟨[]⟩).AddRecords (ps.take i)).2.dest_.contents_.length + 7)
        = some (true, ps[i], r') ∧
      r'.file_.data = r.file_.data ∧ r'.file_.force_error_ = false ∧
      r'.file_.returned_partial_ = false := by
  rw [VWriter.AddRecords_eq] at hdata ⊢
  simp only [List.nil_append] at hdata ⊢
  obtain ⟨hdr, hf, hh, _, _⟩ := VWriter.frame_header ps[i] (h _ (List.getElem_mem _))
  have hsplit : (ps.map VWriter.frame).flatten
      = ((ps.take i).map VWriter.frame).flatten ++ (hdr ++ (ps[i] ++
          ((ps.drop (i + 1)).map VWriter.frame).flatten)) := by
    conv_lhs => rw [← List.take_append_drop i ps, List.drop_eq_getElem_cons hi]
    simp only [List.map_append, List.map_cons, List.flatten_append, List.flatten_cons, hf,
      List.append_assoc]
  generalize ((ps.take i).map VWriter.frame).flatten = A at hsplit ⊢
  generalize ((ps.drop (i + 1)).map VWriter.frame).flatten = B at hsplit
  rw [hsplit] at hdata
  have hlen : A.length + 7 + (ps[i]).length ≤ r.file_.data.length := by
    rw [hdata]; simp only [List.length_append, hh]; omega
  obtain ⟨r', h1, h2, h3, h4, _⟩ :=
    r.Read_inside (ps[i]).length (A.length + 7) (by omega) hlen hfe hrp
  refine ⟨r', ?_, h2, h3, h4⟩
  rw [h1, hdata]
  have hd : (A ++ (hdr ++ (ps[i] ++ B))).drop (A.length + 7) = ps[i] ++ B := by
    rw [← List.drop_drop, List.drop_left, ← hh, List.drop_left]
  rw [hd, List.take_left]

theorem C7_random_read_witness :
    (∀ p ∈ [[102, 111, 111], [], [120, 120]], (p : List Byte).length < 2 ^ 24) ∧
    2 < ([[102, 111, 111], [], [120, 120]] : List (List Byte)).length ∧
    ∃ r', (VReader.new (StringSource.open_
          ((VWriter.mk ⟨[]⟩).AddRecords [[102, 111, 111], [], [120, 120]]).2.dest_.contents_)
          (some []) true 0).Read ([120, 120] : List Byte).length
        (((VWriter.mk ⟨[]⟩).AddRecords
          (([[102, 111, 111], [], [120, 120]] : List (List Byte)).take 2)).2.dest_.contents_.length
          + 7)
        = some (true, [120, 120], r') ∧
      r'.file_.data = (VReader.new (StringSource.open_
          ((VWriter.mk ⟨[]⟩).AddRecords [[102, 111, 111], [], [120, 120]]).2.dest_.contents_)
          (some []) true 0).file_.data ∧
      r'.file_.force_error_ = false ∧ r'.file_.returned_partial_ = false :=
  ⟨by decide, by decide,
   C7_random_read [[102, 111, 111], [], [120, 120]] (by decide) 2 (by decide) _ rfl rfl rfl⟩

/-- C8, evaluated on a failing input, the file `abc`: after `Read(buf, 1, 1)` has
delivered `b` and left the file at position 2, `Read(buf, 1, 0)` returns true and
delivers `c`, the byte at the current position, not the byte `a` at offset 0:
`SkipToPos(0)` does not reposition the file. -/
theorem C8_read_at_offset_zero_is_relative :
    ∃ r1 r2, (VReader.new (StringSource.open_ [97, 98, 99]) (some []) true 0).Read 1 1
        = some (true, [98], r1) ∧
      r1.Read 1 0 = some (true, [99], r2) ∧
      ([97, 98, 99] : List Byte).take 1 = [97] :=
  ⟨_, _, rfl, rfl, rfl⟩

/-- C9. Partial random reads are errors: on a file that has not run past its end
before, `Read` at an offset `pos > 0` with `pos + size` beyond the size of the file
returns false. -/
theorem C9_partial_read_is_error (r : VReader) (size pos : Nat) (hpos : 0 < pos)
    (hlen : r.file_.data.length < pos + size) (hrp : r.file_.returned_partial_ = false) :
    ∃ val r', r.Read size pos = some (false, val, r') := by
  simp only [VReader.Read]
  by_cases hpast : r.file_.data.length < pos
  · rw [VReader.SkipToPos_past r pos hpast]
    exact ⟨_, _, rfl⟩
  · rw [VReader.SkipToPos_inside r pos hpos (by omega)]
    simp only [Bool.not_true, Bool.false_eq_true, if_false]
    cases hfe : r.file_.force_error_ with
    | false =>
      rw [StringSource.Read_ok _ _ _ (by exact hrp) rfl]
      have hl : ((r.file_.data.drop pos).take size).length ≠ size := by
        rw [List.length_take, List.length_drop]; omega
      simp only [Status.ok, Bool.not_true, Bool.false_or, bne_iff_ne, ne_eq, hl,
        not_false_eq_true, if_true]
      exact ⟨_, _, rfl⟩
    | true =>
      unfold StringSource.Read
      simp only [hrp, hfe, Bool.false_eq_true, if_false, if_true, Status.ok, Bool.not_false,
        Bool.true_or]
      exact ⟨_, _, rfl⟩

theorem C9_partial_read_is_error_witness :
    0 < 2 ∧
    (VReader.new (StringSource.open_ [97, 98, 99]) (some []) true 0).file_.data.length < 2 + 2 ∧
    (VReader.new (StringSource.open_ [97, 98, 99]) (some []) true 0).file_.returned_partial_
      = false ∧
    ∃ val r', (VReader.new (StringSource.open_ [97, 98, 99]) (some []) true 0).Read 2 2
      = some (false, val, r') :=
  ⟨by decide, by decide, by decide,
   C9_partial_read_is_error _ 2 2 (by decide) (by decide) (by decide)⟩

/-- C10 fails as stated: three one-byte records are written; a fresh reader returns
the first one and thereby buffers the rest of the file and sets the end-of-file
flag. `SkipToPos(16)`, the start of the third frame, returns true, but the buffer is
not empty, the flag is still set, and the next `ReadRecord` returns the second
payload `[2]`, not the payload `[3]` of the frame at offset 16. -/
theorem C10_counterexample :
    ∃ r1 r2 r3, (VReader.new (StringSource.open_
          ((VWriter.mk ⟨[]⟩).AddRecords [[1], [2], [3]]).2.dest_.contents_)
          (some []) true 0).ReadRecord = some (true, [1], [], r1) ∧
      r1.SkipToPos 16 = (true, r2) ∧ r2.buffer_ ≠ [] ∧ r2.eof_ = true ∧
      r2.file_.data.drop 16 = VWriter.frame [3] ∧
      r2.ReadRecord = some (true, [2], [], r3) :=
  ⟨_, _, _, rfl, rfl, by decide, rfl, rfl, rfl⟩

/-- C10, as the code behaves: for every reader state and every offset with
`0 < offset` that is not past the end of the file, `SkipToPos(offset)` returns true
and positions the file at the absolute offset `offset`; the block buffer and the
end-of-file flag are left as they were. So when the buffer is empty and the flag is
false (as in a newly constructed reader) and `offset` is the start of a valid
frame, the next `ReadRecord` returns the payload of that frame. -/
theorem C10_SkipToPos_repositions_file (r : VReader) (offset : Nat) (h0 : 0 < offset)
    (h1 : offset ≤ r.file_.data.length) :
    ∃ r', r.SkipToPos offset = (true, r') ∧ r'.buffer_ = r.buffer_ ∧ r'.eof_ = r.eof_ ∧
      r'.file_.contents_ = r.file_.data.drop offset ∧
      (r.buffer_ = [] → r.eof_ = false → r.file_.force_error_ = false →
        r.file_.returned_partial_ = false →
        ∀ p rest : List Byte, p.length < 2 ^ 24 →
          r.file_.data.drop offset = VWriter.frame p ++ rest →
          ∃ sc r2, r'.ReadRecord = some (true, p, sc, r2)) := by
  refine ⟨_, VReader.SkipToPos_inside r offset h0 h1, rfl, rfl, rfl, ?_⟩
  intro hb he hfe hrp p rest hp hd
  obtain ⟨hdr, hf, hh, hL, hcrc⟩ := VWriter.frame_header p hp
  have hat : VReader.AtStream
      { r with file_ := { r.file_ with contents_ := r.file_.data.drop offset } }
      (hdr ++ p ++ rest) := by
    refine ⟨?_, hfe, ?_, ?_⟩
    · show r.buffer_ ++ r.file_.data.drop offset = hdr ++ p ++ rest
      rw [hb, hd, hf, List.nil_append]
    · intro h; exact absurd (he ▸ h) (by decide)
    · intro h; exact absurd (hrp ▸ h) (by decide)
  obtain ⟨sc, r2, h2, _⟩ := VReader.ReadRecord_complete _ hdr p rest hat hh hL
  have hbad : (r.checksum_ && crc32c.Value p != crc32c.Unmask (DecodeFixed32 hdr)) = false := by
    rw [hcrc]; simp
  refine ⟨sc, r2, ?_⟩
  rw [h2]
  simp only [hbad, Bool.not_false, Bool.false_eq_true, if_false]

theorem C10_SkipToPos_repositions_file_witness :
    0 < 8 ∧
    8 ≤ (VReader.new (StringSource.open_
      ((VWriter.mk ⟨[]⟩).AddRecords [[1], [2], [3]]).2.dest_.contents_)
      (some []) true 0).file_.data.length ∧
    ∃ r' sc r2, (VReader.new (StringSource.open_
        ((VWriter.mk ⟨[]⟩).AddRecords [[1], [2], [3]]).2.dest_.contents_)
        (some []) true 0).SkipToPos 8 = (true, r') ∧
      r'.ReadRecord = some (true, [2], sc, r2) := by
  refine ⟨by decide, by decide, ?_⟩
  obtain ⟨r', h1, _, _, _, h5⟩ := C10_SkipToPos_repositions_file
    (VReader.new (StringSource.open_
      ((VWriter.mk ⟨[]⟩).AddRecords [[1], [2], [3]]).2.dest_.contents_) (some []) true 0)
    8 (by decide) (by decide)
  obtain ⟨sc, r2, h6⟩ := h5 rfl rfl rfl rfl [2] (VWriter.frame [3]) (by decide) (by decide)
  exact ⟨r', sc, r2, h1, h6⟩

/-! ## Readers constructed at an initial offset -/

/-- A reader constructed at an offset `0 < offset` inside the file of a freshly opened
source is at the part of the file that starts at `offset`. -/
theorem VReader.new_AtStream_inside (data : List Byte) (rep : Option Reporter) (ck : Bool)
    (offset : Nat) (h0 : 0 < offset) (h1 : offset ≤ data.length) :
    (VReader.new (StringSource.open_ data) rep ck offset).AtStream (data.drop offset) ∧
    (VReader.new (StringSource.open_ data) rep ck offset).reporter_ = rep := by
  unfold VReader.new
  rw [if_pos h0, VReader.SkipToPos_inside _ offset h0 h1]
  exact ⟨⟨rfl, rfl, fun h => Bool.noConfusion h, fun h => Bool.noConfusion h⟩, rfl⟩

/-- A reader constructed at an offset past the end of the file has nothing left to
read (the failed skip has emptied the source). -/
theorem VReader.new_AtStream_past (data : List Byte) (rep : Option Reporter) (ck : Bool)
    (offset : Nat) (h1 : data.length < offset) :
    (VReader.new (StringSource.open_ data) rep ck offset).AtStream [] := by
  unfold VReader.new
  rw [if_pos (by omega)]
  unfold VReader.SkipToPos StringSource.SkipFromHead
  simp only [if_pos (show offset > 0 by omega), StringSource.open_,
    if_pos (show offset > data.length from h1), Status.ok, Bool.not_false, if_true]
  obtain ⟨h2, _, h3, h4, _⟩ := VReader.ReportDrop_fields
    ⟨⟨[], data, false, false⟩, rep, ck, [], false, 0⟩ offset
    (Status.NotFound "in-memory file SkipFromHead past end")
  refine ⟨?_, ?_, ?_, ?_⟩
  · rw [h3, h2]; rfl
  · rw [h2]
  · intro _; rw [h2]
  · intro h; rw [h2] at h; exact Bool.noConfusion h

/-- C11. Reading from an initial offset: when the payloads `ps`, each shorter than
`2 ^ 24` bytes, were appended in order by `AddRecord` to an empty file, then for
every `k` a checksum-verifying reader constructed on the file with
`initial_offset` equal to the size of the file before the `k`-th append (the sum of
`7 + |p_i|` over `i < k`) returns from successive `ReadRecord` calls exactly the
payloads from index `k` on, in order, then no record; the reporter receives no
call. (For `k` beyond the last index no payload is left.) -/
theorem C11_read_from_initial_offset (ps : List (List Byte))
    (h : ∀ p ∈ ps, p.length < 2 ^ 24) (k : Nat) :
    ∃ r', (VReader.new (StringSource.open_
          ((VWriter.mk ⟨[]⟩).AddRecords ps).2.dest_.contents_) (some []) true
          ((VWriter.mk ⟨[]⟩).AddRecords (ps.take k)).2.dest_.contents_.length).ReadRecords
        ((ps.drop k).length + 1)
        = some ((ps.drop k).map (fun p => (true, p)) ++ [(false, [])], r') ∧
      r'.reporter_ = some [] := by
  rw [VWriter.AddRecords_eq, VWriter.AddRecords_eq]
  simp only [List.nil_append]
  have hsplit : (ps.map VWriter.frame).flatten
      = ((ps.take k).map VWriter.frame).flatten ++ ((ps.drop k).map VWriter.frame).flatten := by
    conv_lhs => rw [← List.take_append_drop k ps]
    rw [List.map_append, List.flatten_append]
  have hdrop : ∀ q ∈ ps.drop k, q.length < 2 ^ 24 := fun q hq => h q (List.mem_of_mem_drop hq)
  generalize hA : ((ps.take k).map VWriter.frame).flatten = A at hsplit
  by_cases h0 : A.length = 0
  · have hA0 : A = [] := List.length_eq_zero.mp h0
    rw [hA0] at hsplit ⊢
    rw [hsplit]
    simp only [List.length_nil, List.nil_append]
    obtain ⟨r', h1, h2⟩ := VReader.ReadRecords_frames (ps.drop k) hdrop _
      (VReader.new_AtStream _ (some []) true)
    exact ⟨r', h1, h2.trans (VReader.new_reporter_ _ _ _)⟩
  · obtain ⟨hat, hrep⟩ := VReader.new_AtStream_inside (ps.map VWriter.frame).flatten (some [])
      true A.length (by omega) (by rw [hsplit, List.length_append]; omega)
    rw [show List.drop A.length (ps.map VWriter.frame).flatten
        = ((ps.drop k).map VWriter.frame).flatten by rw [hsplit, List.drop_left]] at hat
    obtain ⟨r', h1, h2⟩ := VReader.ReadRecords_frames (ps.drop k) hdrop _ hat
    exact ⟨r', h1, h2.trans hrep⟩

theorem C11_read_from_initial_offset_witness :
    (∀ p ∈ [[102, 111, 111], [], [120, 120]], (p : List Byte).length < 2 ^ 24) ∧
    ∃ r', (VReader.new (StringSource.open_
          ((VWriter.mk ⟨[]⟩).AddRecords [[102, 111, 111], [], [120, 120]]).2.dest_.contents_)
          (some []) true
          ((VWriter.mk ⟨[]⟩).AddRecords
            (([[102, 111, 111], [], [120, 120]] : List (List Byte)).take 1)).2.dest_.contents_.length).ReadRecords
        ((([[102, 111, 111], [], [120, 120]] : List (List Byte)).drop 1).length + 1)
        = some ((([[102, 111, 111], [], [120, 120]] : List (List Byte)).drop 1).map
            (fun p => (true, p)) ++ [(false, [])], r') ∧
      r'.reporter_ = some [] :=
  ⟨by decide,
   C11_read_from_initial_offset [[102, 111, 111], [], [120, 120]] (by decide) 1⟩

/-- C12. Offset at or past the end yields no records: for every file, every
`initial_offset` that is at least the size of the file, every reporter and either
checksum setting, the first `ReadRecord` of a reader constructed on the freshly
opened file with that offset returns no record. -/
theorem C12_offset_past_end (data : List Byte) (initial_offset : Nat)
    (h : data.length ≤ initial_offset) (rep : Option Reporter) (ck : Bool) :
    ∃ r', (VReader.new (StringSource.open_ data) rep ck initial_offset).ReadRecord
      = some (false, [], [], r') := by
  have hat : (VReader.new (StringSource.open_ data) rep ck initial_offset).AtStream [] := by
    by_cases h0 : initial_offset = 0
    · subst h0
      have hd : data = [] := List.length_eq_zero.mp (by omega)
      subst hd
      exact VReader.new_AtStream [] rep ck
    · by_cases h1 : data.length < initial_offset
      · exact VReader.new_AtStream_past data rep ck initial_offset h1
      · have he : initial_offset = data.length := by omega
        have := (VReader.new_AtStream_inside data rep ck initial_offset (by omega)
          (by omega)).1
        rw [he, List.drop_length] at this
        rw [he]
        exact this
  obtain ⟨r', h1, _⟩ := VReader.ReadRecord_short _ [] hat (by decide)
  exact ⟨r', h1⟩

theorem C12_offset_past_end_witness :
    ([97, 98, 99] : List Byte).length ≤ 8 ∧
    ∃ r', (VReader.new (StringSource.open_ [97, 98, 99]) (some []) true 8).ReadRecord
      = some (false, [], [], r') :=
  ⟨by decide, C12_offset_past_end [97, 98, 99] 8 (by decide) (some []) true⟩

/-! ## Every record returned consumes at least a header -/

/-- What a call of `StringSource::Read` that returns can do to the file. -/
theorem StringSource.Read_cases (f : StringSource) (n : Nat) (res : List Byte) (st : Status)
    (got : List Byte) (f1 : StringSource) (h : f.Read n res = some (st, got, f1)) :
    f1.data = f.data ∧
    ((st.ok = false ∧ got = res ∧ f1.contents_ = f.contents_) ∨
     (st.ok = true ∧ got = f.contents_.take n ∧ f1.contents_ = f.contents_.drop n)) := by
  unfold StringSource.Read at h
  split at h
  · exact Option.noConfusion h
  · split at h
    · simp only [Option.some.injEq, Prod.mk.injEq] at h
      obtain ⟨h1, h2, h3⟩ := h
      subst h1 h2 h3
      exact ⟨rfl, Or.inl ⟨rfl, rfl, rfl⟩⟩
    · split at h
      · next hlt =>
        simp only [Option.some.injEq, Prod.mk.injEq] at h
        obtain ⟨h1, h2, h3⟩ := h
        subst h1 h2 h3
        refine ⟨rfl, Or.inr ⟨rfl, ?_, ?_⟩⟩
        · rw [List.take_of_length_le (Nat.le_of_lt hlt), List.take_of_length_le (Nat.le_refl _)]
        · show List.drop f.contents_.length f.contents_ = List.drop n f.contents_
          rw [List.drop_eq_nil_of_le (Nat.le_of_lt hlt), List.drop_eq_nil_of_le (Nat.le_refl _)]
      · simp only [Option.some.injEq, Prod.mk.injEq] at h
        obtain ⟨h1, h2, h3⟩ := h
        subst h1 h2 h3
        exact ⟨rfl, Or.inr ⟨rfl, rfl, rfl⟩⟩

/-- The number of bytes a reader can still deliver: buffered plus unread. -/
theorem VReader.refill_progress (r r1 : VReader) (h : r.refill = some (true, r1)) :
    r1.buffer_.length + r1.file_.contents_.length = r.buffer_.length + r.file_.contents_.length ∧
    kVHeaderSize ≤ r1.buffer_.length ∧ r1.reporter_ = r.reporter_ ∧
    r1.checksum_ = r.checksum_ := by
  unfold VReader.refill at h
  split at h
  · next hlt =>
    split at h
    · dsimp only at h
      cases hread : r.file_.Read (kBlockSize - r.buffer_.length) [] with
      | none => rw [hread] at h; exact Option.noConfusion h
      | some x =>
        obtain ⟨st, got, f1⟩ := x
        obtain ⟨_, hc⟩ := StringSource.Read_cases _ _ _ _ _ _ hread
        rw [hread] at h
        dsimp only at h
        have hbuf : (if r.buffer_.length > 0 then r.buffer_ ++ got else got) = r.buffer_ ++ got := by
          split
          · rfl
          · next hz =>
            have : r.buffer_ = [] := List.length_eq_zero.mp (by omega)
            simp [this]
        rw [hbuf] at h
        rcases hc with ⟨hst, _, _⟩ | ⟨hst, hgot, hcont⟩
        · simp [hst] at h
        · simp only [hst, Bool.not_true, Bool.false_eq_true, if_false] at h
          have hsum : (r.buffer_ ++ got).length + f1.contents_.length
              = r.buffer_.length + r.file_.contents_.length := by
            rw [List.length_append, hgot, hcont, List.length_take, List.length_drop]; omega
          split at h
          · split at h
            · simp at h
            · next h7 =>
              simp only [Option.some.injEq, Prod.mk.injEq, true_and] at h
              subst h
              exact ⟨hsum, by simpa using h7, rfl, rfl⟩
          · next hfull =>
            simp only [Option.some.injEq, Prod.mk.injEq, true_and] at h
            subst h
            refine ⟨hsum, ?_, rfl, rfl⟩
            show kVHeaderSize ≤ (r.buffer_ ++ got).length
            simp only [kBlockSize, kVHeaderSize] at hfull ⊢
            omega
    · simp at h
  · next hge =>
    simp only [Option.some.injEq, Prod.mk.injEq, true_and] at h
    subst h
    exact ⟨rfl, by omega, rfl, rfl⟩

theorem VReader.parse_progress (r : VReader) (record scratch : List Byte) (r1 : VReader)
    (h7 : kVHeaderSize ≤ r.buffer_.length) (h : r.parse = some (true, record, scratch, r1)) :
    r1.buffer_.length + r1.file_.contents_.length + kVHeaderSize
      ≤ r.buffer_.length + r.file_.contents_.length ∧
    r1.reporter_ = r.reporter_ ∧ r1.checksum_ = r.checksum_ := by
  unfold VReader.parse at h
  dsimp only at h
  simp only [kVHeaderSize] at h7 h ⊢
  by_cases hfit : headerLength r.buffer_ + (4 + 3) ≤ r.buffer_.length
  · rw [if_pos hfit] at h
    split at h
    · exact absurd h (by simp)
    · simp only [Option.some.injEq, Prod.mk.injEq, true_and] at h
      obtain ⟨_, _, h3⟩ := h
      subst h3
      refine ⟨?_, rfl, rfl⟩
      show (List.drop (4 + 3 + headerLength r.buffer_) r.buffer_).length
        + r.file_.contents_.length + (4 + 3) ≤ _
      rw [List.length_drop]
      omega
  · rw [if_neg hfit] at h
    by_cases heof : (r.eof_ == true) = true
    · rw [if_pos heof] at h
      exact absurd h (by simp)
    · rw [if_neg heof] at h
      by_cases hbig : headerLength r.buffer_ - (List.drop (4 + 3) r.buffer_).length
          > kBlockSize / 2
      · rw [if_pos hbig] at h
        cases hread : r.file_.Read
            (headerLength r.buffer_ - (List.drop (4 + 3) r.buffer_).length) [] with
        | none => rw [hread] at h; exact Option.noConfusion h
        | some x =>
          obtain ⟨st, got, f1⟩ := x
          obtain ⟨_, hc⟩ := StringSource.Read_cases _ _ _ _ _ _ hread
          rw [hread] at h
          dsimp only at h
          rcases hc with ⟨hst, _, _⟩ | ⟨hst, hgot, hcont⟩
          · simp [hst] at h
          · simp only [hst, Bool.not_true, Bool.false_eq_true, if_false] at h
            split at h
            · exact absurd h (by simp)
            · split at h
              · exact absurd h (by simp)
              · simp only [Option.some.injEq, Prod.mk.injEq, true_and] at h
                obtain ⟨_, _, h3⟩ := h
                subst h3
                refine ⟨?_, rfl, rfl⟩
                show ([] : List Byte).length + f1.contents_.length + (4 + 3) ≤ _
                rw [hcont, List.length_drop, List.length_nil]
                omega
      · rw [if_neg hbig] at h
        cases hread : r.file_.Read kBlockSize [] with
        | none => rw [hread] at h; exact Option.noConfusion h
        | some x =>
          obtain ⟨st, got, f1⟩ := x
          obtain ⟨_, hc⟩ := StringSource.Read_cases _ _ _ _ _ _ hread
          rw [hread] at h
          dsimp only at h
          rcases hc with ⟨hst, _, _⟩ | ⟨hst, hgot, hcont⟩
          · simp [hst] at h
          · simp only [hst, Bool.not_true, Bool.false_eq_true, if_false] at h
            split at h
            · exact absurd h (by simp)
            · split at h
              · exact absurd h (by simp)
              · simp only [Option.some.injEq, Prod.mk.injEq, true_and] at h
                obtain ⟨_, _, h3⟩ := h
                subst h3
                refine ⟨?_, rfl, rfl⟩
                show (List.drop _ got).length + f1.contents_.length + (4 + 3) ≤ _
                rw [hgot, hcont]
                simp only [List.length_drop, List.length_take]
                omega

/-- A call of `ReadRecord` that returns a record consumes at least the seven bytes
of its header, and does not call the reporter. -/
theorem VReader.ReadRecord_progress (r : VReader) (record scratch : List Byte) (r1 : VReader)
    (h : r.ReadRecord = some (true, record, scratch, r1)) :
    r1.buffer_.length + r1.file_.contents_.length + kVHeaderSize
      ≤ r.buffer_.length + r.file_.contents_.length ∧
    r1.reporter_ = r.reporter_ ∧ r1.checksum_ = r.checksum_ := by
  unfold VReader.ReadRecord at h
  cases hre : r.refill with
  | none => rw [hre] at h; exact Option.noConfusion h
  | some x =>
    obtain ⟨b, r0⟩ := x
    rw [hre] at h
    cases b with
    | false => simp at h
    | true =>
      dsimp only at h
      obtain ⟨h1, h2, h3, h4⟩ := VReader.refill_progress r r0 hre
      obtain ⟨h5, h6, h7⟩ := VReader.parse_progress r0 record scratch r1 h2 h
      exact ⟨by omega, h6.trans h3, h7.trans h4⟩

/-! ## The registry and the candidate set of the manager -/

theorem lookup_cons_eq (k a : Nat) (b : VlogInfo) (es : List (Nat × VlogInfo)) :
    List.lookup k ((a, b) :: es) = if k = a then some b else List.lookup k es := by
  by_cases h : k = a
  · subst h
    simp [List.lookup]
  · have hb : (k == a) = false := by simpa using h
    rw [if_neg h]
    simp [List.lookup, hb]

theorem lookup_append_single (l : List (Nat × VlogInfo)) (n k : Nat) (v : VlogInfo) :
    (l ++ [(n, v)]).lookup k
      = match l.lookup k with
        | some i => some i
        | none => if k = n then some v else none := by
  induction l with
  | nil =>
    rw [List.nil_append, lookup_cons_eq]
    rfl
  | cons e l ih =>
    obtain ⟨a, b⟩ := e
    rw [List.cons_append, lookup_cons_eq, lookup_cons_eq]
    by_cases h : k = a
    · rw [if_pos h, if_pos h]
    · rw [if_neg h, if_neg h, ih]

theorem lookup_updateEntry (l : List (Nat × VlogInfo)) (n k : Nat) (f : VlogInfo → VlogInfo) :
    (VlogManager.updateEntry l n f).lookup k
      = if k = n then (l.lookup k).map f else l.lookup k := by
  induction l with
  | nil => simp [VlogManager.updateEntry, List.lookup]
  | cons e l ih =>
    obtain ⟨a, b⟩ := e
    unfold VlogManager.updateEntry at ih ⊢
    rw [List.map_cons, lookup_cons_eq]
    by_cases han : a = n
    · have hb : ((a, b).1 == n) = true := by simpa using han
      rw [if_pos hb, lookup_cons_eq, ih]
      by_cases hka : k = a
      · rw [if_pos hka, if_pos hka, if_pos (hka.trans han)]
        rfl
      · rw [if_neg hka, if_neg hka]
    · have hb : ¬ ((a, b).1 == n) = true := by simpa using han
      rw [if_neg hb, lookup_cons_eq, ih]
      by_cases hka : k = a
      · rw [if_pos hka, if_pos hka, if_neg (by rw [hka]; exact han)]
      · rw [if_neg hka, if_neg hka]

theorem lookup_eraseEntry (l : List (Nat × VlogInfo)) (n k : Nat) :
    (VlogManager.eraseEntry l n).lookup k = if k = n then none else l.lookup k := by
  induction l with
  | nil => simp [VlogManager.eraseEntry, List.lookup]
  | cons e l ih =>
    obtain ⟨a, b⟩ := e
    unfold VlogManager.eraseEntry at ih ⊢
    by_cases han : a = n
    · have hb : ¬ ((a, b).1 != n) = true := by simpa using han
      rw [List.filter_cons, if_neg hb, ih, lookup_cons_eq]
      by_cases hka : k = a
      · rw [if_pos (hka.trans han), if_pos (hka.trans han)]
      · rw [if_neg hka]
    · have hb : ((a, b).1 != n) = true := by simpa using han
      rw [List.filter_cons, if_pos hb, lookup_cons_eq, ih, lookup_cons_eq]
      by_cases hka : k = a
      · rw [if_pos hka, if_pos hka, if_neg (by rw [hka]; exact han)]
      · rw [if_neg hka, if_neg hka]

theorem mem_setInsert (s : List Nat) (n x : Nat) :
    x ∈ VlogManager.setInsert s n ↔ x ∈ s ∨ x = n := by
  unfold VlogManager.setInsert
  split
  · next h =>
    constructor
    · exact Or.inl
    · rintro (h1 | h1)
      · exact h1
      · subst h1; exact h
  · simp

theorem mem_setErase (s : List Nat) (n x : Nat) :
    x ∈ VlogManager.setErase s n ↔ x ∈ s ∧ x ≠ n := by
  unfold VlogManager.setErase
  simp

/-- C18. `AddVlog` and `GetVlog`: for every manager state and every number `n` that
is not registered, `AddVlog(n, r)` succeeds, and afterwards `GetVlog(n)` returns `r`,
the counter of `n` is 0, the active vlog is `n`, and every other number has the
entry (reader and counter) it had; for a number that is not registered `GetVlog`
returns `NULL`. `GetVlog` is a function of the manager state, which it cannot
change. -/
theorem C18_AddVlog_GetVlog (m : VlogManager) (n : Nat) (r : Option VReader)
    (hn : m.find n = none) :
    ∃ m1, m.AddVlog n r = some m1 ∧ m1.GetVlog n = r ∧
      (m1.find n).map VlogInfo.count_ = some 0 ∧ m1.now_vlog_ = n ∧
      (∀ k, k ≠ n → m1.find k = m.find k) ∧
      (∀ k, m.find k = none → m.GetVlog k = none) := by
  have hadd : m.AddVlog n r
      = some { m with manager_ := m.manager_ ++ [(n, { vlog_ := r, count_ := 0 })],
                      now_vlog_ := n } := by
    unfold VlogManager.AddVlog
    rw [hn]
  have hfind : ∀ k, VlogManager.find
      { m with manager_ := m.manager_ ++ [(n, { vlog_ := r, count_ := 0 })], now_vlog_ := n } k
      = match m.find k with
        | some i => some i
        | none => if k = n then some { vlog_ := r, count_ := 0 } else none := by
    intro k
    exact lookup_append_single m.manager_ n k _
  refine ⟨_, hadd, ?_, ?_, rfl, ?_, ?_⟩
  · unfold VlogManager.GetVlog
    rw [hfind n, hn]
    simp
  · rw [hfind n, hn]
    simp
  · intro k hk
    rw [hfind k]
    cases m.find k with
    | some i => rfl
    | none => simp [hk]
  · intro k hk
    unfold VlogManager.GetVlog
    rw [hk]

theorem C18_AddVlog_GetVlog_witness :
    (VlogManager.new 3).find 5 = none ∧
    ∃ m1, (VlogManager.new 3).AddVlog 5 none = some m1 ∧ m1.GetVlog 5 = none ∧
      (m1.find 5).map VlogInfo.count_ = some 0 ∧ m1.now_vlog_ = 5 ∧
      (∀ k, k ≠ 5 → m1.find k = (VlogManager.new 3).find k) ∧
      (∀ k, (VlogManager.new 3).find k = none → (VlogManager.new 3).GetVlog k = none) :=
  ⟨by decide, C18_AddVlog_GetVlog (VlogManager.new 3) 5 none (by decide)⟩

/-- C19 fails as stated: the counter is a `uint32_t`. For a registered vlog whose
counter is `2 ^ 32 - 1`, `AddDropCount` does not increase the counter by 1 but wraps
it to 0. -/
theorem C19_counterexample :
    (VlogManager.find ⟨[(1, ⟨none, 4294967295⟩)], [], 1, 1, 0⟩ 1).map VlogInfo.count_
      = some 4294967295 ∧
    ((VlogManager.AddDropCount ⟨[(1, ⟨none, 4294967295⟩)], [], 1, 1, 0⟩ 1).find 1).map
      VlogInfo.count_ = some 0 := by
  decide

/-- C19, as the code behaves. For every manager state and number `n`: either `n` is
not registered and `AddDropCount(n)` leaves the whole state unchanged; or `n` is
registered and `AddDropCount(n)` increases its counter by 1 modulo `2 ^ 32` (by
exactly 1 unless the counter is `2 ^ 32 - 1`), keeps its reader and every other
entry, keeps the threshold, the active and the cleaning vlog, and makes the candidate
set the old one with `n` inserted if the new counter has reached the threshold and
`n` is not the active vlog, and leaves the candidate set unchanged otherwise. -/
theorem C19_AddDropCount (m : VlogManager) (n : Nat) :
    (m.find n = none ∧ m.AddDropCount n = m) ∨
    (∃ info, m.find n = some info ∧
      (m.AddDropCount n).find n = some { info with count_ := (info.count_ + 1) % 2 ^ 32 } ∧
      (info.count_ + 1 < 2 ^ 32 →
        ((m.AddDropCount n).find n).map VlogInfo.count_ = some (info.count_ + 1)) ∧
      (∀ k, k ≠ n → (m.AddDropCount n).find k = m.find k) ∧
      (m.AddDropCount n).clean_threshold_ = m.clean_threshold_ ∧
      (m.AddDropCount n).now_vlog_ = m.now_vlog_ ∧
      (m.AddDropCount n).cleaning_vlog_ = m.cleaning_vlog_ ∧
      ((info.count_ + 1) % 2 ^ 32 ≥ m.clean_threshold_ ∧ n ≠ m.now_vlog_ →
        n ∈ (m.AddDropCount n).cleaning_vlog_set_ ∧
        ∀ k, k ∈ (m.AddDropCount n).cleaning_vlog_set_ ↔ k ∈ m.cleaning_vlog_set_ ∨ k = n) ∧
      (¬ ((info.count_ + 1) % 2 ^ 32 ≥ m.clean_threshold_ ∧ n ≠ m.now_vlog_) →
        (m.AddDropCount n).cleaning_vlog_set_ = m.cleaning_vlog_set_)) := by
  cases hf : m.find n with
  | none =>
    left
    refine ⟨rfl, ?_⟩
    unfold VlogManager.AddDropCount
    rw [hf]
  | some info =>
    right
    refine ⟨info, rfl, ?_⟩
    have hfind : ∀ (s : List Nat) (k : Nat), VlogManager.find
        { m with manager_ := VlogManager.updateEntry m.manager_ n
                   (fun i => { i with count_ := (i.count_ + 1) % 2 ^ 32 }),
                 cleaning_vlog_set_ := s } k
        = if k = n then (m.find k).map (fun i => { i with count_ := (i.count_ + 1) % 2 ^ 32 })
          else m.find k := by
      intro s k
      exact lookup_updateEntry m.manager_ n k
        (fun i => { i with count_ := (i.count_ + 1) % 2 ^ 32 })
    by_cases hc : (info.count_ + 1) % 2 ^ 32 ≥ m.clean_threshold_ ∧ n ≠ m.now_vlog_
    · have hadd : m.AddDropCount n
          = { m with manager_ := VlogManager.updateEntry m.manager_ n
                       (fun i => { i with count_ := (i.count_ + 1) % 2 ^ 32 }),
                     cleaning_vlog_set_ := VlogManager.setInsert m.cleaning_vlog_set_ n } := by
        unfold VlogManager.AddDropCount
        rw [hf]
        have : (decide ((info.count_ + 1) % 2 ^ 32 ≥ m.clean_threshold_) && n != m.now_vlog_)
            = true := by simpa using hc
        simp only [this, if_true]
      rw [hadd]
      refine ⟨?_, ?_, ?_, rfl, rfl, rfl, ?_, fun h => absurd hc h⟩
      · rw [hfind, if_pos rfl, hf]; rfl
      · intro hlt
        rw [hfind, if_pos rfl, hf]
        show some ((info.count_ + 1) % 2 ^ 32) = some (info.count_ + 1)
        rw [Nat.mod_eq_of_lt hlt]
      · intro k hk
        rw [hfind, if_neg hk]
      · intro _
        exact ⟨(mem_setInsert _ _ _).mpr (Or.inr rfl), fun k => mem_setInsert _ _ _⟩
    · have hadd : m.AddDropCount n
          = { m with manager_ := VlogManager.updateEntry m.manager_ n
                       (fun i => { i with count_ := (i.count_ + 1) % 2 ^ 32 }),
                     cleaning_vlog_set_ := m.cleaning_vlog_set_ } := by
        unfold VlogManager.AddDropCount
        rw [hf]
        have : (decide ((info.count_ + 1) % 2 ^ 32 ≥ m.clean_threshold_) && n != m.now_vlog_)
            = false := by
          rw [Bool.eq_false_iff]
          simpa using hc
        simp only [this, Bool.false_eq_true, if_false]
      rw [hadd]
      refine ⟨?_, ?_, ?_, rfl, rfl, rfl, fun h => absurd h hc, fun _ => rfl⟩
      · rw [hfind, if_pos rfl, hf]; rfl
      · intro hlt
        rw [hfind, if_pos rfl, hf]
        show some ((info.count_ + 1) % 2 ^ 32) = some (info.count_ + 1)
        rw [Nat.mod_eq_of_lt hlt]
      · intro k hk
        rw [hfind, if_neg hk]

theorem C19_AddDropCount_witness :
    ∃ info, (VlogManager.mk [(1, ⟨none, 4294967295⟩)] [] 1 1 0).find 1 = some info ∧
      ((VlogManager.mk [(1, ⟨none, 4294967295⟩)] [] 1 1 0).AddDropCount 1).find 1
        = some { info with count_ := (info.count_ + 1) % 2 ^ 32 } :=
  (C19_AddDropCount ⟨[(1, ⟨none, 4294967295⟩)], [], 1, 1, 0⟩ 1).elim
    (fun h => absurd h.1 (by decide))
    (fun h => h.elim fun info hi => ⟨info, hi.1, hi.2.1⟩)

/-! ## The active vlog and the cleaning state -/

theorem VlogManager.NowApart_update (m : VlogManager) (n : Nat) (f : VlogInfo → VlogInfo)
    (s1 : List Nat) (c : Nat)
    (hs : ∀ x, x ∈ s1 → x ∈ m.cleaning_vlog_set_ ∨ (x = n ∧ n ≠ m.now_vlog_ ∧ m.find n ≠ none))
    (hc : c = 0 ∨ c ≠ m.now_vlog_)
    (h : m.NowApart) :
    VlogManager.NowApart { m with manager_ := VlogManager.updateEntry m.manager_ n f,
                                  cleaning_vlog_set_ := s1, cleaning_vlog_ := c } := by
  obtain ⟨h1, h2, _⟩ := h
  have hfind : ∀ k, VlogManager.find
      { m with manager_ := VlogManager.updateEntry m.manager_ n f,
               cleaning_vlog_set_ := s1, cleaning_vlog_ := c } k
      = if k = n then (m.find k).map f else m.find k :=
    fun k => lookup_updateEntry m.manager_ n k f
  have hsome : ∀ k, m.find k ≠ none → VlogManager.find
      { m with manager_ := VlogManager.updateEntry m.manager_ n f,
               cleaning_vlog_set_ := s1, cleaning_vlog_ := c } k ≠ none := by
    intro k hk
    rw [hfind]
    split
    · cases hm : m.find k with
      | none => exact absurd hm hk
      | some i => simp
    · exact hk
  refine ⟨?_, ?_, hc⟩
  · intro x hx
    rcases hs x hx with hx1 | ⟨hx1, _, hx3⟩
    · exact hsome x (h1 x hx1)
    · subst hx1; exact hsome x hx3
  · intro hx
    rcases hs _ hx with hx1 | ⟨hx1, hx2, _⟩
    · exact h2 hx1
    · exact hx2 hx1.symm

theorem VlogManager.NowApart_erase (m : VlogManager) (n c : Nat)
    (hc : c = 0 ∨ c ≠ m.now_vlog_) (h : m.NowApart) :
    VlogManager.NowApart { m with manager_ := VlogManager.eraseEntry m.manager_ n,
                                  cleaning_vlog_set_ := VlogManager.setErase m.cleaning_vlog_set_ n,
                                  cleaning_vlog_ := c } := by
  obtain ⟨h1, h2, _⟩ := h
  refine ⟨?_, ?_, hc⟩
  · intro x hx
    obtain ⟨hx1, hx2⟩ := (mem_setErase _ _ _).mp hx
    show List.lookup x (VlogManager.eraseEntry m.manager_ n) ≠ none
    rw [lookup_eraseEntry, if_neg hx2]
    exact h1 x hx1
  · intro hx
    exact h2 ((mem_setErase _ _ _).mp hx).1

theorem VlogManager.NowApart_deserializeLoop (fuel : Nat) (input : List Byte)
    (m m1 : VlogManager) (h : m.NowApart)
    (hrun : VlogManager.deserializeLoop fuel input m = some m1) : m1.NowApart := by
  induction fuel generalizing input m with
  | zero => exact absurd hrun (by simp [VlogManager.deserializeLoop])
  | succ fuel ih =>
    unfold VlogManager.deserializeLoop at hrun
    split at hrun
    · simp only [Option.some.injEq] at hrun
      subst hrun
      exact h
    · split at hrun
      · exact absurd hrun (by simp)
      · refine ih _ _ ?_ hrun
        dsimp only
        cases hf : m.find (DecodeFixed64 input &&& 0xffff) with
        | none => exact h
        | some info =>
          dsimp only
          split
          · next hc =>
            have hc1 : (DecodeFixed64 input &&& 0xffff) ≠ m.now_vlog_ := by
              simp only [Bool.and_eq_true, bne_iff_ne, ne_eq] at hc
              exact hc.2
            have := VlogManager.NowApart_update m (DecodeFixed64 input &&& 0xffff)
              (fun i => { i with count_ := (DecodeFixed64 input >>> 16) % 2 ^ 32 })
              (VlogManager.setInsert m.cleaning_vlog_set_ (DecodeFixed64 input &&& 0xffff))
              m.cleaning_vlog_
              (fun x hx => by
                rcases (mem_setInsert _ _ _).mp hx with hx1 | hx1
                · exact Or.inl hx1
                · exact Or.inr ⟨hx1, hc1, by rw [hf]; simp⟩)
              h.2.2 h
            exact this
          · exact VlogManager.NowApart_update m (DecodeFixed64 input &&& 0xffff)
              (fun i => { i with count_ := (DecodeFixed64 input >>> 16) % 2 ^ 32 })
              m.cleaning_vlog_set_ m.cleaning_vlog_ (fun x hx => Or.inl hx) h.2.2 h

/-- Every call that satisfies `keepsNowApart` and does not fail preserves `NowApart`. -/
theorem VlogManager.NowApart_call (m m1 : VlogManager) (c : VlogManager.Call)
    (h : m.NowApart) (hk : m.keepsNowApart c = true) (hrun : m.call c = some m1) :
    m1.NowApart := by
  obtain ⟨h1, h2, h3⟩ := h
  cases c with
  | AddVlog n r =>
    simp only [VlogManager.call, VlogManager.AddVlog] at hrun
    cases hf : m.find n with
    | some i => rw [hf] at hrun; exact absurd hrun (by simp)
    | none =>
      rw [hf] at hrun
      simp only [Option.some.injEq] at hrun
      subst hrun
      refine ⟨?_, ?_, ?_⟩
      · intro x hx
        show List.lookup x (m.manager_ ++ [(n, _)]) ≠ none
        rw [lookup_append_single]
        have := h1 x hx
        cases hm : m.find x with
        | none => exact absurd hm this
        | some i =>
          have hm2 : List.lookup x m.manager_ = some i := hm
          rw [hm2]
          simp
      · intro hx
        exact h1 n hx hf
      · simp only [VlogManager.keepsNowApart, Bool.or_eq_true, beq_iff_eq, bne_iff_ne, ne_eq] at hk
        rcases hk with hk | hk
        · exact Or.inl hk
        · exact Or.inr (fun e => hk e.symm)
  | SetNowVlog n =>
    simp only [VlogManager.call, VlogManager.SetNowVlog, Option.some.injEq] at hrun
    subst hrun
    simp only [VlogManager.keepsNowApart, Bool.and_eq_true, Bool.not_eq_true', Bool.or_eq_true,
      beq_iff_eq, bne_iff_ne, ne_eq, List.contains_eq_any_beq, List.any_eq_false] at hk
    refine ⟨h1, ?_, ?_⟩
    · intro hx
      exact hk.1 n hx rfl
    · rcases hk.2 with hk2 | hk2
      · exact Or.inl hk2
      · exact Or.inr (fun e => hk2 e.symm)
  | AddDropCount n =>
    simp only [VlogManager.call, Option.some.injEq] at hrun
    subst hrun
    unfold VlogManager.AddDropCount
    cases hf : m.find n with
    | none => exact ⟨h1, h2, h3⟩
    | some info =>
      dsimp only
      split
      · next hc =>
        have hc1 : n ≠ m.now_vlog_ := by
          simp only [Bool.and_eq_true, bne_iff_ne, ne_eq] at hc
          exact hc.2
        exact VlogManager.NowApart_update m n _ (VlogManager.setInsert m.cleaning_vlog_set_ n)
          m.cleaning_vlog_
          (fun x hx => by
            rcases (mem_setInsert _ _ _).mp hx with hx1 | hx1
            · exact Or.inl hx1
            · exact Or.inr ⟨hx1, hc1, by rw [hf]; simp⟩)
          h3 ⟨h1, h2, h3⟩
      · exact VlogManager.NowApart_update m n _ m.cleaning_vlog_set_ m.cleaning_vlog_
          (fun x hx => Or.inl hx) h3 ⟨h1, h2, h3⟩
  | Deserialize val =>
    exact VlogManager.NowApart_deserializeLoop _ val m m1 ⟨h1, h2, h3⟩ hrun
  | Recover n tail =>
    simp only [VlogManager.call, VlogManager.Recover] at hrun
    cases hf : m.find n with
    | none =>
      rw [hf] at hrun
      simp only [Option.some.injEq] at hrun
      subst hrun
      exact ⟨h1, h2, h3⟩
    | some info =>
      rw [hf] at hrun
      dsimp only at hrun
      split at hrun
      · cases hv : info.vlog_ with
        | none => rw [hv] at hrun; exact absurd hrun (by simp)
        | some rd =>
          rw [hv] at hrun
          simp only [Option.some.injEq] at hrun
          subst hrun
          simp only [VlogManager.keepsNowApart, bne_iff_ne, ne_eq] at hk
          exact VlogManager.NowApart_update m n _ m.cleaning_vlog_set_ n
            (fun x hx => Or.inl hx) (Or.inr hk) ⟨h1, h2, h3⟩
      · exact absurd hrun (by simp)
  | GetVlogToClean =>
    simp only [VlogManager.call, VlogManager.GetVlogToClean] at hrun
    split at hrun
    · cases hs : m.cleaning_vlog_set_ with
      | nil => rw [hs] at hrun; exact absurd hrun (by simp)
      | cons x xs =>
        rw [hs] at hrun
        simp only [Option.map_some', Option.some.injEq] at hrun
        subst hrun
        have hx : x ∈ m.cleaning_vlog_set_ := by rw [hs]; exact List.mem_cons_self _ _
        refine ⟨fun y hy => h1 y (by rw [hs]; exact hy),
          fun hy => h2 (by rw [hs]; exact hy), Or.inr ?_⟩
        intro e
        apply h2
        have e2 : x = m.now_vlog_ := e
        rw [← e2]
        exact hx
    · simp only [Option.map_some', Option.some.injEq] at hrun
      subst hrun
      exact ⟨h1, h2, h3⟩
  | RemoveCleaningVlog =>
    simp only [VlogManager.call, VlogManager.RemoveCleaningVlog] at hrun
    split at hrun
    · cases hf : m.find m.cleaning_vlog_ with
      | none => rw [hf] at hrun; exact absurd hrun (by simp)
      | some i =>
        rw [hf] at hrun
        simp only [Option.some.injEq] at hrun
        subst hrun
        exact VlogManager.NowApart_erase m m.cleaning_vlog_ 0 (Or.inl rfl) ⟨h1, h2, h3⟩
    · exact absurd hrun (by simp)
  | RemoveCleaningVlogOf n =>
    simp only [VlogManager.call, VlogManager.RemoveCleaningVlogOf] at hrun
    cases hf : m.find n with
    | none => rw [hf] at hrun; exact absurd hrun (by simp)
    | some i =>
      rw [hf] at hrun
      simp only [Option.some.injEq] at hrun
      subst hrun
      exact VlogManager.NowApart_erase m n m.cleaning_vlog_ h3 ⟨h1, h2, h3⟩

theorem VlogManager.NowApart_calls (cs : List VlogManager.Call) (m m1 : VlogManager)
    (h : m.NowApart) (hk : m.allKeepNowApart cs = true) (hrun : m.calls cs = some m1) :
    m1.NowApart := by
  induction cs generalizing m with
  | nil =>
    simp only [VlogManager.calls, Option.some.injEq] at hrun
    subst hrun
    exact h
  | cons c cs ih =>
    simp only [VlogManager.calls] at hrun
    simp only [VlogManager.allKeepNowApart, Bool.and_eq_true] at hk
    cases hc : m.call c with
    | none => rw [hc] at hrun; exact absurd hrun (by simp)
    | some m2 =>
      rw [hc] at hrun hk
      exact ih m2 (VlogManager.NowApart_call m m2 c h hk.1 hc) hk.2 hrun

/-- C20 fails as stated, for a manager with threshold 1. (a) After `AddVlog(1)`,
`AddVlog(2)`, `AddDropCount(1)`, `SetNowVlog(1)` the active vlog 1 is a candidate and
`GetVlogToClean` returns it. (b) After `AddVlog(1)`, `AddDropCount(1)`,
`Recover(1, 0)` the active vlog 1 is returned by `GetVlogToClean`. (c) After
`AddVlog(1)`, `AddVlog(2)`, `AddDropCount(1)`, `GetVlogToClean`,
`RemoveCleaningVlog(1)`, `AddVlog(1)` the active vlog 1 is returned by
`GetVlogToClean`. -/
theorem C20_counterexample :
    (∃ m m1, (VlogManager.new 1).calls
        [.AddVlog 1 none, .AddVlog 2 none, .AddDropCount 1, .SetNowVlog 1] = some m ∧
      m.now_vlog_ ∈ m.cleaning_vlog_set_ ∧ m.GetVlogToClean = some (m.now_vlog_, m1)) ∧
    (∃ m m1, (VlogManager.new 1).calls
        [.AddVlog 1 (some (VReader.new (StringSource.open_ []) none true 0)),
         .AddDropCount 1, .Recover 1 0] = some m ∧
      m.GetVlogToClean = some (m.now_vlog_, m1)) ∧
    (∃ m m1, (VlogManager.new 1).calls
        [.AddVlog 1 none, .AddVlog 2 none, .AddDropCount 1, .GetVlogToClean,
         .RemoveCleaningVlogOf 1, .AddVlog 1 none] = some m ∧
      m.GetVlogToClean = some (m.now_vlog_, m1)) :=
  ⟨⟨_, _, rfl, by decide, rfl⟩, ⟨_, _, rfl, rfl⟩, ⟨_, _, rfl, rfl⟩⟩

/-- C20, as the code behaves: in every manager state reached from the constructor by
a sequence of `AddVlog`, `SetNowVlog`, `AddDropCount`, `Deserialize`, `Recover`,
`GetVlogToClean` and `RemoveCleaningVlog` calls (both overloads) in which
`SetNowVlog(n)` is not called for a candidate or for the cleaning vlog, `Recover(n, _)`
not for the active vlog and `AddVlog(n, _)` not for the cleaning vlog, the active
vlog is not a member of the candidate set and `GetVlogToClean` does not return it. -/
theorem C20_now_never_candidate (clean_threshold : Nat) (cs : List VlogManager.Call)
    (m : VlogManager) (hrun : (VlogManager.new clean_threshold).calls cs = some m)
    (hk : (VlogManager.new clean_threshold).allKeepNowApart cs = true) :
    m.now_vlog_ ∉ m.cleaning_vlog_set_ ∧
    ∀ x m1, m.GetVlogToClean = some (x, m1) → x ≠ m.now_vlog_ := by
  have h0 : (VlogManager.new clean_threshold).NowApart :=
    ⟨fun x hx => absurd hx (List.not_mem_nil x), List.not_mem_nil _, Or.inl rfl⟩
  obtain ⟨_, h2, h3⟩ := VlogManager.NowApart_calls cs _ m h0 hk hrun
  refine ⟨h2, ?_⟩
  intro x m1 hg
  unfold VlogManager.GetVlogToClean at hg
  split at hg
  · cases hs : m.cleaning_vlog_set_ with
    | nil => rw [hs] at hg; exact absurd hg (by simp)
    | cons y ys =>
      rw [hs] at hg
      simp only [Option.some.injEq, Prod.mk.injEq] at hg
      intro e
      apply h2
      rw [hs, ← e, ← hg.1]
      exact List.mem_cons_self _ _
  · next hne =>
    simp only [Option.some.injEq, Prod.mk.injEq] at hg
    rw [← hg.1]
    rcases h3 with h3 | h3
    · exact absurd (by simpa using h3) hne
    · exact h3

theorem C20_now_never_candidate_witness :
    (VlogManager.new 1).calls
        [.AddVlog 1 none, .AddVlog 2 none, .AddDropCount 1, .GetVlogToClean,
         .RemoveCleaningVlog, .AddVlog 3 none, .AddDropCount 2, .SetNowVlog 3]
      = some ⟨[(2, ⟨none, 1⟩), (3, ⟨none, 0⟩)], [2], 1, 3, 0⟩ ∧
    (VlogManager.new 1).allKeepNowApart
        [.AddVlog 1 none, .AddVlog 2 none, .AddDropCount 1, .GetVlogToClean,
         .RemoveCleaningVlog, .AddVlog 3 none, .AddDropCount 2, .SetNowVlog 3] = true ∧
    (VlogManager.mk [(2, ⟨none, 1⟩), (3, ⟨none, 0⟩)] [2] 1 3 0).now_vlog_
      ∉ (VlogManager.mk [(2, ⟨none, 1⟩), (3, ⟨none, 0⟩)] [2] 1 3 0).cleaning_vlog_set_ ∧
    ∀ x m1, (VlogManager.mk [(2, ⟨none, 1⟩), (3, ⟨none, 0⟩)] [2] 1 3 0).GetVlogToClean
      = some (x, m1) →
      x ≠ (VlogManager.mk [(2, ⟨none, 1⟩), (3, ⟨none, 0⟩)] [2] 1 3 0).now_vlog_ :=
  ⟨by decide, by decide,
   C20_now_never_candidate 1
     [.AddVlog 1 none, .AddVlog 2 none, .AddDropCount 1, .GetVlogToClean,
      .RemoveCleaningVlog, .AddVlog 3 none, .AddDropCount 2, .SetNowVlog 3]
     _ (by decide) (by decide)⟩

/-! ## The collector in the build with `assert` enabled -/

/-- A pass over an entry in the build without `NDEBUG`. -/
theorem GarbageCollector.scanTriple_checked {σ : Type} (D : DBImpl σ) (vlog_number_ : Nat)
    (db : σ) (batch : List Byte) (old_garbage_pos pos garbage_pos_ : Nat)
    (clean_valid_batch : WriteBatch) :
    GarbageCollector.scanTriple false D vlog_number_ db batch old_garbage_pos pos garbage_pos_
        clean_valid_batch
      = (let parsed := D.ParseRecord batch pos
         let s := parsed.1
         let pos1 := parsed.2.1
         let key := parsed.2.2.1
         let value := parsed.2.2.2.1
         let isDel := parsed.2.2.2.2
         if !s.ok then (some (.assertion 64), pos1, garbage_pos_, clean_valid_batch)
         else
           let garbage_pos1 := old_garbage_pos + pos1
           if isDel then (none, pos1, garbage_pos1, clean_valid_batch)
           else
             let got := D.GetPtr db key
             if got.1.ok then
               let val := got.2
               if val.length < 8 then (some .undefined, pos1, garbage_pos1, clean_valid_batch)
               else
                 let code := DecodeFixed64 val
                 let size := code &&& 0xffffff
                 let code1 := code >>> 24
                 let file_numb := code1 &&& 0xff
                 let item_pos := code1 >>> 8
                 if item_pos + size == garbage_pos1 && file_numb == vlog_number_ then
                   (none, pos1, garbage_pos1, WriteBatch.Put clean_valid_batch key value)
                 else (none, pos1, garbage_pos1, clean_valid_batch)
             else (none, pos1, garbage_pos1, clean_valid_batch)) := rfl

/-- A pass over a record in the build without `NDEBUG`. -/
theorem GarbageCollector.scanRecord_checked {σ : Type} (D : DBImpl σ)
    (s : GarbageCollector.Run σ) :
    GarbageCollector.scanRecord false D s
      = (let polled := D.IsShutDown s.gc.db_
         let s0 : GarbageCollector.Run σ := { s with gc := { s.gc with db_ := polled.2 } }
         if polled.1 then (false, s0)
         else
           match s0.gc.vlog_reader_.ReadRecord with
           | none => (false, { s0 with stop := some .source })
           | some (false, _, _, r1) =>
             (false, { s0 with gc := { s0.gc with vlog_reader_ := r1 }, isEndOfFile := true })
           | some (true, record, _, r1) =>
             let garbage_pos1 := s0.gc.garbage_pos_ + kVHeaderSize
             let size := record.length
             let old_garbage_pos := garbage_pos1
             let inner := GarbageCollector.scanBatch false D s0.gc.vlog_number_ s0.gc.db_ record
               size old_garbage_pos size 0 garbage_pos1 s0.clean_valid_batch
             let s1 : GarbageCollector.Run σ :=
               { s0 with gc := { s0.gc with vlog_reader_ := r1, garbage_pos_ := inner.2.2.1 },
                         clean_valid_batch := inner.2.2.2 }
             match inner.1 with
             | some e => (false, { s1 with stop := some e })
             | none =>
               if inner.2.1 != size then (false, { s1 with stop := some (.assertion 90) })
               else if D.ByteSize s1.clean_valid_batch > D.clean_write_buffer_size then
                 let w := D.Write s1.gc.db_ s1.clean_valid_batch
                 let s2 : GarbageCollector.Run σ :=
                   { s1 with gc := { s1.gc with db_ := w.2 },
                             effects := s1.effects ++ [.Write s1.clean_valid_batch] }
                 if !w.1.ok then (false, { s2 with stop := some (.assertion 94) })
                 else (true, { s2 with clean_valid_batch := WriteBatch.Clear s2.clean_valid_batch })
               else (true, s1)) := rfl

/-- The end of a run in the build without `NDEBUG`. -/
theorem GarbageCollector.reclaim_checked {σ : Type} (D : DBImpl σ) (garbage_pos : Nat)
    (s : GarbageCollector.Run σ) :
    GarbageCollector.reclaim false D garbage_pos s
      = (let s0 : GarbageCollector.Run σ :=
           { s with gc := { s.gc with db_ := (D.IsShutDown s.gc.db_).2 } }
         let s1 : GarbageCollector.Run σ :=
           if WriteBatchInternal.Count s0.clean_valid_batch > 0 then
             let w := D.Write s0.gc.db_ s0.clean_valid_batch
             let s01 : GarbageCollector.Run σ :=
               { s0 with gc := { s0.gc with db_ := w.2 },
                         effects := s0.effects ++ [.Write s0.clean_valid_batch] }
             if !w.1.ok then { s01 with stop := some (.assertion 112) }
             else { s01 with clean_valid_batch := WriteBatch.Clear s01.clean_valid_batch }
           else s0
         if s1.stop.isSome then s1
         else if s1.gc.garbage_pos_ - garbage_pos > 0 then
           if s1.isEndOfFile then
             let d := D.DeleteFile s1.gc.db_ s1.gc.vlog_number_
             { s1 with gc := { s1.gc with db_ := d.2 },
                       effects := s1.effects ++ [.DeleteFile s1.gc.vlog_number_] }
           else
             let d := D.DeallocateDiskSpace s1.gc.db_ garbage_pos
               (s1.gc.garbage_pos_ - garbage_pos)
             let s2 : GarbageCollector.Run σ :=
               { s1 with gc := { s1.gc with db_ := d.2 },
                         effects := s1.effects ++
                           [.DeallocateDiskSpace garbage_pos (s1.gc.garbage_pos_ - garbage_pos)] }
             if !d.1.ok then { s2 with stop := some (.assertion 126) }
             else
               let v := EncodeFixed64
                 (((s2.gc.garbage_pos_ <<< 24) % 2 ^ 64) ||| s2.gc.vlog_number_)
               let p := D.Put s2.gc.db_ GarbageCollector.tail v
               let s3 : GarbageCollector.Run σ :=
                 { s2 with gc := { s2.gc with db_ := p.2 },
                           effects := s2.effects ++ [.Put GarbageCollector.tail v] }
               if !p.1.ok then { s3 with stop := some (.assertion 131) } else s3
         else s1) := rfl

/-- A run in the build without `NDEBUG`. -/
theorem GarbageCollector.BeginGarbageCollect_checked {σ : Type} (D : DBImpl σ)
    (g : GarbageCollector σ) :
    GarbageCollector.BeginGarbageCollect false D g
      = (let garbage_pos := g.garbage_pos_
         let sk := if g.garbage_pos_ > 0 then g.vlog_reader_.SkipToPos g.garbage_pos_
           else (true, g.vlog_reader_)
         let s : GarbageCollector.Run σ :=
           { gc := { g with vlog_reader_ := sk.2 }, clean_valid_batch := [],
             isEndOfFile := false, effects := [], stop := none }
         if !sk.1 then { s with stop := some (.assertion 36) }
         else
           let fuel := (sk.2.buffer_.length + sk.2.file_.contents_.length) / kVHeaderSize + 1
           let s1 := GarbageCollector.scan false D fuel s
           if s1.stop.isSome then s1 else GarbageCollector.reclaim false D garbage_pos s1) := rfl

/-- The entry of the loop in the build without `NDEBUG`. -/
theorem GarbageCollector.enter_checked {σ : Type} (g : GarbageCollector σ) :
    GarbageCollector.enter false g
      = (let sk := if g.garbage_pos_ > 0 then g.vlog_reader_.SkipToPos g.garbage_pos_
           else (true, g.vlog_reader_)
         (sk.1, { gc := { g with vlog_reader_ := sk.2 }, clean_valid_batch := [],
                  isEndOfFile := false, effects := [], stop := none })) := rfl

/-! ## The loops of the collector

A lemma that takes the build as an argument holds in both builds; the other lemmas
are about the build with `assert` enabled. -/

/-- The rule of the loop over the records: a property `I` that holds when the loop
is entered and is kept by every pass after which the loop goes on yields `Q` when the
loop is left. -/
theorem GarbageCollector.scan_rule {σ : Type} (ndebug : Bool) (D : DBImpl σ)
    (I Q : GarbageCollector.Run σ → Prop)
    (hcont : ∀ s, I s → (GarbageCollector.scanRecord ndebug D s).1 = true →
      I (GarbageCollector.scanRecord ndebug D s).2)
    (hexit : ∀ s, I s → (GarbageCollector.scanRecord ndebug D s).1 = false →
      Q (GarbageCollector.scanRecord ndebug D s).2)
    (hfuel : ∀ s, I s → Q { s with stop := some .fuel })
    (fuel : Nat) (s : GarbageCollector.Run σ) (h : I s) :
    Q (GarbageCollector.scan ndebug D fuel s) := by
  induction fuel generalizing s with
  | zero => exact hfuel s h
  | succ fuel ih =>
    unfold GarbageCollector.scan
    dsimp only
    cases ht : (GarbageCollector.scanRecord ndebug D s).1 with
    | true =>
      rw [if_pos rfl]
      exact ih _ (hcont s h ht)
    | false =>
      rw [if_neg (by simp)]
      exact hexit s h ht

/-- What a pass of the loop over the records leaves unchanged or extends. -/
theorem GarbageCollector.scanRecord_frame {σ : Type} (ndebug : Bool) (D : DBImpl σ)
    (s : GarbageCollector.Run σ) :
    (GarbageCollector.scanRecord ndebug D s).2.gc.vlog_number_ = s.gc.vlog_number_ ∧
    (∃ ws : List WriteBatch, ws.length ≤ 1 ∧
      (GarbageCollector.scanRecord ndebug D s).2.effects
        = s.effects ++ ws.map GarbageCollector.Effect.Write) := by
  unfold GarbageCollector.scanRecord
  dsimp only
  split
  · exact ⟨rfl, [], by simp, by simp⟩
  · split
    · exact ⟨rfl, [], by simp, by simp⟩
    · exact ⟨rfl, [], by simp, by simp⟩
    · split
      · exact ⟨rfl, [], by simp, by simp⟩
      · split
        · exact ⟨rfl, [], by simp, by simp⟩
        · split
          · split
            · exact ⟨rfl, [_], by simp, rfl⟩
            · exact ⟨rfl, [_], by simp, rfl⟩
          · exact ⟨rfl, [], by simp, by simp⟩

/-- The calls of the loop over the records are writes of the accumulator, in both
builds. -/
theorem GarbageCollector.scan_effects {σ : Type} (ndebug : Bool) (D : DBImpl σ) (fuel : Nat)
    (s : GarbageCollector.Run σ) :
    (GarbageCollector.scan ndebug D fuel s).gc.vlog_number_ = s.gc.vlog_number_ ∧
    ∃ ws : List WriteBatch, (GarbageCollector.scan ndebug D fuel s).effects
      = s.effects ++ ws.map GarbageCollector.Effect.Write := by
  refine GarbageCollector.scan_rule ndebug D
    (fun t => t.gc.vlog_number_ = s.gc.vlog_number_ ∧
      ∃ ws : List WriteBatch, t.effects = s.effects ++ ws.map GarbageCollector.Effect.Write)
    (fun t => t.gc.vlog_number_ = s.gc.vlog_number_ ∧
      ∃ ws : List WriteBatch, t.effects = s.effects ++ ws.map GarbageCollector.Effect.Write)
    ?_ ?_ ?_ fuel s ⟨rfl, [], by simp⟩
  · intro t ⟨h3, ws, h5⟩ _
    obtain ⟨hv, ws1, _, hw⟩ := GarbageCollector.scanRecord_frame ndebug D t
    exact ⟨hv.trans h3, ws ++ ws1, by rw [hw, h5, List.map_append, List.append_assoc]⟩
  · intro t ⟨h3, ws, h5⟩ _
    obtain ⟨hv, ws1, _, hw⟩ := GarbageCollector.scanRecord_frame ndebug D t
    exact ⟨hv.trans h3, ws ++ ws1, by rw [hw, h5, List.map_append, List.append_assoc]⟩
  · intro t ⟨h3, ws, h5⟩
    exact ⟨h3, ws, h5⟩

theorem GarbageCollector.scanRecord_shutdown {σ : Type} (ndebug : Bool) (D : DBImpl σ)
    (s : GarbageCollector.Run σ) (h : (D.IsShutDown s.gc.db_).1 = true) :
    GarbageCollector.scanRecord ndebug D s
      = (false, { s with gc := { s.gc with db_ := (D.IsShutDown s.gc.db_).2 } }) := by
  unfold GarbageCollector.scanRecord
  dsimp only
  rw [if_pos h]

theorem GarbageCollector.scanRecord_eof {σ : Type} (ndebug : Bool) (D : DBImpl σ)
    (s : GarbageCollector.Run σ) (h : (D.IsShutDown s.gc.db_).1 = false)
    (record scratch : List Byte) (r1 : VReader)
    (hr : s.gc.vlog_reader_.ReadRecord = some (false, record, scratch, r1)) :
    GarbageCollector.scanRecord ndebug D s
      = (false, { s with gc := { s.gc with db_ := (D.IsShutDown s.gc.db_).2,
                                           vlog_reader_ := r1 },
                         isEndOfFile := true }) := by
  unfold GarbageCollector.scanRecord
  dsimp only
  rw [if_neg (by rw [h]; simp), hr]

theorem GarbageCollector.scanRecord_record {σ : Type} (D : DBImpl σ)
    (s : GarbageCollector.Run σ) (h : (D.IsShutDown s.gc.db_).1 = false)
    (record scratch : List Byte) (r1 : VReader)
    (hr : s.gc.vlog_reader_.ReadRecord = some (true, record, scratch, r1))
    (inner : Option GarbageCollector.Stop × Nat × Nat × WriteBatch)
    (hi : inner = GarbageCollector.scanBatch false D s.gc.vlog_number_ (D.IsShutDown s.gc.db_).2
      record record.length (s.gc.garbage_pos_ + kVHeaderSize) record.length 0
      (s.gc.garbage_pos_ + kVHeaderSize) s.clean_valid_batch) :
    GarbageCollector.scanRecord false D s
      = match inner.1 with
        | some e =>
          (false, { s with gc := { s.gc with db_ := (D.IsShutDown s.gc.db_).2,
                                             vlog_reader_ := r1, garbage_pos_ := inner.2.2.1 },
                           clean_valid_batch := inner.2.2.2, stop := some e })
        | none =>
          if inner.2.1 != record.length then
            (false, { s with gc := { s.gc with db_ := (D.IsShutDown s.gc.db_).2,
                                               vlog_reader_ := r1,
                                               garbage_pos_ := inner.2.2.1 },
                             clean_valid_batch := inner.2.2.2,
                             stop := some (.assertion 90) })
          else if D.ByteSize inner.2.2.2 > D.clean_write_buffer_size then
            if !(D.Write (D.IsShutDown s.gc.db_).2 inner.2.2.2).1.ok then
              (false, { s with gc := { s.gc with
                                         db_ := (D.Write (D.IsShutDown s.gc.db_).2 inner.2.2.2).2,
                                         vlog_reader_ := r1, garbage_pos_ := inner.2.2.1 },
                               clean_valid_batch := inner.2.2.2,
                               effects := s.effects ++ [.Write inner.2.2.2],
                               stop := some (.assertion 94) })
            else
              (true, { s with gc := { s.gc with
                                         db_ := (D.Write (D.IsShutDown s.gc.db_).2 inner.2.2.2).2,
                                         vlog_reader_ := r1, garbage_pos_ := inner.2.2.1 },
                              clean_valid_batch := [],
                              effects := s.effects ++ [.Write inner.2.2.2] })
          else
            (true, { s with gc := { s.gc with db_ := (D.IsShutDown s.gc.db_).2,
                                              vlog_reader_ := r1, garbage_pos_ := inner.2.2.1 },
                            clean_valid_batch := inner.2.2.2 }) := by
  subst hi
  rw [GarbageCollector.scanRecord_checked]
  dsimp only
  rw [if_neg (by rw [h]; simp), hr]
  rfl

/-- The reasons for which the loop over the entries of a batch ends a run. -/
theorem GarbageCollector.scanTriple_stop {σ : Type} (ndebug : Bool) (D : DBImpl σ) (v : Nat)
    (db : σ)
    (batch : List Byte) (old pos gp : Nat) (acc : WriteBatch) :
    (GarbageCollector.scanTriple ndebug D v db batch old pos gp acc).1 ≠ some .fuel ∧
    (old ≤ gp → old ≤ (GarbageCollector.scanTriple ndebug D v db batch old pos gp acc).2.2.1) := by
  unfold GarbageCollector.scanTriple
  dsimp only
  split
  · exact ⟨by simp, fun h => h⟩
  · split
    · exact ⟨by simp, fun _ => Nat.le_add_right _ _⟩
    · split
      · split
        · exact ⟨by simp, fun _ => Nat.le_add_right _ _⟩
        · split
          · exact ⟨by simp, fun _ => Nat.le_add_right _ _⟩
          · exact ⟨by simp, fun _ => Nat.le_add_right _ _⟩
      · exact ⟨by simp, fun _ => Nat.le_add_right _ _⟩

theorem GarbageCollector.scanBatch_stop {σ : Type} (ndebug : Bool) (D : DBImpl σ) (v : Nat)
    (db : σ)
    (batch : List Byte) (size old : Nat) (fuel pos gp : Nat) (acc : WriteBatch) :
    (GarbageCollector.scanBatch ndebug D v db batch size old fuel pos gp acc).1 ≠ some .fuel ∧
    (old ≤ gp → old ≤ (GarbageCollector.scanBatch ndebug D v db batch size old fuel pos gp acc).2.2.1) := by
  induction fuel generalizing pos gp acc with
  | zero =>
    unfold GarbageCollector.scanBatch
    split
    · exact ⟨by simp, fun h => h⟩
    · exact ⟨by simp, fun h => h⟩
  | succ fuel ih =>
    unfold GarbageCollector.scanBatch
    dsimp only
    have ht := GarbageCollector.scanTriple_stop ndebug D v db batch old pos gp acc
    split
    · split
      · next e he =>
        refine ⟨?_, ht.2⟩
        intro hc
        simp only [Option.some.injEq] at hc
        rw [hc] at he
        exact ht.1 he
      · exact ⟨(ih _ _ _).1, fun h => (ih _ _ _).2 (ht.2 h)⟩
    · exact ⟨by simp, fun h => h⟩

/-- The bytes the reader of a run has not returned yet, in both builds. -/
theorem GarbageCollector.scanRecord_progress {σ : Type} (ndebug : Bool) (D : DBImpl σ)
    (s : GarbageCollector.Run σ) :
    ((GarbageCollector.scanRecord ndebug D s).2.stop = some .fuel → s.stop = some .fuel) ∧
    ((GarbageCollector.scanRecord ndebug D s).1 = true →
      (GarbageCollector.scanRecord ndebug D s).2.gc.vlog_reader_.buffer_.length
        + (GarbageCollector.scanRecord ndebug D s).2.gc.vlog_reader_.file_.contents_.length
        + kVHeaderSize
      ≤ s.gc.vlog_reader_.buffer_.length + s.gc.vlog_reader_.file_.contents_.length) := by
  cases hp : (D.IsShutDown s.gc.db_).1 with
  | true =>
    rw [GarbageCollector.scanRecord_shutdown ndebug D s hp]
    exact ⟨fun h => h, fun h => absurd h (by simp)⟩
  | false =>
    cases hr : s.gc.vlog_reader_.ReadRecord with
    | none =>
      unfold GarbageCollector.scanRecord
      dsimp only
      rw [if_neg (by rw [hp]; simp), hr]
      exact ⟨fun h => absurd h (by simp), fun h => absurd h (by simp)⟩
    | some x =>
      obtain ⟨ok, record, scratch, r1⟩ := x
      cases ok with
      | false =>
        rw [GarbageCollector.scanRecord_eof ndebug D s hp record scratch r1 hr]
        exact ⟨fun h => h, fun h => absurd h (by simp)⟩
      | true =>
        have hprog := (VReader.ReadRecord_progress _ _ _ _ hr).1
        have hb := GarbageCollector.scanBatch_stop ndebug D s.gc.vlog_number_
          (D.IsShutDown s.gc.db_).2 record record.length (s.gc.garbage_pos_ + kVHeaderSize)
          record.length 0 (s.gc.garbage_pos_ + kVHeaderSize) s.clean_valid_batch
        unfold GarbageCollector.scanRecord
        dsimp only
        rw [if_neg (by rw [hp]; simp), hr]
        dsimp only
        split
        · next e he =>
          refine ⟨?_, fun h => absurd h (by simp)⟩
          intro hc
          simp only [Option.some.injEq] at hc
          rw [hc] at he
          exact absurd he hb.1
        · split
          · exact ⟨fun h => absurd h (by simp), fun h => absurd h (by simp)⟩
          · split
            · split
              · exact ⟨fun h => absurd h (by simp), fun h => absurd h (by simp)⟩
              · exact ⟨fun h => h, fun _ => hprog⟩
            · exact ⟨fun h => h, fun _ => hprog⟩

/-- The position of a run does not go back in a pass, in the build with `assert`
enabled. -/
theorem GarbageCollector.scanRecord_forward {σ : Type} (D : DBImpl σ)
    (s : GarbageCollector.Run σ) :
    s.gc.garbage_pos_ ≤ (GarbageCollector.scanRecord false D s).2.gc.garbage_pos_ := by
  cases hp : (D.IsShutDown s.gc.db_).1 with
  | true =>
    rw [GarbageCollector.scanRecord_shutdown false D s hp]
  | false =>
    cases hr : s.gc.vlog_reader_.ReadRecord with
    | none =>
      rw [GarbageCollector.scanRecord_checked]
      dsimp only
      rw [if_neg (by rw [hp]; simp), hr]
    | some x =>
      obtain ⟨ok, record, scratch, r1⟩ := x
      cases ok with
      | false =>
        rw [GarbageCollector.scanRecord_eof false D s hp record scratch r1 hr]
      | true =>
        have hb := GarbageCollector.scanBatch_stop false D s.gc.vlog_number_
          (D.IsShutDown s.gc.db_).2 record record.length (s.gc.garbage_pos_ + kVHeaderSize)
          record.length 0 (s.gc.garbage_pos_ + kVHeaderSize) s.clean_valid_batch
        have hge := hb.2 (Nat.le_refl _)
        rw [GarbageCollector.scanRecord_record D s hp record scratch r1 hr _ rfl]
        split
        · dsimp only; omega
        · split
          · dsimp only; omega
          · split
            · split
              · dsimp only; omega
              · dsimp only; omega
            · dsimp only; omega

/-- The bound on the passes of the loop over the records is never used up, in both
builds. -/
theorem GarbageCollector.scan_fuel {σ : Type} (ndebug : Bool) (D : DBImpl σ) (fuel : Nat)
    (s : GarbageCollector.Run σ)
    (hf : (s.gc.vlog_reader_.buffer_.length + s.gc.vlog_reader_.file_.contents_.length)
      / kVHeaderSize < fuel)
    (hs : s.stop ≠ some .fuel) :
    (GarbageCollector.scan ndebug D fuel s).stop ≠ some .fuel := by
  induction fuel generalizing s with
  | zero => exact absurd hf (Nat.not_lt_zero _)
  | succ fuel ih =>
    unfold GarbageCollector.scan
    dsimp only
    obtain ⟨h2, h3⟩ := GarbageCollector.scanRecord_progress ndebug D s
    cases ht : (GarbageCollector.scanRecord ndebug D s).1 with
    | true =>
      rw [if_pos rfl]
      refine ih _ ?_ (fun h => hs (h2 h))
      have := h3 ht
      simp only [kVHeaderSize] at this hf ⊢
      omega
    | false =>
      rw [if_neg (by simp)]
      exact fun h => hs (h2 h)

/-- The end of a run: the flush of the accumulator and the reclaim step. -/
theorem GarbageCollector.reclaim_spec {σ : Type} (D : DBImpl σ) (garbage_pos : Nat)
    (s : GarbageCollector.Run σ) :
    (GarbageCollector.reclaim false D garbage_pos s).gc.garbage_pos_ = s.gc.garbage_pos_ ∧
    (GarbageCollector.reclaim false D garbage_pos s).gc.vlog_number_ = s.gc.vlog_number_ ∧
    (GarbageCollector.reclaim false D garbage_pos s).isEndOfFile = s.isEndOfFile ∧
    ((GarbageCollector.reclaim false D garbage_pos s).stop = s.stop ∨
      ∃ line, (GarbageCollector.reclaim false D garbage_pos s).stop = some (.assertion line)) ∧
    ∃ rest : List GarbageCollector.Effect,
      (GarbageCollector.reclaim false D garbage_pos s).effects
        = s.effects
          ++ (if s.clean_valid_batch.length > 0 then [s.clean_valid_batch] else []).map
              GarbageCollector.Effect.Write
          ++ rest ∧
      (rest = [] ∨ rest = [.DeleteFile s.gc.vlog_number_] ∨
        rest = [.DeallocateDiskSpace garbage_pos (s.gc.garbage_pos_ - garbage_pos)] ∨
        rest = [.DeallocateDiskSpace garbage_pos (s.gc.garbage_pos_ - garbage_pos),
                .Put GarbageCollector.tail
                  (EncodeFixed64 (((s.gc.garbage_pos_ <<< 24) % 2 ^ 64) ||| s.gc.vlog_number_))]) ∧
      (s.stop = none → (GarbageCollector.reclaim false D garbage_pos s).stop = none →
        (GarbageCollector.reclaim false D garbage_pos s).clean_valid_batch = [] ∧
        rest = if s.gc.garbage_pos_ - garbage_pos > 0 then
            if s.isEndOfFile then [.DeleteFile s.gc.vlog_number_]
            else [.DeallocateDiskSpace garbage_pos (s.gc.garbage_pos_ - garbage_pos),
                  .Put GarbageCollector.tail
                    (EncodeFixed64
                      (((s.gc.garbage_pos_ <<< 24) % 2 ^ 64) ||| s.gc.vlog_number_))]
          else []) := by
  by_cases hc : s.clean_valid_batch.length > 0
  · rw [if_pos hc]
    rw [GarbageCollector.reclaim_checked]
    unfold WriteBatchInternal.Count WriteBatch.Clear
    dsimp only
    rw [if_pos hc]
    split
    · split
      · exact ⟨rfl, rfl, rfl, Or.inr ⟨_, rfl⟩, [], by simp, Or.inl rfl, fun _ h => absurd h (by simp)⟩
      · next hx => exact absurd rfl hx
    · split
      · next hs =>
        exact ⟨rfl, rfl, rfl, Or.inl rfl, [], by simp, Or.inl rfl,
          fun h => absurd hs (by dsimp only; rw [h]; simp)⟩
      · split
        · next hg =>
          split
          · next he =>
            exact ⟨rfl, rfl, rfl, Or.inl rfl, [.DeleteFile s.gc.vlog_number_], by simp, Or.inr (Or.inl rfl),
              fun _ _ => ⟨rfl, rfl⟩⟩
          · next he =>
            split
            · exact ⟨rfl, rfl, rfl, Or.inr ⟨_, rfl⟩, [.DeallocateDiskSpace garbage_pos (s.gc.garbage_pos_ - garbage_pos)], by simp, Or.inr (Or.inr (Or.inl rfl)),
                fun _ h => absurd h (by simp)⟩
            · split
              · exact ⟨rfl, rfl, rfl, Or.inr ⟨_, rfl⟩, [.DeallocateDiskSpace garbage_pos (s.gc.garbage_pos_ - garbage_pos),
                .Put GarbageCollector.tail (EncodeFixed64
                  (((s.gc.garbage_pos_ <<< 24) % 2 ^ 64) ||| s.gc.vlog_number_))], by simp, Or.inr (Or.inr (Or.inr rfl)),
                  fun _ h => absurd h (by simp)⟩
              · exact ⟨rfl, rfl, rfl, Or.inl rfl, [.DeallocateDiskSpace garbage_pos (s.gc.garbage_pos_ - garbage_pos),
                .Put GarbageCollector.tail (EncodeFixed64
                  (((s.gc.garbage_pos_ <<< 24) % 2 ^ 64) ||| s.gc.vlog_number_))], by simp, Or.inr (Or.inr (Or.inr rfl)),
                  fun _ _ => ⟨rfl, rfl⟩⟩
        · next hg =>
          exact ⟨rfl, rfl, rfl, Or.inl rfl, [], by simp, Or.inl rfl,
            fun _ _ => ⟨rfl, rfl⟩⟩
  · rw [if_neg hc]
    have hnil : s.clean_valid_batch = [] := by
      cases hb : s.clean_valid_batch with
      | nil => rfl
      | cons a b => rw [hb] at hc; exact absurd (Nat.succ_pos _) hc
    rw [GarbageCollector.reclaim_checked]
    unfold WriteBatchInternal.Count WriteBatch.Clear
    dsimp only
    rw [if_neg hc]
    split
    · next hs =>
      exact ⟨rfl, rfl, rfl, Or.inl rfl, [], by simp, Or.inl rfl,
        fun h => absurd hs (by dsimp only; rw [h]; simp)⟩
    · split
      · next hg =>
        split
        · next he =>
          exact ⟨rfl, rfl, rfl, Or.inl rfl, [.DeleteFile s.gc.vlog_number_], by simp, Or.inr (Or.inl rfl),
            fun _ _ => ⟨hnil, rfl⟩⟩
        · next he =>
          split
          · exact ⟨rfl, rfl, rfl, Or.inr ⟨_, rfl⟩, [.DeallocateDiskSpace garbage_pos (s.gc.garbage_pos_ - garbage_pos)], by simp, Or.inr (Or.inr (Or.inl rfl)),
              fun _ h => absurd h (by simp)⟩
          · split
            · exact ⟨rfl, rfl, rfl, Or.inr ⟨_, rfl⟩, [.DeallocateDiskSpace garbage_pos (s.gc.garbage_pos_ - garbage_pos),
                .Put GarbageCollector.tail (EncodeFixed64
                  (((s.gc.garbage_pos_ <<< 24) % 2 ^ 64) ||| s.gc.vlog_number_))], by simp, Or.inr (Or.inr (Or.inr rfl)),
                fun _ h => absurd h (by simp)⟩
            · exact ⟨rfl, rfl, rfl, Or.inl rfl, [.DeallocateDiskSpace garbage_pos (s.gc.garbage_pos_ - garbage_pos),
                .Put GarbageCollector.tail (EncodeFixed64
                  (((s.gc.garbage_pos_ <<< 24) % 2 ^ 64) ||| s.gc.vlog_number_))], by simp, Or.inr (Or.inr (Or.inr rfl)),
                fun _ _ => ⟨hnil, rfl⟩⟩
      · next hg =>
        exact ⟨rfl, rfl, rfl, Or.inl rfl, [], by simp, Or.inl rfl,
          fun _ _ => ⟨hnil, rfl⟩⟩
/-- How a pass of the loop over the records treats the flags of the run. -/
theorem GarbageCollector.scanRecord_flags {σ : Type} (D : DBImpl σ)
    (s : GarbageCollector.Run σ) :
    ((GarbageCollector.scanRecord false D s).1 = true →
      (GarbageCollector.scanRecord false D s).2.isEndOfFile = s.isEndOfFile ∧
      (GarbageCollector.scanRecord false D s).2.stop = s.stop) ∧
    ((GarbageCollector.scanRecord false D s).1 = false →
      (GarbageCollector.scanRecord false D s).2.stop = none →
      (GarbageCollector.scanRecord false D s).2.isEndOfFile = false →
      s.isEndOfFile = false ∧ (D.IsShutDown s.gc.db_).1 = true) := by
  cases hp : (D.IsShutDown s.gc.db_).1 with
  | true =>
    rw [GarbageCollector.scanRecord_shutdown false D s hp]
    exact ⟨fun h => absurd h (by simp), fun _ _ h => ⟨h, rfl⟩⟩
  | false =>
    cases hr : s.gc.vlog_reader_.ReadRecord with
    | none =>
      rw [GarbageCollector.scanRecord_checked]
      dsimp only
      rw [if_neg (by rw [hp]; simp), hr]
      exact ⟨fun h => absurd h (by simp), fun _ h => absurd h (by simp)⟩
    | some x =>
      obtain ⟨ok, record, scratch, r1⟩ := x
      cases ok with
      | false =>
        rw [GarbageCollector.scanRecord_eof false D s hp record scratch r1 hr]
        exact ⟨fun h => absurd h (by simp), fun _ _ h => absurd h (by simp)⟩
      | true =>
        rw [GarbageCollector.scanRecord_record D s hp record scratch r1 hr _ rfl]
        split
        · exact ⟨fun h => absurd h (by simp), fun _ h => absurd h (by simp)⟩
        · split
          · exact ⟨fun h => absurd h (by simp), fun _ h => absurd h (by simp)⟩
          · split
            · split
              · exact ⟨fun h => absurd h (by simp), fun _ h => absurd h (by simp)⟩
              · exact ⟨fun _ => ⟨rfl, rfl⟩, fun h => absurd h (by simp)⟩
            · exact ⟨fun _ => ⟨rfl, rfl⟩, fun h => absurd h (by simp)⟩

/-- The loop over the records: the collector keeps its vlog, the position does not
go back, the calls made are writes of the accumulator, and a run that leaves the
loop with `isEndOfFile` false has seen the database shut down. -/
theorem GarbageCollector.scan_spec {σ : Type} (D : DBImpl σ) (fuel : Nat)
    (s : GarbageCollector.Run σ) (hs : s.stop = none) (he : s.isEndOfFile = false) :
    (GarbageCollector.scan false D fuel s).gc.vlog_number_ = s.gc.vlog_number_ ∧
    s.gc.garbage_pos_ ≤ (GarbageCollector.scan false D fuel s).gc.garbage_pos_ ∧
    (∃ ws : List WriteBatch, (GarbageCollector.scan false D fuel s).effects
      = s.effects ++ ws.map GarbageCollector.Effect.Write) ∧
    ((GarbageCollector.scan false D fuel s).stop = none →
      (GarbageCollector.scan false D fuel s).isEndOfFile = false →
      ∃ db, (D.IsShutDown db).1 = true) := by
  refine GarbageCollector.scan_rule false D
    (fun t => t.stop = none ∧ t.isEndOfFile = false ∧ t.gc.vlog_number_ = s.gc.vlog_number_ ∧
      s.gc.garbage_pos_ ≤ t.gc.garbage_pos_ ∧
      ∃ ws : List WriteBatch, t.effects = s.effects ++ ws.map GarbageCollector.Effect.Write)
    (fun t => t.gc.vlog_number_ = s.gc.vlog_number_ ∧
      s.gc.garbage_pos_ ≤ t.gc.garbage_pos_ ∧
      (∃ ws : List WriteBatch, t.effects = s.effects ++ ws.map GarbageCollector.Effect.Write) ∧
      (t.stop = none → t.isEndOfFile = false → ∃ db, (D.IsShutDown db).1 = true))
    ?_ ?_ ?_ fuel s ⟨hs, he, rfl, Nat.le_refl _, [], by simp⟩
  · intro t ⟨h1, h2, h3, h4, ws, h5⟩ hc
    obtain ⟨hv, ws1, _, hw⟩ := GarbageCollector.scanRecord_frame false D t
    have hg := GarbageCollector.scanRecord_forward D t
    obtain ⟨hf, _⟩ := GarbageCollector.scanRecord_flags D t
    refine ⟨(hf hc).2.trans h1, (hf hc).1.trans h2, hv.trans h3, Nat.le_trans h4 hg,
      ws ++ ws1, ?_⟩
    rw [hw, h5, List.map_append, List.append_assoc]
  · intro t ⟨h1, h2, h3, h4, ws, h5⟩ hc
    obtain ⟨hv, ws1, _, hw⟩ := GarbageCollector.scanRecord_frame false D t
    have hg := GarbageCollector.scanRecord_forward D t
    obtain ⟨_, hf⟩ := GarbageCollector.scanRecord_flags D t
    refine ⟨hv.trans h3, Nat.le_trans h4 hg, ⟨ws ++ ws1, ?_⟩, ?_⟩
    · rw [hw, h5, List.map_append, List.append_assoc]
    · intro hn hfalse
      exact ⟨_, (hf hc hn hfalse).2⟩
  · intro t ⟨h1, h2, h3, h4, ws, h5⟩
    exact ⟨h3, h4, ⟨ws, h5⟩, fun h => absurd h (by simp)⟩

/-- The three ways through `BeginGarbageCollect`: the skip to the start position
fails, the loop over the records ends the run, or the reclaim step is reached. -/
theorem GarbageCollector.BeginGarbageCollect_cases {σ : Type} (D : DBImpl σ)
    (g : GarbageCollector σ) :
    ∃ (sk : Bool × VReader) (fuel : Nat) (s0 : GarbageCollector.Run σ),
      sk = (if g.garbage_pos_ > 0 then g.vlog_reader_.SkipToPos g.garbage_pos_
        else (true, g.vlog_reader_)) ∧
      fuel = (sk.2.buffer_.length + sk.2.file_.contents_.length) / kVHeaderSize + 1 ∧
      s0 = GarbageCollector.Run.mk { g with vlog_reader_ := sk.2 } [] false [] none ∧
      ((sk.1 = false ∧ GarbageCollector.BeginGarbageCollect false D g
          = { s0 with stop := some (.assertion 36) }) ∨
       (sk.1 = true ∧ (GarbageCollector.scan false D fuel s0).stop ≠ none ∧
          GarbageCollector.BeginGarbageCollect false D g = GarbageCollector.scan false D fuel s0) ∨
       (sk.1 = true ∧ (GarbageCollector.scan false D fuel s0).stop = none ∧
          GarbageCollector.BeginGarbageCollect false D g
            = GarbageCollector.reclaim false D g.garbage_pos_ (GarbageCollector.scan false D fuel s0))) := by
  refine ⟨_, _, _, rfl, rfl, rfl, ?_⟩
  rw [GarbageCollector.BeginGarbageCollect_checked]
  dsimp only
  generalize (if g.garbage_pos_ > 0 then g.vlog_reader_.SkipToPos g.garbage_pos_
    else (true, g.vlog_reader_)) = sk
  cases h1 : sk.1 with
  | false => exact Or.inl ⟨rfl, by simp⟩
  | true =>
    right
    cases h2 : (GarbageCollector.scan false D
      ((sk.2.buffer_.length + sk.2.file_.contents_.length) / kVHeaderSize + 1)
      (GarbageCollector.Run.mk { g with vlog_reader_ := sk.2 } [] false [] none)).stop with
    | none => exact Or.inr ⟨rfl, rfl, by simp [h2]⟩
    | some e => exact Or.inl ⟨rfl, by simp, by simp [h2]⟩

/-- A run of `BeginGarbageCollect`: its calls are writes of the accumulator followed
by the calls of the reclaim step. -/
theorem GarbageCollector.BeginGarbageCollect_spec {σ : Type} (D : DBImpl σ)
    (g : GarbageCollector σ) :
    (GarbageCollector.BeginGarbageCollect false D g).stop ≠ some .fuel ∧
    (GarbageCollector.BeginGarbageCollect false D g).gc.vlog_number_ = g.vlog_number_ ∧
    g.garbage_pos_ ≤ (GarbageCollector.BeginGarbageCollect false D g).gc.garbage_pos_ ∧
    ∃ (ws : List WriteBatch) (rest : List GarbageCollector.Effect),
      (GarbageCollector.BeginGarbageCollect false D g).effects
        = ws.map GarbageCollector.Effect.Write ++ rest ∧
      (rest = [] ∨ rest = [.DeleteFile g.vlog_number_] ∨
        rest = [.DeallocateDiskSpace g.garbage_pos_
          ((GarbageCollector.BeginGarbageCollect false D g).gc.garbage_pos_ - g.garbage_pos_)] ∨
        rest = [.DeallocateDiskSpace g.garbage_pos_
                  ((GarbageCollector.BeginGarbageCollect false D g).gc.garbage_pos_ - g.garbage_pos_),
                .Put GarbageCollector.tail
                  (EncodeFixed64
                    ((((GarbageCollector.BeginGarbageCollect false D g).gc.garbage_pos_ <<< 24) % 2 ^ 64)
                      ||| g.vlog_number_))]) ∧
      ((GarbageCollector.BeginGarbageCollect false D g).stop = none →
        (GarbageCollector.BeginGarbageCollect false D g).clean_valid_batch = [] ∧
        ((GarbageCollector.BeginGarbageCollect false D g).isEndOfFile = false →
          ∃ db, (D.IsShutDown db).1 = true) ∧
        rest = if (GarbageCollector.BeginGarbageCollect false D g).gc.garbage_pos_ - g.garbage_pos_ > 0
          then
            if (GarbageCollector.BeginGarbageCollect false D g).isEndOfFile then
              [.DeleteFile g.vlog_number_]
            else
              [.DeallocateDiskSpace g.garbage_pos_
                  ((GarbageCollector.BeginGarbageCollect false D g).gc.garbage_pos_ - g.garbage_pos_),
                .Put GarbageCollector.tail
                  (EncodeFixed64
                    ((((GarbageCollector.BeginGarbageCollect false D g).gc.garbage_pos_ <<< 24) % 2 ^ 64)
                      ||| g.vlog_number_))]
          else []) := by
  obtain ⟨sk, fuel, s0, _, hfuel, hs0, hcases⟩ := GarbageCollector.BeginGarbageCollect_cases D g
  have hst : s0.stop = none := by rw [hs0]
  have heof : s0.isEndOfFile = false := by rw [hs0]
  have hv0 : s0.gc.vlog_number_ = g.vlog_number_ := by rw [hs0]
  have hg0 : s0.gc.garbage_pos_ = g.garbage_pos_ := by rw [hs0]
  have he0 : s0.effects = [] := by rw [hs0]
  have hfl : (GarbageCollector.scan false D fuel s0).stop ≠ some .fuel := by
    refine GarbageCollector.scan_fuel false D fuel s0 ?_ (by rw [hst]; simp)
    rw [hfuel, hs0]
    exact Nat.lt_succ_self _
  obtain ⟨h1, h2, ⟨ws, h3⟩, h4⟩ := GarbageCollector.scan_spec D fuel s0 hst heof
  rw [he0, List.nil_append] at h3
  rw [hv0] at h1
  rw [hg0] at h2
  rcases hcases with ⟨_, heq⟩ | ⟨_, hstop, heq⟩ | ⟨_, hstop, heq⟩
  · rw [heq]
    exact ⟨by simp, hv0, Nat.le_of_eq hg0.symm, [], [], by rw [he0]; rfl, Or.inl rfl,
      fun h => absurd h (by simp)⟩
  · rw [heq]
    exact ⟨hfl, h1, h2, ws, [], by rw [h3, List.append_nil], Or.inl rfl,
      fun h => absurd h hstop⟩
  · obtain ⟨r1, r2, r3, r0, rest, r4, r5, r6⟩ :=
      GarbageCollector.reclaim_spec D g.garbage_pos_ (GarbageCollector.scan false D fuel s0)
    rw [heq, r1, r2, r3, h1]
    rw [h1] at r5 r6
    refine ⟨?_, rfl, h2, ws ++ (if (GarbageCollector.scan false D fuel s0).clean_valid_batch.length > 0
        then [(GarbageCollector.scan false D fuel s0).clean_valid_batch] else []), rest, ?_, r5, ?_⟩
    · rcases r0 with r0 | ⟨line, r0⟩
      · rw [r0, hstop]; simp
      · rw [r0]; simp
    · rw [r4, h3, List.map_append]
    · intro hn
      obtain ⟨r7, r8⟩ := r6 hstop hn
      exact ⟨r7, h4 hstop, r8⟩

/-- The calls of the end of a run, in both builds: a write of the accumulator if it is
not empty, then the calls of the reclaim step. -/
theorem GarbageCollector.reclaim_effects {σ : Type} (ndebug : Bool) (D : DBImpl σ)
    (garbage_pos : Nat) (s : GarbageCollector.Run σ) :
    ∃ (ws : List WriteBatch) (rest : List GarbageCollector.Effect),
      (GarbageCollector.reclaim ndebug D garbage_pos s).effects
        = s.effects ++ ws.map GarbageCollector.Effect.Write ++ rest ∧
      (rest = [] ∨ rest = [.DeleteFile s.gc.vlog_number_] ∨
        (∃ offset len, rest = [.DeallocateDiskSpace offset len]) ∨
        (∃ offset len value, rest = [.DeallocateDiskSpace offset len,
          .Put GarbageCollector.tail value])) := by
  cases ndebug with
  | false =>
    obtain ⟨_, _, _, _, rest, h1, h2, _⟩ := GarbageCollector.reclaim_spec D garbage_pos s
    refine ⟨_, rest, h1, ?_⟩
    rcases h2 with h | h | h | h
    · exact Or.inl h
    · exact Or.inr (Or.inl h)
    · exact Or.inr (Or.inr (Or.inl ⟨_, _, h⟩))
    · exact Or.inr (Or.inr (Or.inr ⟨_, _, _, h⟩))
  | true =>
    unfold GarbageCollector.reclaim WriteBatchInternal.Count WriteBatch.Clear
    simp only [Bool.not_true, Bool.false_and, Bool.false_eq_true, if_false, if_true]
    split
    · split
      · exact ⟨[s.clean_valid_batch], [], by simp, Or.inl rfl⟩
      · split
        · split
          · exact ⟨[s.clean_valid_batch], [.DeleteFile s.gc.vlog_number_], rfl,
              Or.inr (Or.inl rfl)⟩
          · exact ⟨[s.clean_valid_batch], [], by simp, Or.inl rfl⟩
        · exact ⟨[s.clean_valid_batch], [], by simp, Or.inl rfl⟩
    · split
      · exact ⟨[], [], by simp, Or.inl rfl⟩
      · split
        · split
          · exact ⟨[], [.DeleteFile s.gc.vlog_number_], by simp, Or.inr (Or.inl rfl)⟩
          · exact ⟨[], [], by simp, Or.inl rfl⟩
        · exact ⟨[], [], by simp, Or.inl rfl⟩

/-- The calls of a run, in both builds: writes of the accumulator followed by the
calls of the reclaim step. -/
theorem GarbageCollector.BeginGarbageCollect_effects {σ : Type} (ndebug : Bool)
    (D : DBImpl σ) (g : GarbageCollector σ) :
    ∃ (ws : List WriteBatch) (rest : List GarbageCollector.Effect),
      (GarbageCollector.BeginGarbageCollect ndebug D g).effects
        = ws.map GarbageCollector.Effect.Write ++ rest ∧
      (rest = [] ∨ rest = [.DeleteFile g.vlog_number_] ∨
        (∃ offset len, rest = [.DeallocateDiskSpace offset len]) ∨
        (∃ offset len value, rest = [.DeallocateDiskSpace offset len,
          .Put GarbageCollector.tail value])) := by
  unfold GarbageCollector.BeginGarbageCollect
  dsimp only
  generalize (if g.garbage_pos_ > 0 then
      if ndebug = true then (true, g.vlog_reader_) else g.vlog_reader_.SkipToPos g.garbage_pos_
    else (true, g.vlog_reader_)) = sk
  split
  · exact ⟨[], [], rfl, Or.inl rfl⟩
  · obtain ⟨hv, ws, hw⟩ := GarbageCollector.scan_effects ndebug D
      ((sk.2.buffer_.length + sk.2.file_.contents_.length) / kVHeaderSize + 1)
      (GarbageCollector.Run.mk { g with vlog_reader_ := sk.2 } [] false [] none)
    split
    · exact ⟨ws, [], by rw [hw]; simp, Or.inl rfl⟩
    · obtain ⟨ws1, rest, h1, h2⟩ := GarbageCollector.reclaim_effects ndebug D g.garbage_pos_
        (GarbageCollector.scan ndebug D
          ((sk.2.buffer_.length + sk.2.file_.contents_.length) / kVHeaderSize + 1)
          (GarbageCollector.Run.mk { g with vlog_reader_ := sk.2 } [] false [] none))
      rw [hv] at h2
      exact ⟨ws ++ ws1, rest, by rw [h1, hw]; simp, h2⟩

/-- With `NDEBUG` the loop is entered with the reader where `SetVlog` opened it,
whatever the start position is. -/
theorem GarbageCollector.enter_ndebug {σ : Type} (g : GarbageCollector σ) :
    GarbageCollector.enter true g
      = (true, { gc := g, clean_valid_batch := [], isEndOfFile := false, effects := [],
                 stop := none }) := by
  unfold GarbageCollector.enter
  dsimp only
  split <;> rfl

/-- With `NDEBUG` no run calls `DeallocateDiskSpace` or `Put`: the calls of a run are
writes of the accumulator, followed by `DeleteFile` or by nothing. -/
theorem GarbageCollector.BeginGarbageCollect_effects_ndebug {σ : Type} (D : DBImpl σ)
    (g : GarbageCollector σ) :
    ∃ (ws : List WriteBatch) (rest : List GarbageCollector.Effect),
      (GarbageCollector.BeginGarbageCollect true D g).effects
        = ws.map GarbageCollector.Effect.Write ++ rest ∧
      (rest = [] ∨ rest = [.DeleteFile g.vlog_number_]) := by
  have hrec : ∀ s : GarbageCollector.Run σ,
      ∃ (ws : List WriteBatch) (rest : List GarbageCollector.Effect),
        (GarbageCollector.reclaim true D g.garbage_pos_ s).effects
          = s.effects ++ ws.map GarbageCollector.Effect.Write ++ rest ∧
        (rest = [] ∨ rest = [.DeleteFile s.gc.vlog_number_]) := by
    intro s
    unfold GarbageCollector.reclaim WriteBatchInternal.Count WriteBatch.Clear
    simp only [Bool.not_true, Bool.false_and, Bool.false_eq_true, if_false, if_true]
    split
    · split
      · exact ⟨[s.clean_valid_batch], [], by simp, Or.inl rfl⟩
      · split
        · split
          · exact ⟨[s.clean_valid_batch], [.DeleteFile s.gc.vlog_number_], rfl, Or.inr rfl⟩
          · exact ⟨[s.clean_valid_batch], [], by simp, Or.inl rfl⟩
        · exact ⟨[s.clean_valid_batch], [], by simp, Or.inl rfl⟩
    · split
      · exact ⟨[], [], by simp, Or.inl rfl⟩
      · split
        · split
          · exact ⟨[], [.DeleteFile s.gc.vlog_number_], by simp, Or.inr rfl⟩
          · exact ⟨[], [], by simp, Or.inl rfl⟩
        · exact ⟨[], [], by simp, Or.inl rfl⟩
  unfold GarbageCollector.BeginGarbageCollect
  dsimp only
  generalize (if g.garbage_pos_ > 0 then
      if true = true then (true, g.vlog_reader_) else g.vlog_reader_.SkipToPos g.garbage_pos_
    else (true, g.vlog_reader_)) = sk
  split
  · exact ⟨[], [], rfl, Or.inl rfl⟩
  · obtain ⟨hv, ws, hw⟩ := GarbageCollector.scan_effects true D
      ((sk.2.buffer_.length + sk.2.file_.contents_.length) / kVHeaderSize + 1)
      (GarbageCollector.Run.mk { g with vlog_reader_ := sk.2 } [] false [] none)
    split
    · exact ⟨ws, [], by rw [hw]; simp, Or.inl rfl⟩
    · obtain ⟨ws1, rest, h1, h2⟩ := hrec
        (GarbageCollector.scan true D
          ((sk.2.buffer_.length + sk.2.file_.contents_.length) / kVHeaderSize + 1)
          (GarbageCollector.Run.mk { g with vlog_reader_ := sk.2 } [] false [] none))
      rw [hv] at h2
      exact ⟨ws ++ ws1, rest, by rw [h1, hw]; simp, h2⟩

/-! ## Tokens and the liveness test -/

theorem littleEndian_EncodeFixed64 (v : Nat) :
    littleEndian (EncodeFixed64 v) = v % 2 ^ 64 := by
  simp only [littleEndian, EncodeFixed64, toByte_val, Nat.shiftRight_eq_div_pow]
  omega

theorem EncodeFixed64_length (v : Nat) : (EncodeFixed64 v).length = 8 := rfl

theorem DecodeFixed64_eq (val : List Byte) (h : 8 ≤ val.length) :
    DecodeFixed64 val = littleEndian (val.take 8) := by
  match val, h with
  | b0 :: b1 :: b2 :: b3 :: b4 :: b5 :: b6 :: b7 :: rest, _ =>
    have h0 := b0.isLt
    have h1 := b1.isLt
    have h2 := b2.isLt
    have h3 := b3.isLt
    have h4 := b4.isLt
    have h5 := b5.isLt
    have h6 := b6.isLt
    have h7 := b7.isLt
    simp only [DecodeFixed64, List.getD_cons_zero, List.getD_cons_succ, List.take_succ_cons,
      List.take_zero, littleEndian]
    rw [or_shiftLeft_eq_add _ _ 8 (by omega), or_shiftLeft_eq_add _ _ 16 (by omega),
      or_shiftLeft_eq_add _ _ 24 (by omega), or_shiftLeft_eq_add _ _ 32 (by omega),
      or_shiftLeft_eq_add _ _ 40 (by omega), or_shiftLeft_eq_add _ _ 48 (by omega),
      or_shiftLeft_eq_add _ _ 56 (by omega)]
    omega

theorem and_ffffff (n : Nat) : n &&& 0xffffff = n % 2 ^ 24 := by
  have := Nat.and_pow_two_sub_one_eq_mod n 24
  simpa using this

/-- The test of line 80 is the liveness test of the specification. -/
theorem GarbageCollector.line80 (val : List Byte) (h : 8 ≤ val.length) (e v : Nat) :
    ((((DecodeFixed64 val) >>> 24) >>> 8) + ((DecodeFixed64 val) &&& 0xffffff) == e
      && (((DecodeFixed64 val) >>> 24) &&& 0xff) == v)
    = GarbageCollector.pointsTo v e val := by
  unfold GarbageCollector.pointsTo
  dsimp only
  rw [DecodeFixed64_eq val h, and_ffffff, and_ff, Nat.shiftRight_eq_div_pow,
    Nat.shiftRight_eq_div_pow, Nat.div_div_eq_div_mul, Bool.and_comm]
  rfl

/-- One pass of the loop over the entries of a batch when `ParseRecord` succeeds, in
both builds. -/
theorem GarbageCollector.scanTriple_spec {σ : Type} (ndebug : Bool) (D : DBImpl σ) (v : Nat)
    (db : σ)
    (batch : List Byte) (old pos gp : Nat) (acc : WriteBatch)
    (hs : (D.ParseRecord batch pos).1.ok = true) :
    ((D.ParseRecord batch pos).2.2.2.2 = false →
      (D.GetPtr db (D.ParseRecord batch pos).2.2.1).1.ok = true →
      (D.GetPtr db (D.ParseRecord batch pos).2.2.1).2.length < 8 →
      (GarbageCollector.scanTriple ndebug D v db batch old pos gp acc).1 = some .undefined) ∧
    (((D.ParseRecord batch pos).2.2.2.2 = false →
      (D.GetPtr db (D.ParseRecord batch pos).2.2.1).1.ok = true →
      8 ≤ (D.GetPtr db (D.ParseRecord batch pos).2.2.1).2.length) →
      GarbageCollector.scanTriple ndebug D v db batch old pos gp acc
        = (none, (D.ParseRecord batch pos).2.1, old + (D.ParseRecord batch pos).2.1,
            if GarbageCollector.isLive D v db old (D.ParseRecord batch pos).2 = true then
              acc ++ [((D.ParseRecord batch pos).2.2.1, (D.ParseRecord batch pos).2.2.2.1)]
            else acc)) := by
  unfold GarbageCollector.scanTriple GarbageCollector.isLive WriteBatch.Put
  dsimp only
  rw [if_neg (by rw [hs]; simp)]
  cases hd : (D.ParseRecord batch pos).2.2.2.2 with
  | true =>
    simp only [if_true, Bool.not_true, Bool.false_and, Bool.false_eq_true, if_false]
    exact ⟨fun h => absurd h (by simp), fun _ => trivial⟩
  | false =>
    simp only [Bool.false_eq_true, if_false, Bool.not_false, Bool.true_and]
    cases hg : (D.GetPtr db (D.ParseRecord batch pos).2.2.1).1.ok with
    | false =>
      simp only [Bool.false_eq_true, if_false, Bool.false_and]
      exact ⟨fun _ h => absurd h (by simp), fun _ => trivial⟩
    | true =>
      simp only [if_true, Bool.true_and]
      by_cases h8 : (D.GetPtr db (D.ParseRecord batch pos).2.2.1).2.length < 8
      · rw [if_pos h8]
        exact ⟨fun _ _ _ => rfl, fun h => absurd (h trivial trivial) (by omega)⟩
      · rw [if_neg h8]
        refine ⟨fun _ _ h => absurd h h8, fun _ => ?_⟩
        rw [GarbageCollector.line80 _ (by omega)]
        split <;> rfl

/-! ## The liveness test, the order of the calls and the reclaim step -/

/-- C15: the calls of every run of `BeginGarbageCollect`, in either build and ended
by a failed assertion or not, are in this order: first the writes of re-inserted
values, then the calls of the reclaim step, which are none, or `DeleteFile` alone, or
`DeallocateDiskSpace` alone, or `DeallocateDiskSpace` followed by the `Put` of the key
`tail`. No write comes after a call of the reclaim step. -/
theorem C15_effect_ordering {σ : Type} (ndebug : Bool) (D : DBImpl σ)
    (g : GarbageCollector σ) :
    ∃ (ws : List WriteBatch) (rest : List GarbageCollector.Effect),
      (GarbageCollector.BeginGarbageCollect ndebug D g).effects
        = ws.map GarbageCollector.Effect.Write ++ rest ∧
      (rest = [] ∨ rest = [.DeleteFile g.vlog_number_] ∨
        (∃ offset len, rest = [.DeallocateDiskSpace offset len]) ∨
        (∃ offset len value, rest = [.DeallocateDiskSpace offset len,
          .Put GarbageCollector.tail value])) :=
  GarbageCollector.BeginGarbageCollect_effects ndebug D g

theorem C15_effect_ordering_witness :
    (∃ (ws : List WriteBatch) (rest : List GarbageCollector.Effect),
      (GarbageCollector.BeginGarbageCollect false (MemDB.impl 2 1000)
        (GarbageCollector.SetVlog (MemDB.db 2) (StringSource.open_ MemDB.vlog) 1 0)).effects
        = ws.map GarbageCollector.Effect.Write ++ rest ∧
      (rest = [] ∨ rest = [.DeleteFile 1] ∨
        (∃ offset len, rest = [.DeallocateDiskSpace offset len]) ∨
        (∃ offset len value, rest = [.DeallocateDiskSpace offset len,
          .Put GarbageCollector.tail value]))) ∧
    (∃ (ws : List WriteBatch) (rest : List GarbageCollector.Effect),
      (GarbageCollector.BeginGarbageCollect true (MemDB.impl 2 1000)
        (GarbageCollector.SetVlog (MemDB.db 100) (StringSource.open_ MemDB.vlog) 1 0)).effects
        = ws.map GarbageCollector.Effect.Write ++ rest ∧
      (rest = [] ∨ rest = [.DeleteFile 1] ∨
        (∃ offset len, rest = [.DeallocateDiskSpace offset len]) ∨
        (∃ offset len value, rest = [.DeallocateDiskSpace offset len,
          .Put GarbageCollector.tail value]))) :=
  ⟨C15_effect_ordering false (MemDB.impl 2 1000)
    (GarbageCollector.SetVlog (MemDB.db 2) (StringSource.open_ MemDB.vlog) 1 0),
   C15_effect_ordering true (MemDB.impl 2 1000)
    (GarbageCollector.SetVlog (MemDB.db 100) (StringSource.open_ MemDB.vlog) 1 0)⟩

/-- The reclaim step in the build with `assert` enabled: a run of
`BeginGarbageCollect` on vlog `v` that started at the offset `start` never uses up
the bound of its loop, and when it ends without a failed assertion at the offset
`pos`, then `start ≤ pos` and, after the writes of re-inserted values:
if `pos = start` there is no further call; if `pos > start` and the scan stopped at
the end of the file the only further call is `DeleteFile` of the vlog; if
`pos > start` and the scan stopped because the database is shutting down the further
calls are `DeallocateDiskSpace(start, pos - start)` and the `Put` of the key `tail`
with the eight bytes that are the little-endian encoding of `(pos << 24) | v`. -/
theorem GarbageCollector.reclaim_decision {σ : Type} (D : DBImpl σ) (g : GarbageCollector σ) :
    (GarbageCollector.BeginGarbageCollect false D g).stop ≠ some .fuel ∧
    g.garbage_pos_ ≤ (GarbageCollector.BeginGarbageCollect false D g).gc.garbage_pos_ ∧
    ((GarbageCollector.BeginGarbageCollect false D g).stop = none →
      ∃ ws : List WriteBatch,
        ((GarbageCollector.BeginGarbageCollect false D g).gc.garbage_pos_ = g.garbage_pos_ →
          (GarbageCollector.BeginGarbageCollect false D g).effects
            = ws.map GarbageCollector.Effect.Write) ∧
        (g.garbage_pos_ < (GarbageCollector.BeginGarbageCollect false D g).gc.garbage_pos_ →
          (GarbageCollector.BeginGarbageCollect false D g).isEndOfFile = true →
          (GarbageCollector.BeginGarbageCollect false D g).effects
            = ws.map GarbageCollector.Effect.Write ++ [.DeleteFile g.vlog_number_]) ∧
        (g.garbage_pos_ < (GarbageCollector.BeginGarbageCollect false D g).gc.garbage_pos_ →
          (GarbageCollector.BeginGarbageCollect false D g).isEndOfFile = false →
          (∃ db, (D.IsShutDown db).1 = true) ∧
          ∃ value : List Byte,
            (GarbageCollector.BeginGarbageCollect false D g).effects
              = ws.map GarbageCollector.Effect.Write ++
                [.DeallocateDiskSpace g.garbage_pos_
                    ((GarbageCollector.BeginGarbageCollect false D g).gc.garbage_pos_
                      - g.garbage_pos_),
                 .Put [116, 97, 105, 108] value] ∧
            value.length = 8 ∧
            littleEndian value
              = ((((GarbageCollector.BeginGarbageCollect false D g).gc.garbage_pos_ <<< 24) % 2 ^ 64)
                  ||| g.vlog_number_) % 2 ^ 64 ∧
            ((GarbageCollector.BeginGarbageCollect false D g).gc.garbage_pos_ < 2 ^ 40 →
              g.vlog_number_ < 2 ^ 64 →
              littleEndian value
                = ((GarbageCollector.BeginGarbageCollect false D g).gc.garbage_pos_ <<< 24)
                    ||| g.vlog_number_))) := by
  obtain ⟨h1, _, h3, ws, rest, h4, _, h6⟩ := GarbageCollector.BeginGarbageCollect_spec D g
  refine ⟨h1, h3, fun hstop => ⟨ws, ?_, ?_, ?_⟩⟩
  · intro he
    obtain ⟨_, _, h7⟩ := h6 hstop
    rw [if_neg (by omega)] at h7
    rw [h4, h7, List.append_nil]
  · intro hlt he
    obtain ⟨_, _, h7⟩ := h6 hstop
    rw [if_pos (by omega), if_pos he] at h7
    rw [h4, h7]
  · intro hlt he
    obtain ⟨_, h8, h7⟩ := h6 hstop
    rw [if_pos (by omega), if_neg (by rw [he]; simp)] at h7
    refine ⟨h8 he, _, by rw [h4, h7]; rfl, EncodeFixed64_length _, littleEndian_EncodeFixed64 _,
      fun hp hv => ?_⟩
    rw [littleEndian_EncodeFixed64]
    have hsh : (GarbageCollector.BeginGarbageCollect false D g).gc.garbage_pos_ <<< 24 < 2 ^ 64 := by
      rw [Nat.shiftLeft_eq]
      omega
    rw [Nat.mod_eq_of_lt hsh, Nat.mod_eq_of_lt (Nat.or_lt_two_pow hsh hv)]

set_option maxRecDepth 100000 in
/-- C16 fails in the build with `NDEBUG`: `DeallocateDiskSpace` and the `Put` of the key
`tail` are written inside `assert` (lines 126 and 131) and are not called. The run
over the vlog of the scenarios from offset 0, with a database that shuts down after
two records, leaves the loop at position 24 because `IsShutDown` answers true, with
`isEndOfFile` false. With `assert` enabled its calls are the write of the live value,
`DeallocateDiskSpace(0, 24)` and the `Put` of `tail` with the bytes of
`(24 << 24) | 1`; with `NDEBUG` the only call is the write: nothing is deallocated
and the key `tail` is not set. For every database and every collector, the calls of
a run with `NDEBUG` are writes followed by `DeleteFile` or by nothing. -/
theorem C16_ndebug_shutdown_reclaims_nothing :
    (GarbageCollector.BeginGarbageCollect true (MemDB.impl 2 1000)
      (GarbageCollector.SetVlog (MemDB.db 2) (StringSource.open_ MemDB.vlog) 1 0)).stop = none ∧
    (GarbageCollector.BeginGarbageCollect true (MemDB.impl 2 1000)
      (GarbageCollector.SetVlog (MemDB.db 2) (StringSource.open_ MemDB.vlog) 1 0)).isEndOfFile
      = false ∧
    ((MemDB.impl 2 1000).IsShutDown
      (GarbageCollector.BeginGarbageCollect true (MemDB.impl 2 1000)
        (GarbageCollector.SetVlog (MemDB.db 2) (StringSource.open_ MemDB.vlog) 1 0)).gc.db_).1
      = true ∧
    (GarbageCollector.BeginGarbageCollect true (MemDB.impl 2 1000)
      (GarbageCollector.SetVlog (MemDB.db 2) (StringSource.open_ MemDB.vlog) 1 0)).gc.garbage_pos_
      = 24 ∧
    (GarbageCollector.BeginGarbageCollect true (MemDB.impl 2 1000)
      (GarbageCollector.SetVlog (MemDB.db 2) (StringSource.open_ MemDB.vlog) 1 0)).effects
      = [.Write [([98], [121])]] ∧
    (GarbageCollector.BeginGarbageCollect false (MemDB.impl 2 1000)
      (GarbageCollector.SetVlog (MemDB.db 2) (StringSource.open_ MemDB.vlog) 1 0)).effects
      = [.Write [([98], [121])], .DeallocateDiskSpace 0 24,
         .Put [116, 97, 105, 108] [1, 0, 0, 24, 0, 0, 0, 0]] ∧
    EncodeFixed64 ((24 <<< 24) ||| 1) = [1, 0, 0, 24, 0, 0, 0, 0] ∧
    ∀ (σ : Type) (D : DBImpl σ) (g : GarbageCollector σ),
      ∃ (ws : List WriteBatch) (rest : List GarbageCollector.Effect),
        (GarbageCollector.BeginGarbageCollect true D g).effects
          = ws.map GarbageCollector.Effect.Write ++ rest ∧
        (rest = [] ∨ rest = [.DeleteFile g.vlog_number_]) :=
  ⟨by decide, by decide, by decide, by decide, by decide, by decide, by decide,
   fun _ D g => GarbageCollector.BeginGarbageCollect_effects_ndebug D g⟩

/-! ## Re-insertion of the live values -/

theorem GarbageCollector.scanBatch_ge {σ : Type} (D : DBImpl σ) (v : Nat) (db : σ)
    (batch : List Byte) (size old fuel pos gp : Nat) (acc : WriteBatch) (h : ¬ pos < size) :
    GarbageCollector.scanBatch false D v db batch size old fuel pos gp acc = (none, pos, gp, acc) := by
  cases fuel with
  | zero => unfold GarbageCollector.scanBatch; rw [if_neg h]
  | succ fuel => unfold GarbageCollector.scanBatch; rw [if_neg h]

theorem GarbageCollector.scanBatch_zero {σ : Type} (D : DBImpl σ) (v : Nat) (db : σ)
    (batch : List Byte) (size old pos gp : Nat) (acc : WriteBatch) (h : pos < size) :
    (GarbageCollector.scanBatch false D v db batch size old 0 pos gp acc).1 = some .loops := by
  unfold GarbageCollector.scanBatch; rw [if_pos h]

theorem GarbageCollector.scanBatch_succ {σ : Type} (D : DBImpl σ) (v : Nat) (db : σ)
    (batch : List Byte) (size old fuel pos gp : Nat) (acc : WriteBatch) (h : pos < size) :
    ((GarbageCollector.scanTriple false D v db batch old pos gp acc).1 = none →
      GarbageCollector.scanBatch false D v db batch size old (fuel + 1) pos gp acc
        = GarbageCollector.scanBatch false D v db batch size old fuel
            (GarbageCollector.scanTriple false D v db batch old pos gp acc).2.1
            (GarbageCollector.scanTriple false D v db batch old pos gp acc).2.2.1
            (GarbageCollector.scanTriple false D v db batch old pos gp acc).2.2.2) ∧
    ((GarbageCollector.scanTriple false D v db batch old pos gp acc).1 ≠ none →
      (GarbageCollector.scanBatch false D v db batch size old (fuel + 1) pos gp acc).1 ≠ none) := by
  refine ⟨fun ht => ?_, fun ht => ?_⟩
  · rw [GarbageCollector.scanBatch, if_pos h]
    dsimp only
    rw [ht]
  · rw [GarbageCollector.scanBatch, if_pos h]
    dsimp only
    cases hc : (GarbageCollector.scanTriple false D v db batch old pos gp acc).1 with
    | none => exact absurd hc ht
    | some e => simp

theorem GarbageCollector.scanTriple_none {σ : Type} (D : DBImpl σ) (v : Nat) (db : σ)
    (batch : List Byte) (old pos gp : Nat) (acc : WriteBatch)
    (h : (GarbageCollector.scanTriple false D v db batch old pos gp acc).1 = none) :
    (D.ParseRecord batch pos).1.ok = true ∧
    GarbageCollector.scanTriple false D v db batch old pos gp acc
      = (none, (D.ParseRecord batch pos).2.1, old + (D.ParseRecord batch pos).2.1,
          if GarbageCollector.isLive D v db old (D.ParseRecord batch pos).2 = true then
            acc ++ [((D.ParseRecord batch pos).2.2.1, (D.ParseRecord batch pos).2.2.2.1)]
          else acc) := by
  have hok : (D.ParseRecord batch pos).1.ok = true := by
    cases hc : (D.ParseRecord batch pos).1.ok with
    | true => rfl
    | false =>
      rw [GarbageCollector.scanTriple_checked] at h
      dsimp only at h
      rw [if_pos (by rw [hc]; rfl)] at h
      exact absurd h (by simp)
  obtain ⟨h1, h2⟩ := GarbageCollector.scanTriple_spec false D v db batch old pos gp acc hok
  refine ⟨hok, h2 ?_⟩
  intro hd hg
  by_contra hlt
  rw [h1 hd hg (by omega)] at h
  exact absurd h (by simp)

/-- The loop over the entries of a batch, when it ends without a failed assertion:
the pairs of the live entries are appended to the accumulator, and the entries
follow each other up to the end of the batch. -/
theorem GarbageCollector.scanBatch_spec {σ : Type} (D : DBImpl σ)
    (hadv : ∀ batch pos, (D.ParseRecord batch pos).1.ok = true →
      pos < (D.ParseRecord batch pos).2.1)
    (v : Nat) (db : σ) (batch : List Byte) (old : Nat) (fuel pos : Nat) (acc : WriteBatch)
    (h : (GarbageCollector.scanBatch false D v db batch batch.length old fuel pos (old + pos) acc).1
      = none) :
    (GarbageCollector.scanBatch false D v db batch batch.length old fuel pos (old + pos) acc).2.2.2
      = acc ++ ((GarbageCollector.triples D batch fuel pos).filter
          (GarbageCollector.isLive D v db old)).map (fun t => (t.2.1, t.2.2.1)) ∧
    (GarbageCollector.scanBatch false D v db batch batch.length old fuel pos (old + pos) acc).2.2.1
      = old +
        (GarbageCollector.scanBatch false D v db batch batch.length old fuel pos (old + pos) acc).2.1 ∧
    pos ≤ (GarbageCollector.scanBatch false D v db batch batch.length old fuel pos (old + pos) acc).2.1 ∧
    (∀ t ∈ GarbageCollector.triples D batch fuel pos, pos < t.1 ∧
      t.1 ≤ (GarbageCollector.scanBatch false D v db batch batch.length old fuel pos
        (old + pos) acc).2.1) ∧
    (GarbageCollector.triples D batch fuel pos).Pairwise (fun a b => a.1 < b.1) := by
  induction fuel generalizing pos acc with
  | zero =>
    by_cases hlt : pos < batch.length
    · rw [GarbageCollector.scanBatch_zero D v db batch _ old pos _ acc hlt] at h
      exact absurd h (by simp)
    · rw [GarbageCollector.scanBatch_ge D v db batch _ old 0 pos _ acc hlt]
      simp [GarbageCollector.triples]
  | succ fuel ih =>
    by_cases hlt : pos < batch.length
    · obtain ⟨hs1, hs2⟩ := GarbageCollector.scanBatch_succ D v db batch batch.length old fuel pos
        (old + pos) acc hlt
      have ht : (GarbageCollector.scanTriple false D v db batch old pos (old + pos) acc).1 = none := by
        by_contra hc
        exact hs2 hc h
      obtain ⟨hok, heq⟩ := GarbageCollector.scanTriple_none D v db batch old pos (old + pos) acc ht
      have hstep := hs1 ht
      rw [heq] at hstep
      dsimp only at hstep
      rw [hstep] at h ⊢
      obtain ⟨i1, i2, i3, i4, i5⟩ := ih _ _ h
      have hp := hadv batch pos hok
      have htr : GarbageCollector.triples D batch (fuel + 1) pos
          = (D.ParseRecord batch pos).2 ::
            GarbageCollector.triples D batch fuel (D.ParseRecord batch pos).2.1 := by
        rw [GarbageCollector.triples, if_pos hlt]
      rw [htr]
      refine ⟨?_, i2, by omega, ?_, ?_⟩
      · rw [i1]
        by_cases hl : GarbageCollector.isLive D v db old (D.ParseRecord batch pos).2 = true
        · rw [if_pos hl, List.filter_cons, if_pos hl, List.map_cons, List.append_assoc]
          rfl
        · rw [if_neg hl, List.filter_cons, if_neg hl]
      · intro t hmem
        rcases List.mem_cons.mp hmem with hmem | hmem
        · rw [hmem]
          exact ⟨hp, i3⟩
        · exact ⟨Nat.lt_trans hp (i4 t hmem).1, (i4 t hmem).2⟩
      · exact List.Pairwise.cons (fun t hmem => (i4 t hmem).1) i5
    · rw [GarbageCollector.scanBatch_ge D v db batch _ old _ pos _ acc hlt]
      have htr : GarbageCollector.triples D batch (fuel + 1) pos = [] := by
        rw [GarbageCollector.triples, if_neg hlt]
      rw [htr]
      simp
theorem GarbageCollector.pointsTo_unique (v e e1 : Nat) (token : List Byte)
    (h : GarbageCollector.pointsTo v e token = true)
    (h1 : GarbageCollector.pointsTo v e1 token = true) : e = e1 := by
  unfold GarbageCollector.pointsTo at h h1
  simp only [Bool.and_eq_true, beq_iff_eq] at h h1
  exact h.2.symm.trans h1.2

/-- The live entries of a record are the same in the database of the start of the
run and in the database the run has reached, and no key has two live entries. -/
theorem GarbageCollector.isLive_stable {σ : Type} (D : DBImpl σ) (v : Nat) (db0 db1 : σ)
    (old : Nat) (W : List (List Byte))
    (hb : ∀ key, key ∉ W → D.GetPtr db1 key = D.GetPtr db0 key)
    (hc : ∀ key ∈ W, ∀ e, (D.GetPtr db1 key).1.ok = true →
      GarbageCollector.pointsTo v e (D.GetPtr db1 key).2 = false)
    (T : List (Nat × List Byte × List Byte × Bool))
    (hT : T.Pairwise (fun a b => a.1 < b.1))
    (L : WriteBatch) (bound bound1 : Nat)
    (hWL : ∀ key ∈ W, key ∈ L.map Prod.fst)
    (hd : ∀ key ∈ L.map Prod.fst, ∀ e, (D.GetPtr db0 key).1.ok = true →
      GarbageCollector.pointsTo v e (D.GetPtr db0 key).2 = true → e ≤ bound)
    (he : (L.map Prod.fst).Nodup)
    (hlo : ∀ t ∈ T, bound < old + t.1) (hhi : ∀ t ∈ T, old + t.1 ≤ bound1)
    (hbb : bound ≤ bound1) :
    T.filter (GarbageCollector.isLive D v db1 old)
      = T.filter (GarbageCollector.isLive D v db0 old) ∧
    (∀ key ∈ (L ++ (T.filter (GarbageCollector.isLive D v db0 old)).map
        (fun t => (t.2.1, t.2.2.1))).map Prod.fst, ∀ e,
      (D.GetPtr db0 key).1.ok = true →
      GarbageCollector.pointsTo v e (D.GetPtr db0 key).2 = true → e ≤ bound1) ∧
    ((L ++ (T.filter (GarbageCollector.isLive D v db0 old)).map
        (fun t => (t.2.1, t.2.2.1))).map Prod.fst).Nodup := by
  induction T generalizing L bound with
  | nil =>
    simp only [List.filter_nil, List.map_nil, List.append_nil, true_and]
    exact ⟨fun key hk e h1 h2 => Nat.le_trans (hd key hk e h1 h2) hbb, he⟩
  | cons t T ih =>
    obtain ⟨ht1, ht2⟩ := List.pairwise_cons.mp hT
    have hlt : bound < old + t.1 := hlo t (List.mem_cons_self _ _)
    have hnotL : GarbageCollector.isLive D v db0 old t = true → t.2.1 ∉ L.map Prod.fst := by
      intro hl hmem
      unfold GarbageCollector.isLive at hl
      simp only [Bool.and_eq_true, Bool.not_eq_true'] at hl
      have := hd _ hmem _ hl.1.2 hl.2
      omega
    have heq : GarbageCollector.isLive D v db1 old t = GarbageCollector.isLive D v db0 old t := by
      by_cases hk : t.2.1 ∈ W
      · have h0 : GarbageCollector.isLive D v db0 old t = false := by
          cases hx : GarbageCollector.isLive D v db0 old t with
          | false => rfl
          | true => exact absurd (hWL _ hk) (hnotL hx)
        have h1 : GarbageCollector.isLive D v db1 old t = false := by
          unfold GarbageCollector.isLive
          cases hok : (D.GetPtr db1 t.2.1).1.ok with
          | false => simp
          | true => rw [hc _ hk _ hok]; simp
        rw [h0, h1]
      · unfold GarbageCollector.isLive
        rw [hb _ hk]
    rw [List.filter_cons, List.filter_cons, heq]
    by_cases hl : GarbageCollector.isLive D v db0 old t = true
    · simp only [if_pos hl]
      have hl2 := hl
      unfold GarbageCollector.isLive at hl2
      simp only [Bool.and_eq_true, Bool.not_eq_true'] at hl2
      obtain ⟨i1, i2, i3⟩ := ih ht2 (L ++ [(t.2.1, t.2.2.1)]) (old + t.1)
        (fun key hk => by
          rw [List.map_append]
          exact List.mem_append_left _ (hWL key hk))
        (fun key hk e h1 h2 => by
          rw [List.map_append] at hk
          rcases List.mem_append.mp hk with hk | hk
          · have := hd key hk e h1 h2
            omega
          · simp only [List.map_cons, List.map_nil, List.mem_singleton] at hk
            rw [hk] at h2
            exact Nat.le_of_eq (GarbageCollector.pointsTo_unique v _ _ _ h2 hl2.2))
        (by
          rw [List.map_append]
          refine List.Nodup.append he (by simp) ?_
          intro key hk1 hk2
          simp only [List.map_cons, List.map_nil, List.mem_singleton] at hk2
          rw [hk2] at hk1
          exact hnotL hl hk1)
        (fun t1 hmem => Nat.add_lt_add_left (ht1 t1 hmem) old)
        (fun t1 hmem => hhi t1 (List.mem_cons_of_mem _ hmem))
        (hhi t (List.mem_cons_self _ _))
      rw [i1]
      refine ⟨rfl, ?_, ?_⟩
      · rw [List.map_cons, List.append_cons]
        exact i2
      · rw [List.map_cons, List.append_cons]
        exact i3
    · simp only [if_neg hl]
      obtain ⟨i1, i2, i3⟩ := ih ht2 L bound hWL hd he
        (fun t1 hmem => Nat.lt_trans hlt (Nat.add_lt_add_left (ht1 t1 hmem) old))
        (fun t1 hmem => hhi t1 (List.mem_cons_of_mem _ hmem)) hbb
      exact ⟨i1, i2, i3⟩

theorem GarbageCollector.written_append (e1 e2 : List GarbageCollector.Effect) :
    GarbageCollector.written (e1 ++ e2)
      = GarbageCollector.written e1 ++ GarbageCollector.written e2 := by
  induction e1 with
  | nil => rfl
  | cons x xs ih =>
    cases x with
    | Write b =>
      show b ++ GarbageCollector.written (xs ++ e2) = (b ++ _) ++ _
      rw [ih, List.append_assoc]
    | DeleteFile n => exact ih
    | DeallocateDiskSpace a b => exact ih
    | Put k x => exact ih

theorem GarbageCollector.liveTriples_append {σ : Type} (D : DBImpl σ) (v : Nat) (db : σ)
    (start : Nat) (rs : List (List Byte)) (r : List Byte) :
    GarbageCollector.liveTriples D v db start (rs ++ [r])
      = GarbageCollector.liveTriples D v db start rs ++
        ((GarbageCollector.triples D r r.length 0).filter
          (GarbageCollector.isLive D v db
            (start + (rs.map VWriter.frame).flatten.length + kVHeaderSize))).map
          (fun t => (t.2.1, t.2.2.1)) := by
  induction rs generalizing start with
  | nil =>
    simp only [List.nil_append, GarbageCollector.liveTriples, List.append_nil, List.map_nil,
      List.flatten_nil, List.length_nil, Nat.add_zero]
  | cons x xs ih =>
    have harith : start + kVHeaderSize + x.length + (xs.map VWriter.frame).flatten.length
        = start + ((x :: xs).map VWriter.frame).flatten.length := by
      simp only [List.map_cons, List.flatten_cons, List.length_append, VWriter.frame_length,
        kVHeaderSize]
      omega
    rw [List.cons_append, GarbageCollector.liveTriples, GarbageCollector.liveTriples, ih,
      harith, List.append_assoc]

theorem GarbageCollector.Scanned_poll {σ : Type} (D : DBImpl σ)
    (hpoll : ∀ db key, D.GetPtr (D.IsShutDown db).2 key = D.GetPtr db key)
    (v start : Nat) (db0 : σ) (ps : List (List Byte)) (k : Nat) (db : σ) (gp : Nat)
    (effects : List GarbageCollector.Effect) (cvb : WriteBatch)
    (h : GarbageCollector.Scanned D v start db0 ps k db gp effects cvb) :
    GarbageCollector.Scanned D v start db0 ps k (D.IsShutDown db).2 gp effects cvb := by
  obtain ⟨h1, h2, h3, h4, h5, h6, h7⟩ := h
  refine ⟨h1, h2, h3, ?_, ?_, h6, h7⟩
  · intro key hk
    rw [hpoll]
    exact h4 key hk
  · intro key hk e
    rw [hpoll]
    exact h5 key hk e

theorem GarbageCollector.Scanned_write {σ : Type} (D : DBImpl σ) (v : Nat)
    (hother : ∀ db b key, key ∉ b.map Prod.fst → D.GetPtr (D.Write db b).2 key = D.GetPtr db key)
    (hmoved : ∀ db b key e, key ∈ b.map Prod.fst → (D.GetPtr (D.Write db b).2 key).1.ok = true →
      GarbageCollector.pointsTo v e (D.GetPtr (D.Write db b).2 key).2 = false)
    (start : Nat) (db0 : σ) (ps : List (List Byte)) (k : Nat) (db : σ) (gp : Nat)
    (effects : List GarbageCollector.Effect) (cvb : WriteBatch)
    (h : GarbageCollector.Scanned D v start db0 ps k db gp effects cvb) :
    GarbageCollector.Scanned D v start db0 ps k (D.Write db cvb).2 gp
      (effects ++ [.Write cvb]) [] := by
  obtain ⟨h1, h2, h3, h4, h5, h6, h7⟩ := h
  have hw : GarbageCollector.written (effects ++ [.Write cvb])
      = GarbageCollector.written effects ++ cvb := by
    rw [GarbageCollector.written_append]
    show _ ++ (cvb ++ []) = _
    rw [List.append_nil]
  refine ⟨h1, h2, ?_, ?_, ?_, h6, h7⟩
  · rw [hw, List.append_nil]
    exact h3
  · intro key hk
    rw [hw, List.map_append, List.mem_append, not_or] at hk
    rw [hother db cvb key hk.2]
    exact h4 key hk.1
  · intro key hk e hok
    rw [hw, List.map_append, List.mem_append] at hk
    by_cases hc : key ∈ cvb.map Prod.fst
    · exact hmoved db cvb key e hc hok
    · rw [hother db cvb key hc] at hok ⊢
      rcases hk with hk | hk
      · exact h5 key hk e hok
      · exact absurd hk hc

theorem GarbageCollector.Scanned_record {σ : Type} (D : DBImpl σ)
    (hadv : ∀ batch pos, (D.ParseRecord batch pos).1.ok = true →
      pos < (D.ParseRecord batch pos).2.1)
    (v start : Nat) (db0 : σ) (ps : List (List Byte)) (k : Nat) (db : σ) (gp : Nat)
    (effects : List GarbageCollector.Effect) (cvb : WriteBatch)
    (h : GarbageCollector.Scanned D v start db0 ps k db gp effects cvb)
    (p : List Byte) (rest : List (List Byte)) (hp : ps.drop k = p :: rest)
    (hi : (GarbageCollector.scanBatch false D v db p p.length (gp + kVHeaderSize) p.length 0
      (gp + kVHeaderSize) cvb).1 = none)
    (hsize : (GarbageCollector.scanBatch false D v db p p.length (gp + kVHeaderSize) p.length 0
      (gp + kVHeaderSize) cvb).2.1 = p.length) :
    GarbageCollector.Scanned D v start db0 ps (k + 1) db
      (GarbageCollector.scanBatch false D v db p p.length (gp + kVHeaderSize) p.length 0
        (gp + kVHeaderSize) cvb).2.2.1
      effects
      (GarbageCollector.scanBatch false D v db p p.length (gp + kVHeaderSize) p.length 0
        (gp + kVHeaderSize) cvb).2.2.2 := by
  obtain ⟨h1, h2, h3, h4, h5, h6, h7⟩ := h
  have hklt : k < ps.length := by
    by_contra hc
    rw [List.drop_eq_nil_of_le (by omega)] at hp
    exact absurd hp (by simp)
  have htake : ps.take (k + 1) = ps.take k ++ [p] := by
    rw [List.take_succ, ← List.head?_drop, hp]
    rfl
  obtain ⟨s1, s2, _, s4, s5⟩ := GarbageCollector.scanBatch_spec D hadv v db p
    (gp + kVHeaderSize) p.length 0 cvb hi
  simp only [Nat.add_zero] at s1 s2 s4
  rw [hsize] at s2 s4
  obtain ⟨b1, b2, b3⟩ := GarbageCollector.isLive_stable D v db0 db (gp + kVHeaderSize)
    ((GarbageCollector.written effects).map Prod.fst) h4 h5
    (GarbageCollector.triples D p p.length 0) s5
    (GarbageCollector.liveTriples D v db0 start (ps.take k)) gp (gp + kVHeaderSize + p.length)
    (fun key hk => by
      rw [← h3, List.map_append]
      exact List.mem_append_left _ hk)
    h6 h7
    (fun t ht => by have := (s4 t ht).1; simp only [kVHeaderSize]; omega)
    (fun t ht => by have := (s4 t ht).2; omega)
    (by omega)
  have hlive : GarbageCollector.liveTriples D v db0 start (ps.take (k + 1))
      = GarbageCollector.liveTriples D v db0 start (ps.take k) ++
        ((GarbageCollector.triples D p p.length 0).filter
          (GarbageCollector.isLive D v db0 (gp + kVHeaderSize))).map
          (fun t => (t.2.1, t.2.2.1)) := by
    rw [htake, GarbageCollector.liveTriples_append, ← h2]
  have s2a : (GarbageCollector.scanBatch false D v db p p.length (gp + kVHeaderSize) p.length 0
      (gp + kVHeaderSize) cvb).2.2.1 = gp + kVHeaderSize + p.length := s2
  have s1a : (GarbageCollector.scanBatch false D v db p p.length (gp + kVHeaderSize) p.length 0
      (gp + kVHeaderSize) cvb).2.2.2 = cvb ++ ((GarbageCollector.triples D p p.length 0).filter
        (GarbageCollector.isLive D v db (gp + kVHeaderSize))).map
          (fun t => (t.2.1, t.2.2.1)) := s1
  rw [s2a, s1a, b1]
  refine ⟨hklt, ?_, ?_, h4, h5, ?_, ?_⟩
  · rw [htake, List.map_append, List.flatten_append, List.length_append, h2]
    simp only [List.map_cons, List.map_nil, List.flatten_cons, List.flatten_nil,
      List.append_nil, VWriter.frame_length, kVHeaderSize]
    omega
  · rw [hlive, ← h3, List.append_assoc]
  · rw [hlive]
    exact b2
  · rw [hlive]
    exact b3
/-- A pass of the loop over the records on the frames of `ps`: either the next record
is scanned and the loop goes on, or the loop is left, at the end of the file only
when every record has been scanned. -/
theorem GarbageCollector.scanRecord_Scanned {σ : Type} (D : DBImpl σ)
    (hadv : ∀ batch pos, (D.ParseRecord batch pos).1.ok = true →
      pos < (D.ParseRecord batch pos).2.1)
    (hpoll : ∀ db key, D.GetPtr (D.IsShutDown db).2 key = D.GetPtr db key)
    (v : Nat)
    (hother : ∀ db b key, key ∉ b.map Prod.fst → D.GetPtr (D.Write db b).2 key = D.GetPtr db key)
    (hmoved : ∀ db b key e, key ∈ b.map Prod.fst → (D.GetPtr (D.Write db b).2 key).1.ok = true →
      GarbageCollector.pointsTo v e (D.GetPtr (D.Write db b).2 key).2 = false)
    (start : Nat) (db0 : σ) (ps : List (List Byte)) (hlen : ∀ p ∈ ps, p.length < 2 ^ 24)
    (s : GarbageCollector.Run σ) (hs : s.stop = none) (he : s.isEndOfFile = false)
    (hv : s.gc.vlog_number_ = v) (k : Nat)
    (hat : s.gc.vlog_reader_.AtStream ((ps.drop k).map VWriter.frame).flatten)
    (hsc : GarbageCollector.Scanned D v start db0 ps k s.gc.db_ s.gc.garbage_pos_ s.effects
      s.clean_valid_batch) :
    ((GarbageCollector.scanRecord false D s).1 = true →
      (GarbageCollector.scanRecord false D s).2.stop = none ∧
      (GarbageCollector.scanRecord false D s).2.isEndOfFile = false ∧
      (GarbageCollector.scanRecord false D s).2.gc.vlog_number_ = v ∧
      (GarbageCollector.scanRecord false D s).2.gc.vlog_reader_.AtStream
        ((ps.drop (k + 1)).map VWriter.frame).flatten ∧
      GarbageCollector.Scanned D v start db0 ps (k + 1)
        (GarbageCollector.scanRecord false D s).2.gc.db_
        (GarbageCollector.scanRecord false D s).2.gc.garbage_pos_
        (GarbageCollector.scanRecord false D s).2.effects
        (GarbageCollector.scanRecord false D s).2.clean_valid_batch) ∧
    ((GarbageCollector.scanRecord false D s).1 = false →
      (GarbageCollector.scanRecord false D s).2.stop = none →
      GarbageCollector.Scanned D v start db0 ps k
        (GarbageCollector.scanRecord false D s).2.gc.db_
        (GarbageCollector.scanRecord false D s).2.gc.garbage_pos_
        (GarbageCollector.scanRecord false D s).2.effects
        (GarbageCollector.scanRecord false D s).2.clean_valid_batch ∧
      ((GarbageCollector.scanRecord false D s).2.isEndOfFile = true → k = ps.length)) := by
  have hscp := GarbageCollector.Scanned_poll D hpoll v start db0 ps k _ _ _ _ hsc
  cases hp : (D.IsShutDown s.gc.db_).1 with
  | true =>
    rw [GarbageCollector.scanRecord_shutdown false D s hp]
    refine ⟨fun h => absurd h (by simp), fun _ _ => ⟨hscp, fun h => ?_⟩⟩
    rw [he] at h
    exact absurd h (by simp)
  | false =>
    by_cases hk : k < ps.length
    · have hdrop : ps.drop k = ps[k] :: ps.drop (k + 1) := List.drop_eq_getElem_cons hk
      have hpl : ps[k].length < 2 ^ 24 := hlen _ (List.getElem_mem hk)
      obtain ⟨hdr, hf, hh, hL, hcrc⟩ := VWriter.frame_header ps[k] hpl
      have hat1 : s.gc.vlog_reader_.AtStream
          (hdr ++ ps[k] ++ ((ps.drop (k + 1)).map VWriter.frame).flatten) := by
        rw [hdrop, List.map_cons, List.flatten_cons, hf] at hat
        exact hat
      obtain ⟨sc, r1, h1, _, _, _, _, h6⟩ :=
        s.gc.vlog_reader_.ReadRecord_complete hdr ps[k] _ hat1 hh hL
      have hbad : (s.gc.vlog_reader_.checksum_ &&
          crc32c.Value ps[k] != crc32c.Unmask (DecodeFixed32 hdr)) = false := by
        rw [hcrc]; simp
      rw [hbad] at h1
      simp only [Bool.not_false, Bool.false_eq_true, if_false] at h1
      obtain ⟨_, hat2⟩ := h6 hbad
      have heq := GarbageCollector.scanRecord_record D s hp ps[k] sc r1 h1 _ rfl
      have hrec := GarbageCollector.Scanned_record D hadv v start db0 ps k _ _ _ _ hscp
        ps[k] _ hdrop
      rw [← hv] at hrec
      generalize GarbageCollector.scanBatch false D s.gc.vlog_number_ (D.IsShutDown s.gc.db_).2 ps[k]
        ps[k].length (s.gc.garbage_pos_ + kVHeaderSize) ps[k].length 0
        (s.gc.garbage_pos_ + kVHeaderSize) s.clean_valid_batch = inner at heq hrec
      rw [hv] at hrec
      cases hi1 : inner.1 with
      | some e =>
        rw [hi1] at heq
        rw [heq]
        exact ⟨fun h => absurd h (by simp), fun _ h => absurd h (by simp)⟩
      | none =>
        rw [hi1] at heq
        dsimp only at heq
        by_cases hsz : (inner.2.1 != ps[k].length) = true
        · rw [if_pos hsz] at heq
          rw [heq]
          exact ⟨fun h => absurd h (by simp), fun _ h => absurd h (by simp)⟩
        · rw [if_neg hsz] at heq
          have hsz1 : inner.2.1 = ps[k].length := by simpa using hsz
          have hrec1 := hrec hi1 hsz1
          by_cases hbs : D.ByteSize inner.2.2.2 > D.clean_write_buffer_size
          · rw [if_pos hbs] at heq
            by_cases hw : (!(D.Write (D.IsShutDown s.gc.db_).2 inner.2.2.2).1.ok) = true
            · rw [if_pos hw] at heq
              rw [heq]
              exact ⟨fun h => absurd h (by simp), fun _ h => absurd h (by simp)⟩
            · rw [if_neg hw] at heq
              rw [heq]
              exact ⟨fun _ => ⟨hs, he, hv, hat2,
                GarbageCollector.Scanned_write D v hother hmoved start db0 ps (k + 1) _ _ _ _
                  hrec1⟩, fun h => absurd h (by simp)⟩
          · rw [if_neg hbs] at heq
            rw [heq]
            exact ⟨fun _ => ⟨hs, he, hv, hat2, hrec1⟩, fun h => absurd h (by simp)⟩
    · have hk1 : k = ps.length := Nat.le_antisymm hsc.1 (Nat.not_lt.mp hk)
      rw [List.drop_eq_nil_of_le (Nat.le_of_eq hk1.symm)] at hat
      obtain ⟨r1, h1, _⟩ := s.gc.vlog_reader_.ReadRecord_short [] hat (by simp [kVHeaderSize])
      rw [GarbageCollector.scanRecord_eof false D s hp [] [] r1 h1]
      exact ⟨fun h => absurd h (by simp), fun _ _ => ⟨hscp, fun _ => hk1⟩⟩

/-- The loop over the records on the frames of `ps`, when it is left without a
failed assertion. -/
theorem GarbageCollector.scan_Scanned {σ : Type} (D : DBImpl σ)
    (hadv : ∀ batch pos, (D.ParseRecord batch pos).1.ok = true →
      pos < (D.ParseRecord batch pos).2.1)
    (hpoll : ∀ db key, D.GetPtr (D.IsShutDown db).2 key = D.GetPtr db key)
    (v : Nat)
    (hother : ∀ db b key, key ∉ b.map Prod.fst → D.GetPtr (D.Write db b).2 key = D.GetPtr db key)
    (hmoved : ∀ db b key e, key ∈ b.map Prod.fst → (D.GetPtr (D.Write db b).2 key).1.ok = true →
      GarbageCollector.pointsTo v e (D.GetPtr (D.Write db b).2 key).2 = false)
    (start : Nat) (db0 : σ) (ps : List (List Byte)) (hlen : ∀ p ∈ ps, p.length < 2 ^ 24)
    (fuel : Nat) (s : GarbageCollector.Run σ) (hs : s.stop = none)
    (he : s.isEndOfFile = false) (hv : s.gc.vlog_number_ = v) (k0 : Nat)
    (hat : s.gc.vlog_reader_.AtStream ((ps.drop k0).map VWriter.frame).flatten)
    (hsc : GarbageCollector.Scanned D v start db0 ps k0 s.gc.db_ s.gc.garbage_pos_ s.effects
      s.clean_valid_batch)
    (hstop : (GarbageCollector.scan false D fuel s).stop = none) :
    ∃ k, GarbageCollector.Scanned D v start db0 ps k
        (GarbageCollector.scan false D fuel s).gc.db_ (GarbageCollector.scan false D fuel s).gc.garbage_pos_
        (GarbageCollector.scan false D fuel s).effects
        (GarbageCollector.scan false D fuel s).clean_valid_batch ∧
      ((GarbageCollector.scan false D fuel s).isEndOfFile = true → k = ps.length) := by
  refine GarbageCollector.scan_rule false D
    (fun t => t.stop = none ∧ t.isEndOfFile = false ∧ t.gc.vlog_number_ = v ∧
      ∃ k, t.gc.vlog_reader_.AtStream ((ps.drop k).map VWriter.frame).flatten ∧
        GarbageCollector.Scanned D v start db0 ps k t.gc.db_ t.gc.garbage_pos_ t.effects
          t.clean_valid_batch)
    (fun t => t.stop = none →
      ∃ k, GarbageCollector.Scanned D v start db0 ps k t.gc.db_ t.gc.garbage_pos_ t.effects
          t.clean_valid_batch ∧ (t.isEndOfFile = true → k = ps.length))
    ?_ ?_ ?_ fuel s ⟨hs, he, hv, k0, hat, hsc⟩ hstop
  · intro t ⟨h1, h2, h3, k, h4, h5⟩ hc
    obtain ⟨r1, r2, r3, r4, r5⟩ := (GarbageCollector.scanRecord_Scanned D hadv hpoll v hother
      hmoved start db0 ps hlen t h1 h2 h3 k h4 h5).1 hc
    exact ⟨r1, r2, r3, k + 1, r4, r5⟩
  · intro t ⟨h1, h2, h3, k, h4, h5⟩ hc hn
    exact ⟨k, (GarbageCollector.scanRecord_Scanned D hadv hpoll v hother
      hmoved start db0 ps hlen t h1 h2 h3 k h4 h5).2 hc hn⟩
  · intro t _ hn
    exact absurd hn (by simp)

theorem GarbageCollector.SetVlog_skip {σ : Type} (db : σ) (pre s : List Byte) (v start : Nat)
    (hpre : pre.length = start) :
    (if (GarbageCollector.SetVlog db (StringSource.open_ (pre ++ s)) v start).garbage_pos_ > 0
      then (GarbageCollector.SetVlog db (StringSource.open_ (pre ++ s)) v start).vlog_reader_.SkipToPos
        (GarbageCollector.SetVlog db (StringSource.open_ (pre ++ s)) v start).garbage_pos_
      else (true, (GarbageCollector.SetVlog db (StringSource.open_ (pre ++ s)) v
        start).vlog_reader_)).1 = true ∧
    (if (GarbageCollector.SetVlog db (StringSource.open_ (pre ++ s)) v start).garbage_pos_ > 0
      then (GarbageCollector.SetVlog db (StringSource.open_ (pre ++ s)) v start).vlog_reader_.SkipToPos
        (GarbageCollector.SetVlog db (StringSource.open_ (pre ++ s)) v start).garbage_pos_
      else (true, (GarbageCollector.SetVlog db (StringSource.open_ (pre ++ s)) v
        start).vlog_reader_)).2.AtStream s := by
  unfold GarbageCollector.SetVlog
  dsimp only
  by_cases h0 : start > 0
  · rw [if_pos h0, VReader.SkipToPos_inside _ start h0 (by
      unfold VReader.new StringSource.open_
      simp only [Nat.lt_irrefl, if_false, List.length_append]
      omega)]
    refine ⟨rfl, ?_, rfl, fun h => Bool.noConfusion h, fun h => Bool.noConfusion h⟩
    show [] ++ (pre ++ s).drop start = s
    rw [← hpre, List.drop_left]
    rfl
  · rw [if_neg h0]
    have hnil : pre = [] := List.eq_nil_of_length_eq_zero (by omega)
    rw [hnil]
    exact ⟨rfl, VReader.new_AtStream _ _ _⟩

/-- Re-insertion in the build with `assert` enabled: for a run of
`BeginGarbageCollect` over the vlog `v` from the offset `start` of a file that holds, from `start` on, the frames of the records `ps` (the run starts
at a frame boundary), with an index in which only the writes of the run change a
token, a write changes the tokens of its keys only and leaves them outside `v`, and
`ParseRecord` advances: when the run ends without a failed assertion it has scanned
the first `k` records for some `k` (all of them when it stopped at the end of the
file), the pairs passed to `Write`, over all writes in order, are exactly the live
entries of the scanned records in the order of the file, with their values, where an
entry is live when it is a put and the token of its key before the run points to it;
no key is passed twice, and the accumulator is empty at the end. -/
theorem GarbageCollector.live_values_reinserted {σ : Type} (D : DBImpl σ) (v start : Nat)
    (db : σ)
    (pre : List Byte) (ps : List (List Byte))
    (hpre : pre.length = start)
    (hlen : ∀ p ∈ ps, p.length < 2 ^ 24)
    (hadv : ∀ batch pos, (D.ParseRecord batch pos).1.ok = true →
      pos < (D.ParseRecord batch pos).2.1)
    (hpoll : ∀ db key, D.GetPtr (D.IsShutDown db).2 key = D.GetPtr db key)
    (hother : ∀ db b key, key ∉ b.map Prod.fst → D.GetPtr (D.Write db b).2 key = D.GetPtr db key)
    (hmoved : ∀ db b key e, key ∈ b.map Prod.fst → (D.GetPtr (D.Write db b).2 key).1.ok = true →
      GarbageCollector.pointsTo v e (D.GetPtr (D.Write db b).2 key).2 = false)
    (hstop : (GarbageCollector.BeginGarbageCollect false D (GarbageCollector.SetVlog db
      (StringSource.open_ (pre ++ (ps.map VWriter.frame).flatten)) v start)).stop = none) :
    ∃ k, k ≤ ps.length ∧
      (GarbageCollector.BeginGarbageCollect false D (GarbageCollector.SetVlog db
        (StringSource.open_ (pre ++ (ps.map VWriter.frame).flatten)) v start)).gc.garbage_pos_
        = start + ((ps.take k).map VWriter.frame).flatten.length ∧
      ((GarbageCollector.BeginGarbageCollect false D (GarbageCollector.SetVlog db
        (StringSource.open_ (pre ++ (ps.map VWriter.frame).flatten)) v start)).isEndOfFile = true →
        k = ps.length) ∧
      GarbageCollector.written (GarbageCollector.BeginGarbageCollect false D (GarbageCollector.SetVlog db
        (StringSource.open_ (pre ++ (ps.map VWriter.frame).flatten)) v start)).effects
        = GarbageCollector.liveTriples D v db start (ps.take k) ∧
      ((GarbageCollector.liveTriples D v db start (ps.take k)).map Prod.fst).Nodup ∧
      (GarbageCollector.BeginGarbageCollect false D (GarbageCollector.SetVlog db
        (StringSource.open_ (pre ++ (ps.map VWriter.frame).flatten)) v start)).clean_valid_batch
        = [] := by
  obtain ⟨sk, fuel, s0, hsk, _, hs0, hcases⟩ := GarbageCollector.BeginGarbageCollect_cases D
    (GarbageCollector.SetVlog db
      (StringSource.open_ (pre ++ (ps.map VWriter.frame).flatten)) v start)
  obtain ⟨k1, k2⟩ := GarbageCollector.SetVlog_skip db pre (ps.map VWriter.frame).flatten v start
    hpre
  rw [← hsk] at k1 k2
  rcases hcases with ⟨hf, _⟩ | ⟨_, hne, heq⟩ | ⟨_, hnone, heq⟩
  · rw [k1] at hf
    exact absurd hf (by simp)
  · rw [heq] at hstop
    exact absurd hstop hne
  · have hsc0 : GarbageCollector.Scanned D v start db ps 0 s0.gc.db_ s0.gc.garbage_pos_
        s0.effects s0.clean_valid_batch := by
      rw [hs0]
      refine ⟨Nat.zero_le _, ?_, rfl, fun _ _ => rfl, ?_, ?_, ?_⟩
      · show start = start + 0
        rfl
      · intro key hk
        exact absurd hk (List.not_mem_nil _)
      · intro key hk
        exact absurd hk (List.not_mem_nil _)
      · exact List.nodup_nil
    obtain ⟨k, ⟨c1, c2, c3, _, _, _, c7⟩, c8⟩ := GarbageCollector.scan_Scanned D hadv hpoll v
      hother hmoved start db ps hlen fuel s0 (by rw [hs0]) (by rw [hs0]) (by rw [hs0]; rfl) 0
      (by rw [hs0]; exact k2) hsc0 hnone
    obtain ⟨r1, _, r3, _, rest, r4, r5, r6⟩ :=
      GarbageCollector.reclaim_spec D
        (GarbageCollector.SetVlog db
          (StringSource.open_ (pre ++ (ps.map VWriter.frame).flatten)) v start).garbage_pos_
        (GarbageCollector.scan false D fuel s0)
    rw [heq] at hstop ⊢
    obtain ⟨r7, _⟩ := r6 hnone hstop
    refine ⟨k, c1, by rw [r1]; exact c2, by rw [r3]; exact c8, ?_, c7, r7⟩
    have hrest : GarbageCollector.written rest = [] := by
      rcases r5 with h | h | h | h <;> rw [h] <;> rfl
    have hcvb : GarbageCollector.written
        ((if (GarbageCollector.scan false D fuel s0).clean_valid_batch.length > 0 then
          [(GarbageCollector.scan false D fuel s0).clean_valid_batch] else []).map
            GarbageCollector.Effect.Write)
        = (GarbageCollector.scan false D fuel s0).clean_valid_batch := by
      by_cases hc : (GarbageCollector.scan false D fuel s0).clean_valid_batch.length > 0
      · rw [if_pos hc]
        show _ ++ [] = _
        rw [List.append_nil]
      · rw [if_neg hc]
        cases hb : (GarbageCollector.scan false D fuel s0).clean_valid_batch with
        | nil => rfl
        | cons a b => rw [hb] at hc; exact absurd (Nat.succ_pos _) hc
    rw [r4, GarbageCollector.written_append, GarbageCollector.written_append, hrest, hcvb,
      List.append_nil]
    exact c3

/-! ## The database of the scenarios meets the conditions on the index -/

theorem MemDB.ParseRecord_advances (batch : List Byte) (pos : Nat)
    (h : (MemDB.ParseRecord batch pos).1.ok = true) : pos < (MemDB.ParseRecord batch pos).2.1 := by
  unfold MemDB.ParseRecord at h ⊢
  split
  · next tag klen rest hd =>
    rw [hd] at h
    dsimp only at h ⊢
    split
    · dsimp only; omega
    · next hz =>
      rw [if_neg hz] at h
      split
      · dsimp only; omega
      · next hd2 =>
        rw [hd2] at h
        exact absurd h (by simp [Status.ok])
  · next hx =>
    split at h
    · next tag klen rest hd => exact absurd hd (hx tag klen rest)
    · exact absurd h (by simp [Status.ok])

theorem MemDB.index_lookup_cons (k a b : List Byte) (es : List (List Byte × List Byte)) :
    List.lookup k ((a, b) :: es) = if k = a then some b else List.lookup k es := by
  by_cases h : k = a
  · subst h
    simp [List.lookup]
  · have hb : (k == a) = false := by simpa using h
    rw [if_neg h]
    simp [List.lookup, hb]

theorem MemDB.lookup_written (token key : List Byte) (b : WriteBatch)
    (index : List (List Byte × List Byte)) :
    (key ∉ b.map Prod.fst →
      List.lookup key (b.map (fun kv => (kv.1, token)) ++ index) = List.lookup key index) ∧
    (key ∈ b.map Prod.fst →
      List.lookup key (b.map (fun kv => (kv.1, token)) ++ index) = some token) := by
  induction b with
  | nil => exact ⟨fun _ => rfl, fun h => absurd h (List.not_mem_nil _)⟩
  | cons x xs ih =>
    simp only [List.map_cons, List.cons_append, MemDB.index_lookup_cons, List.mem_cons, not_or]
    refine ⟨fun h => ?_, fun h => ?_⟩
    · rw [if_neg h.1]
      exact ih.1 h.2
    · by_cases hk : key = x.1
      · rw [if_pos hk]
      · rw [if_neg hk]
        rcases h with h | h
        · exact absurd h hk
        · exact ih.2 h

theorem MemDB.impl_other (now limit : Nat) (db : MemDB) (b : WriteBatch) (key : List Byte)
    (h : key ∉ b.map Prod.fst) :
    (MemDB.impl now limit).GetPtr ((MemDB.impl now limit).Write db b).2 key
      = (MemDB.impl now limit).GetPtr db key := by
  show (match List.lookup key (b.map (fun kv => (kv.1, EncodeFixed64 (now <<< 24))) ++ db.index)
      with
      | some token => (Status.OK, token)
      | none => (Status.NotFound "", [])) = _
  rw [(MemDB.lookup_written _ key b db.index).1 h]
  rfl

theorem MemDB.impl_moved (limit : Nat) (db : MemDB) (b : WriteBatch) (key : List Byte) (e : Nat)
    (h : key ∈ b.map Prod.fst)
    (_hok : ((MemDB.impl 2 limit).GetPtr ((MemDB.impl 2 limit).Write db b).2 key).1.ok = true) :
    GarbageCollector.pointsTo 1 e
      ((MemDB.impl 2 limit).GetPtr ((MemDB.impl 2 limit).Write db b).2 key).2 = false := by
  have hg : (MemDB.impl 2 limit).GetPtr ((MemDB.impl 2 limit).Write db b).2 key
      = (Status.OK, EncodeFixed64 (2 <<< 24)) := by
    show (match List.lookup key (b.map (fun kv => (kv.1, EncodeFixed64 (2 <<< 24))) ++ db.index)
      with
      | some token => (Status.OK, token)
      | none => (Status.NotFound "", [])) = _
    rw [(MemDB.lookup_written _ key b db.index).2 h]
  rw [hg]
  unfold GarbageCollector.pointsTo
  have hc : littleEndian ((EncodeFixed64 (2 <<< 24)).take 8) = 2 <<< 24 := by decide
  dsimp only
  rw [hc]
  have hv : ((2 <<< 24) / 2 ^ 24 % 2 ^ 8 == 1) = false := by decide
  rw [hv, Bool.false_and]

set_option maxRecDepth 100000 in
theorem GarbageCollector.live_values_reinserted_example :
    (GarbageCollector.BeginGarbageCollect false (MemDB.impl 2 1000) (GarbageCollector.SetVlog
      (MemDB.db 100) (StringSource.open_ ([] ++ (MemDB.records.map VWriter.frame).flatten))
      1 0)).stop = none ∧
    GarbageCollector.written (GarbageCollector.BeginGarbageCollect false (MemDB.impl 2 1000)
      (GarbageCollector.SetVlog (MemDB.db 100)
        (StringSource.open_ ([] ++ (MemDB.records.map VWriter.frame).flatten)) 1 0)).effects
      = [([98], [121]), ([97], [122])] ∧
    ∃ k, k ≤ MemDB.records.length ∧
      (GarbageCollector.BeginGarbageCollect false (MemDB.impl 2 1000) (GarbageCollector.SetVlog
        (MemDB.db 100) (StringSource.open_ ([] ++ (MemDB.records.map VWriter.frame).flatten))
        1 0)).gc.garbage_pos_
        = 0 + ((MemDB.records.take k).map VWriter.frame).flatten.length ∧
      ((GarbageCollector.BeginGarbageCollect false (MemDB.impl 2 1000) (GarbageCollector.SetVlog
        (MemDB.db 100) (StringSource.open_ ([] ++ (MemDB.records.map VWriter.frame).flatten))
        1 0)).isEndOfFile = true → k = MemDB.records.length) ∧
      GarbageCollector.written (GarbageCollector.BeginGarbageCollect false (MemDB.impl 2 1000)
        (GarbageCollector.SetVlog (MemDB.db 100)
          (StringSource.open_ ([] ++ (MemDB.records.map VWriter.frame).flatten)) 1 0)).effects
        = GarbageCollector.liveTriples (MemDB.impl 2 1000) 1 (MemDB.db 100) 0
            (MemDB.records.take k) ∧
      ((GarbageCollector.liveTriples (MemDB.impl 2 1000) 1 (MemDB.db 100) 0
        (MemDB.records.take k)).map Prod.fst).Nodup ∧
      (GarbageCollector.BeginGarbageCollect false (MemDB.impl 2 1000) (GarbageCollector.SetVlog
        (MemDB.db 100) (StringSource.open_ ([] ++ (MemDB.records.map VWriter.frame).flatten))
        1 0)).clean_valid_batch = [] :=
  ⟨by decide, by decide,
   GarbageCollector.live_values_reinserted (MemDB.impl 2 1000) 1 0 (MemDB.db 100) []
     MemDB.records rfl
     (by decide) MemDB.ParseRecord_advances (fun _ _ => rfl) (MemDB.impl_other 2 1000)
     (fun db b key e => MemDB.impl_moved 1000 db b key e) (by decide)⟩

set_option maxRecDepth 100000 in
/-- C14 fails in the build with `NDEBUG` for a run that starts at an offset above 0:
the call of `SkipToPos` is written inside the `assert` of line 36 and is not made, so
the reader returns the records from offset 0 while `garbage_pos_` counts from
`start`. On the vlog of the scenarios (three frames of 12 bytes) with `start = 12`
the live entries of the records from offset 12 on are the value of `b` in the second
record and the value of `a` in the third. With `assert` enabled the run writes both
and then deletes the file. With `NDEBUG` the run reads all three records with the
positions 24, 36 and 48, finds no entry live, writes nothing and deletes the file;
the index still holds the tokens of both keys, which point into the deleted file. -/
theorem C14_ndebug_resumed_run_loses_live_values :
    MemDB.vlog.length = 36 ∧ MemDB.vlog.take 12 = VWriter.frame [1, 1, 97, 1, 120] ∧
    GarbageCollector.liveTriples (MemDB.impl 2 1000) 1 (MemDB.db 100) 12 (MemDB.records.drop 1)
      = [([98], [121]), ([97], [122])] ∧
    (GarbageCollector.BeginGarbageCollect false (MemDB.impl 2 1000)
      (GarbageCollector.SetVlog (MemDB.db 100) (StringSource.open_ MemDB.vlog) 1 12)).effects
      = [.Write [([98], [121]), ([97], [122])], .DeleteFile 1] ∧
    (GarbageCollector.BeginGarbageCollect true (MemDB.impl 2 1000)
      (GarbageCollector.SetVlog (MemDB.db 100) (StringSource.open_ MemDB.vlog) 1 12)).stop
      = none ∧
    (GarbageCollector.BeginGarbageCollect true (MemDB.impl 2 1000)
      (GarbageCollector.SetVlog (MemDB.db 100) (StringSource.open_ MemDB.vlog) 1 12)).isEndOfFile
      = true ∧
    (GarbageCollector.BeginGarbageCollect true (MemDB.impl 2 1000)
      (GarbageCollector.SetVlog (MemDB.db 100) (StringSource.open_ MemDB.vlog) 1
        12)).gc.garbage_pos_ = 48 ∧
    (GarbageCollector.BeginGarbageCollect true (MemDB.impl 2 1000)
      (GarbageCollector.SetVlog (MemDB.db 100) (StringSource.open_ MemDB.vlog) 1 12)).effects
      = [.DeleteFile 1] ∧
    (MemDB.impl 2 1000).GetPtr
      (GarbageCollector.BeginGarbageCollect true (MemDB.impl 2 1000)
        (GarbageCollector.SetVlog (MemDB.db 100) (StringSource.open_ MemDB.vlog) 1 12)).gc.db_
      [98] = (Status.OK, MemDB.token 23 1 1) ∧
    (MemDB.impl 2 1000).GetPtr
      (GarbageCollector.BeginGarbageCollect true (MemDB.impl 2 1000)
        (GarbageCollector.SetVlog (MemDB.db 100) (StringSource.open_ MemDB.vlog) 1 12)).gc.db_
      [97] = (Status.OK, MemDB.token 35 1 1) :=
  ⟨by decide, by decide, by decide, by decide, by decide, by decide, by decide, by decide,
   by decide, by decide⟩

set_option maxRecDepth 100000 in
/-- C17, evaluated on a vlog with a corrupt record in the middle: the file is the
vlog of the scenarios (three records of 12 bytes each) with the last byte of the
second record changed. A reader with a reporter returns the first record and then
reports a checksum mismatch of 12 bytes, and the third frame follows in the file.
In both builds the run of `BeginGarbageCollect` from offset 0 ends at position 12 with
`isEndOfFile` true and its only call is `DeleteFile` of the vlog; nothing is
re-inserted, and the index still holds, for the key `a`, the token of the value in the
third record of the deleted file. -/
theorem C17_corrupt_record_deletes_file :
    ((VReader.new (StringSource.open_ (MemDB.vlog.take 23 ++ [0] ++ MemDB.vlog.drop 24))
        (some []) true 0).ReadRecords 2).map (fun x => (x.1, x.2.reporter_))
      = some ([(true, [1, 1, 97, 1, 120]), (false, [])],
          some [(12, Status.Corruption "checksum mismatch")]) ∧
    (MemDB.vlog.take 23 ++ [0] ++ MemDB.vlog.drop 24).drop 24
      = VWriter.frame [1, 1, 97, 1, 122] ∧
    ∀ ndebug : Bool,
      (GarbageCollector.BeginGarbageCollect ndebug (MemDB.impl 2 1000)
        (GarbageCollector.SetVlog (MemDB.db 100)
          (StringSource.open_ (MemDB.vlog.take 23 ++ [0] ++ MemDB.vlog.drop 24)) 1 0)).stop
        = none ∧
      (GarbageCollector.BeginGarbageCollect ndebug (MemDB.impl 2 1000)
        (GarbageCollector.SetVlog (MemDB.db 100)
          (StringSource.open_ (MemDB.vlog.take 23 ++ [0] ++ MemDB.vlog.drop 24)) 1
          0)).isEndOfFile = true ∧
      (GarbageCollector.BeginGarbageCollect ndebug (MemDB.impl 2 1000)
        (GarbageCollector.SetVlog (MemDB.db 100)
          (StringSource.open_ (MemDB.vlog.take 23 ++ [0] ++ MemDB.vlog.drop 24)) 1
          0)).gc.garbage_pos_ = 12 ∧
      (GarbageCollector.BeginGarbageCollect ndebug (MemDB.impl 2 1000)
        (GarbageCollector.SetVlog (MemDB.db 100)
          (StringSource.open_ (MemDB.vlog.take 23 ++ [0] ++ MemDB.vlog.drop 24)) 1 0)).effects
        = [.DeleteFile 1] ∧
      (MemDB.impl 2 1000).GetPtr
        (GarbageCollector.BeginGarbageCollect ndebug (MemDB.impl 2 1000)
          (GarbageCollector.SetVlog (MemDB.db 100)
            (StringSource.open_ (MemDB.vlog.take 23 ++ [0] ++ MemDB.vlog.drop 24)) 1 0)).gc.db_
        [97] = (Status.OK, MemDB.token 35 1 1) :=
  ⟨by decide, by decide, fun ndebug => by
    cases ndebug
    · exact ⟨by decide, by decide, by decide, by decide, by decide⟩
    · exact ⟨by decide, by decide, by decide, by decide, by decide⟩⟩

/-! ## Errors of the file and records that fail their checksum -/

/-- A reader with an empty buffer that has seen the end of the file returns no record
and stays as it is. -/
theorem VReader.ReadRecord_at_eof (r : VReader) (hb : r.buffer_ = []) (he : r.eof_ = true) :
    r.ReadRecord = some (false, [], [], r) := by
  obtain ⟨f, rep, ck, buf, eof, cp⟩ := r
  simp only at hb he
  subst hb he
  unfold VReader.ReadRecord VReader.refill
  simp [kVHeaderSize]

theorem VReader.ReadRecords_fixed (r : VReader) (h : r.ReadRecord = some (false, [], [], r))
    (n : Nat) : r.ReadRecords n = some (List.replicate n (false, []), r) := by
  induction n with
  | zero => rfl
  | succ n ih =>
    rw [VReader.ReadRecords, h]
    dsimp only
    rw [ih]
    rfl

/-- C28: when a reader with fewer than seven buffered bytes that has not seen the end
of the file refills its buffer and the `Read` of the file returns an error status,
`ReadRecord` returns no record, the reporter receives one call with `kBlockSize`
(32768) dropped bytes and the status of the file, the buffer is empty and the end of
file flag is set; every later `ReadRecord` returns no record and leaves the reader,
its file and its reporter as they are. -/
theorem C28_read_error_on_refill (r : VReader) (status : Status) (got : List Byte)
    (file1 : StringSource)
    (hb : r.buffer_.length < kVHeaderSize) (he : r.eof_ = false)
    (hread : r.file_.Read (kBlockSize - r.buffer_.length) [] = some (status, got, file1))
    (hs : status.ok = false) :
    ∃ r1, r.ReadRecord = some (false, [], [], r1) ∧
      r1.reporter_ = r.reporter_.map (fun calls => calls ++ [(32768, status)]) ∧
      r1.buffer_ = [] ∧ r1.eof_ = true ∧ r1.file_ = file1 ∧
      r1.ReadRecord = some (false, [], [], r1) ∧
      ∀ n, r1.ReadRecords n = some (List.replicate n (false, []), r1) := by
  have hrr : r.ReadRecord = some (false, [], [],
      { ({ r with file_ := file1, buffer_ := [] } : VReader).ReportDrop kBlockSize status with
        eof_ := true }) := by
    unfold VReader.ReadRecord VReader.refill
    rw [if_pos hb, he]
    simp only [Bool.not_false, if_true]
    rw [hread]
    simp only [hs, Bool.not_false, if_true]
  obtain ⟨f1, _, f3, _, _⟩ := VReader.ReportDrop_fields
    ({ r with file_ := file1, buffer_ := [] } : VReader) kBlockSize status
  have hfix := VReader.ReadRecord_at_eof
    { ({ r with file_ := file1, buffer_ := [] } : VReader).ReportDrop kBlockSize status with
      eof_ := true } f3 rfl
  refine ⟨_, hrr, ?_, f3, rfl, f1, hfix, VReader.ReadRecords_fixed _ hfix⟩
  exact VReader.ReportDrop_reporter_ _ _ _

theorem C28_read_error_on_refill_witness :
    ∃ r1, (VReader.new ⟨VWriter.frame [102, 111, 111], VWriter.frame [102, 111, 111], true, false⟩
        (some []) true 0).ReadRecord = some (false, [], [], r1) ∧
      r1.reporter_ = (some ([] : Reporter)).map
        (fun calls => calls ++ [(32768, Status.Corruption "read error")]) ∧
      r1.buffer_ = [] ∧ r1.eof_ = true ∧
      r1.file_ = ⟨VWriter.frame [102, 111, 111], VWriter.frame [102, 111, 111], false, true⟩ ∧
      r1.ReadRecord = some (false, [], [], r1) ∧
      ∀ n, r1.ReadRecords n = some (List.replicate n (false, []), r1) :=
  C28_read_error_on_refill
    (VReader.new ⟨VWriter.frame [102, 111, 111], VWriter.frame [102, 111, 111], true, false⟩
      (some []) true 0)
    (Status.Corruption "read error") []
    ⟨VWriter.frame [102, 111, 111], VWriter.frame [102, 111, 111], false, true⟩
    (by decide) rfl rfl rfl

/-- C29: when the buffer of a checksum-verifying reader starts with a complete frame
whose payload does not have the checksum of the header, `ReadRecord` returns no
record and reports `Corruption("checksum mismatch")` with `7 + length` dropped bytes,
and the buffer, the end of file flag and the file are unchanged; so every following
`ReadRecord` does the same: after `n` calls the reporter has received `n` such
reports and the reader has not moved. -/
theorem C29_mismatch_leaves_reader (r : VReader) (hdr payload rest : List Byte)
    (hbuf : r.buffer_ = hdr ++ payload ++ rest) (hh : hdr.length = 7)
    (hL : headerLength hdr = payload.length) (hck : r.checksum_ = true)
    (hbad : crc32c.Value payload ≠ crc32c.Unmask (DecodeFixed32 hdr)) :
    (∃ r1, r.ReadRecord = some (false, [], [], r1) ∧
      r1.buffer_ = r.buffer_ ∧ r1.eof_ = r.eof_ ∧ r1.file_ = r.file_ ∧
      r1.checksum_ = r.checksum_ ∧ r1.cleanPos_ = r.cleanPos_ ∧
      r1.reporter_ = r.reporter_.map (fun calls => calls ++
        [(7 + payload.length, Status.Corruption "checksum mismatch")]) ∧
      ∃ r2, r1.ReadRecord = some (false, [], [], r2) ∧
        r2.buffer_ = r.buffer_ ∧ r2.eof_ = r.eof_ ∧ r2.file_ = r.file_ ∧
        r2.reporter_ = r1.reporter_.map (fun calls => calls ++
          [(7 + payload.length, Status.Corruption "checksum mismatch")])) ∧
    ∀ n, ∃ rn, r.ReadRecords n = some (List.replicate n (false, []), rn) ∧
      rn.buffer_ = r.buffer_ ∧ rn.eof_ = r.eof_ ∧ rn.file_ = r.file_ ∧
      rn.reporter_ = r.reporter_.map (fun calls => calls ++
        List.replicate n (7 + payload.length, Status.Corruption "checksum mismatch")) := by
  have key : ∀ q : VReader, q.buffer_ = hdr ++ payload ++ rest → q.checksum_ = true →
      q.ReadRecord = some (false, [], [],
        q.ReportCorruption (kVHeaderSize + payload.length) "checksum mismatch") := by
    intro q hq hc
    have hlen : ¬ q.buffer_.length < kVHeaderSize := by
      rw [hq]
      simp only [List.length_append, kVHeaderSize]
      omega
    have hhl : headerLength q.buffer_ = payload.length := by
      rw [hq, List.append_assoc, headerLength_append _ _ hh, hL]
    have hdc : DecodeFixed32 q.buffer_ = DecodeFixed32 hdr := by
      rw [hq, List.append_assoc, DecodeFixed32_append _ _ hh]
    have hfit : payload.length + kVHeaderSize ≤ q.buffer_.length := by
      rw [hq]
      simp only [List.length_append, kVHeaderSize]
      omega
    have hpay : (q.buffer_.drop kVHeaderSize).take payload.length = payload := by
      rw [hq, List.append_assoc, show kVHeaderSize = hdr.length from hh.symm, List.drop_left,
        List.take_left]
    have hne : (crc32c.Value payload != crc32c.Unmask (DecodeFixed32 hdr)) = true := by
      rw [bne_iff_ne]
      exact hbad
    unfold VReader.ReadRecord VReader.refill
    rw [if_neg hlen]
    dsimp only
    unfold VReader.parse
    dsimp only
    rw [hhl, hdc, if_pos hfit, hpay, hc, hne]
    rfl
  obtain ⟨f1, f2, f3, f4, f5⟩ :=
    r.ReportCorruption_fields (kVHeaderSize + payload.length) "checksum mismatch"
  have hrep := r.ReportCorruption_reporter_ (kVHeaderSize + payload.length) "checksum mismatch"
  obtain ⟨g1, _, g3, g4, _⟩ :=
    (r.ReportCorruption (kVHeaderSize + payload.length)
      "checksum mismatch").ReportCorruption_fields
      (kVHeaderSize + payload.length) "checksum mismatch"
  have hall : ∀ (n : Nat) (q : VReader), q.buffer_ = hdr ++ payload ++ rest →
      q.checksum_ = true →
      ∃ rn, q.ReadRecords n = some (List.replicate n (false, []), rn) ∧
        rn.buffer_ = q.buffer_ ∧ rn.eof_ = q.eof_ ∧ rn.file_ = q.file_ ∧
        rn.reporter_ = q.reporter_.map (fun calls => calls ++
          List.replicate n (7 + payload.length, Status.Corruption "checksum mismatch")) := by
    intro n
    induction n with
    | zero =>
      intro q _ _
      refine ⟨q, rfl, rfl, rfl, rfl, ?_⟩
      cases q.reporter_ with
      | none => rfl
      | some calls =>
        show some calls = some (calls ++ [])
        rw [List.append_nil]
    | succ n ih =>
      intro q hq hc
      obtain ⟨q1, q2, q3, q4, _⟩ :=
        q.ReportCorruption_fields (kVHeaderSize + payload.length) "checksum mismatch"
      obtain ⟨rn, s1, s2, s3, s4, s5⟩ :=
        ih (q.ReportCorruption (kVHeaderSize + payload.length) "checksum mismatch")
          (q3.trans hq) (q2.trans hc)
      refine ⟨rn, ?_, s2.trans q3, s3.trans q4, s4.trans q1, ?_⟩
      · rw [VReader.ReadRecords, key q hq hc]
        dsimp only
        rw [s1]
        rfl
      · rw [s5, VReader.ReportCorruption_reporter_]
        cases q.reporter_ with
        | none => rfl
        | some calls =>
          show some (calls ++ [(kVHeaderSize + payload.length, _)] ++ List.replicate n _)
            = some (calls ++ List.replicate (n + 1) _)
          rw [List.append_assoc, List.replicate_succ]
          rfl
  refine ⟨⟨_, key r hbuf hck, f3, f4, f1, f2, f5, hrep, _, key _ (f3.trans hbuf) (f2.trans hck),
    g3.trans f3, g4.trans f4, g1.trans f1, ?_⟩, fun n => hall n r hbuf hck⟩
  exact VReader.ReportCorruption_reporter_ _ _ _

theorem C29_mismatch_leaves_reader_witness :
    ∃ r1, (VReader.mk (StringSource.open_ []) (some []) true
        ((VWriter.frame [102, 111, 111]).take 7 ++ [102, 111, 112] ++ []) false 0).ReadRecord
        = some (false, [], [], r1) ∧
      r1.buffer_ = (VWriter.frame [102, 111, 111]).take 7 ++ [102, 111, 112] ++ [] ∧
      r1.eof_ = false ∧ r1.file_ = StringSource.open_ [] ∧
      r1.checksum_ = true ∧ r1.cleanPos_ = 0 ∧
      r1.reporter_ = (some ([] : Reporter)).map (fun calls => calls ++
        [(7 + [(102 : Byte), 111, 112].length, Status.Corruption "checksum mismatch")]) ∧
      ∃ r2, r1.ReadRecord = some (false, [], [], r2) ∧
        r2.buffer_ = (VWriter.frame [102, 111, 111]).take 7 ++ [102, 111, 112] ++ [] ∧
        r2.eof_ = false ∧ r2.file_ = StringSource.open_ [] ∧
        r2.reporter_ = r1.reporter_.map (fun calls => calls ++
          [(7 + [(102 : Byte), 111, 112].length, Status.Corruption "checksum mismatch")]) :=
  (C29_mismatch_leaves_reader
    (VReader.mk (StringSource.open_ []) (some []) true
      ((VWriter.frame [102, 111, 111]).take 7 ++ [102, 111, 112] ++ []) false 0)
    ((VWriter.frame [102, 111, 111]).take 7) [102, 111, 112] [] rfl (by decide) (by decide) rfl
    (by decide)).1

/-! ## The fields of a token -/

/-- The test of line 80 compares the fields of the token. -/
theorem GarbageCollector.scanTriple_fields {σ : Type} (ndebug : Bool) (D : DBImpl σ) (v : Nat)
    (db : σ) (batch : List Byte) (old pos gp : Nat) (acc : WriteBatch)
    (hs : (D.ParseRecord batch pos).1.ok = true)
    (hd : (D.ParseRecord batch pos).2.2.2.2 = false)
    (hg : (D.GetPtr db (D.ParseRecord batch pos).2.2.1).1.ok = true)
    (h8 : 8 ≤ (D.GetPtr db (D.ParseRecord batch pos).2.2.1).2.length) :
    (GarbageCollector.scanTriple ndebug D v db batch old pos gp acc).2.2.2
      = if ((GarbageCollector.fields
              (DecodeFixed64 (D.GetPtr db (D.ParseRecord batch pos).2.2.1).2)).2.2
            + (GarbageCollector.fields
              (DecodeFixed64 (D.GetPtr db (D.ParseRecord batch pos).2.2.1).2)).1
            == old + (D.ParseRecord batch pos).2.1
          && (GarbageCollector.fields
              (DecodeFixed64 (D.GetPtr db (D.ParseRecord batch pos).2.2.1).2)).2.1 == v) = true
        then acc ++ [((D.ParseRecord batch pos).2.2.1, (D.ParseRecord batch pos).2.2.2.1)]
        else acc := by
  unfold GarbageCollector.scanTriple GarbageCollector.fields WriteBatch.Put
  dsimp only
  rw [if_neg (by rw [hs]; simp), if_neg (by rw [hd]; simp), if_pos hg,
    if_neg (Nat.not_lt.mpr h8)]
  split <;> rfl

theorem GarbageCollector.pack_eq (payload_size vlog_number payload_offset : Nat)
    (h1 : payload_size < 2 ^ 24) (h2 : vlog_number < 2 ^ 8) :
    (payload_offset <<< 32) ||| (vlog_number <<< 24) ||| payload_size
      = payload_size + (vlog_number + payload_offset * 2 ^ 8) * 2 ^ 24 := by
  have e1 : (payload_offset <<< 32) ||| (vlog_number <<< 24)
      = (vlog_number + payload_offset * 2 ^ 8) <<< 24 := by
    rw [Nat.or_comm, or_shiftLeft_eq_add _ _ 32 (by rw [Nat.shiftLeft_eq]; omega),
      Nat.shiftLeft_eq, Nat.shiftLeft_eq]
    omega
  rw [e1, Nat.or_comm, or_shiftLeft_eq_add _ _ 24 h1]

/-- C26: for every `payload_size < 2 ^ 24`, `vlog_number < 2 ^ 8` and
`payload_offset < 2 ^ 32`, the field extraction of lines 72 to 76 applied to the token
`(payload_offset << 32) | (vlog_number << 24) | payload_size` returns
`(payload_size, vlog_number, payload_offset)`, also when the token goes through its
eight byte little-endian encoding. -/
theorem C26_fields_of_packed_token (payload_size vlog_number payload_offset : Nat)
    (h1 : payload_size < 2 ^ 24) (h2 : vlog_number < 2 ^ 8) (h3 : payload_offset < 2 ^ 32) :
    GarbageCollector.fields
        ((payload_offset <<< 32) ||| (vlog_number <<< 24) ||| payload_size)
      = (payload_size, vlog_number, payload_offset) ∧
    GarbageCollector.fields (DecodeFixed64 (EncodeFixed64
        ((payload_offset <<< 32) ||| (vlog_number <<< 24) ||| payload_size)))
      = (payload_size, vlog_number, payload_offset) := by
  have hf : GarbageCollector.fields
        ((payload_offset <<< 32) ||| (vlog_number <<< 24) ||| payload_size)
      = (payload_size, vlog_number, payload_offset) := by
    rw [GarbageCollector.pack_eq _ _ _ h1 h2]
    unfold GarbageCollector.fields
    dsimp only
    rw [and_ffffff, and_ff, Nat.shiftRight_eq_div_pow, Nat.shiftRight_eq_div_pow]
    have a1 : (payload_size + (vlog_number + payload_offset * 2 ^ 8) * 2 ^ 24) % 2 ^ 24
        = payload_size := by omega
    have a2 : (payload_size + (vlog_number + payload_offset * 2 ^ 8) * 2 ^ 24) / 2 ^ 24
        = vlog_number + payload_offset * 2 ^ 8 := by omega
    rw [a1, a2]
    have a3 : (vlog_number + payload_offset * 2 ^ 8) % 256 = vlog_number := by omega
    have a4 : (vlog_number + payload_offset * 2 ^ 8) / 2 ^ 8 = payload_offset := by omega
    rw [a3, a4]
  refine ⟨hf, ?_⟩
  have hlt : (payload_offset <<< 32) ||| (vlog_number <<< 24) ||| payload_size < 2 ^ 64 := by
    rw [GarbageCollector.pack_eq _ _ _ h1 h2]
    omega
  have hd : DecodeFixed64 (EncodeFixed64
        ((payload_offset <<< 32) ||| (vlog_number <<< 24) ||| payload_size))
      = (payload_offset <<< 32) ||| (vlog_number <<< 24) ||| payload_size := by
    rw [DecodeFixed64_eq _ (by rw [EncodeFixed64_length]),
      List.take_of_length_le (by rw [EncodeFixed64_length]), littleEndian_EncodeFixed64,
      Nat.mod_eq_of_lt hlt]
  rw [hd]
  exact hf

theorem C26_fields_of_packed_token_witness :
    (1 : Nat) < 2 ^ 24 ∧ (1 : Nat) < 2 ^ 8 ∧ (35 : Nat) < 2 ^ 32 ∧
    GarbageCollector.fields ((35 <<< 32) ||| (1 <<< 24) ||| 1) = (1, 1, 35) ∧
    GarbageCollector.fields (DecodeFixed64 (EncodeFixed64 ((35 <<< 32) ||| (1 <<< 24) ||| 1)))
      = (1, 1, 35) :=
  ⟨by decide, by decide, by decide,
   C26_fields_of_packed_token 1 1 35 (by decide) (by decide) (by decide)⟩

/-! ## The position of the collector -/

/-- The loop of `BeginGarbageCollect` starts from the run `enter` gives, in both
builds. -/
theorem GarbageCollector.BeginGarbageCollect_enter {σ : Type} (ndebug : Bool) (D : DBImpl σ)
    (g : GarbageCollector σ) (h : (GarbageCollector.enter ndebug g).1 = true) :
    ∃ fuel,
      fuel = ((GarbageCollector.enter ndebug g).2.gc.vlog_reader_.buffer_.length
        + (GarbageCollector.enter ndebug g).2.gc.vlog_reader_.file_.contents_.length)
        / kVHeaderSize + 1 ∧
      GarbageCollector.BeginGarbageCollect ndebug D g
      = if (GarbageCollector.scan ndebug D fuel (GarbageCollector.enter ndebug g).2).stop.isSome
        then GarbageCollector.scan ndebug D fuel (GarbageCollector.enter ndebug g).2
        else GarbageCollector.reclaim ndebug D g.garbage_pos_
          (GarbageCollector.scan ndebug D fuel (GarbageCollector.enter ndebug g).2) := by
  unfold GarbageCollector.enter at h ⊢
  dsimp only at h ⊢
  unfold GarbageCollector.BeginGarbageCollect
  dsimp only
  generalize (if g.garbage_pos_ > 0 then
      if ndebug = true then (true, g.vlog_reader_) else g.vlog_reader_.SkipToPos g.garbage_pos_
    else (true, g.vlog_reader_)) = sk at h ⊢
  rw [if_neg (by rw [h]; simp)]
  exact ⟨_, rfl, rfl⟩

/-- The loop over the records continues a run that has made `k` passes. -/
theorem GarbageCollector.scan_passes {σ : Type} (ndebug : Bool) (D : DBImpl σ) (k n : Nat)
    (s s1 : GarbageCollector.Run σ) (h : GarbageCollector.passes ndebug D k s = some s1) :
    GarbageCollector.scan ndebug D (k + n) s = GarbageCollector.scan ndebug D n s1 := by
  induction k generalizing s with
  | zero =>
    simp only [GarbageCollector.passes, Option.some.injEq] at h
    rw [h, Nat.zero_add]
  | succ k ih =>
    rw [GarbageCollector.passes] at h
    cases ht : (GarbageCollector.scanRecord ndebug D s).1 with
    | false => rw [ht] at h; exact absurd h (by simp)
    | true =>
      rw [ht, if_pos rfl] at h
      rw [Nat.add_right_comm, GarbageCollector.scan]
      rw [ht, if_pos rfl]
      exact ih _ h

/-- The loop over the entries of a batch, when it ends without a failed assertion,
leaves the position at the start of the payload plus the position in the batch. -/
theorem GarbageCollector.scanBatch_pos {σ : Type} (D : DBImpl σ) (v : Nat) (db : σ)
    (batch : List Byte) (size old : Nat) (fuel pos : Nat) (acc : WriteBatch)
    (h : (GarbageCollector.scanBatch false D v db batch size old fuel pos (old + pos) acc).1 = none) :
    (GarbageCollector.scanBatch false D v db batch size old fuel pos (old + pos) acc).2.2.1
      = old + (GarbageCollector.scanBatch false D v db batch size old fuel pos (old + pos) acc).2.1 := by
  induction fuel generalizing pos acc with
  | zero =>
    by_cases hlt : pos < size
    · rw [GarbageCollector.scanBatch_zero D v db batch _ old pos _ acc hlt] at h
      exact absurd h (by simp)
    · rw [GarbageCollector.scanBatch_ge D v db batch _ old 0 pos _ acc hlt]
  | succ fuel ih =>
    by_cases hlt : pos < size
    · obtain ⟨hs1, hs2⟩ := GarbageCollector.scanBatch_succ D v db batch size old fuel pos
        (old + pos) acc hlt
      have ht : (GarbageCollector.scanTriple false D v db batch old pos (old + pos) acc).1 = none := by
        by_contra hc
        exact hs2 hc h
      obtain ⟨_, heq⟩ := GarbageCollector.scanTriple_none D v db batch old pos (old + pos) acc ht
      have hstep := hs1 ht
      rw [heq] at hstep
      dsimp only at hstep
      rw [hstep] at h ⊢
      exact ih _ _ h
    · rw [GarbageCollector.scanBatch_ge D v db batch _ old _ pos _ acc hlt]

theorem VWriter.frames_length (ps : List (List Byte)) :
    (ps.map VWriter.frame).flatten.length = (ps.map fun r => 7 + r.length).sum := by
  induction ps with
  | nil => rfl
  | cons p ps ih =>
    rw [List.map_cons, List.flatten_cons, List.length_append, VWriter.frame_length, ih,
      List.map_cons, List.sum_cons]

/-- A pass of the loop over the records that goes on has read the next frame and
moved the position to the start of the frame after it. -/
theorem GarbageCollector.scanRecord_position {σ : Type} (D : DBImpl σ) (start : Nat)
    (ps : List (List Byte)) (hlen : ∀ p ∈ ps, p.length < 2 ^ 24)
    (s : GarbageCollector.Run σ) (k : Nat) (hk : k ≤ ps.length)
    (hat : s.gc.vlog_reader_.AtStream ((ps.drop k).map VWriter.frame).flatten)
    (hgp : s.gc.garbage_pos_ = start + ((ps.take k).map fun r => 7 + r.length).sum)
    (hc : (GarbageCollector.scanRecord false D s).1 = true) :
    k + 1 ≤ ps.length ∧
    (GarbageCollector.scanRecord false D s).2.gc.vlog_reader_.AtStream
      ((ps.drop (k + 1)).map VWriter.frame).flatten ∧
    (GarbageCollector.scanRecord false D s).2.gc.garbage_pos_
      = start + ((ps.take (k + 1)).map fun r => 7 + r.length).sum := by
  cases hp : (D.IsShutDown s.gc.db_).1 with
  | true =>
    rw [GarbageCollector.scanRecord_shutdown false D s hp] at hc
    exact absurd hc (by simp)
  | false =>
    by_cases hklt : k < ps.length
    · have hdrop : ps.drop k = ps[k] :: ps.drop (k + 1) := List.drop_eq_getElem_cons hklt
      have hpl : ps[k].length < 2 ^ 24 := hlen _ (List.getElem_mem hklt)
      have htake : ps.take (k + 1) = ps.take k ++ [ps[k]] := by
        rw [List.take_succ, ← List.head?_drop, hdrop]
        rfl
      obtain ⟨hdr, hf, hh, hL, hcrc⟩ := VWriter.frame_header ps[k] hpl
      have hat1 : s.gc.vlog_reader_.AtStream
          (hdr ++ ps[k] ++ ((ps.drop (k + 1)).map VWriter.frame).flatten) := by
        rw [hdrop, List.map_cons, List.flatten_cons, hf] at hat
        exact hat
      obtain ⟨sc, r1, h1, _, _, _, _, h6⟩ :=
        s.gc.vlog_reader_.ReadRecord_complete hdr ps[k] _ hat1 hh hL
      have hbad : (s.gc.vlog_reader_.checksum_ &&
          crc32c.Value ps[k] != crc32c.Unmask (DecodeFixed32 hdr)) = false := by
        rw [hcrc]; simp
      rw [hbad] at h1
      simp only [Bool.not_false, Bool.false_eq_true, if_false] at h1
      obtain ⟨_, hat2⟩ := h6 hbad
      have heq := GarbageCollector.scanRecord_record D s hp ps[k] sc r1 h1 _ rfl
      have hpos := GarbageCollector.scanBatch_pos D s.gc.vlog_number_ (D.IsShutDown s.gc.db_).2
        ps[k] ps[k].length (s.gc.garbage_pos_ + kVHeaderSize) ps[k].length 0 s.clean_valid_batch
      simp only [Nat.add_zero] at hpos
      generalize GarbageCollector.scanBatch false D s.gc.vlog_number_ (D.IsShutDown s.gc.db_).2 ps[k]
        ps[k].length (s.gc.garbage_pos_ + kVHeaderSize) ps[k].length 0
        (s.gc.garbage_pos_ + kVHeaderSize) s.clean_valid_batch = inner at heq hpos
      have hsum : ∀ x, x = s.gc.garbage_pos_ + kVHeaderSize + ps[k].length →
          x = start + ((ps.take (k + 1)).map fun r => 7 + r.length).sum := by
        intro x hx
        rw [hx, htake, List.map_append, List.sum_append, hgp]
        simp only [List.map_cons, List.map_nil, List.sum_cons, List.sum_nil, kVHeaderSize]
        omega
      cases hi1 : inner.1 with
      | some e =>
        rw [hi1] at heq
        rw [heq] at hc
        exact absurd hc (by simp)
      | none =>
        rw [hi1] at heq
        dsimp only at heq
        have hgp1 := hpos hi1
        by_cases hsz : (inner.2.1 != ps[k].length) = true
        · rw [if_pos hsz] at heq
          rw [heq] at hc
          exact absurd hc (by simp)
        · rw [if_neg hsz] at heq
          have hsz1 : inner.2.1 = ps[k].length := by simpa using hsz
          rw [hsz1] at hgp1
          by_cases hbs : D.ByteSize inner.2.2.2 > D.clean_write_buffer_size
          · rw [if_pos hbs] at heq
            by_cases hw : (!(D.Write (D.IsShutDown s.gc.db_).2 inner.2.2.2).1.ok) = true
            · rw [if_pos hw] at heq
              rw [heq] at hc
              exact absurd hc (by simp)
            · rw [if_neg hw] at heq
              rw [heq]
              exact ⟨hklt, hat2, hsum _ hgp1⟩
          · rw [if_neg hbs] at heq
            rw [heq]
            exact ⟨hklt, hat2, hsum _ hgp1⟩
    · have hk1 : k = ps.length := Nat.le_antisymm hk (Nat.not_lt.mp hklt)
      rw [List.drop_eq_nil_of_le (Nat.le_of_eq hk1.symm)] at hat
      obtain ⟨r1, h1, _⟩ := s.gc.vlog_reader_.ReadRecord_short [] hat (by simp [kVHeaderSize])
      rw [GarbageCollector.scanRecord_eof false D s hp [] [] r1 h1] at hc
      exact absurd hc (by simp)

/-- The position in the build with `assert` enabled: for a run of
`BeginGarbageCollect` from the offset `start` of a file that holds, from `start` on, the frames of the records `ps` (`start` is a frame boundary):
after the loop has processed `k` records and gone on each time (every batch parsed to
exactly its length and no assertion failed), `k` is at most the number of records,
the reader is at the frame of the record after them, and `garbage_pos_` is `start`
plus the sum of `7 + |r_i|` over the first `k` records, the offset of that frame; and
in a pass over an entry of the next record `garbage_pos_` becomes the start of that
frame plus 7 plus the position of the end of the entry in the batch. -/
theorem GarbageCollector.position_tracking {σ : Type} (D : DBImpl σ) (v start : Nat) (db : σ)
    (pre : List Byte) (ps : List (List Byte)) (hpre : pre.length = start)
    (hlen : ∀ p ∈ ps, p.length < 2 ^ 24) (k : Nat) (s : GarbageCollector.Run σ)
    (hk : GarbageCollector.passes false D k (GarbageCollector.enter false (GarbageCollector.SetVlog db
      (StringSource.open_ (pre ++ (ps.map VWriter.frame).flatten)) v start)).2 = some s) :
    (GarbageCollector.enter false (GarbageCollector.SetVlog db
      (StringSource.open_ (pre ++ (ps.map VWriter.frame).flatten)) v start)).1 = true ∧
    k ≤ ps.length ∧
    s.gc.vlog_reader_.AtStream ((ps.drop k).map VWriter.frame).flatten ∧
    s.gc.garbage_pos_ = start + ((ps.take k).map fun r => 7 + r.length).sum ∧
    ∀ (batch : List Byte) (pos garbage_pos_ : Nat) (clean_valid_batch : WriteBatch)
      (db1 : σ), (D.ParseRecord batch pos).1.ok = true →
      (GarbageCollector.scanTriple false D v db1 batch (s.gc.garbage_pos_ + kVHeaderSize) pos
        garbage_pos_ clean_valid_batch).2.2.1
        = start + ((ps.take k).map fun r => 7 + r.length).sum + 7
          + (D.ParseRecord batch pos).2.1 := by
  obtain ⟨k1, k2⟩ := GarbageCollector.SetVlog_skip db pre (ps.map VWriter.frame).flatten v start
    hpre
  have key : ∀ (k : Nat) (s0 s : GarbageCollector.Run σ) (j : Nat), j ≤ ps.length →
      s0.gc.vlog_reader_.AtStream ((ps.drop j).map VWriter.frame).flatten →
      s0.gc.garbage_pos_ = start + ((ps.take j).map fun r => 7 + r.length).sum →
      GarbageCollector.passes false D k s0 = some s →
      j + k ≤ ps.length ∧
      s.gc.vlog_reader_.AtStream ((ps.drop (j + k)).map VWriter.frame).flatten ∧
      s.gc.garbage_pos_ = start + ((ps.take (j + k)).map fun r => 7 + r.length).sum := by
    intro k
    induction k with
    | zero =>
      intro s0 s j hj hat hgp hp
      simp only [GarbageCollector.passes, Option.some.injEq] at hp
      subst hp
      exact ⟨hj, hat, hgp⟩
    | succ k ih =>
      intro s0 s j hj hat hgp hp
      rw [GarbageCollector.passes] at hp
      cases ht : (GarbageCollector.scanRecord false D s0).1 with
      | false => rw [ht] at hp; exact absurd hp (by simp)
      | true =>
        rw [ht, if_pos rfl] at hp
        obtain ⟨a1, a2, a3⟩ :=
          GarbageCollector.scanRecord_position D start ps hlen s0 j hj hat hgp ht
        have := ih _ s (j + 1) a1 a2 a3 hp
        rw [Nat.add_assoc, Nat.add_comm 1 k] at this
        exact this
  have h0 := key k _ s 0 (Nat.zero_le _) k2 rfl hk
  rw [Nat.zero_add] at h0
  obtain ⟨b1, b2, b3⟩ := h0
  refine ⟨k1, b1, b2, b3, ?_⟩
  intro batch pos gp acc db1 hok
  rw [GarbageCollector.scanTriple_checked]
  dsimp only
  rw [if_neg (by rw [hok]; simp), b3]
  simp only [kVHeaderSize]
  split
  · rfl
  · split
    · split
      · rfl
      · split <;> rfl
    · rfl

set_option maxRecDepth 100000 in
theorem GarbageCollector.position_tracking_example :
    ∃ s, GarbageCollector.passes false (MemDB.impl 2 1000) 2
        (GarbageCollector.enter false (GarbageCollector.SetVlog (MemDB.db 100)
          (StringSource.open_ ([] ++ (MemDB.records.map VWriter.frame).flatten)) 1 0)).2
        = some s ∧
      s.gc.garbage_pos_ = 0 + ((MemDB.records.take 2).map fun r => 7 + r.length).sum ∧
      s.gc.garbage_pos_ = 24 :=
  (Option.isSome_iff_exists.mp (by decide :
      (GarbageCollector.passes false (MemDB.impl 2 1000) 2
        (GarbageCollector.enter false (GarbageCollector.SetVlog (MemDB.db 100)
          (StringSource.open_ ([] ++ (MemDB.records.map VWriter.frame).flatten)) 1 0)).2).isSome
        = true)).elim
    fun s hs => ⟨s, hs,
      (GarbageCollector.position_tracking (MemDB.impl 2 1000) 1 0 (MemDB.db 100) []
        MemDB.records rfl
        (by decide) 2 s hs).2.2.2.1,
      (GarbageCollector.position_tracking (MemDB.impl 2 1000) 1 0 (MemDB.db 100) []
        MemDB.records rfl
        (by decide) 2 s hs).2.2.2.1⟩

set_option maxRecDepth 100000 in
/-- C27 fails in the build with `NDEBUG` for a run that starts at an offset above 0:
the call of `SkipToPos` is written inside the `assert` of line 36 and is not made. On
the vlog of the scenarios (three frames of 12 bytes) with `start = 12`, the reader of
the run with `NDEBUG` is at offset 0 when the loop is entered: all 36 bytes are
unread and the first record it returns is the one of the frame at offset 0. After
that record `garbage_pos_` is 24 while 24 bytes are unread, so the next frame begins
at the file offset 12, not at `garbage_pos_`; and the position of the entry of that
record was `12 + 7 + 5`, while its frame starts at 0. With `assert` enabled the first
record returned is the one of the frame at offset 12, and after it `garbage_pos_` is
24 and 12 bytes are unread. For every collector, with `NDEBUG` the loop is entered
with the reader as `SetVlog` opened it. -/
theorem C27_ndebug_position_ahead_of_reader :
    MemDB.vlog.length = 36 ∧ MemDB.vlog.take 12 = VWriter.frame [1, 1, 97, 1, 120] ∧
    (MemDB.vlog.drop 12).take 12 = VWriter.frame [1, 1, 98, 1, 121] ∧
    ((GarbageCollector.enter true (GarbageCollector.SetVlog (MemDB.db 100)
        (StringSource.open_ MemDB.vlog) 1 12)).2.gc.vlog_reader_.ReadRecord).map
      (fun x => (x.1, x.2.1)) = some (true, [1, 1, 97, 1, 120]) ∧
    (GarbageCollector.passes true (MemDB.impl 2 1000) 1
      (GarbageCollector.enter true (GarbageCollector.SetVlog (MemDB.db 100)
        (StringSource.open_ MemDB.vlog) 1 12)).2).map
      (fun s => (s.gc.garbage_pos_,
        s.gc.vlog_reader_.buffer_.length + s.gc.vlog_reader_.file_.contents_.length))
      = some (24, 24) ∧
    ((GarbageCollector.enter false (GarbageCollector.SetVlog (MemDB.db 100)
        (StringSource.open_ MemDB.vlog) 1 12)).2.gc.vlog_reader_.ReadRecord).map
      (fun x => (x.1, x.2.1)) = some (true, [1, 1, 98, 1, 121]) ∧
    (GarbageCollector.passes false (MemDB.impl 2 1000) 1
      (GarbageCollector.enter false (GarbageCollector.SetVlog (MemDB.db 100)
        (StringSource.open_ MemDB.vlog) 1 12)).2).map
      (fun s => (s.gc.garbage_pos_,
        s.gc.vlog_reader_.buffer_.length + s.gc.vlog_reader_.file_.contents_.length))
      = some (24, 12) ∧
    ∀ (σ : Type) (g : GarbageCollector σ),
      GarbageCollector.enter true g
        = (true, { gc := g, clean_valid_batch := [], isEndOfFile := false, effects := [],
                   stop := none }) :=
  ⟨by decide, by decide, by decide, by decide, by decide, by decide, by decide,
   fun _ g => GarbageCollector.enter_ndebug g⟩

/-! ## How the loop is left decides the reclaim step, in both builds -/

/-- A pass after which the loop goes on changes neither `isEndOfFile` nor the reason
for which the run has ended. -/
theorem GarbageCollector.scanRecord_stays {σ : Type} (ndebug : Bool) (D : DBImpl σ)
    (s : GarbageCollector.Run σ) :
    (GarbageCollector.scanRecord ndebug D s).1 = true →
      (GarbageCollector.scanRecord ndebug D s).2.isEndOfFile = s.isEndOfFile ∧
      (GarbageCollector.scanRecord ndebug D s).2.stop = s.stop := by
  unfold GarbageCollector.scanRecord
  dsimp only
  split
  · exact fun h => Bool.noConfusion h
  · split
    · exact fun h => Bool.noConfusion h
    · exact fun h => Bool.noConfusion h
    · split
      · exact fun h => Bool.noConfusion h
      · split
        · exact fun h => Bool.noConfusion h
        · split
          · split
            · exact fun h => Bool.noConfusion h
            · exact fun _ => ⟨rfl, rfl⟩
          · exact fun _ => ⟨rfl, rfl⟩

/-- The pass that leaves the loop without ending the run: either `IsShutDown` has
answered true, or it has answered false and `ReadRecord` has returned false, which
sets `isEndOfFile`. In both cases the position, the calls made and the accumulator
are those of before the pass. -/
theorem GarbageCollector.scanRecord_exit {σ : Type} (ndebug : Bool) (D : DBImpl σ)
    (s : GarbageCollector.Run σ) :
    (GarbageCollector.scanRecord ndebug D s).1 = false →
    (GarbageCollector.scanRecord ndebug D s).2.stop = none →
    (GarbageCollector.scanRecord ndebug D s).2.gc.garbage_pos_ = s.gc.garbage_pos_ ∧
    (GarbageCollector.scanRecord ndebug D s).2.gc.vlog_number_ = s.gc.vlog_number_ ∧
    (GarbageCollector.scanRecord ndebug D s).2.effects = s.effects ∧
    (GarbageCollector.scanRecord ndebug D s).2.clean_valid_batch = s.clean_valid_batch ∧
    (((D.IsShutDown s.gc.db_).1 = true ∧
        (GarbageCollector.scanRecord ndebug D s).2.isEndOfFile = s.isEndOfFile) ∨
     ((D.IsShutDown s.gc.db_).1 = false ∧
        (∃ record scratch r1,
          s.gc.vlog_reader_.ReadRecord = some (false, record, scratch, r1)) ∧
        (GarbageCollector.scanRecord ndebug D s).2.isEndOfFile = true)) := by
  unfold GarbageCollector.scanRecord
  dsimp only
  split
  · next hp => exact fun _ _ => ⟨rfl, rfl, rfl, rfl, Or.inl ⟨hp, rfl⟩⟩
  · next hp =>
    have hp1 : (D.IsShutDown s.gc.db_).1 = false := by
      cases h : (D.IsShutDown s.gc.db_).1 with
      | true => exact absurd h hp
      | false => rfl
    split
    · exact fun _ h => Option.noConfusion h
    · next record scratch r1 hr =>
      exact fun _ _ => ⟨rfl, rfl, rfl, rfl, Or.inr ⟨hp1, ⟨record, scratch, r1, hr⟩, rfl⟩⟩
    · split
      · exact fun _ h => Option.noConfusion h
      · split
        · exact fun _ h => Option.noConfusion h
        · split
          · split
            · exact fun _ h => Option.noConfusion h
            · exact fun h => Bool.noConfusion h
          · exact fun h => Bool.noConfusion h

/-- A loop over the records that ends without ending the run has made some number of
passes that went on and then one pass that left the loop. -/
theorem GarbageCollector.scan_exit {σ : Type} (ndebug : Bool) (D : DBImpl σ) (fuel : Nat)
    (s : GarbageCollector.Run σ) (hs : s.stop = none)
    (h : (GarbageCollector.scan ndebug D fuel s).stop = none) :
    ∃ (k : Nat) (s1 : GarbageCollector.Run σ),
      GarbageCollector.passes ndebug D k s = some s1 ∧ s1.stop = none ∧
      s1.isEndOfFile = s.isEndOfFile ∧
      (GarbageCollector.scanRecord ndebug D s1).1 = false ∧
      GarbageCollector.scan ndebug D fuel s = (GarbageCollector.scanRecord ndebug D s1).2 := by
  induction fuel generalizing s with
  | zero => exact absurd h (fun hc => Option.noConfusion hc)
  | succ fuel ih =>
    rw [GarbageCollector.scan] at h ⊢
    cases ht : (GarbageCollector.scanRecord ndebug D s).1 with
    | true =>
      rw [ht, if_pos rfl] at h
      rw [if_pos rfl]
      obtain ⟨e1, e2⟩ := GarbageCollector.scanRecord_stays ndebug D s ht
      obtain ⟨k, s1, a1, a2, a3, a4, a5⟩ := ih _ (e2.trans hs) h
      refine ⟨k + 1, s1, ?_, a2, a3.trans e1, a4, a5⟩
      rw [GarbageCollector.passes]
      rw [ht, if_pos rfl]
      exact a1
    | false =>
      rw [if_neg (fun hc => Bool.noConfusion hc)]
      exact ⟨0, s, rfl, hs, rfl, ht, rfl⟩

/-- The reclaim step of a run whose loop ended without ending the run, when the
reclaim step does not end it either. -/
theorem GarbageCollector.reclaim_decided {σ : Type} (ndebug : Bool) (D : DBImpl σ)
    (garbage_pos : Nat) (s : GarbageCollector.Run σ) (hs : s.stop = none)
    (h : (GarbageCollector.reclaim ndebug D garbage_pos s).stop = none) :
    (GarbageCollector.reclaim ndebug D garbage_pos s).gc.garbage_pos_ = s.gc.garbage_pos_ ∧
    (GarbageCollector.reclaim ndebug D garbage_pos s).isEndOfFile = s.isEndOfFile ∧
    (GarbageCollector.reclaim ndebug D garbage_pos s).clean_valid_batch = [] ∧
    (GarbageCollector.reclaim ndebug D garbage_pos s).effects
      = s.effects
        ++ (if s.clean_valid_batch.length > 0 then [s.clean_valid_batch] else []).map
            GarbageCollector.Effect.Write
        ++ (if s.gc.garbage_pos_ - garbage_pos > 0 then
              if s.isEndOfFile then [.DeleteFile s.gc.vlog_number_]
              else if ndebug then []
              else [.DeallocateDiskSpace garbage_pos (s.gc.garbage_pos_ - garbage_pos),
                    .Put GarbageCollector.tail
                      (EncodeFixed64
                        (((s.gc.garbage_pos_ <<< 24) % 2 ^ 64) ||| s.gc.vlog_number_))]
            else []) := by
  cases ndebug with
  | false =>
    obtain ⟨r1, _, r3, _, rest, r4, _, r6⟩ := GarbageCollector.reclaim_spec D garbage_pos s
    obtain ⟨r7, r8⟩ := r6 hs h
    refine ⟨r1, r3, r7, ?_⟩
    rw [r4, r8]
    simp only [Bool.false_eq_true, if_false]
  | true =>
    have hnil : ¬ s.clean_valid_batch.length > 0 → s.clean_valid_batch = [] := by
      intro hc
      cases hb : s.clean_valid_batch with
      | nil => rfl
      | cons a b => rw [hb] at hc; exact absurd (Nat.succ_pos _) hc
    unfold GarbageCollector.reclaim WriteBatchInternal.Count WriteBatch.Clear at h ⊢
    simp only [Bool.not_true, Bool.false_and, Bool.false_eq_true, if_false, if_true] at h ⊢
    by_cases hc : s.clean_valid_batch.length > 0
    · simp only [if_pos hc, hs, Option.isSome_none, Bool.false_eq_true, if_false]
      split
      · split
        · exact ⟨rfl, rfl, rfl, rfl⟩
        · exact ⟨rfl, rfl, rfl, by simp⟩
      · exact ⟨rfl, rfl, rfl, by simp⟩
    · simp only [if_neg hc, hs, Option.isSome_none, Bool.false_eq_true, if_false]
      split
      · split
        · exact ⟨rfl, rfl, hnil hc, by simp⟩
        · exact ⟨rfl, rfl, hnil hc, by simp⟩
      · exact ⟨rfl, rfl, hnil hc, by simp⟩

/-- A run whose skip to the start position fails ends at line 36. -/
theorem GarbageCollector.BeginGarbageCollect_skip_fails {σ : Type} (ndebug : Bool)
    (D : DBImpl σ) (g : GarbageCollector σ) (h : (GarbageCollector.enter ndebug g).1 = false) :
    (GarbageCollector.BeginGarbageCollect ndebug D g).stop = some (.assertion 36) := by
  unfold GarbageCollector.enter at h
  dsimp only at h
  unfold GarbageCollector.BeginGarbageCollect
  dsimp only
  rw [if_pos (by rw [h]; rfl)]

/-- The end of a run leaves the reason for which the run has ended, or ends it by a
failed assertion, in both builds. -/
theorem GarbageCollector.reclaim_stop {σ : Type} (ndebug : Bool) (D : DBImpl σ)
    (garbage_pos : Nat) (s : GarbageCollector.Run σ) :
    (GarbageCollector.reclaim ndebug D garbage_pos s).stop = s.stop ∨
    ∃ line, (GarbageCollector.reclaim ndebug D garbage_pos s).stop = some (.assertion line) := by
  cases ndebug with
  | false =>
    obtain ⟨_, _, _, r, _⟩ := GarbageCollector.reclaim_spec D garbage_pos s
    exact r
  | true =>
    left
    unfold GarbageCollector.reclaim WriteBatchInternal.Count WriteBatch.Clear
    simp only [Bool.not_true, Bool.false_and, Bool.false_eq_true, if_false, if_true]
    split
    · split
      · rfl
      · split
        · split <;> rfl
        · rfl
    · split
      · rfl
      · split
        · split <;> rfl
        · rfl

/-- The bound on the loop of `BeginGarbageCollect` is never used up, in both builds:
the model of a run always ends as the run does. -/
theorem GarbageCollector.BeginGarbageCollect_fuel {σ : Type} (ndebug : Bool) (D : DBImpl σ)
    (g : GarbageCollector σ) :
    (GarbageCollector.BeginGarbageCollect ndebug D g).stop ≠ some .fuel := by
  cases hent : (GarbageCollector.enter ndebug g).1 with
  | false =>
    rw [GarbageCollector.BeginGarbageCollect_skip_fails ndebug D g hent]
    exact fun h => GarbageCollector.Stop.noConfusion (Option.some.inj h)
  | true =>
    obtain ⟨fuel, hf, hrun⟩ := GarbageCollector.BeginGarbageCollect_enter ndebug D g hent
    have hsc : (GarbageCollector.scan ndebug D fuel (GarbageCollector.enter ndebug g).2).stop
        ≠ some .fuel :=
      GarbageCollector.scan_fuel ndebug D fuel _ (by rw [hf]; exact Nat.lt_succ_self _)
        (by unfold GarbageCollector.enter; exact fun h => Option.noConfusion h)
    rw [hrun]
    split
    · exact hsc
    · rcases GarbageCollector.reclaim_stop ndebug D g.garbage_pos_
        (GarbageCollector.scan ndebug D fuel (GarbageCollector.enter ndebug g).2)
        with r | ⟨line, r⟩
      · rw [r]
        exact hsc
      · rw [r]
        exact fun h => GarbageCollector.Stop.noConfusion (Option.some.inj h)

/-- The reclaim step of a run that ends without a failed assertion is decided by the
way its loop was left, in both builds. The run has made `k` passes that went on, and
then either `IsShutDown` answered true, and then `isEndOfFile` is false and the calls
after the writes are, if the position has moved, none with `NDEBUG` and
`DeallocateDiskSpace(start, pos - start)` followed by the `Put` of `tail` without it;
or `IsShutDown` answered false and `ReadRecord` returned false, and then `isEndOfFile`
is true and the call after the writes is, if the position has moved, `DeleteFile` of
the vlog. The position at the end is the position reached by the `k` passes. -/
theorem GarbageCollector.exit_decides_reclaim {σ : Type} (ndebug : Bool) (D : DBImpl σ)
    (g : GarbageCollector σ)
    (h : (GarbageCollector.BeginGarbageCollect ndebug D g).stop = none) :
    ∃ (k : Nat) (s1 : GarbageCollector.Run σ) (ws : List WriteBatch),
      GarbageCollector.passes ndebug D k (GarbageCollector.enter ndebug g).2 = some s1 ∧
      (GarbageCollector.BeginGarbageCollect ndebug D g).gc.garbage_pos_ = s1.gc.garbage_pos_ ∧
      (GarbageCollector.BeginGarbageCollect ndebug D g).clean_valid_batch = [] ∧
      (((D.IsShutDown s1.gc.db_).1 = true ∧
          (GarbageCollector.BeginGarbageCollect ndebug D g).isEndOfFile = false ∧
          (GarbageCollector.BeginGarbageCollect ndebug D g).effects
            = ws.map GarbageCollector.Effect.Write ++
              (if s1.gc.garbage_pos_ - g.garbage_pos_ > 0 then
                if ndebug then []
                else [.DeallocateDiskSpace g.garbage_pos_ (s1.gc.garbage_pos_ - g.garbage_pos_),
                      .Put GarbageCollector.tail
                        (EncodeFixed64
                          (((s1.gc.garbage_pos_ <<< 24) % 2 ^ 64) ||| g.vlog_number_))]
              else [])) ∨
       ((D.IsShutDown s1.gc.db_).1 = false ∧
          (∃ record scratch r1,
            s1.gc.vlog_reader_.ReadRecord = some (false, record, scratch, r1)) ∧
          (GarbageCollector.BeginGarbageCollect ndebug D g).isEndOfFile = true ∧
          (GarbageCollector.BeginGarbageCollect ndebug D g).effects
            = ws.map GarbageCollector.Effect.Write ++
              (if s1.gc.garbage_pos_ - g.garbage_pos_ > 0 then [.DeleteFile g.vlog_number_]
               else []))) := by
  have hent : (GarbageCollector.enter ndebug g).1 = true := by
    cases he : (GarbageCollector.enter ndebug g).1 with
    | true => rfl
    | false =>
      rw [GarbageCollector.BeginGarbageCollect_skip_fails ndebug D g he] at h
      exact Option.noConfusion h
  have hs0 : (GarbageCollector.enter ndebug g).2.stop = none ∧
      (GarbageCollector.enter ndebug g).2.isEndOfFile = false ∧
      (GarbageCollector.enter ndebug g).2.effects = [] ∧
      (GarbageCollector.enter ndebug g).2.gc.vlog_number_ = g.vlog_number_ := by
    unfold GarbageCollector.enter
    exact ⟨rfl, rfl, rfl, rfl⟩
  obtain ⟨z1, z2, z3, z4⟩ := hs0
  obtain ⟨fuel, _, hrun⟩ := GarbageCollector.BeginGarbageCollect_enter ndebug D g hent
  have hscan : (GarbageCollector.scan ndebug D fuel (GarbageCollector.enter ndebug g).2).stop
      = none := by
    cases hc : (GarbageCollector.scan ndebug D fuel (GarbageCollector.enter ndebug g).2).stop with
    | none => rfl
    | some e =>
      rw [hrun, hc] at h
      simp only [Option.isSome_some, if_true] at h
      rw [hc] at h
      exact Option.noConfusion h
  rw [hscan] at hrun
  simp only [Option.isSome_none, Bool.false_eq_true, if_false] at hrun
  rw [hrun] at h ⊢
  obtain ⟨k, s1, a1, a2, a3, a4, a5⟩ := GarbageCollector.scan_exit ndebug D fuel _ z1 hscan
  obtain ⟨v1, ws, v2⟩ := GarbageCollector.scan_effects ndebug D fuel
    (GarbageCollector.enter ndebug g).2
  rw [z3, List.nil_append] at v2
  rw [z4] at v1
  obtain ⟨r1, r2, r3, r4⟩ := GarbageCollector.reclaim_decided ndebug D g.garbage_pos_ _ hscan h
  have hex := GarbageCollector.scanRecord_exit ndebug D s1 a4 (by rw [← a5]; exact hscan)
  rw [← a5] at hex
  obtain ⟨x1, _, _, _, x5⟩ := hex
  rw [v1, v2, x1] at r4
  refine ⟨k, s1, ws ++ (if (GarbageCollector.scan ndebug D fuel
      (GarbageCollector.enter ndebug g).2).clean_valid_batch.length > 0
    then [(GarbageCollector.scan ndebug D fuel
      (GarbageCollector.enter ndebug g).2).clean_valid_batch] else []), a1, r1.trans x1, r3, ?_⟩
  rcases x5 with ⟨p1, p2⟩ | ⟨p1, p2, p3⟩
  · left
    have hfl : (GarbageCollector.scan ndebug D fuel (GarbageCollector.enter ndebug g).2).isEndOfFile
        = false := p2.trans (a3.trans z2)
    refine ⟨p1, r2.trans hfl, ?_⟩
    rw [r4, hfl, List.map_append]
    simp only [Bool.false_eq_true, if_false]
  · right
    refine ⟨p1, p2, r2.trans p3, ?_⟩
    rw [r4, p3, List.map_append]
    simp only [if_true]

/-! ## The cleaning slot of the manager -/

theorem VlogManager.call_whileCleaning (m m1 : VlogManager) (c : VlogManager.Call)
    (hc : c.whileCleaning = true) (h0 : m.cleaning_vlog_ ≠ 0) (hrun : m.call c = some m1) :
    m1.cleaning_vlog_ = m.cleaning_vlog_ := by
  cases c with
  | AddVlog n r =>
    simp only [VlogManager.call, VlogManager.AddVlog] at hrun
    cases hf : m.find n with
    | some i => rw [hf] at hrun; exact absurd hrun (by simp)
    | none =>
      rw [hf] at hrun
      simp only [Option.some.injEq] at hrun
      rw [← hrun]
  | SetNowVlog n =>
    simp only [VlogManager.call, VlogManager.SetNowVlog, Option.some.injEq] at hrun
    rw [← hrun]
  | AddDropCount n =>
    simp only [VlogManager.call, Option.some.injEq] at hrun
    rw [← hrun]
    unfold VlogManager.AddDropCount
    cases hf : m.find n with
    | none => rfl
    | some info =>
      dsimp only
      split <;> rfl
  | GetVlogToClean =>
    simp only [VlogManager.call, VlogManager.GetVlogToClean] at hrun
    rw [if_neg (by simpa using h0)] at hrun
    simp only [Option.map_some', Option.some.injEq] at hrun
    rw [← hrun]
  | Deserialize val => exact absurd hc (by simp [VlogManager.Call.whileCleaning])
  | Recover n tail => exact absurd hc (by simp [VlogManager.Call.whileCleaning])
  | RemoveCleaningVlog => exact absurd hc (by simp [VlogManager.Call.whileCleaning])
  | RemoveCleaningVlogOf n => exact absurd hc (by simp [VlogManager.Call.whileCleaning])

theorem VlogManager.calls_whileCleaning (cs : List VlogManager.Call) (m m1 : VlogManager)
    (hc : ∀ c ∈ cs, c.whileCleaning = true) (h0 : m.cleaning_vlog_ ≠ 0)
    (hrun : m.calls cs = some m1) : m1.cleaning_vlog_ = m.cleaning_vlog_ := by
  induction cs generalizing m with
  | nil =>
    simp only [VlogManager.calls, Option.some.injEq] at hrun
    rw [← hrun]
  | cons c cs ih =>
    simp only [VlogManager.calls] at hrun
    cases hcall : m.call c with
    | none => rw [hcall] at hrun; exact absurd hrun (by simp)
    | some m2 =>
      rw [hcall] at hrun
      have h2 := VlogManager.call_whileCleaning m m2 c (hc c (List.mem_cons_self _ _)) h0 hcall
      rw [← h2]
      exact ih m2 (fun c1 h1 => hc c1 (List.mem_cons_of_mem _ h1)) (by rw [h2]; exact h0) hrun

/-- C22 fails for the vlog number 0, which is the value of the cleaning slot that means
that no vlog is being cleaned. After `AddVlog(0)`, `AddVlog(11)`, `AddVlog(12)`,
`AddDropCount(0)` with threshold 1 the candidate set is `{0}` and no vlog is being
cleaned; `GetVlogToClean` returns 0 and leaves the manager as it was, so nothing is
recorded, and `RemoveCleaningVlog()` then fails its assertion. After a further
`AddDropCount(11)` the candidates are 0 and 11, and when the set iterates as 11, 0
the next `GetVlogToClean` returns 11. -/
theorem C22_counterexample :
    (VlogManager.new 1).calls [.AddVlog 0 none, .AddVlog 11 none, .AddVlog 12 none,
        .AddDropCount 0]
      = some ⟨[(0, ⟨none, 1⟩), (11, ⟨none, 0⟩), (12, ⟨none, 0⟩)], [0], 1, 12, 0⟩ ∧
    (VlogManager.mk [(0, ⟨none, 1⟩), (11, ⟨none, 0⟩), (12, ⟨none, 0⟩)] [0] 1 12 0).GetVlogToClean
      = some (0, ⟨[(0, ⟨none, 1⟩), (11, ⟨none, 0⟩), (12, ⟨none, 0⟩)], [0], 1, 12, 0⟩) ∧
    (VlogManager.mk [(0, ⟨none, 1⟩), (11, ⟨none, 0⟩), (12, ⟨none, 0⟩)] [0] 1 12
        0).RemoveCleaningVlog = none ∧
    (VlogManager.mk [(0, ⟨none, 1⟩), (11, ⟨none, 0⟩), (12, ⟨none, 0⟩)] [0] 1 12 0).AddDropCount 11
      = ⟨[(0, ⟨none, 1⟩), (11, ⟨none, 1⟩), (12, ⟨none, 0⟩)], [0, 11], 1, 12, 0⟩ ∧
    ((VlogManager.mk [(0, ⟨none, 1⟩), (11, ⟨none, 1⟩), (12, ⟨none, 0⟩)] [11, 0] 1 12
        0).GetVlogToClean).map Prod.fst = some 11 := by
  decide

/-- C22, as the code behaves. In a manager state in which no vlog is being cleaned
(the cleaning slot is 0) and the candidate set is not empty, `GetVlogToClean` returns
a member of the candidate set and stores it in the cleaning slot, changing nothing
else. In a state whose cleaning slot holds a number other than 0, after every
sequence of `AddVlog`, `SetNowVlog`, `AddDropCount` and `GetVlogToClean` calls that
fails no assertion, `GetVlogToClean` returns that number and changes nothing. -/
theorem C22_single_cleaning_vlog (m : VlogManager) :
    (m.cleaning_vlog_ = 0 → m.cleaning_vlog_set_ ≠ [] →
      ∃ x, x ∈ m.cleaning_vlog_set_ ∧
        m.GetVlogToClean = some (x, { m with cleaning_vlog_ := x })) ∧
    (m.cleaning_vlog_ ≠ 0 → ∀ (cs : List VlogManager.Call) (m1 : VlogManager),
      (∀ c ∈ cs, c.whileCleaning = true) → m.calls cs = some m1 →
      m1.GetVlogToClean = some (m.cleaning_vlog_, m1)) := by
  refine ⟨fun h0 hs => ?_, fun h0 cs m1 hc hrun => ?_⟩
  · unfold VlogManager.GetVlogToClean
    rw [if_pos (by simpa using h0)]
    cases hset : m.cleaning_vlog_set_ with
    | nil => exact absurd hset hs
    | cons x xs => exact ⟨x, List.mem_cons_self _ _, rfl⟩
  · have h1 := VlogManager.calls_whileCleaning cs m m1 hc h0 hrun
    unfold VlogManager.GetVlogToClean
    rw [if_neg (by rw [h1]; simpa using h0), h1]

theorem C22_single_cleaning_vlog_witness :
    (∃ x, x ∈ (VlogManager.mk [(1, ⟨none, 1⟩), (2, ⟨none, 0⟩)] [1] 1 2 0).cleaning_vlog_set_ ∧
      (VlogManager.mk [(1, ⟨none, 1⟩), (2, ⟨none, 0⟩)] [1] 1 2 0).GetVlogToClean
        = some (x, ⟨[(1, ⟨none, 1⟩), (2, ⟨none, 0⟩)], [1], 1, 2, x⟩)) ∧
    (VlogManager.mk [(1, ⟨none, 2⟩), (2, ⟨none, 1⟩), (3, ⟨none, 0⟩)] [1, 2] 1 3
        1).GetVlogToClean
      = some (1, ⟨[(1, ⟨none, 2⟩), (2, ⟨none, 1⟩), (3, ⟨none, 0⟩)], [1, 2], 1, 3, 1⟩) :=
  ⟨(C22_single_cleaning_vlog ⟨[(1, ⟨none, 1⟩), (2, ⟨none, 0⟩)], [1], 1, 2, 0⟩).1 rfl
      (by decide),
   (C22_single_cleaning_vlog ⟨[(1, ⟨none, 1⟩), (2, ⟨none, 0⟩)], [1], 1, 2, 1⟩).2 (by decide)
      [.AddDropCount 1, .AddVlog 3 none, .AddDropCount 2, .GetVlogToClean]
      ⟨[(1, ⟨none, 2⟩), (2, ⟨none, 1⟩), (3, ⟨none, 0⟩)], [1, 2], 1, 3, 1⟩
      (by decide) (by decide)⟩

/-! ## Finishing a vlog, recovering a cleaning and reading a counter -/

/-- C23 fails for `RemoveCleaningVlog(n)`: after `AddVlog(1)`, `AddVlog(2)`,
`AddDropCount(1)`, `GetVlogToClean` with threshold 1 the vlog 1 is being cleaned;
`RemoveCleaningVlog(1)` removes it from the registry and from the candidate set but
leaves 1 in the cleaning slot, and the next `GetVlogToClean` returns the removed
vlog. -/
theorem C23_counterexample :
    (VlogManager.new 1).calls [.AddVlog 1 none, .AddVlog 2 none, .AddDropCount 1,
        .GetVlogToClean]
      = some ⟨[(1, ⟨none, 1⟩), (2, ⟨none, 0⟩)], [1], 1, 2, 1⟩ ∧
    (VlogManager.mk [(1, ⟨none, 1⟩), (2, ⟨none, 0⟩)] [1] 1 2 1).RemoveCleaningVlogOf 1
      = some ⟨[(2, ⟨none, 0⟩)], [], 1, 2, 1⟩ ∧
    (VlogManager.mk [(2, ⟨none, 0⟩)] [] 1 2 1).cleaning_vlog_ ≠ 0 ∧
    (VlogManager.mk [(2, ⟨none, 0⟩)] [] 1 2 1).GetVlogToClean
      = some (1, ⟨[(2, ⟨none, 0⟩)], [], 1, 2, 1⟩) ∧
    (VlogManager.mk [(2, ⟨none, 0⟩)] [] 1 2 1).GetVlog 1 = none := by
  decide

/-- C23, as the code behaves. For a registered vlog `n`: `RemoveCleaningVlog()`, when
`n` is the cleaning vlog and `n > 0`, and `RemoveCleaningVlog(n)` both succeed and
leave `n` absent from the registry (`GetVlog(n)` is `NULL`) and from the candidate
set, and every other vlog keeps its entry and its membership in the candidate set;
`RemoveCleaningVlog()` clears the cleaning slot, `RemoveCleaningVlog(n)` leaves the
cleaning slot as it was. -/
theorem C23_finishing_a_vlog (m : VlogManager) (n : Nat) (info : VlogInfo)
    (hf : m.find n = some info) :
    (m.cleaning_vlog_ = n → 0 < n →
      ∃ m1, m.RemoveCleaningVlog = some m1 ∧ m1.find n = none ∧ m1.GetVlog n = none ∧
        n ∉ m1.cleaning_vlog_set_ ∧ m1.cleaning_vlog_ = 0 ∧
        (∀ k, k ≠ n → m1.find k = m.find k) ∧
        (∀ k, k ≠ n → (k ∈ m1.cleaning_vlog_set_ ↔ k ∈ m.cleaning_vlog_set_)) ∧
        m1.now_vlog_ = m.now_vlog_ ∧ m1.clean_threshold_ = m.clean_threshold_) ∧
    (∃ m1, m.RemoveCleaningVlogOf n = some m1 ∧ m1.find n = none ∧ m1.GetVlog n = none ∧
        n ∉ m1.cleaning_vlog_set_ ∧ m1.cleaning_vlog_ = m.cleaning_vlog_ ∧
        (∀ k, k ≠ n → m1.find k = m.find k) ∧
        (∀ k, k ≠ n → (k ∈ m1.cleaning_vlog_set_ ↔ k ∈ m.cleaning_vlog_set_)) ∧
        m1.now_vlog_ = m.now_vlog_ ∧ m1.clean_threshold_ = m.clean_threshold_) := by
  have hfind : ∀ c, ∀ k, VlogManager.find
      { m with manager_ := VlogManager.eraseEntry m.manager_ n,
               cleaning_vlog_set_ := VlogManager.setErase m.cleaning_vlog_set_ n,
               cleaning_vlog_ := c } k = if k = n then none else m.find k :=
    fun _ k => lookup_eraseEntry m.manager_ n k
  have hbody : ∀ c, (VlogManager.find
        { m with manager_ := VlogManager.eraseEntry m.manager_ n,
                 cleaning_vlog_set_ := VlogManager.setErase m.cleaning_vlog_set_ n,
                 cleaning_vlog_ := c } n = none) ∧
      (VlogManager.GetVlog
        { m with manager_ := VlogManager.eraseEntry m.manager_ n,
                 cleaning_vlog_set_ := VlogManager.setErase m.cleaning_vlog_set_ n,
                 cleaning_vlog_ := c } n = none) ∧
      n ∉ VlogManager.setErase m.cleaning_vlog_set_ n ∧
      (∀ k, k ≠ n → VlogManager.find
        { m with manager_ := VlogManager.eraseEntry m.manager_ n,
                 cleaning_vlog_set_ := VlogManager.setErase m.cleaning_vlog_set_ n,
                 cleaning_vlog_ := c } k = m.find k) ∧
      (∀ k, k ≠ n → (k ∈ VlogManager.setErase m.cleaning_vlog_set_ n
        ↔ k ∈ m.cleaning_vlog_set_)) := by
    intro c
    refine ⟨?_, ?_, ?_, ?_, ?_⟩
    · rw [hfind, if_pos rfl]
    · unfold VlogManager.GetVlog
      rw [hfind, if_pos rfl]
    · intro hmem
      exact ((mem_setErase _ _ _).mp hmem).2 rfl
    · intro k hk
      rw [hfind, if_neg hk]
    · intro k hk
      rw [mem_setErase]
      exact ⟨fun h => h.1, fun h => ⟨h, hk⟩⟩
  refine ⟨fun hc hn => ?_, ?_⟩
  · obtain ⟨b1, b2, b3, b4, b5⟩ := hbody 0
    refine ⟨{ m with manager_ := VlogManager.eraseEntry m.manager_ n,
                     cleaning_vlog_set_ := VlogManager.setErase m.cleaning_vlog_set_ n,
                     cleaning_vlog_ := 0 }, ?_, b1, b2, b3, rfl, b4, b5, rfl, rfl⟩
    unfold VlogManager.RemoveCleaningVlog
    rw [hc, if_pos hn, hf]
  · obtain ⟨b1, b2, b3, b4, b5⟩ := hbody m.cleaning_vlog_
    refine ⟨{ m with manager_ := VlogManager.eraseEntry m.manager_ n,
                     cleaning_vlog_set_ := VlogManager.setErase m.cleaning_vlog_set_ n },
      ?_, b1, b2, b3, rfl, b4, b5, rfl, rfl⟩
    unfold VlogManager.RemoveCleaningVlogOf
    rw [hf]

theorem C23_finishing_a_vlog_witness :
    (VlogManager.mk [(1, ⟨none, 1⟩), (2, ⟨none, 0⟩)] [1] 1 2 1).find 1 = some ⟨none, 1⟩ ∧
    (∃ m1, (VlogManager.mk [(1, ⟨none, 1⟩), (2, ⟨none, 0⟩)] [1] 1 2 1).RemoveCleaningVlog
        = some m1 ∧ m1.find 1 = none ∧ m1.cleaning_vlog_ = 0) ∧
    (∃ m1, (VlogManager.mk [(1, ⟨none, 1⟩), (2, ⟨none, 0⟩)] [1] 1 2 1).RemoveCleaningVlogOf 1
        = some m1 ∧ m1.find 1 = none ∧ m1.cleaning_vlog_ = 1) :=
  ⟨rfl,
   ((C23_finishing_a_vlog ⟨[(1, ⟨none, 1⟩), (2, ⟨none, 0⟩)], [1], 1, 2, 1⟩ 1 ⟨none, 1⟩ rfl).1
      rfl (by decide)).elim fun m1 h => ⟨m1, h.1, h.2.1, h.2.2.2.2.1⟩,
   (C23_finishing_a_vlog ⟨[(1, ⟨none, 1⟩), (2, ⟨none, 0⟩)], [1], 1, 2, 1⟩ 1 ⟨none, 1⟩
      rfl).2.elim fun m1 h => ⟨m1, h.1, h.2.1, h.2.2.2.2.1⟩⟩

theorem VlogManager.updateEntry_keys (entries : List (Nat × VlogInfo)) (n : Nat)
    (f : VlogInfo → VlogInfo) :
    (VlogManager.updateEntry entries n f).map Prod.fst = entries.map Prod.fst := by
  unfold VlogManager.updateEntry
  rw [List.map_map]
  apply List.map_congr_left
  intro e _
  show (if (e.1 == n) = true then (e.1, f e.2) else e).1 = e.1
  split <;> rfl

/-- C25 fails for the vlog number 0 and for a vlog registered with a `NULL` reader.
With threshold 1, after `AddVlog(0, r)` and `AddDropCount(0)` the vlog 0 is registered
with counter 1; `Recover(0, 7)` stores 0 in the cleaning slot, which means that no
vlog is being cleaned, and the next `GetVlogToClean` fails its assertion on the empty
candidate set instead of returning 0. With threshold 0, after `AddVlog(1, NULL)`,
`Recover(1, 7)` calls `SetCleanPos` through the `NULL` pointer. -/
theorem C25_counterexample :
    (∃ m, (VlogManager.new 1).calls
        [.AddVlog 0 (some (VReader.new (StringSource.open_ []) none true 0)),
         .AddDropCount 0, .Recover 0 7] = some m ∧
      (m.find 0).map VlogInfo.count_ = some 1 ∧ m.cleaning_vlog_ = 0 ∧
      m.GetVlogToClean = none) ∧
    (∃ m, (VlogManager.new 0).calls [.AddVlog 1 none] = some m ∧
      (m.find 1).map VlogInfo.count_ = some 0 ∧ m.Recover 1 7 = none) :=
  ⟨⟨_, rfl, by decide, by decide, by decide⟩, ⟨_, rfl, by decide, by decide⟩⟩

/-- C25, as the code behaves. For a vlog `n` that is not registered `Recover(n, tail)`
leaves the manager unchanged. For a registered vlog `n` other than 0 whose counter is
at least the threshold and whose reader is not `NULL`, `Recover(n, tail)` succeeds;
afterwards the clean position of the reader of `n` is `tail` and the reader is
otherwise the same, the counter of `n` and every other entry are unchanged, `n` is the
cleaning vlog and the next `GetVlogToClean` returns `n`; the candidate set, the active
vlog and the threshold are unchanged. -/
theorem C25_Recover (m : VlogManager) (n tail : Nat) :
    (m.find n = none → m.Recover n tail = some m) ∧
    (∀ (info : VlogInfo) (r : VReader), m.find n = some info →
      m.clean_threshold_ ≤ info.count_ → info.vlog_ = some r → n ≠ 0 →
      ∃ m1, m.Recover n tail = some m1 ∧
        m1.find n = some ⟨some (r.SetCleanPos tail), info.count_⟩ ∧
        m1.GetVlog n = some (r.SetCleanPos tail) ∧
        (r.SetCleanPos tail).GetCleanPos = tail ∧
        r.SetCleanPos tail = { r with cleanPos_ := tail } ∧
        (∀ k, k ≠ n → m1.find k = m.find k) ∧
        m1.manager_.map Prod.fst = m.manager_.map Prod.fst ∧
        m1.cleaning_vlog_ = n ∧ m1.GetVlogToClean = some (n, m1) ∧
        m1.cleaning_vlog_set_ = m.cleaning_vlog_set_ ∧ m1.now_vlog_ = m.now_vlog_ ∧
        m1.clean_threshold_ = m.clean_threshold_) := by
  refine ⟨fun hf => ?_, fun info r hf hc hr hn => ?_⟩
  · unfold VlogManager.Recover
    rw [hf]
  · have hrec : m.Recover n tail
        = some { m with manager_ := VlogManager.updateEntry m.manager_ n
                          (fun i => { i with vlog_ := i.vlog_.map fun r => r.SetCleanPos tail }),
                        cleaning_vlog_ := n } := by
      unfold VlogManager.Recover
      rw [hf]
      dsimp only
      rw [if_pos hc, hr]
    have hfind : ∀ k, VlogManager.find
        { m with manager_ := VlogManager.updateEntry m.manager_ n
                   (fun i => { i with vlog_ := i.vlog_.map fun r => r.SetCleanPos tail }),
                 cleaning_vlog_ := n } k
        = if k = n then (m.find k).map
            (fun i => { i with vlog_ := i.vlog_.map fun r => r.SetCleanPos tail })
          else m.find k :=
      fun k => lookup_updateEntry m.manager_ n k
        (fun i => { i with vlog_ := i.vlog_.map fun r => r.SetCleanPos tail })
    have hn1 : VlogManager.find
        { m with manager_ := VlogManager.updateEntry m.manager_ n
                   (fun i => { i with vlog_ := i.vlog_.map fun r => r.SetCleanPos tail }),
                 cleaning_vlog_ := n } n
        = some ⟨some (r.SetCleanPos tail), info.count_⟩ := by
      rw [hfind, if_pos rfl, hf]
      show some (VlogInfo.mk (info.vlog_.map fun r => r.SetCleanPos tail) info.count_) = _
      rw [hr]
      rfl
    refine ⟨_, hrec, hn1, ?_, rfl, rfl, ?_, ?_, rfl, ?_, rfl, rfl, rfl⟩
    · unfold VlogManager.GetVlog
      rw [hn1]
    · intro k hk
      rw [hfind, if_neg hk]
    · exact VlogManager.updateEntry_keys m.manager_ n
        (fun i => { i with vlog_ := i.vlog_.map fun r => r.SetCleanPos tail })
    · unfold VlogManager.GetVlogToClean
      rw [if_neg (by simpa using hn)]

theorem C25_Recover_witness :
    ∃ m1, (VlogManager.mk [(1, ⟨some (VReader.new (StringSource.open_ []) none true 0), 1⟩)]
        [] 1 2 0).Recover 1 7 = some m1 ∧
      (m1.GetVlog 1).map VReader.GetCleanPos = some 7 ∧ m1.cleaning_vlog_ = 1 ∧
      m1.GetVlogToClean = some (1, m1) :=
  ((C25_Recover ⟨[(1, ⟨some (VReader.new (StringSource.open_ []) none true 0), 1⟩)], [], 1, 2, 0⟩
      1 7).2 ⟨some (VReader.new (StringSource.open_ []) none true 0), 1⟩
      (VReader.new (StringSource.open_ []) none true 0) rfl (by decide) rfl (by decide)).elim
    fun m1 h => ⟨m1, h.1, by rw [h.2.2.1]; rfl, h.2.2.2.2.2.2.2.1, h.2.2.2.2.2.2.2.2.1⟩

theorem VlogManager.Serialize_val (m : VlogManager) :
    m.Serialize.2 = (m.manager_.map fun e =>
      EncodeFixed64 (((e.2.count_ <<< 16) % 2 ^ 32) ||| e.1)).flatten := by
  unfold VlogManager.Serialize
  cases hm : m.manager_ with
  | nil => rfl
  | cons e es => rfl

/-- C30: for a vlog number `n` that is not registered, `GetDropCount(n)` returns 0 and
inserts `n` into the registry with a `NULL` reader and the counter 0, changing
nothing else; afterwards `Serialize` returns true and its string is the one of
before followed by the token of `n`, the eight bytes of `(0 << 16) | n`, and
`AddVlog(n, r)` fails its assertion for every `r`. For a registered `n` it returns the
counter of `n` and leaves the manager unchanged. -/
theorem C30_GetDropCount_inserts (m : VlogManager) (n : Nat) :
    (m.find n = none →
      (m.GetDropCount n).1 = 0 ∧
      (m.GetDropCount n).2 = { m with manager_ := m.manager_ ++ [(n, ⟨none, 0⟩)] } ∧
      (m.GetDropCount n).2.find n = some ⟨none, 0⟩ ∧
      (∀ k, k ≠ n → (m.GetDropCount n).2.find k = m.find k) ∧
      (m.GetDropCount n).2.Serialize.1 = true ∧
      (m.GetDropCount n).2.Serialize.2 = m.Serialize.2 ++ EncodeFixed64 n ∧
      ∀ r, (m.GetDropCount n).2.AddVlog n r = none) ∧
    (∀ info, m.find n = some info → m.GetDropCount n = (info.count_, m)) := by
  refine ⟨fun hf => ?_, fun info hf => ?_⟩
  · have hg : m.GetDropCount n
        = (0, { m with manager_ := m.manager_ ++ [(n, ⟨none, 0⟩)] }) := by
      unfold VlogManager.GetDropCount
      rw [hf]
    have hfind : ∀ k, VlogManager.find { m with manager_ := m.manager_ ++ [(n, ⟨none, 0⟩)] } k
        = match m.find k with
          | some i => some i
          | none => if k = n then some ⟨none, 0⟩ else none :=
      fun k => lookup_append_single m.manager_ n k ⟨none, 0⟩
    have hn1 : VlogManager.find { m with manager_ := m.manager_ ++ [(n, ⟨none, 0⟩)] } n
        = some ⟨none, 0⟩ := by
      rw [hfind, hf]
      dsimp only
      rw [if_pos rfl]
    rw [hg]
    refine ⟨rfl, rfl, hn1, ?_, ?_, ?_, ?_⟩
    · intro k hk
      rw [hfind]
      cases hm : m.find k with
      | some i => rfl
      | none =>
        dsimp only
        rw [if_neg hk]
    · unfold VlogManager.Serialize
      dsimp only
      rw [List.length_append]
      rfl
    · rw [VlogManager.Serialize_val, VlogManager.Serialize_val]
      dsimp only
      rw [List.map_append, List.flatten_append]
      simp only [List.map_cons, List.map_nil, List.flatten_cons, List.flatten_nil,
        List.append_nil, Nat.zero_shiftLeft, Nat.zero_mod, Nat.zero_or]
    · intro r
      unfold VlogManager.AddVlog
      dsimp only
      rw [hn1]
  · unfold VlogManager.GetDropCount
    rw [hf]

theorem C30_GetDropCount_inserts_witness :
    ((VlogManager.new 3).GetDropCount 5).1 = 0 ∧
    ((VlogManager.new 3).GetDropCount 5).2 = ⟨[(5, ⟨none, 0⟩)], [], 3, 0, 0⟩ ∧
    ((VlogManager.new 3).GetDropCount 5).2.Serialize = (true, [5, 0, 0, 0, 0, 0, 0, 0]) ∧
    (VlogManager.new 3).Serialize = (false, []) ∧
    ((VlogManager.new 3).GetDropCount 5).2.AddVlog 5 none = none :=
  ⟨((C30_GetDropCount_inserts (VlogManager.new 3) 5).1 rfl).1,
   ((C30_GetDropCount_inserts (VlogManager.new 3) 5).1 rfl).2.1,
   by decide, by decide,
   ((C30_GetDropCount_inserts (VlogManager.new 3) 5).1 rfl).2.2.2.2.2.2 none⟩

/-! ## The candidate set and `GetVlogsToClean` -/

theorem mem_getVlogsToCleanLoop (now t : Nat) (es : List (Nat × VlogInfo)) (res : List Nat)
    (x : Nat) :
    x ∈ VlogManager.getVlogsToCleanLoop now t es res
      ↔ x ∈ res ∨ ∃ info, (x, info) ∈ es ∧ t ≤ info.count_ ∧ x ≠ now := by
  induction es generalizing res with
  | nil =>
    rw [VlogManager.getVlogsToCleanLoop]
    constructor
    · exact Or.inl
    · rintro (h | ⟨info, h, _⟩)
      · exact h
      · exact absurd h (List.not_mem_nil _)
  | cons e es ih =>
    obtain ⟨a, b⟩ := e
    rw [VlogManager.getVlogsToCleanLoop, ih]
    dsimp only
    by_cases hc : (decide (b.count_ ≥ t) && a != now) = true
    · rw [if_pos hc, mem_setInsert]
      have hc1 : t ≤ b.count_ ∧ a ≠ now := by simpa using hc
      constructor
      · rintro ((h | h) | ⟨info, h, h1, h2⟩)
        · exact Or.inl h
        · exact Or.inr ⟨b, by rw [h]; exact List.mem_cons_self _ _, hc1.1, by rw [h]; exact hc1.2⟩
        · exact Or.inr ⟨info, List.mem_cons_of_mem _ h, h1, h2⟩
      · rintro (h | ⟨info, h, h1, h2⟩)
        · exact Or.inl (Or.inl h)
        · rcases List.mem_cons.mp h with h | h
          · exact Or.inl (Or.inr (congrArg Prod.fst h))
          · exact Or.inr ⟨info, h, h1, h2⟩
    · rw [if_neg hc]
      constructor
      · rintro (h | ⟨info, h, h1, h2⟩)
        · exact Or.inl h
        · exact Or.inr ⟨info, List.mem_cons_of_mem _ h, h1, h2⟩
      · rintro (h | ⟨info, h, h1, h2⟩)
        · exact Or.inl h
        · rcases List.mem_cons.mp h with h | h
          · exfalso
            apply hc
            have ha : x = a := congrArg Prod.fst h
            have hb : info = b := congrArg Prod.snd h
            subst ha hb
            simpa using ⟨h1, h2⟩
          · exact Or.inr ⟨info, h, h1, h2⟩

theorem mem_of_lookup (l : List (Nat × VlogInfo)) (k : Nat) (v : VlogInfo)
    (h : l.lookup k = some v) : (k, v) ∈ l := by
  induction l with
  | nil => exact absurd h (by simp [List.lookup])
  | cons e l ih =>
    obtain ⟨a, b⟩ := e
    rw [lookup_cons_eq] at h
    by_cases hk : k = a
    · rw [if_pos hk] at h
      rw [hk, ← Option.some.inj h]
      exact List.mem_cons_self _ _
    · rw [if_neg hk] at h
      exact List.mem_cons_of_mem _ (ih h)

theorem lookup_of_mem (l : List (Nat × VlogInfo)) (k : Nat) (v : VlogInfo)
    (hnd : (l.map Prod.fst).Nodup) (h : (k, v) ∈ l) : l.lookup k = some v := by
  induction l with
  | nil => exact absurd h (List.not_mem_nil _)
  | cons e l ih =>
    obtain ⟨a, b⟩ := e
    rw [List.map_cons, List.nodup_cons] at hnd
    rw [lookup_cons_eq]
    rcases List.mem_cons.mp h with h | h
    · have ha : k = a := congrArg Prod.fst h
      have hb : v = b := congrArg Prod.snd h
      rw [if_pos ha, hb]
    · have hk : k ≠ a := by
        intro hk
        apply hnd.1
        rw [← hk]
        exact List.mem_map.mpr ⟨(k, v), h, rfl⟩
      rw [if_neg hk]
      exact ih hnd.2 h

theorem VlogManager.mem_GetVlogsToClean (m : VlogManager) (t x : Nat)
    (hnd : (m.manager_.map Prod.fst).Nodup) :
    x ∈ m.GetVlogsToClean t
      ↔ ∃ info, m.find x = some info ∧ t ≤ info.count_ ∧ x ≠ m.now_vlog_ := by
  unfold VlogManager.GetVlogsToClean
  rw [mem_getVlogsToCleanLoop]
  constructor
  · rintro (h | ⟨info, h, h1, h2⟩)
    · exact absurd h (List.not_mem_nil _)
    · exact ⟨info, lookup_of_mem _ _ _ hnd h, h1, h2⟩
  · rintro ⟨info, h, h1, h2⟩
    exact Or.inr ⟨info, mem_of_lookup _ _ _ h, h1, h2⟩

theorem VlogManager.AddDropCount_eq (m : VlogManager) (n : Nat) (info : VlogInfo)
    (hf : m.find n = some info) :
    m.AddDropCount n
      = { m with manager_ := VlogManager.updateEntry m.manager_ n
                   (fun i => { i with count_ := (i.count_ + 1) % 2 ^ 32 }),
                 cleaning_vlog_set_ :=
                   if (decide ((info.count_ + 1) % 2 ^ 32 ≥ m.clean_threshold_)
                        && n != m.now_vlog_) = true
                   then VlogManager.setInsert m.cleaning_vlog_set_ n
                   else m.cleaning_vlog_set_ } := by
  unfold VlogManager.AddDropCount
  rw [hf]
  dsimp only
  split <;> rfl

theorem VlogManager.calls_append (m : VlogManager) (cs ds : List VlogManager.Call) :
    m.calls (cs ++ ds) = (m.calls cs).bind fun m1 => m1.calls ds := by
  induction cs generalizing m with
  | nil => rfl
  | cons c cs ih =>
    rw [List.cons_append, VlogManager.calls, VlogManager.calls]
    cases m.call c with
    | none => rfl
    | some m1 => exact ih m1

theorem VlogManager.AddDropCount_repeat (j c : Nat) (hc : c < 2 ^ 32) :
    (VlogManager.mk [(1, ⟨none, c⟩), (2, ⟨none, 0⟩)] [1] 1 2 0).calls
        (List.replicate j (.AddDropCount 1))
      = some ⟨[(1, ⟨none, (c + j) % 2 ^ 32⟩), (2, ⟨none, 0⟩)], [1], 1, 2, 0⟩ := by
  induction j generalizing c with
  | zero =>
    rw [Nat.add_zero, Nat.mod_eq_of_lt hc]
    rfl
  | succ j ih =>
    have hstep : VlogManager.AddDropCount ⟨[(1, ⟨none, c⟩), (2, ⟨none, 0⟩)], [1], 1, 2, 0⟩ 1
        = ⟨[(1, ⟨none, (c + 1) % 2 ^ 32⟩), (2, ⟨none, 0⟩)], [1], 1, 2, 0⟩ := by
      rw [VlogManager.AddDropCount_eq ⟨[(1, ⟨none, c⟩), (2, ⟨none, 0⟩)], [1], 1, 2, 0⟩ 1
        ⟨none, c⟩ rfl]
      have hs : (if (decide ((c + 1) % 2 ^ 32 ≥ 1) && (1 : Nat) != 2) = true
          then VlogManager.setInsert [1] 1 else [1]) = [1] := by
        split <;> rfl
      show VlogManager.mk _ (if (decide ((c + 1) % 2 ^ 32 ≥ 1) && (1 : Nat) != 2) = true
          then VlogManager.setInsert [1] 1 else [1]) 1 2 0 = _
      rw [hs]
      rfl
    rw [List.replicate_succ, VlogManager.calls]
    show (match some (VlogManager.AddDropCount
        ⟨[(1, ⟨none, c⟩), (2, ⟨none, 0⟩)], [1], 1, 2, 0⟩ 1) with
      | none => none
      | some m1 => VlogManager.calls m1 (List.replicate j (.AddDropCount 1))) = _
    rw [hstep]
    dsimp only
    rw [ih ((c + 1) % 2 ^ 32) (Nat.mod_lt _ (by decide))]
    have : ((c + 1) % 2 ^ 32 + j) % 2 ^ 32 = (c + (j + 1)) % 2 ^ 32 := by
      rw [Nat.add_mod, Nat.mod_mod, ← Nat.add_mod]
      congr 1
      omega
    rw [this]

theorem VlogManager.Counted_call (m m1 : VlogManager) (k : Nat) (c : VlogManager.Call)
    (h : m.Counted k) (hk : k + 1 < 2 ^ 32) (hc : m.countsCall c = true)
    (hm : m.call c = some m1) :
    m1.Counted (k + 1) ∧ m1.clean_threshold_ = m.clean_threshold_ := by
  obtain ⟨hnd, hle, hset, hnow⟩ := h
  cases c with
  | AddVlog n r =>
    have hm1 : m.AddVlog n r = some m1 := hm
    unfold VlogManager.AddVlog at hm1
    dsimp only at hm1
    cases hf : m.find n with
    | some i =>
      rw [hf] at hm1
      exact Option.noConfusion hm1
    | none =>
      rw [hf] at hm1
      have he := Option.some.inj hm1
      subst he
      have hfind : ∀ x, VlogManager.find
          { m with manager_ := m.manager_ ++ [(n, ⟨r, 0⟩)], now_vlog_ := n } x
          = match m.find x with
            | some i => some i
            | none => if x = n then some ⟨r, 0⟩ else none :=
        fun x => lookup_append_single m.manager_ n x ⟨r, 0⟩
      refine ⟨⟨?_, ?_, ?_, ?_⟩, rfl⟩
      · show ((m.manager_ ++ [(n, (⟨r, 0⟩ : VlogInfo))]).map Prod.fst).Nodup
        rw [List.map_append, List.nodup_append]
        refine ⟨hnd, List.nodup_singleton _, ?_⟩
        intro a ha hb
        rw [List.map_cons, List.map_nil, List.mem_singleton] at hb
        obtain ⟨e, he, hea⟩ := List.mem_map.mp ha
        obtain ⟨e1, e2⟩ := e
        have hl := lookup_of_mem _ _ _ hnd he
        have : e1 = n := hea.trans hb
        rw [this] at hl
        have hf1 : m.manager_.lookup n = none := hf
        rw [hf1] at hl
        exact Option.noConfusion hl
      · intro x info hx
        rw [hfind] at hx
        cases hx0 : m.find x with
        | some i =>
          rw [hx0] at hx
          rw [← Option.some.inj hx]
          exact Nat.le_succ_of_le (hle x i hx0)
        | none =>
          rw [hx0] at hx
          dsimp only at hx
          by_cases hxn : x = n
          · rw [if_pos hxn] at hx
            rw [← Option.some.inj hx]
            exact Nat.zero_le _
          · rw [if_neg hxn] at hx
            exact Option.noConfusion hx
      · intro x hx
        obtain ⟨info, hi, ht⟩ := hset x hx
        refine ⟨info, ?_, ht⟩
        rw [hfind, hi]
      · intro hn
        obtain ⟨info, hi, _⟩ := hset n hn
        rw [hf] at hi
        exact Option.noConfusion hi
  | SetNowVlog n =>
    have he : m.SetNowVlog n = m1 := Option.some.inj hm
    subst he
    refine ⟨⟨hnd, fun x info hx => Nat.le_succ_of_le (hle x info hx), hset, ?_⟩, rfl⟩
    have : m.cleaning_vlog_set_.contains n = false := by
      simpa [VlogManager.countsCall] using hc
    intro hn
    have h2 : m.cleaning_vlog_set_.contains n = true := by simpa using hn
    rw [this] at h2
    exact Bool.noConfusion h2
  | AddDropCount n =>
    have he : m.AddDropCount n = m1 := Option.some.inj hm
    subst he
    cases hf : m.find n with
    | none =>
      have : m.AddDropCount n = m := by
        unfold VlogManager.AddDropCount
        rw [hf]
      rw [this]
      exact ⟨⟨hnd, fun x info hx => Nat.le_succ_of_le (hle x info hx), hset, hnow⟩, rfl⟩
    | some info =>
      rw [VlogManager.AddDropCount_eq m n info hf]
      have hmod : ∀ i : VlogInfo, i.count_ ≤ k → (i.count_ + 1) % 2 ^ 32 = i.count_ + 1 :=
        fun i hi => Nat.mod_eq_of_lt (Nat.lt_of_le_of_lt (Nat.succ_le_succ hi) hk)
      have hfind : ∀ (s : List Nat) (x : Nat), VlogManager.find
          { m with manager_ := VlogManager.updateEntry m.manager_ n
                     (fun i => { i with count_ := (i.count_ + 1) % 2 ^ 32 }),
                   cleaning_vlog_set_ := s } x
          = if x = n then (m.find x).map (fun i => { i with count_ := (i.count_ + 1) % 2 ^ 32 })
            else m.find x :=
        fun _ x => lookup_updateEntry m.manager_ n x
          (fun i => { i with count_ := (i.count_ + 1) % 2 ^ 32 })
      refine ⟨⟨?_, ?_, ?_, ?_⟩, rfl⟩
      · show ((VlogManager.updateEntry m.manager_ n
            (fun i => { i with count_ := (i.count_ + 1) % 2 ^ 32 })).map Prod.fst).Nodup
        rw [VlogManager.updateEntry_keys]
        exact hnd
      · intro x i hx
        rw [hfind] at hx
        by_cases hxn : x = n
        · rw [if_pos hxn, hxn, hf] at hx
          rw [← Option.some.inj hx]
          show (info.count_ + 1) % 2 ^ 32 ≤ k + 1
          rw [hmod info (hle n info hf)]
          exact Nat.succ_le_succ (hle n info hf)
        · rw [if_neg hxn] at hx
          exact Nat.le_succ_of_le (hle x i hx)
      · intro x hx
        have hold : x ∈ m.cleaning_vlog_set_ →
            ∃ i, VlogManager.find
              { m with manager_ := VlogManager.updateEntry m.manager_ n
                         (fun i => { i with count_ := (i.count_ + 1) % 2 ^ 32 }),
                       cleaning_vlog_set_ :=
                         if (decide ((info.count_ + 1) % 2 ^ 32 ≥ m.clean_threshold_)
                              && n != m.now_vlog_) = true
                         then VlogManager.setInsert m.cleaning_vlog_set_ n
                         else m.cleaning_vlog_set_ } x = some i ∧
              m.clean_threshold_ ≤ i.count_ := by
          intro hx0
          obtain ⟨i, hi, ht⟩ := hset x hx0
          rw [hfind]
          by_cases hxn : x = n
          · rw [if_pos hxn, hi]
            refine ⟨_, rfl, ?_⟩
            show m.clean_threshold_ ≤ (i.count_ + 1) % 2 ^ 32
            rw [hmod i (hle x i hi)]
            exact Nat.le_succ_of_le ht
          · rw [if_neg hxn]
            exact ⟨i, hi, ht⟩
        by_cases hcond : (decide ((info.count_ + 1) % 2 ^ 32 ≥ m.clean_threshold_)
            && n != m.now_vlog_) = true
        · have hx1 : x ∈ VlogManager.setInsert m.cleaning_vlog_set_ n := by
            have hx2 := hx
            dsimp only at hx2
            rw [if_pos hcond] at hx2
            exact hx2
          rcases (mem_setInsert _ _ _).mp hx1 with hx0 | hxn
          · exact hold hx0
          · rw [hfind, if_pos hxn, hxn, hf]
            refine ⟨_, rfl, ?_⟩
            have := hcond
            simp only [Bool.and_eq_true, decide_eq_true_eq] at this
            exact this.1
        · have hx1 : x ∈ m.cleaning_vlog_set_ := by
            have hx2 := hx
            dsimp only at hx2
            rw [if_neg hcond] at hx2
            exact hx2
          exact hold hx1
      · show m.now_vlog_ ∉ (if (decide ((info.count_ + 1) % 2 ^ 32 ≥ m.clean_threshold_)
            && n != m.now_vlog_) = true
          then VlogManager.setInsert m.cleaning_vlog_set_ n else m.cleaning_vlog_set_)
        by_cases hcond : (decide ((info.count_ + 1) % 2 ^ 32 ≥ m.clean_threshold_)
            && n != m.now_vlog_) = true
        · rw [if_pos hcond, mem_setInsert]
          have := hcond
          simp only [Bool.and_eq_true, decide_eq_true_eq, bne_iff_ne, ne_eq] at this
          rintro (h1 | h1)
          · exact hnow h1
          · exact this.2 h1.symm
        · rw [if_neg hcond]
          exact hnow
  | Deserialize val => exact Bool.noConfusion hc
  | Recover n tail => exact Bool.noConfusion hc
  | GetVlogToClean => exact Bool.noConfusion hc
  | RemoveCleaningVlog => exact Bool.noConfusion hc
  | RemoveCleaningVlogOf n => exact Bool.noConfusion hc

theorem VlogManager.Counted_calls (cs : List VlogManager.Call) (m m1 : VlogManager) (k : Nat)
    (h : m.Counted k) (hk : k + cs.length < 2 ^ 32) (hc : m.allCountsCalls cs = true)
    (hm : m.calls cs = some m1) :
    m1.Counted (k + cs.length) ∧ m1.clean_threshold_ = m.clean_threshold_ := by
  induction cs generalizing m k with
  | nil =>
    have he : m = m1 := Option.some.inj hm
    subst he
    exact ⟨h, rfl⟩
  | cons c cs ih =>
    rw [VlogManager.calls] at hm
    rw [VlogManager.allCountsCalls, Bool.and_eq_true] at hc
    rw [List.length_cons] at hk ⊢
    cases hcall : m.call c with
    | none =>
      rw [hcall] at hm
      exact Option.noConfusion hm
    | some m2 =>
      rw [hcall] at hm
      have hc2 := hc.2
      rw [hcall] at hc2
      obtain ⟨s1, s2⟩ := VlogManager.Counted_call m m2 k c h (by omega) hc.1 hcall
      obtain ⟨t1, t2⟩ := ih m2 (k + 1) s1 (by omega) hc2 hm
      refine ⟨?_, t2.trans s2⟩
      have : k + (cs.length + 1) = k + 1 + cs.length := by omega
      rw [this]
      exact t1

theorem VlogManager.AllListed_call (m m1 : VlogManager) (c : VlogManager.Call)
    (h : m.AllListed) (ht : 0 < m.clean_threshold_) (hc : m.countsCall c = true)
    (ho : m.countsOld c = true) (hm : m.call c = some m1) :
    m1.AllListed := by
  cases c with
  | AddVlog n r =>
    have hm1 : m.AddVlog n r = some m1 := hm
    unfold VlogManager.AddVlog at hm1
    dsimp only at hm1
    cases hf : m.find n with
    | some i =>
      rw [hf] at hm1
      exact Option.noConfusion hm1
    | none =>
      rw [hf] at hm1
      have he := Option.some.inj hm1
      subst he
      intro x info hx hcount
      have hfind : VlogManager.find
          { m with manager_ := m.manager_ ++ [(n, ⟨r, 0⟩)], now_vlog_ := n } x
          = match m.find x with
            | some i => some i
            | none => if x = n then some ⟨r, 0⟩ else none :=
        lookup_append_single m.manager_ n x ⟨r, 0⟩
      rw [hfind] at hx
      cases hx0 : m.find x with
      | some i =>
        rw [hx0] at hx
        rw [← Option.some.inj hx] at hcount
        exact h x i hx0 hcount
      | none =>
        rw [hx0] at hx
        dsimp only at hx
        by_cases hxn : x = n
        · rw [if_pos hxn] at hx
          rw [← Option.some.inj hx] at hcount
          exact absurd (Nat.lt_of_lt_of_le ht hcount) (Nat.lt_irrefl 0)
        · rw [if_neg hxn] at hx
          exact Option.noConfusion hx
  | SetNowVlog n =>
    have he : m.SetNowVlog n = m1 := Option.some.inj hm
    subst he
    exact h
  | AddDropCount n =>
    have he : m.AddDropCount n = m1 := Option.some.inj hm
    subst he
    cases hf : m.find n with
    | none =>
      have : m.AddDropCount n = m := by
        unfold VlogManager.AddDropCount
        rw [hf]
      rw [this]
      exact h
    | some info =>
      rw [VlogManager.AddDropCount_eq m n info hf]
      have hnn : n ≠ m.now_vlog_ := by simpa [VlogManager.countsOld] using ho
      intro x i hx hcount
      have hfind : VlogManager.find
          { m with manager_ := VlogManager.updateEntry m.manager_ n
                     (fun i => { i with count_ := (i.count_ + 1) % 2 ^ 32 }),
                   cleaning_vlog_set_ :=
                     if (decide ((info.count_ + 1) % 2 ^ 32 ≥ m.clean_threshold_)
                          && n != m.now_vlog_) = true
                     then VlogManager.setInsert m.cleaning_vlog_set_ n
                     else m.cleaning_vlog_set_ } x
          = if x = n then (m.find x).map (fun i => { i with count_ := (i.count_ + 1) % 2 ^ 32 })
            else m.find x :=
        lookup_updateEntry m.manager_ n x
          (fun i => { i with count_ := (i.count_ + 1) % 2 ^ 32 })
      rw [hfind] at hx
      show x ∈ (if (decide ((info.count_ + 1) % 2 ^ 32 ≥ m.clean_threshold_)
            && n != m.now_vlog_) = true
          then VlogManager.setInsert m.cleaning_vlog_set_ n else m.cleaning_vlog_set_)
      have hcount1 : m.clean_threshold_ ≤ i.count_ := hcount
      by_cases hxn : x = n
      · rw [if_pos hxn, hxn, hf] at hx
        have hi : i.count_ = (info.count_ + 1) % 2 ^ 32 := by
          rw [← Option.some.inj hx]
        have hcond : (decide ((info.count_ + 1) % 2 ^ 32 ≥ m.clean_threshold_)
            && n != m.now_vlog_) = true := by
          simp only [Bool.and_eq_true, decide_eq_true_eq, bne_iff_ne, ne_eq]
          exact ⟨by rw [← hi]; exact hcount1, hnn⟩
        rw [if_pos hcond, mem_setInsert]
        exact Or.inr hxn
      · rw [if_neg hxn] at hx
        have hold := h x i hx hcount1
        split
        · exact (mem_setInsert _ _ _).mpr (Or.inl hold)
        · exact hold
  | Deserialize val => exact Bool.noConfusion hc
  | Recover n tail => exact Bool.noConfusion hc
  | GetVlogToClean => exact Bool.noConfusion hc
  | RemoveCleaningVlog => exact Bool.noConfusion hc
  | RemoveCleaningVlogOf n => exact Bool.noConfusion hc

theorem VlogManager.threshold_call (m m1 : VlogManager) (c : VlogManager.Call)
    (hc : m.countsCall c = true) (hm : m.call c = some m1) :
    m1.clean_threshold_ = m.clean_threshold_ := by
  cases c with
  | AddVlog n r =>
    have hm1 : m.AddVlog n r = some m1 := hm
    unfold VlogManager.AddVlog at hm1
    dsimp only at hm1
    cases hf : m.find n with
    | some i =>
      rw [hf] at hm1
      exact Option.noConfusion hm1
    | none =>
      rw [hf] at hm1
      rw [← Option.some.inj hm1]
  | SetNowVlog n =>
    rw [← (Option.some.inj hm : m.SetNowVlog n = m1)]
    rfl
  | AddDropCount n =>
    rw [← (Option.some.inj hm : m.AddDropCount n = m1)]
    cases hf : m.find n with
    | none =>
      unfold VlogManager.AddDropCount
      rw [hf]
    | some info => rw [VlogManager.AddDropCount_eq m n info hf]
  | Deserialize val => exact Bool.noConfusion hc
  | Recover n tail => exact Bool.noConfusion hc
  | GetVlogToClean => exact Bool.noConfusion hc
  | RemoveCleaningVlog => exact Bool.noConfusion hc
  | RemoveCleaningVlogOf n => exact Bool.noConfusion hc

theorem VlogManager.AllListed_calls (cs : List VlogManager.Call) (m m1 : VlogManager)
    (h : m.AllListed) (ht : 0 < m.clean_threshold_) (hc : m.allCountsCalls cs = true)
    (ho : m.allCountOld cs = true) (hm : m.calls cs = some m1) :
    m1.AllListed := by
  induction cs generalizing m with
  | nil =>
    have he : m = m1 := Option.some.inj hm
    subst he
    exact h
  | cons c cs ih =>
    rw [VlogManager.calls] at hm
    rw [VlogManager.allCountsCalls, Bool.and_eq_true] at hc
    rw [VlogManager.allCountOld, Bool.and_eq_true] at ho
    cases hcall : m.call c with
    | none =>
      rw [hcall] at hm
      exact Option.noConfusion hm
    | some m2 =>
      rw [hcall] at hm
      have hc2 := hc.2
      have ho2 := ho.2
      rw [hcall] at hc2 ho2
      exact ih m2 (VlogManager.AllListed_call m m2 c h ht hc.1 ho.1 hcall)
        (by rw [VlogManager.threshold_call m m2 c hc.1 hcall]; exact ht) hc2 ho2 hm

theorem VlogManager.Counted_new (t : Nat) : (VlogManager.new t).Counted 0 :=
  ⟨List.nodup_nil, fun _ _ h => Option.noConfusion h,
   fun _ h => absurd h (List.not_mem_nil _), List.not_mem_nil _⟩

theorem VlogManager.AllListed_new (t : Nat) : (VlogManager.new t).AllListed :=
  fun _ _ h => Option.noConfusion h

/-- C21 fails as stated, with the threshold 1. After `AddVlog(1)`, `AddDropCount(1)`,
`AddVlog(2)` the vlog 1 has reached the threshold while it was the active vlog: it is
in `GetVlogsToClean(1)` but not in the candidate set, and `HasVlogToClean` is false.
After `AddVlog(1)`, `AddVlog(2)`, `AddDropCount(1)`, `SetNowVlog(1)` the candidate 1 is
the active vlog: `HasVlogToClean` is true and `GetVlogsToClean(1)` is empty. After
`AddVlog(1)`, `AddVlog(2)` and `2 ^ 32` calls of `AddDropCount(1)` the counter of the
candidate 1 has wrapped to 0: `HasVlogToClean` is true and `GetVlogsToClean(1)` is
empty. -/
theorem C21_counterexample :
    (∃ m, (VlogManager.new 1).calls [.AddVlog 1 none, .AddDropCount 1, .AddVlog 2 none]
        = some m ∧
      m.cleaning_vlog_set_ = [] ∧ m.HasVlogToClean = false ∧ m.GetVlogsToClean 1 = [1]) ∧
    (∃ m, (VlogManager.new 1).calls
        [.AddVlog 1 none, .AddVlog 2 none, .AddDropCount 1, .SetNowVlog 1] = some m ∧
      m.cleaning_vlog_set_ = [1] ∧ m.HasVlogToClean = true ∧ m.GetVlogsToClean 1 = []) ∧
    (∃ m, (VlogManager.new 1).calls
        ([.AddVlog 1 none, .AddVlog 2 none, .AddDropCount 1]
          ++ List.replicate 4294967295 (.AddDropCount 1)) = some m ∧
      m.cleaning_vlog_set_ = [1] ∧ (m.find 1).map VlogInfo.count_ = some 0 ∧
      m.HasVlogToClean = true ∧ m.GetVlogsToClean 1 = []) := by
  refine ⟨⟨_, rfl, by decide, by decide, by decide⟩, ⟨_, rfl, by decide, by decide, by decide⟩,
    ⟨⟨[(1, ⟨none, 0⟩), (2, ⟨none, 0⟩)], [1], 1, 2, 0⟩, ?_, by decide, by decide, by decide,
      by decide⟩⟩
  rw [VlogManager.calls_append]
  have h3 : (VlogManager.new 1).calls [.AddVlog 1 none, .AddVlog 2 none, .AddDropCount 1]
      = some ⟨[(1, ⟨none, 1⟩), (2, ⟨none, 0⟩)], [1], 1, 2, 0⟩ := by decide
  have hw : (1 + 4294967295) % 2 ^ 32 = 0 := by norm_num
  rw [h3, Option.some_bind, VlogManager.AddDropCount_repeat 4294967295 1 (by decide), hw]

/-- C21, as the code behaves. In a manager state reached from a new manager by fewer
than `2 ^ 32` calls of `AddVlog`, `SetNowVlog` and `AddDropCount`, where `SetNowVlog`
is never called for a candidate: every candidate is a registered vlog whose counter is
at least the threshold and which is not the active vlog, that is, the candidate set is
contained in `GetVlogsToClean(clean_threshold)`; `HasVlogToClean()` is true exactly if
the candidate set is not empty, and then `GetVlogsToClean(clean_threshold)` is not
empty. If moreover the threshold is positive and `AddDropCount` is never called for
the active vlog, the candidate set has the same members as
`GetVlogsToClean(clean_threshold)`, and `HasVlogToClean()` is true exactly if that set
is not empty. -/
theorem C21_candidates_reached_threshold (t : Nat) (cs : List VlogManager.Call)
    (m : VlogManager)
    (hcalls : (VlogManager.new t).calls cs = some m)
    (hkind : (VlogManager.new t).allCountsCalls cs = true)
    (hlen : cs.length < 2 ^ 32) :
    m.clean_threshold_ = t ∧
    (∀ x, x ∈ m.cleaning_vlog_set_ →
      ∃ info, m.find x = some info ∧ t ≤ info.count_ ∧ x ≠ m.now_vlog_) ∧
    (∀ x, x ∈ m.cleaning_vlog_set_ → x ∈ m.GetVlogsToClean t) ∧
    (m.HasVlogToClean = true ↔ m.cleaning_vlog_set_ ≠ []) ∧
    (m.HasVlogToClean = true → m.GetVlogsToClean t ≠ []) ∧
    (0 < t → (VlogManager.new t).allCountOld cs = true →
      (∀ x, x ∈ m.cleaning_vlog_set_ ↔ x ∈ m.GetVlogsToClean t) ∧
      (m.HasVlogToClean = true ↔ m.GetVlogsToClean t ≠ [])) := by
  obtain ⟨⟨hnd, _, hset, hnow⟩, hthr⟩ := VlogManager.Counted_calls cs (VlogManager.new t) m 0
    (VlogManager.Counted_new t) (by rw [Nat.zero_add]; exact hlen) hkind hcalls
  have hthr1 : m.clean_threshold_ = t := hthr
  have hchar : ∀ x, x ∈ m.cleaning_vlog_set_ →
      ∃ info, m.find x = some info ∧ t ≤ info.count_ ∧ x ≠ m.now_vlog_ := by
    intro x hx
    obtain ⟨info, hi, hc⟩ := hset x hx
    refine ⟨info, hi, by rw [← hthr1]; exact hc, ?_⟩
    intro hxn
    rw [hxn] at hx
    exact hnow hx
  have hsub : ∀ x, x ∈ m.cleaning_vlog_set_ → x ∈ m.GetVlogsToClean t :=
    fun x hx => (VlogManager.mem_GetVlogsToClean m t x hnd).mpr (hchar x hx)
  have hhas : m.HasVlogToClean = true ↔ m.cleaning_vlog_set_ ≠ [] := by
    unfold VlogManager.HasVlogToClean
    cases m.cleaning_vlog_set_ with
    | nil => simp
    | cons a s => simp
  have hne : ∀ s : List Nat, s ≠ [] → ∃ x, x ∈ s := by
    intro s hs
    cases s with
    | nil => exact absurd rfl hs
    | cons a s => exact ⟨a, List.mem_cons_self _ _⟩
  refine ⟨hthr1, hchar, hsub, hhas, ?_, ?_⟩
  · intro hh
    obtain ⟨x, hx⟩ := hne _ (hhas.mp hh)
    exact List.ne_nil_of_mem (hsub x hx)
  · intro ht hold
    have hall : m.AllListed := VlogManager.AllListed_calls cs (VlogManager.new t) m
      (VlogManager.AllListed_new t) ht hkind hold hcalls
    have heq : ∀ x, x ∈ m.cleaning_vlog_set_ ↔ x ∈ m.GetVlogsToClean t := by
      intro x
      refine ⟨hsub x, fun hx => ?_⟩
      obtain ⟨info, hi, hc, _⟩ := (VlogManager.mem_GetVlogsToClean m t x hnd).mp hx
      exact hall x info hi (by rw [hthr1]; exact hc)
    refine ⟨heq, hhas.trans ⟨?_, ?_⟩⟩
    · intro hs
      obtain ⟨x, hx⟩ := hne _ hs
      exact List.ne_nil_of_mem ((heq x).mp hx)
    · intro hs
      obtain ⟨x, hx⟩ := hne _ hs
      exact List.ne_nil_of_mem ((heq x).mpr hx)

theorem C21_candidates_reached_threshold_witness :
    (VlogManager.new 1).calls
        [.AddVlog 1 none, .AddVlog 2 none, .AddDropCount 1, .AddDropCount 2, .SetNowVlog 3]
      = some ⟨[(1, ⟨none, 1⟩), (2, ⟨none, 1⟩)], [1], 1, 3, 0⟩ ∧
    (∀ x, x ∈ [1] → x ∈ (VlogManager.mk [(1, ⟨none, 1⟩), (2, ⟨none, 1⟩)] [1] 1 3
      0).GetVlogsToClean 1) ∧
    (VlogManager.mk [(1, ⟨none, 1⟩), (2, ⟨none, 1⟩)] [1] 1 3 0).GetVlogsToClean 1 = [1, 2] ∧
    (VlogManager.new 1).calls [.AddVlog 1 none, .AddVlog 2 none, .AddDropCount 1]
      = some ⟨[(1, ⟨none, 1⟩), (2, ⟨none, 0⟩)], [1], 1, 2, 0⟩ ∧
    (∀ x, x ∈ [1] ↔ x ∈ (VlogManager.mk [(1, ⟨none, 1⟩), (2, ⟨none, 0⟩)] [1] 1 2
      0).GetVlogsToClean 1) :=
  ⟨by decide,
   (C21_candidates_reached_threshold 1
      [.AddVlog 1 none, .AddVlog 2 none, .AddDropCount 1, .AddDropCount 2, .SetNowVlog 3]
      ⟨[(1, ⟨none, 1⟩), (2, ⟨none, 1⟩)], [1], 1, 3, 0⟩ (by decide) (by decide)
      (by decide)).2.2.1,
   by decide, by decide,
   ((C21_candidates_reached_threshold 1 [.AddVlog 1 none, .AddVlog 2 none, .AddDropCount 1]
      ⟨[(1, ⟨none, 1⟩), (2, ⟨none, 0⟩)], [1], 1, 2, 0⟩ (by decide) (by decide)
      (by decide)).2.2.2.2.2 (by decide) (by decide)).1⟩

/-! ## The serialized counters -/

theorem and_ffff (n : Nat) : n &&& 0xffff = n % 2 ^ 16 := by
  have := Nat.and_pow_two_sub_one_eq_mod n 16
  simpa using this

theorem VlogManager.token_value (c k : Nat) (hk : k < 2 ^ 16) :
    ((c <<< 16) % 2 ^ 32) ||| k = k + (c % 2 ^ 16) * 2 ^ 16 := by
  have h1 : (c <<< 16) % 2 ^ 32 = (c % 2 ^ 16) <<< 16 := by
    rw [Nat.shiftLeft_eq, Nat.shiftLeft_eq]
    omega
  rw [h1, Nat.or_comm, or_shiftLeft_eq_add _ _ 16 hk]

theorem VlogManager.token_fields (c k : Nat) (hk : k < 2 ^ 16) (rest : List Byte) :
    DecodeFixed64 (EncodeFixed64 (((c <<< 16) % 2 ^ 32) ||| k) ++ rest) &&& 0xffff = k ∧
    DecodeFixed64 (EncodeFixed64 (((c <<< 16) % 2 ^ 32) ||| k) ++ rest) >>> 16
      = c % 2 ^ 16 := by
  have hd : DecodeFixed64 (EncodeFixed64 (((c <<< 16) % 2 ^ 32) ||| k) ++ rest)
      = k + (c % 2 ^ 16) * 2 ^ 16 := by
    rw [DecodeFixed64_eq _ (by rw [List.length_append, EncodeFixed64_length]; omega),
      List.take_left' (EncodeFixed64_length _), littleEndian_EncodeFixed64,
      VlogManager.token_value c k hk]
    have : c % 2 ^ 16 < 2 ^ 16 := Nat.mod_lt _ (by decide)
    omega
  rw [hd, and_ffff, Nat.shiftRight_eq_div_pow]
  have : c % 2 ^ 16 < 2 ^ 16 := Nat.mod_lt _ (by decide)
  constructor <;> omega

theorem VlogManager.deserializeLoop_token (fuel c k : Nat) (hk : k < 2 ^ 16)
    (rest : List Byte) (mc : VlogManager) (i0 : VlogInfo) (hf : mc.find k = some i0) :
    ∃ s, VlogManager.deserializeLoop (fuel + 1)
        (EncodeFixed64 (((c <<< 16) % 2 ^ 32) ||| k) ++ rest) mc
      = VlogManager.deserializeLoop fuel rest
          { mc with manager_ := VlogManager.updateEntry mc.manager_ k
                      (fun i => { i with count_ := (c % 2 ^ 16) % 2 ^ 32 }),
                    cleaning_vlog_set_ := s } := by
  obtain ⟨h1, h2⟩ := VlogManager.token_fields c k hk rest
  rw [VlogManager.deserializeLoop]
  have hlen : (EncodeFixed64 (((c <<< 16) % 2 ^ 32) ||| k) ++ rest).length = 8 + rest.length := by
    rw [List.length_append, EncodeFixed64_length]
  have hemp : (EncodeFixed64 (((c <<< 16) % 2 ^ 32) ||| k) ++ rest).isEmpty = false := rfl
  have hdrop : (EncodeFixed64 (((c <<< 16) % 2 ^ 32) ||| k) ++ rest).drop 8 = rest :=
    List.drop_left' (EncodeFixed64_length _)
  rw [if_neg (by rw [hemp]; exact Bool.false_ne_true), if_neg (by rw [hlen]; omega)]
  dsimp only
  rw [h1, h2, hf, hdrop]
  dsimp only
  split
  · exact ⟨_, rfl⟩
  · exact ⟨_, rfl⟩

theorem VlogManager.deserializeLoop_tokens (es : List (Nat × VlogInfo))
    (hnd : (es.map Prod.fst).Nodup) (hk : ∀ e ∈ es, e.1 < 2 ^ 16)
    (mc : VlogManager) (fuel : Nat) (hfuel : es.length < fuel)
    (hreg : ∀ e ∈ es, mc.find e.1 ≠ none) :
    ∃ m1, VlogManager.deserializeLoop fuel
        (es.map fun e => EncodeFixed64 (((e.2.count_ <<< 16) % 2 ^ 32) ||| e.1)).flatten mc
        = some m1 ∧
      (∀ e ∈ es, (m1.find e.1).map VlogInfo.count_ = some (e.2.count_ % 2 ^ 16)) ∧
      (∀ x, (m1.find x).map VlogInfo.vlog_ = (mc.find x).map VlogInfo.vlog_) ∧
      (∀ x, x ∉ es.map Prod.fst → m1.find x = mc.find x) := by
  induction es generalizing mc fuel with
  | nil =>
    obtain ⟨f, rfl⟩ : ∃ f, fuel = f + 1 := ⟨fuel - 1, by have := hfuel; omega⟩
    refine ⟨mc, ?_, fun e he => absurd he (List.not_mem_nil _), fun _ => rfl, fun _ _ => rfl⟩
    rw [List.map_nil, List.flatten_nil, VlogManager.deserializeLoop]
    rfl
  | cons e es ih =>
    obtain ⟨k, info⟩ := e
    obtain ⟨f, rfl⟩ : ∃ f, fuel = f + 1 := ⟨fuel - 1, by have := hfuel; omega⟩
    rw [List.map_cons, List.nodup_cons] at hnd
    have hk0 : k < 2 ^ 16 := hk (k, info) (List.mem_cons_self _ _)
    cases hf : mc.find k with
    | none => exact absurd hf (hreg (k, info) (List.mem_cons_self _ _))
    | some i0 =>
      obtain ⟨s, hstep⟩ := VlogManager.deserializeLoop_token f info.count_ k hk0
        (es.map fun e => EncodeFixed64 (((e.2.count_ <<< 16) % 2 ^ 32) ||| e.1)).flatten mc i0 hf
      have hfind : ∀ x, VlogManager.find
          { mc with manager_ := VlogManager.updateEntry mc.manager_ k
                      (fun i => { i with count_ := (info.count_ % 2 ^ 16) % 2 ^ 32 }),
                    cleaning_vlog_set_ := s } x
          = if x = k then (mc.find x).map
              (fun i => { i with count_ := (info.count_ % 2 ^ 16) % 2 ^ 32 })
            else mc.find x :=
        fun x => lookup_updateEntry mc.manager_ k x
          (fun i => { i with count_ := (info.count_ % 2 ^ 16) % 2 ^ 32 })
      obtain ⟨m1, r1, r2, r3, r4⟩ := ih hnd.2
        (fun e he => hk e (List.mem_cons_of_mem _ he))
        { mc with manager_ := VlogManager.updateEntry mc.manager_ k
                    (fun i => { i with count_ := (info.count_ % 2 ^ 16) % 2 ^ 32 }),
                  cleaning_vlog_set_ := s } f
        (by rw [List.length_cons] at hfuel; omega)
        (by
          intro e he
          rw [hfind]
          have hne := hreg e (List.mem_cons_of_mem _ he)
          split
          · cases hm : mc.find e.1 with
            | none => exact absurd hm hne
            | some i => exact fun h => Option.noConfusion h
          · exact hne)
      refine ⟨m1, ?_, ?_, ?_, ?_⟩
      · rw [List.map_cons, List.flatten_cons]
        exact hstep.trans r1
      · intro e he
        rcases List.mem_cons.mp he with he | he
        · rw [he]
          show (m1.find k).map VlogInfo.count_ = some (info.count_ % 2 ^ 16)
          rw [r4 k hnd.1, hfind, if_pos rfl, hf]
          show some ((info.count_ % 2 ^ 16) % 2 ^ 32) = _
          rw [Nat.mod_eq_of_lt (Nat.lt_of_lt_of_le (Nat.mod_lt _ (by decide)) (by decide))]
        · exact r2 e he
      · intro x
        rw [r3 x, hfind]
        split
        · cases mc.find x with
          | none => rfl
          | some i => rfl
        · rfl
      · intro x hx
        rw [List.map_cons, List.mem_cons, not_or] at hx
        rw [r4 x hx.2, hfind, if_neg hx.1]

/-- `Serialize` followed by `Deserialize` into a manager that has the same vlogs
registered keeps the low 16 bits of every counter: for a registry with at least one
entry, one entry for a number and numbers below `2 ^ 16`, `Serialize` returns true and
eight bytes for an entry, and `Deserialize` of them sets the counter of every vlog to
its counter modulo `2 ^ 16` and keeps the readers. -/
theorem VlogManager.Deserialize_Serialize (m m0 : VlogManager) (hne : m.manager_ ≠ [])
    (hnd : (m.manager_.map Prod.fst).Nodup) (hk : ∀ e ∈ m.manager_, e.1 < 2 ^ 16)
    (hreg : ∀ e ∈ m.manager_, m0.find e.1 ≠ none) :
    m.Serialize.1 = true ∧ m.Serialize.2.length = 8 * m.manager_.length ∧
    ∃ m1, m0.Deserialize m.Serialize.2 = some m1 ∧
      (∀ x info, m.find x = some info →
        (m1.find x).map VlogInfo.count_ = some (info.count_ % 2 ^ 16)) ∧
      (∀ x, (m1.find x).map VlogInfo.vlog_ = (m0.find x).map VlogInfo.vlog_) ∧
      (∀ x, m.find x = none → m1.find x = m0.find x) := by
  have hlen : ∀ es : List (Nat × VlogInfo),
      (es.map fun e => EncodeFixed64 (((e.2.count_ <<< 16) % 2 ^ 32) ||| e.1)).flatten.length
        = 8 * es.length := by
    intro es
    induction es with
    | nil => rfl
    | cons e es ih =>
      rw [List.map_cons, List.flatten_cons, List.length_append, ih, EncodeFixed64_length,
        List.length_cons]
      omega
  have hval := VlogManager.Serialize_val m
  refine ⟨?_, by rw [hval]; exact hlen _, ?_⟩
  · unfold VlogManager.Serialize
    cases hm : m.manager_ with
    | nil => exact absurd hm hne
    | cons e es => rfl
  · unfold VlogManager.Deserialize
    rw [hval, hlen]
    obtain ⟨m1, r1, r2, r3, r4⟩ := VlogManager.deserializeLoop_tokens m.manager_ hnd hk m0
      (8 * m.manager_.length / 8 + 1) (by omega) hreg
    refine ⟨m1, r1, ?_, r3, ?_⟩
    · intro x info hx
      exact r2 (x, info) (mem_of_lookup _ _ _ hx)
    · intro x hx
      apply r4
      intro hmem
      obtain ⟨e, he, hex⟩ := List.mem_map.mp hmem
      obtain ⟨e1, e2⟩ := e
      have hl := lookup_of_mem _ _ _ hnd he
      have he1 : e1 = x := hex
      rw [he1] at hl
      have hx1 : m.manager_.lookup x = none := hx
      rw [hx1] at hl
      exact Option.noConfusion hl

/-- C24 fails for a counter of `2 ^ 16`: the shift `count_ << 16` is done in 32 bits.
The manager with the vlog 1 and the counter 65536 serializes to the token of the
counter 0, not to the little-endian bytes of `(65536 << 16) | 1`, and `Deserialize` of
that string into a manager with the vlog 1 and the counter 0 leaves the counter at 0.
`Deserialize` of the bytes of `(65536 << 16) | 1` does set the counter to 65536. -/
theorem C24_serialize_drops_high_bits :
    (VlogManager.mk [(1, ⟨none, 65536⟩)] [] 1 1 0).Serialize
      = (true, [1, 0, 0, 0, 0, 0, 0, 0]) ∧
    EncodeFixed64 ((65536 <<< 16) ||| 1) = [1, 0, 0, 0, 1, 0, 0, 0] ∧
    ((VlogManager.mk [(1, ⟨none, 0⟩)] [] 1 1 0).Deserialize
        (VlogManager.mk [(1, ⟨none, 65536⟩)] [] 1 1 0).Serialize.2).map
      (fun m1 => (m1.find 1).map VlogInfo.count_) = some (some 0) ∧
    ((VlogManager.mk [(1, ⟨none, 0⟩)] [] 1 1 0).Deserialize
        (EncodeFixed64 ((65536 <<< 16) ||| 1))).map
      (fun m1 => (m1.find 1).map VlogInfo.count_) = some (some 65536) := by
  decide

end leveldb
